import Mathlib

/-!
# Intermediate-representation builder of `parser.cc`

A shallow embedding of the recursive-descent parser of `src/parser.cc` and of the
data declared in `src/execute.h`.

* The process-wide state of the C++ program (the tokenizer, `varLocations`, `mem`,
  `next_available`, `inputs` and the heap of `InstructionNode`s obtained from `new`)
  is one record, `ParserState`, threaded through every procedure.
* A pointer to an `InstructionNode` is the index of the node in the heap; `NULL` is
  `none`.  `new InstructionNode` appends a node, so the address of a new node is the
  length of the heap before the allocation.
* `exit(1)` is the error `ParseError.fatal`; a procedure that returns normally
  yields `Except.ok` of its result and the state it leaves behind.
* Locations are natural numbers, cell values are integers.
-/

namespace IRParser

/-! ## Data of `execute.h` -/

/-- Arithmetic operator tag of an assignment (`enum ArithmeticOperatorType`). -/
inductive ArithmeticOperatorType
  | OPERATOR_NONE
  | OPERATOR_PLUS
  | OPERATOR_MINUS
  | OPERATOR_MULT
  | OPERATOR_DIV
  deriving DecidableEq, Repr

/-- Relation tag of a conditional jump (`enum ConditionalOperatorType`). -/
inductive ConditionalOperatorType
  | CONDITION_GREATER
  | CONDITION_LESS
  | CONDITION_NOTEQUAL
  deriving DecidableEq, Repr

/-- Kind of an instruction node (`enum InstructionType`). -/
inductive InstructionType
  | NOOP
  | IN
  | OUT
  | ASSIGN
  | CJMP
  | JMP
  deriving DecidableEq, Repr

/-- The record `struct InstructionNode`.  The members of the anonymous union are
flattened into one record: `lhs_loc`, `op1_loc`, `op2_loc`, `op` are those of
`assign_inst`; `var_loc` is that of `input_inst` and of `output_inst`;
`condition_op`, `op1_loc`, `op2_loc`, `target` are those of `cjmp_inst`; `target` is
that of `jmp_inst`.  A field holds `none` when it was never written (and, for the two
pointer fields, when it holds `NULL`). -/
structure InstructionNode where
  type : InstructionType
  lhs_loc : Option Nat := none
  op1_loc : Option Nat := none
  op2_loc : Option Nat := none
  op : Option ArithmeticOperatorType := none
  var_loc : Option Nat := none
  condition_op : Option ConditionalOperatorType := none
  target : Option Nat := none
  next : Option Nat := none
  deriving DecidableEq, Repr

/-- Number of cells of the arena, `int mem[1000]`. -/
def memCapacity : Nat := 1000

/-! ## The lexer interface -/

/-- Modelled from the spec: the token kinds of the lexer (`lexer.h` is not among the
sources).  The names are the ones `parser.cc` uses; `END_OF_FILE` is the kind of the
token delivered once the stream is exhausted. -/
inductive TokenType
  | END_OF_FILE
  | ID
  | NUM
  | COMMA
  | SEMICOLON
  | COLON
  | EQUAL
  | LBRACE
  | RBRACE
  | LPAREN
  | RPAREN
  | PLUS
  | MINUS
  | MULT
  | DIV
  | GREATER
  | LESS
  | NOTEQUAL
  | IF
  | WHILE
  | SWITCH
  | CASE
  | DEFAULT
  | FOR
  | INPUT
  | OUTPUT
  deriving DecidableEq, Repr

/-- Modelled from the spec: a token is a kind tag plus its literal text (`lexer.h` is
not among the sources; the parser reads only `lexeme` and `token_type`). -/
structure Token where
  lexeme : String
  token_type : TokenType
  deriving DecidableEq, Repr

/-- Outcomes other than a normal return. -/
inductive ParseError
  /-- The program printed a diagnostic and called `exit(1)`. -/
  | fatal
  /-- The call `stoi` threw (`std::invalid_argument` or `std::out_of_range`). -/
  | stoiThrow
  /-- A tail walk along `next` edges never reaches a node whose `next` is `NULL`. -/
  | loopForever
  /-- A pointer that is not the address of an allocated node was dereferenced. -/
  | wildPointer
  /-- The recursion budget of the model was used up. -/
  | outOfFuel
  deriving DecidableEq, Repr

/-- All the state the parser reads and writes. -/
structure ParserState where
  /-- The tokens the tokenizer has not delivered yet. -/
  tokens : List Token
  /-- The symbol table `map<string, int> varLocations`, as an association list. -/
  varLocations : List (String × Nat)
  /-- The arena `mem`. -/
  mem : Nat → Int
  /-- The allocation cursor `next_available`. -/
  next_available : Nat
  /-- The input queue `inputs`. -/
  inputs : List Int
  /-- The nodes allocated by `new InstructionNode`, in allocation order. -/
  heap : List InstructionNode

/-- Result of a procedure: the returned value and the state after the call. -/
abbrev Res (α : Type) := Except ParseError (α × ParserState)

/-- The token delivered at the end of the stream. -/
def eofToken : Token := { lexeme := "", token_type := TokenType.END_OF_FILE }

/-- Modelled from the spec: `tokenizer.GetToken()` consumes and returns the next
token (`next()` of the pull-based token source). -/
def GetToken (s : ParserState) : Token × ParserState :=
  match s.tokens with
  | [] => (eofToken, s)
  | t :: rest => (t, { s with tokens := rest })

/-- Modelled from the spec: `tokenizer.peek(k)` inspects the `k`-th unconsumed token
without consuming it. -/
def peek (k : Nat) (s : ParserState) : Token :=
  s.tokens.getD (k - 1) eofToken

/-! ## Library calls -/

/-- Value of a run of decimal digits, most significant first. -/
def digitsVal : List Char → Nat → Nat
  | [], acc => acc
  | c :: cs, acc => digitsVal cs (acc * 10 + (c.toNat - 48))

/-- The call `stoi(lexeme)` on an unsigned lexeme: the value of the leading run of
decimal digits; it throws when there is no leading digit or the value does not fit
an `int`. -/
def stoi (lex : String) : Option Int :=
  let ds := lex.data.takeWhile Char.isDigit
  if ds = [] then none
  else if digitsVal ds 0 > 2147483647 then none
  else some (Int.ofNat (digitsVal ds 0))

/-- The call `varLocations.find(name)`: the location recorded for `name`, if any. -/
def mapFind (m : List (String × Nat)) (name : String) : Option Nat :=
  match m with
  | [] => none
  | (k, v) :: rest => if k = name then some v else mapFind rest name

/-- The assignment `varLocations[name] = loc`: an existing entry for `name` is
overwritten, otherwise a new entry is inserted. -/
def mapAssign (m : List (String × Nat)) (name : String) (loc : Nat) :
    List (String × Nat) :=
  match m with
  | [] => [(name, loc)]
  | (k, v) :: rest =>
    if k = name then (k, loc) :: rest else (k, v) :: mapAssign rest name loc

/-- The store `mem[i] = v`.  The source performs it without comparing `i` with the
capacity of the array. -/
def memWrite (m : Nat → Int) (i : Nat) (v : Int) : Nat → Int :=
  fun j => if j = i then v else m j

/-! ## Heap of instruction nodes -/

/-- The expression `new InstructionNode` followed by the initialising stores that
give the node the contents `n`: the node is appended and its address returned. -/
def newNode (n : InstructionNode) (s : ParserState) : Nat × ParserState :=
  (s.heap.length, { s with heap := s.heap ++ [n] })

/-- A store through the pointer `p`: the node at `p` is replaced by `f` of it. -/
def setNode (p : Nat) (f : InstructionNode → InstructionNode) (s : ParserState) :
    ParserState :=
  { s with heap := List.modify f p s.heap }

/-- The store `p->next = v`. -/
def setNext (p : Nat) (v : Option Nat) (s : ParserState) : ParserState :=
  setNode p (fun n => { n with next := v }) s

/-- The store `p->cjmp_inst.target = v` (or `p->jmp_inst.target = v`). -/
def setTarget (p : Nat) (v : Option Nat) (s : ParserState) : ParserState :=
  setNode p (fun n => { n with target := v }) s

/-- The loop `while (current->next != NULL) current = current->next;` started at
`cur`: the address of the first node on the `next` chain whose `next` is `NULL`.
A chain over distinct allocated nodes has at most `heap.length` nodes, so with
`fuel = heap.length` the budget runs out only on a chain that revisits a node, on
which the C++ loop does not terminate. -/
def walkToTail : Nat → List InstructionNode → Nat → Except ParseError Nat
  | fuel, heap, cur =>
    match heap[cur]? with
    | none => .error .wildPointer
    | some n =>
      match n.next with
      | none => .ok cur
      | some nx =>
        match fuel with
        | 0 => .error .loopForever
        | fuel + 1 => walkToTail fuel heap nx

/-- The procedure `linkNodes(start, newNode)`. -/
def linkNodes (start : Option Nat) (newNode : Nat) (s : ParserState) :
    Except ParseError ParserState :=
  match start with
  | none => .ok s
  | some st =>
    match walkToTail s.heap.length s.heap st with
    | .error e => .error e
    | .ok current => .ok (setNext current (some newNode) s)

/-- The procedure `makeNoop()`. -/
def makeNoop (s : ParserState) : Nat × ParserState :=
  newNode { type := InstructionType.NOOP, next := none } s

/-! ## Leaf procedures of the grammar walker -/

/-- The procedure `verifyToken(expected)`. -/
def verifyToken (expected : TokenType) (s : ParserState) : Res Token :=
  let (t, s1) := GetToken s
  if t.token_type ≠ expected then .error .fatal else .ok (t, s1)

/-- The procedure `findVarLocation(name)`. -/
def findVarLocation (name : String) (s : ParserState) : Res Nat :=
  match mapFind s.varLocations name with
  | none => .error .fatal
  | some loc => .ok (loc, s)

/-- The procedure `storeConstant(val)`. -/
def storeConstant (val : Int) (s : ParserState) : Nat × ParserState :=
  let s1 := { s with mem := memWrite s.mem s.next_available val }
  let loc := s1.next_available
  (loc, { s1 with next_available := s1.next_available + 1 })

/-- The procedure `getPrimaryValue()`. -/
def getPrimaryValue (s : ParserState) : Res Nat :=
  let (t, s1) := GetToken s
  if t.token_type = TokenType.ID then findVarLocation t.lexeme s1
  else if t.token_type = TokenType.NUM then
    match stoi t.lexeme with
    | none => .error .stoiThrow
    | some value =>
      let s2 := { s1 with mem := memWrite s1.mem s1.next_available value }
      let loc := s2.next_available
      .ok (loc, { s2 with next_available := s2.next_available + 1 })
  else .error .fatal

/-- The procedure `getOperator()`. -/
def getOperator (s : ParserState) : Res ArithmeticOperatorType :=
  let (t, s1) := GetToken s
  match t.token_type with
  | TokenType.PLUS => .ok (ArithmeticOperatorType.OPERATOR_PLUS, s1)
  | TokenType.MINUS => .ok (ArithmeticOperatorType.OPERATOR_MINUS, s1)
  | TokenType.MULT => .ok (ArithmeticOperatorType.OPERATOR_MULT, s1)
  | TokenType.DIV => .ok (ArithmeticOperatorType.OPERATOR_DIV, s1)
  | _ => .error .fatal

/-- The procedure `getRelationalOp()`. -/
def getRelationalOp (s : ParserState) : Res ConditionalOperatorType :=
  let (t, s1) := GetToken s
  if t.token_type = TokenType.GREATER then
    .ok (ConditionalOperatorType.CONDITION_GREATER, s1)
  else if t.token_type = TokenType.LESS then
    .ok (ConditionalOperatorType.CONDITION_LESS, s1)
  else if t.token_type = TokenType.NOTEQUAL then
    .ok (ConditionalOperatorType.CONDITION_NOTEQUAL, s1)
  else .error .fatal

/-- The procedure `processExpression(first, oper, second)`; the three reference
parameters are returned as a triple. -/
def processExpression (s : ParserState) :
    Res (Nat × ArithmeticOperatorType × Nat) :=
  match getPrimaryValue s with
  | .error e => .error e
  | .ok (first, s1) =>
    match getOperator s1 with
    | .error e => .error e
    | .ok (oper, s2) =>
      match getPrimaryValue s2 with
      | .error e => .error e
      | .ok (second, s3) => .ok ((first, oper, second), s3)

/-- The procedure `checkCondition(cond, left, right)`; the three reference
parameters are returned as a triple. -/
def checkCondition (s : ParserState) :
    Res (ConditionalOperatorType × Nat × Nat) :=
  match getPrimaryValue s with
  | .error e => .error e
  | .ok (left, s1) =>
    match getRelationalOp s1 with
    | .error e => .error e
    | .ok (cond, s2) =>
      match getPrimaryValue s2 with
      | .error e => .error e
      | .ok (right, s3) => .ok ((cond, left, right), s3)

/-- The procedure `createAssignNode()`. -/
def createAssignNode (s : ParserState) : Res Nat :=
  let (node, s0) := newNode { type := InstructionType.ASSIGN, next := none } s
  match verifyToken TokenType.ID s0 with
  | .error e => .error e
  | .ok (var, s1) =>
    match findVarLocation var.lexeme s1 with
    | .error e => .error e
    | .ok (lhs, s2) =>
      let s3 := setNode node (fun n => { n with lhs_loc := some lhs }) s2
      match verifyToken TokenType.EQUAL s3 with
      | .error e => .error e
      | .ok (_, s4) =>
        let next := peek 1 s4
        if (next.token_type = TokenType.ID ∨ next.token_type = TokenType.NUM) ∧
            (peek 2 s4).token_type = TokenType.SEMICOLON then
          match getPrimaryValue s4 with
          | .error e => .error e
          | .ok (p, s5) =>
            let s6 := setNode node (fun n => { n with op1_loc := some p }) s5
            let s7 := setNode node
              (fun n => { n with op := some ArithmeticOperatorType.OPERATOR_NONE }) s6
            match verifyToken TokenType.SEMICOLON s7 with
            | .error e => .error e
            | .ok (_, s8) => .ok (node, s8)
        else
          match processExpression s4 with
          | .error e => .error e
          | .ok ((left, op, right), s5) =>
            let s6 := setNode node (fun n => { n with op1_loc := some left }) s5
            let s7 := setNode node (fun n => { n with op2_loc := some right }) s6
            let s8 := setNode node (fun n => { n with op := some op }) s7
            match verifyToken TokenType.SEMICOLON s8 with
            | .error e => .error e
            | .ok (_, s9) => .ok (node, s9)

/-- The procedure `makeOutputNode()`. -/
def makeOutputNode (s : ParserState) : Res Nat :=
  let (node, s0) := newNode { type := InstructionType.OUT, next := none } s
  match verifyToken TokenType.OUTPUT s0 with
  | .error e => .error e
  | .ok (_, s1) =>
    match verifyToken TokenType.ID s1 with
    | .error e => .error e
    | .ok (var, s2) =>
      match findVarLocation var.lexeme s2 with
      | .error e => .error e
      | .ok (loc, s3) =>
        let s4 := setNode node (fun n => { n with var_loc := some loc }) s3
        match verifyToken TokenType.SEMICOLON s4 with
        | .error e => .error e
        | .ok (_, s5) => .ok (node, s5)

/-- The procedure `makeInputNode()`. -/
def makeInputNode (s : ParserState) : Res Nat :=
  let (node, s0) := newNode { type := InstructionType.IN, next := none } s
  match verifyToken TokenType.INPUT s0 with
  | .error e => .error e
  | .ok (_, s1) =>
    match verifyToken TokenType.ID s1 with
    | .error e => .error e
    | .ok (var, s2) =>
      match findVarLocation var.lexeme s2 with
      | .error e => .error e
      | .ok (loc, s3) =>
        let s4 := setNode node (fun n => { n with var_loc := some loc }) s3
        match verifyToken TokenType.SEMICOLON s4 with
        | .error e => .error e
        | .ok (_, s5) => .ok (node, s5)

/-- The three stores `condNode->cjmp_inst.condition_op = cond`,
`condNode->cjmp_inst.op1_loc = left`, `condNode->cjmp_inst.op2_loc = right`. -/
def setCond (p : Nat) (cond : ConditionalOperatorType) (left right : Nat)
    (s : ParserState) : ParserState :=
  setNode p (fun n =>
    { n with condition_op := some cond, op1_loc := some left, op2_loc := some right }) s

/-- The loop `for (int i = caseBodies.size() - 1; i >= 0; i--)` of `processSwitch`,
with `count` iterations left: the next iteration handles index `count - 1`.  The
result is the value of `nextNode` after the loop. -/
def switchChain (switchVar endNode : Nat) (caseValues caseBodies : List Nat) :
    Nat → Nat → ParserState → Res Nat
  | 0, nextNode, s => .ok (nextNode, s)
  | i + 1, nextNode, s =>
    match caseBodies[i]?, caseValues[i]? with
    | some body, some value =>
      let (jump, s1) := newNode
        { type := InstructionType.JMP, target := some endNode, next := none } s
      match linkNodes (some body) jump s1 with
      | .error e => .error e
      | .ok s2 =>
        let (condJump, s3) := newNode
          { type := InstructionType.CJMP,
            condition_op := some ConditionalOperatorType.CONDITION_NOTEQUAL,
            op1_loc := some switchVar,
            op2_loc := some value,
            target := some body,
            next := some nextNode } s2
        switchChain switchVar endNode caseValues caseBodies i condJump s3
    | _, _ => .error .wildPointer

/-! ## The mutually recursive grammar procedures

Every procedure takes a recursion budget that each call decreases by one; a parse
needs a budget proportional to the number of tokens. -/

mutual

/-- The procedure `getBodyCode()`. -/
def getBodyCode : Nat → ParserState → Res Nat
  | 0, _ => .error .outOfFuel
  | fuel + 1, s =>
    match verifyToken TokenType.LBRACE s with
    | .error e => .error e
    | .ok (_, s1) =>
      match buildStmtList fuel s1 with
      | .error e => .error e
      | .ok (statements, s2) =>
        match verifyToken TokenType.RBRACE s2 with
        | .error e => .error e
        | .ok (_, s3) => .ok (statements, s3)

/-- The procedure `buildStmtList()`. -/
def buildStmtList : Nat → ParserState → Res Nat
  | 0, _ => .error .outOfFuel
  | fuel + 1, s =>
    match handleStmt fuel s with
    | .error e => .error e
    | .ok (firstNode, s1) =>
      let pk := peek 1 s1
      if pk.token_type = TokenType.ID ∨ pk.token_type = TokenType.WHILE ∨
          pk.token_type = TokenType.IF ∨ pk.token_type = TokenType.SWITCH ∨
          pk.token_type = TokenType.FOR ∨ pk.token_type = TokenType.OUTPUT ∨
          pk.token_type = TokenType.INPUT then
        match buildStmtList fuel s1 with
        | .error e => .error e
        | .ok (restNodes, s2) =>
          match walkToTail s2.heap.length s2.heap firstNode with
          | .error e => .error e
          | .ok current => .ok (firstNode, setNext current (some restNodes) s2)
      else .ok (firstNode, s1)

/-- The procedure `handleStmt()`. -/
def handleStmt : Nat → ParserState → Res Nat
  | 0, _ => .error .outOfFuel
  | fuel + 1, s =>
    match (peek 1 s).token_type with
    | TokenType.ID => createAssignNode s
    | TokenType.WHILE => buildWhileLoop fuel s
    | TokenType.IF => handleIfStmt fuel s
    | TokenType.SWITCH => processSwitch fuel s
    | TokenType.FOR => createForLoop fuel s
    | TokenType.OUTPUT => makeOutputNode s
    | TokenType.INPUT => makeInputNode s
    | _ => .error .fatal

/-- The procedure `buildWhileLoop()`. -/
def buildWhileLoop : Nat → ParserState → Res Nat
  | 0, _ => .error .outOfFuel
  | fuel + 1, s =>
    let (condNode, s0) := newNode { type := InstructionType.CJMP, next := none } s
    match verifyToken TokenType.WHILE s0 with
    | .error e => .error e
    | .ok (_, s1) =>
      match checkCondition s1 with
      | .error e => .error e
      | .ok ((condOp, left, right), s2) =>
        let s3 := setCond condNode condOp left right s2
        match getBodyCode fuel s3 with
        | .error e => .error e
        | .ok (bodyCode, s4) =>
          let s5 := setNext condNode (some bodyCode) s4
          let (jumpNode, s6) := newNode
            { type := InstructionType.JMP, target := some condNode, next := none } s5
          match linkNodes (some bodyCode) jumpNode s6 with
          | .error e => .error e
          | .ok s7 =>
            let (noop, s8) := makeNoop s7
            let s9 := setTarget condNode (some noop) s8
            let s10 := setNext jumpNode (some noop) s9
            .ok (condNode, s10)

/-- The procedure `handleIfStmt()`. -/
def handleIfStmt : Nat → ParserState → Res Nat
  | 0, _ => .error .outOfFuel
  | fuel + 1, s =>
    let (condNode, s0) := newNode { type := InstructionType.CJMP, next := none } s
    match verifyToken TokenType.IF s0 with
    | .error e => .error e
    | .ok (_, s1) =>
      match checkCondition s1 with
      | .error e => .error e
      | .ok ((condOp, left, right), s2) =>
        let s3 := setCond condNode condOp left right s2
        match getBodyCode fuel s3 with
        | .error e => .error e
        | .ok (bodyCode, s4) =>
          let s5 := setNext condNode (some bodyCode) s4
          let (noop, s6) := makeNoop s5
          let s7 := setTarget condNode (some noop) s6
          match linkNodes (some bodyCode) noop s7 with
          | .error e => .error e
          | .ok s8 => .ok (condNode, s8)

/-- The loop `while (tokenizer.peek(1).token_type == CASE)` of `processSwitch`; the
two vectors are passed in and returned. -/
def parseCases : Nat → List Nat → List Nat → ParserState → Res (List Nat × List Nat)
  | 0, _, _, _ => .error .outOfFuel
  | fuel + 1, caseValues, caseBodies, s =>
    if (peek 1 s).token_type = TokenType.CASE then
      match verifyToken TokenType.CASE s with
      | .error e => .error e
      | .ok (_, s1) =>
        match verifyToken TokenType.NUM s1 with
        | .error e => .error e
        | .ok (num, s2) =>
          match stoi num.lexeme with
          | none => .error .stoiThrow
          | some val =>
            let (c, s3) := storeConstant val s2
            match verifyToken TokenType.COLON s3 with
            | .error e => .error e
            | .ok (_, s4) =>
              match getBodyCode fuel s4 with
              | .error e => .error e
              | .ok (body, s5) =>
                parseCases fuel (caseValues ++ [c]) (caseBodies ++ [body]) s5
    else .ok ((caseValues, caseBodies), s)

/-- The procedure `processSwitch()`. -/
def processSwitch : Nat → ParserState → Res Nat
  | 0, _ => .error .outOfFuel
  | fuel + 1, s =>
    match verifyToken TokenType.SWITCH s with
    | .error e => .error e
    | .ok (_, s1) =>
      match verifyToken TokenType.ID s1 with
      | .error e => .error e
      | .ok (t, s2) =>
        match findVarLocation t.lexeme s2 with
        | .error e => .error e
        | .ok (switchVar, s3) =>
          match verifyToken TokenType.LBRACE s3 with
          | .error e => .error e
          | .ok (_, s4) =>
            match parseCases fuel [] [] s4 with
            | .error e => .error e
            | .ok ((caseValues, caseBodies), s5) =>
              match parseDefault fuel s5 with
              | .error e => .error e
              | .ok (defaultCase, s6) =>
                match verifyToken TokenType.RBRACE s6 with
                | .error e => .error e
                | .ok (_, s7) =>
                  let (endNode, s8) := makeNoop s7
                  if caseBodies = [] ∧ defaultCase = none then .ok (endNode, s8)
                  else
                    match linkNodes defaultCase endNode s8 with
                    | .error e => .error e
                    | .ok s9 =>
                      let nextNode := defaultCase.getD endNode
                      switchChain switchVar endNode caseValues caseBodies
                        caseBodies.length nextNode s9

/-- The statement `if (tokenizer.peek(1).token_type == DEFAULT) { ... }` of
`processSwitch`; the result is the value of `defaultCase` after it. -/
def parseDefault : Nat → ParserState → Res (Option Nat)
  | 0, _ => .error .outOfFuel
  | fuel + 1, s =>
    if (peek 1 s).token_type = TokenType.DEFAULT then
      match verifyToken TokenType.DEFAULT s with
      | .error e => .error e
      | .ok (_, s1) =>
        match verifyToken TokenType.COLON s1 with
        | .error e => .error e
        | .ok (_, s2) =>
          match getBodyCode fuel s2 with
          | .error e => .error e
          | .ok (body, s3) => .ok (some body, s3)
    else .ok (none, s)

/-- The procedure `createForLoop()`. -/
def createForLoop : Nat → ParserState → Res Nat
  | 0, _ => .error .outOfFuel
  | fuel + 1, s =>
    match verifyToken TokenType.FOR s with
    | .error e => .error e
    | .ok (_, s1) =>
      match verifyToken TokenType.LPAREN s1 with
      | .error e => .error e
      | .ok (_, s2) =>
        match createAssignNode s2 with
        | .error e => .error e
        | .ok (init, s3) =>
          match checkCondition s3 with
          | .error e => .error e
          | .ok ((cond, left, right), s4) =>
            match verifyToken TokenType.SEMICOLON s4 with
            | .error e => .error e
            | .ok (_, s5) =>
              match createAssignNode s5 with
              | .error e => .error e
              | .ok (update, s6) =>
                match verifyToken TokenType.RPAREN s6 with
                | .error e => .error e
                | .ok (_, s7) =>
                  let (condNode, s8) := newNode
                    { type := InstructionType.CJMP,
                      condition_op := some cond,
                      op1_loc := some left,
                      op2_loc := some right } s7
                  match getBodyCode fuel s8 with
                  | .error e => .error e
                  | .ok (body, s9) =>
                    let (noop, s10) := makeNoop s9
                    let s11 := setNext init (some condNode) s10
                    let s12 := setNext condNode (some body) s11
                    match linkNodes (some body) update s12 with
                    | .error e => .error e
                    | .ok s13 =>
                      let (jump, s14) := newNode
                        { type := InstructionType.JMP,
                          target := some condNode,
                          next := some noop } s13
                      let s15 := setNext update (some jump) s14
                      let s16 := setTarget condNode (some noop) s15
                      .ok (init, s16)

end

/-- The three statements `varLocations[t.lexeme] = next_available;`,
`mem[next_available] = 0;` and `next_available++;` of `processIdList`, for the
identifier `name`. -/
def declare (name : String) (s : ParserState) : ParserState :=
  let s2 := { s with
    varLocations := mapAssign s.varLocations name s.next_available }
  let s3 := { s2 with mem := memWrite s2.mem s2.next_available 0 }
  { s3 with next_available := s3.next_available + 1 }

/-- The procedure `processIdList()`. -/
def processIdList : Nat → ParserState → Res Unit
  | 0, _ => .error .outOfFuel
  | fuel + 1, s =>
    match verifyToken TokenType.ID s with
    | .error e => .error e
    | .ok (t, s1) =>
      let s4 := declare t.lexeme s1
      let (nextToken, s5) := GetToken s4
      if nextToken.token_type = TokenType.COMMA then processIdList fuel s5
      else if nextToken.token_type ≠ TokenType.SEMICOLON then .error .fatal
      else .ok ((), s5)

/-- The procedure `handleVarSection()`. -/
def handleVarSection (fuel : Nat) (s : ParserState) : Res Unit :=
  processIdList fuel s

/-- The procedure `readInputValues()`; each iteration of its loop uses one unit of
the budget. -/
def readInputValues : Nat → ParserState → Res Unit
  | 0, _ => .error .outOfFuel
  | fuel + 1, s =>
    if (peek 1 s).token_type = TokenType.NUM then
      let (num, s1) := GetToken s
      match stoi num.lexeme with
      | none => .error .stoiThrow
      | some v => readInputValues fuel { s1 with inputs := s1.inputs ++ [v] }
    else .ok ((), s)

/-- The procedure `parseProgram()`. -/
def parseProgram (fuel : Nat) (s : ParserState) : Res Nat :=
  match handleVarSection fuel s with
  | .error e => .error e
  | .ok (_, s1) =>
    match getBodyCode fuel s1 with
    | .error e => .error e
    | .ok (mainCode, s2) =>
      match readInputValues fuel s2 with
      | .error e => .error e
      | .ok (_, s3) => .ok (mainCode, s3)

/-- The procedure `parse_Generate_Intermediate_Representation()`. -/
def parse_Generate_Intermediate_Representation (fuel : Nat) (s : ParserState) :
    Res Nat :=
  parseProgram fuel s

/-! ## Reachability along `next` edges and regions of the heap -/

/-- Node `b` is reached from node `a` by following `next` edges (zero or more). -/
inductive NextReach (h : List InstructionNode) : Nat → Nat → Prop
  | refl (a : Nat) : NextReach h a a
  | step {a b c : Nat} {n : InstructionNode} :
      h[a]? = some n → n.next = some b → NextReach h b c → NextReach h a c

/-- Every `next` and `target` edge leaving a node with address in `[lo, hi)` ends at
an address in `[lo, hi)`. -/
def RegionClosed (lo hi : Nat) (h : List InstructionNode) : Prop :=
  ∀ i n, lo ≤ i → i < hi → h[i]? = some n →
    (∀ p, n.next = some p → lo ≤ p ∧ p < hi) ∧
    (∀ p, n.target = some p → lo ≤ p ∧ p < hi)

/-- Heap `h2` extends heap `h`: the nodes of `h` are untouched and the nodes added
form a region closed under `next` and `target`. -/
def Ext (h h2 : List InstructionNode) : Prop :=
  h.length ≤ h2.length ∧
  (∀ i, i < h.length → h2[i]? = h[i]?) ∧
  RegionClosed h.length h2.length h2

/-- Heap `h2` extends `h` by a subgraph whose entry node `e` is one of the added
nodes. -/
def Built (h h2 : List InstructionNode) (e : Nat) : Prop :=
  Ext h h2 ∧ h.length ≤ e ∧ e < h2.length

/-- What the induction on the recursion budget carries for a procedure that returns
the entry of a subgraph. -/
def BuildsRegion (p : ParserState → Res Nat) : Prop :=
  ∀ s e s2, p s = .ok (e, s2) → Built s.heap s2.heap e

/-- Modelled from the spec: the successor the executor chooses (`execute.cc` is not
among the sources).  A conditional jump goes to its `next` edge when its relation
holds and to its `target` edge when it does not; a jump goes to its `target` edge;
every other node goes to its `next` edge. -/
def nextPc (n : InstructionNode) (relationHolds : Bool) : Option Nat :=
  match n.type with
  | InstructionType.CJMP => if relationHolds then n.next else n.target
  | InstructionType.JMP => n.target
  | _ => n.next

/-- A conditional-jump node with the given relation, operands and edges. -/
abbrev cjmpNode (cond : ConditionalOperatorType) (l r : Nat)
    (next target : Option Nat) : InstructionNode :=
  { type := InstructionType.CJMP, condition_op := some cond, op1_loc := some l,
    op2_loc := some r, target := target, next := next }

/-- A jump node with the given edges. -/
abbrev jmpNode (next target : Option Nat) : InstructionNode :=
  { type := InstructionType.JMP, target := target, next := next }

/-- A no-op node without successor. -/
abbrev noopNode : InstructionNode :=
  { type := InstructionType.NOOP, next := none }

/-- What the induction on the recursion budget carries for the case loop of
`processSwitch`: the bodies it adds to the vector are entries of added nodes, and
the two vectors grow by the same number of elements. -/
def CasesRegion (fuel : Nat) : Prop :=
  ∀ cv cb s cv2 cb2 s2, parseCases fuel cv cb s = .ok ((cv2, cb2), s2) →
    Ext s.heap s2.heap ∧ ∃ nv nb, cv2 = cv ++ nv ∧ cb2 = cb ++ nb ∧
      nv.length = nb.length ∧ ∀ b, b ∈ nb → s.heap.length ≤ b ∧ b < s2.heap.length

/-- What the induction on the recursion budget carries for the default clause of
`processSwitch`. -/
def DefaultRegion (fuel : Nat) : Prop :=
  ∀ s d s2, parseDefault fuel s = .ok (d, s2) →
    Ext s.heap s2.heap ∧ ∀ b, d = some b → s.heap.length ≤ b ∧ b < s2.heap.length

/-! ## Concrete programs used as witnesses -/

/-- A token of the given kind and text. -/
def mkToken (ty : TokenType) (lx : String) : Token :=
  { lexeme := lx, token_type := ty }

/-- A parser state after the declaration `a, b;`: `a` is at location 0, `b` at
location 1, the cursor is 2, no node is allocated, and `toks` are the tokens left. -/
def stateAB (toks : List Token) : ParserState :=
  { tokens := toks, varLocations := [("a", 0), ("b", 1)], mem := fun _ => 0,
    next_available := 2, inputs := [], heap := [] }

/-- The tokens of `if a > b { output a; }`, the form of the statement the parser
accepts. -/
def ifTokens : List Token :=
  [mkToken TokenType.IF "if", mkToken TokenType.ID "a", mkToken TokenType.GREATER ">",
   mkToken TokenType.ID "b", mkToken TokenType.LBRACE "\x7b",
   mkToken TokenType.OUTPUT "output", mkToken TokenType.ID "a",
   mkToken TokenType.SEMICOLON ";", mkToken TokenType.RBRACE "\x7d"]

/-- The state `handleIfStmt` leaves on `ifTokens`. -/
def ifFinal : ParserState :=
  { tokens := [], varLocations := [("a", 0), ("b", 1)], mem := fun _ => 0,
    next_available := 2, inputs := [],
    heap := [cjmpNode ConditionalOperatorType.CONDITION_GREATER 0 1 (some 1) (some 2),
      { type := InstructionType.OUT, var_loc := some 0, next := some 2 },
      noopNode] }

/-- The tokens of `while a < b { input a; }`, the form of the statement the parser
accepts. -/
def whileTokens : List Token :=
  [mkToken TokenType.WHILE "while", mkToken TokenType.ID "a",
   mkToken TokenType.LESS "<", mkToken TokenType.ID "b",
   mkToken TokenType.LBRACE "\x7b", mkToken TokenType.INPUT "input",
   mkToken TokenType.ID "a", mkToken TokenType.SEMICOLON ";",
   mkToken TokenType.RBRACE "\x7d"]

/-- The state `buildWhileLoop` leaves on `whileTokens`. -/
def whileFinal : ParserState :=
  { tokens := [], varLocations := [("a", 0), ("b", 1)], mem := fun _ => 0,
    next_available := 2, inputs := [],
    heap := [cjmpNode ConditionalOperatorType.CONDITION_LESS 0 1 (some 1) (some 3),
      { type := InstructionType.IN, var_loc := some 0, next := some 2 },
      jmpNode (some 3) (some 0),
      noopNode] }

/-- A parser state after the declaration `i;`: `i` is at location 0, the cursor is
1, no node is allocated, and `toks` are the tokens left. -/
def stateI (toks : List Token) : ParserState :=
  { tokens := toks, varLocations := [("i", 0)], mem := fun _ => 0,
    next_available := 1, inputs := [], heap := [] }

/-- The tokens of `for (i = 0; i < 3; i = i + 1;) { output i; }`, the form of the
statement the parser accepts: the update is an assignment statement and ends with
its own semicolon. -/
def forTokens : List Token :=
  [mkToken TokenType.FOR "for", mkToken TokenType.LPAREN "(",
   mkToken TokenType.ID "i", mkToken TokenType.EQUAL "=", mkToken TokenType.NUM "0",
   mkToken TokenType.SEMICOLON ";",
   mkToken TokenType.ID "i", mkToken TokenType.LESS "<", mkToken TokenType.NUM "3",
   mkToken TokenType.SEMICOLON ";",
   mkToken TokenType.ID "i", mkToken TokenType.EQUAL "=", mkToken TokenType.ID "i",
   mkToken TokenType.PLUS "+", mkToken TokenType.NUM "1",
   mkToken TokenType.SEMICOLON ";", mkToken TokenType.RPAREN ")",
   mkToken TokenType.LBRACE "\x7b", mkToken TokenType.OUTPUT "output",
   mkToken TokenType.ID "i", mkToken TokenType.SEMICOLON ";",
   mkToken TokenType.RBRACE "\x7d"]

/-- The instruction nodes `createForLoop` builds on `forTokens`: node 0 is the
assignment `i = 0`, node 1 the assignment `i = i + 1`, node 2 the conditional jump,
node 3 the output, node 4 the exit no-op and node 5 the back jump. -/
def forHeap : List InstructionNode :=
  [{ type := InstructionType.ASSIGN, lhs_loc := some 0, op1_loc := some 1,
     op := some ArithmeticOperatorType.OPERATOR_NONE, next := some 2 },
   { type := InstructionType.ASSIGN, lhs_loc := some 0, op1_loc := some 0,
     op2_loc := some 3, op := some ArithmeticOperatorType.OPERATOR_PLUS,
     next := some 5 },
   cjmpNode ConditionalOperatorType.CONDITION_LESS 0 2 (some 3) (some 4),
   { type := InstructionType.OUT, var_loc := some 0, next := some 1 },
   noopNode,
   jmpNode (some 4) (some 2)]

/-- The value a procedure returned, when it returned. -/
def returned {α : Type} (r : Res α) : Option α :=
  match r with
  | .ok (v, _) => some v
  | .error _ => none

/-- The state a procedure left behind, when it returned (the state `d` otherwise). -/
def finalState {α : Type} (d : ParserState) (r : Res α) : ParserState :=
  match r with
  | .ok (_, s) => s
  | .error _ => d

/-- The tokens of `if (a > b) { output a; }`, with the parentheses of the
specification's example. -/
def ifParenTokens : List Token :=
  [mkToken TokenType.IF "if", mkToken TokenType.LPAREN "(", mkToken TokenType.ID "a",
   mkToken TokenType.GREATER ">", mkToken TokenType.ID "b",
   mkToken TokenType.RPAREN ")", mkToken TokenType.LBRACE "\x7b",
   mkToken TokenType.OUTPUT "output", mkToken TokenType.ID "a",
   mkToken TokenType.SEMICOLON ";", mkToken TokenType.RBRACE "\x7d"]

/-- The tokens of `for (i = 0; i < 3; i = i + 1) { output i; }`, as the
specification's example writes the statement: no semicolon after the update. -/
def forSpecTokens : List Token :=
  [mkToken TokenType.FOR "for", mkToken TokenType.LPAREN "(",
   mkToken TokenType.ID "i", mkToken TokenType.EQUAL "=", mkToken TokenType.NUM "0",
   mkToken TokenType.SEMICOLON ";",
   mkToken TokenType.ID "i", mkToken TokenType.LESS "<", mkToken TokenType.NUM "3",
   mkToken TokenType.SEMICOLON ";",
   mkToken TokenType.ID "i", mkToken TokenType.EQUAL "=", mkToken TokenType.ID "i",
   mkToken TokenType.PLUS "+", mkToken TokenType.NUM "1",
   mkToken TokenType.RPAREN ")",
   mkToken TokenType.LBRACE "\x7b", mkToken TokenType.OUTPUT "output",
   mkToken TokenType.ID "i", mkToken TokenType.SEMICOLON ";",
   mkToken TokenType.RBRACE "\x7d"]

/-- State `s2` differs from `s` at most in the tokens and the heap of nodes. -/
def SameArena (s s2 : ParserState) : Prop :=
  s2.varLocations = s.varLocations ∧ s2.mem = s.mem ∧
  s2.next_available = s.next_available ∧ s2.inputs = s.inputs

/-- From `s` to `s2` the symbol table and the input queue are unchanged, the cursor
did not move back, and every cell below the old cursor kept its value. -/
def Frame (s s2 : ParserState) : Prop :=
  s2.varLocations = s.varLocations ∧ s2.inputs = s.inputs ∧
  s.next_available ≤ s2.next_available ∧
  ∀ i, i < s.next_available → s2.mem i = s.mem i

/-- What the induction on the recursion budget carries about the arena. -/
def KeepsFrame {α : Type} (p : ParserState → Res α) : Prop :=
  ∀ s r s2, p s = .ok (r, s2) → Frame s s2

/-- A parser state whose cursor equals the capacity of the arena: all 1000 cells
are in use, no variable is declared and no node is allocated. -/
def stateFull (toks : List Token) : ParserState :=
  { tokens := toks, varLocations := [], mem := fun _ => 0,
    next_available := memCapacity, inputs := [], heap := [] }

/-- The initial parser state on the tokens `toks`: nothing declared, cursor 0. -/
def stateInit (toks : List Token) : ParserState :=
  { tokens := toks, varLocations := [], mem := fun _ => 0,
    next_available := 0, inputs := [], heap := [] }

/-- The tokens after the first identifier of a declaration list: each further name
preceded by a comma, then the closing semicolon. -/
def declTail : List String → List Token
  | [] => [mkToken TokenType.SEMICOLON ";"]
  | y :: names => mkToken TokenType.COMMA "," :: mkToken TokenType.ID y :: declTail names

/-- The tokens of the declaration list `x, names...;`. -/
def declTokens (x : String) (names : List String) : List Token :=
  mkToken TokenType.ID x :: declTail names

/-- One `case` clause of a switch as the parser met it: the constant, the location
`storeConstant` returned for it, the entry of the body, and the heap lengths before
and after the body was parsed (the body's nodes have the addresses `lo ≤ p < hi`). -/
structure CaseClause where
  value : Int
  loc : Nat
  body : Nat
  lo : Nat
  hi : Nat

/-- The case loop of `processSwitch`, run from state `s`, parses the clauses `cl`
in this order and stops in state `s2`: each clause is `CASE`, a number accepted by
`stoi`, the constant stored by `storeConstant`, `COLON` and a body parsed by
`getBodyCode`; the loop stops at the first token that is not `CASE`. -/
inductive CaseRun : ParserState → List CaseClause → ParserState → Prop
  | done {s : ParserState} :
      (peek 1 s).token_type ≠ TokenType.CASE → CaseRun s [] s
  | clause {s s1 sn s4 s5 s6 : ParserState} {t1 num t4 : Token} {c : Int}
      {fuel body : Nat} {rest : List CaseClause} :
      (peek 1 s).token_type = TokenType.CASE →
      verifyToken TokenType.CASE s = .ok (t1, s1) →
      verifyToken TokenType.NUM s1 = .ok (num, sn) →
      stoi num.lexeme = some c →
      verifyToken TokenType.COLON (storeConstant c sn).2 = .ok (t4, s4) →
      getBodyCode fuel s4 = .ok (body, s5) →
      CaseRun s5 rest s6 →
      CaseRun s
        ({ value := c, loc := (storeConstant c sn).1, body := body,
           lo := s4.heap.length, hi := s5.heap.length } :: rest) s6

/-- A parser state after the declaration `x, a, b;`: `x` is at location 0, `a` at
1, `b` at 2, the cursor is 3, no node is allocated, and `toks` are the tokens
left. -/
def stateXAB (toks : List Token) : ParserState :=
  { tokens := toks, varLocations := [("x", 0), ("a", 1), ("b", 2)], mem := fun _ => 0,
    next_available := 3, inputs := [], heap := [] }

/-- The tokens of `switch x { case 1 : { output a; } case 2 : { output b; } }`, the
form of the specification's two-case switch that the parser accepts: no
parentheses around the variable, every case body in braces. -/
def switchTokens : List Token :=
  [mkToken TokenType.SWITCH "switch", mkToken TokenType.ID "x",
   mkToken TokenType.LBRACE "\x7b",
   mkToken TokenType.CASE "case", mkToken TokenType.NUM "1",
   mkToken TokenType.COLON ":", mkToken TokenType.LBRACE "\x7b",
   mkToken TokenType.OUTPUT "output", mkToken TokenType.ID "a",
   mkToken TokenType.SEMICOLON ";", mkToken TokenType.RBRACE "\x7d",
   mkToken TokenType.CASE "case", mkToken TokenType.NUM "2",
   mkToken TokenType.COLON ":", mkToken TokenType.LBRACE "\x7b",
   mkToken TokenType.OUTPUT "output", mkToken TokenType.ID "b",
   mkToken TokenType.SEMICOLON ";", mkToken TokenType.RBRACE "\x7d",
   mkToken TokenType.RBRACE "\x7d"]

/-- The instruction nodes `processSwitch` builds on `switchTokens`: nodes 0 and 1
are the two bodies, node 2 is the exit, nodes 3 and 5 are the jumps appended to the
second and the first body, node 4 tests the second case and node 6, the entry,
tests the first case.  The constants 1 and 2 are at the locations 3 and 4. -/
def switchHeap : List InstructionNode :=
  [{ type := InstructionType.OUT, var_loc := some 1, next := some 5 },
   { type := InstructionType.OUT, var_loc := some 2, next := some 3 },
   noopNode,
   jmpNode none (some 2),
   cjmpNode ConditionalOperatorType.CONDITION_NOTEQUAL 0 4 (some 2) (some 1),
   jmpNode none (some 2),
   cjmpNode ConditionalOperatorType.CONDITION_NOTEQUAL 0 3 (some 4) (some 0)]

/-! ## The executor's control flow -/

/-- Modelled from the spec: whether `a <relation> b` holds (`execute.cc` is not
among the sources). -/
def relHolds (c : ConditionalOperatorType) (a b : Int) : Bool :=
  match c with
  | ConditionalOperatorType.CONDITION_GREATER => decide (a > b)
  | ConditionalOperatorType.CONDITION_LESS => decide (a < b)
  | ConditionalOperatorType.CONDITION_NOTEQUAL => decide (a ≠ b)

/-- Modelled from the spec: what the executor holds besides the program counter:
the arena, the input queue and the index of the next input to consume. -/
structure ExecState where
  mem : Nat → Int
  inputs : List Int
  next_input : Nat

/-- Modelled from the spec: the value an assignment stores; without operator it is
a copy of operand 1.  The arithmetic is that of the integers and a division by
zero has no result. -/
def arith (op : ArithmeticOperatorType) (a b : Int) : Option Int :=
  match op with
  | ArithmeticOperatorType.OPERATOR_NONE => some a
  | ArithmeticOperatorType.OPERATOR_PLUS => some (a + b)
  | ArithmeticOperatorType.OPERATOR_MINUS => some (a - b)
  | ArithmeticOperatorType.OPERATOR_MULT => some (a * b)
  | ArithmeticOperatorType.OPERATOR_DIV => if b = 0 then none else some (Int.tdiv a b)

/-- Modelled from the spec: the effect of executing a node on the state of the
executor.  `NOOP`, `OUT` and the two jumps leave it alone; `IN` moves the next
value of the input queue into its cell and fails when the queue is exhausted;
`ASSIGN` stores the value of its right-hand side. -/
def effect (n : InstructionNode) (st : ExecState) : Option ExecState :=
  match n.type with
  | InstructionType.NOOP => some st
  | InstructionType.OUT => some st
  | InstructionType.CJMP => some st
  | InstructionType.JMP => some st
  | InstructionType.IN =>
    match n.var_loc, st.inputs[st.next_input]? with
    | some l, some v =>
      some { st with mem := memWrite st.mem l v, next_input := st.next_input + 1 }
    | _, _ => none
  | InstructionType.ASSIGN =>
    match n.lhs_loc, n.op1_loc, n.op with
    | some d, some a, some op =>
      match arith op (st.mem a) (match n.op2_loc with
          | some b => st.mem b
          | none => 0) with
      | some v => some { st with mem := memWrite st.mem d v }
      | none => none
    | _, _, _ => none

/-- Modelled from the spec: one step of the executor at node `pc`, with `eff` the
effect of the nodes that are not jumps.  The result is the next node (`none` at
the end of the program) and the new state; there is no result when `pc` is not a
node, a conditional jump lacks a field, or the effect fails.  A conditional jump
goes to its `next` edge when the relation holds and to its `target` edge when it
does not; a jump goes to its `target` edge; every other node goes to its `next`
edge. -/
def step (heap : List InstructionNode)
    (eff : InstructionNode → ExecState → Option ExecState) (pc : Nat)
    (st : ExecState) : Option (Option Nat × ExecState) :=
  match heap[pc]? with
  | none => none
  | some n =>
    match n.type with
    | InstructionType.CJMP =>
      match n.condition_op, n.op1_loc, n.op2_loc with
      | some c, some l, some r => some (nextPc n (relHolds c (st.mem l) (st.mem r)), st)
      | _, _, _ => none
    | InstructionType.JMP => some (nextPc n false, st)
    | _ =>
      match eff n st with
      | some st2 => some (nextPc n false, st2)
      | none => none

/-- The nodes executed in the first `n` steps from node `pc` in state `st`, in
order; the list is shorter when the execution ends or fails earlier. -/
def trace (heap : List InstructionNode)
    (eff : InstructionNode → ExecState → Option ExecState) :
    Nat → Nat → ExecState → List Nat
  | 0, _, _ => []
  | n + 1, pc, st =>
    pc :: (match step heap eff pc st with
      | some (some pc2, st2) => trace heap eff n pc2 st2
      | _ => [])

/-- Every node of the list lies in `R` up to the first occurrence of `X`, if
there is one. -/
def Confined (R : Nat → Prop) (X : Nat) : List Nat → Prop
  | [] => True
  | p :: ps => (R p ∧ Confined R X ps) ∨ p = X

/-- The tokens of `switch x { case 1 : { while x > 0 { output x; } } }`. -/
def loopSwitchTokens : List Token :=
  [mkToken TokenType.SWITCH "switch", mkToken TokenType.ID "x",
   mkToken TokenType.LBRACE "\x7b",
   mkToken TokenType.CASE "case", mkToken TokenType.NUM "1",
   mkToken TokenType.COLON ":", mkToken TokenType.LBRACE "\x7b",
   mkToken TokenType.WHILE "while", mkToken TokenType.ID "x",
   mkToken TokenType.GREATER ">", mkToken TokenType.NUM "0",
   mkToken TokenType.LBRACE "\x7b", mkToken TokenType.OUTPUT "output",
   mkToken TokenType.ID "x", mkToken TokenType.SEMICOLON ";",
   mkToken TokenType.RBRACE "\x7d", mkToken TokenType.RBRACE "\x7d",
   mkToken TokenType.RBRACE "\x7d"]

/-- The instruction nodes `processSwitch` builds on `loopSwitchTokens`: nodes 0 to
3 are the body of the case (the loop test, the output, the back jump and the exit
of the loop), node 4 is the exit of the switch, node 5 the jump appended to the
body and node 6, the entry, the test of the case.  The constants 1 and 0 are at
the locations 3 and 4. -/
def loopSwitchHeap : List InstructionNode :=
  [cjmpNode ConditionalOperatorType.CONDITION_GREATER 0 4 (some 1) (some 3),
   { type := InstructionType.OUT, var_loc := some 0, next := some 2 },
   jmpNode (some 3) (some 0),
   { type := InstructionType.NOOP, next := some 5 },
   noopNode,
   jmpNode none (some 4),
   cjmpNode ConditionalOperatorType.CONDITION_NOTEQUAL 0 3 (some 4) (some 0)]

/-- An executor state in which the variable at location 0 has the value `x` and the
cells 3 and 4 hold `c3` and `c4`. -/
def storeX (x c3 c4 : Int) : ExecState :=
  { mem := memWrite (memWrite (memWrite (fun _ => 0) 3 c3) 4 c4) 0 x,
    inputs := [], next_input := 0 }

/-- An assignment node with the given destination, first operand, operator and
second operand, and no successor. -/
abbrev assignNode (lhs op1 : Nat) (op : ArithmeticOperatorType) (op2 : Option Nat) :
    InstructionNode :=
  { type := InstructionType.ASSIGN, lhs_loc := some lhs, op1_loc := some op1,
    op2_loc := op2, op := some op, next := none }

/-- The token is an identifier or a number, the two kinds that start a primary. -/
def isPrimary (t : Token) : Prop :=
  t.token_type = TokenType.ID ∨ t.token_type = TokenType.NUM

/-- The operator a token of kind `ty` stands for in `getOperator`. -/
def operatorOf (ty : TokenType) : Option ArithmeticOperatorType :=
  match ty with
  | TokenType.PLUS => some ArithmeticOperatorType.OPERATOR_PLUS
  | TokenType.MINUS => some ArithmeticOperatorType.OPERATOR_MINUS
  | TokenType.MULT => some ArithmeticOperatorType.OPERATOR_MULT
  | TokenType.DIV => some ArithmeticOperatorType.OPERATOR_DIV
  | _ => none

/-- The tokens start with a primary followed by `SEMICOLON`. -/
def bareShape : List Token → Prop
  | p :: semi :: _ => isPrimary p ∧ semi.token_type = TokenType.SEMICOLON
  | _ => False

/-- The tokens start with a primary, one of the four operators, a primary and
`SEMICOLON`. -/
def binaryShape : List Token → Prop
  | p1 :: o :: p2 :: semi :: _ =>
    isPrimary p1 ∧ operatorOf o.token_type ≠ none ∧ isPrimary p2 ∧
      semi.token_type = TokenType.SEMICOLON
  | _ => False

/-- Every `NUM` token of the list has a text that `stoi` accepts. -/
def NumsOk (toks : List Token) : Prop :=
  ∀ t, t ∈ toks → t.token_type = TokenType.NUM → stoi t.lexeme ≠ none

/-- The tokens of `a = 5 ;`. -/
def assignBareTokens : List Token :=
  [mkToken TokenType.ID "a", mkToken TokenType.EQUAL "=", mkToken TokenType.NUM "5",
   mkToken TokenType.SEMICOLON ";"]

/-- The tokens of `b = a + 7 ;`. -/
def assignBinaryTokens : List Token :=
  [mkToken TokenType.ID "b", mkToken TokenType.EQUAL "=", mkToken TokenType.ID "a",
   mkToken TokenType.PLUS "+", mkToken TokenType.NUM "7",
   mkToken TokenType.SEMICOLON ";"]

/-- The tokens of `a = b a ;`, which have neither shape of an assignment. -/
def assignBadTokens : List Token :=
  [mkToken TokenType.ID "a", mkToken TokenType.EQUAL "=", mkToken TokenType.ID "b",
   mkToken TokenType.ID "a", mkToken TokenType.SEMICOLON ";"]

/-- The tokens `5 7 9` followed by the end of the stream. -/
def trailingTokens : List Token :=
  [mkToken TokenType.NUM "5", mkToken TokenType.NUM "7", mkToken TokenType.NUM "9"]

/-- From `s` to `s2` the cursor did not move back and every cell below the old
cursor kept its value. -/
def ArenaGrows (s s2 : ParserState) : Prop :=
  s.next_available ≤ s2.next_available ∧
  ∀ i, i < s.next_available → s2.mem i = s.mem i

/-- The tokens of the body `{ a = 5 ; }`. -/
def bodyAssignTokens : List Token :=
  mkToken TokenType.LBRACE "\x7b" :: assignBareTokens ++ [mkToken TokenType.RBRACE "\x7d"]

/-- The tokens of the program `a, b; { a = 5 ; } 5 7 9`. -/
def programTokens : List Token :=
  declTokens "a" ["b"] ++ bodyAssignTokens ++ trailingTokens

/-- Node `b` is reached from node `a` by following `next` and `target` edges (zero
or more). -/
inductive Reach (h : List InstructionNode) : Nat → Nat → Prop
  | refl (a : Nat) : Reach h a a
  | next {a b c : Nat} {n : InstructionNode} :
      h[a]? = some n → n.next = some b → Reach h b c → Reach h a c
  | target {a b c : Nat} {n : InstructionNode} :
      h[a]? = some n → n.target = some b → Reach h b c → Reach h a c

/-- Node `i` is a `JMP` node that ends the `next` chain of the node `b` to which a
not-equal test `c` of the region `[lo, hi)` jumps: the jump appended to the body of a
`case` clause of a switch. -/
def CaseJumpIn (h : List InstructionNode) (lo hi i : Nat) : Prop :=
  ∃ c b cn jn, lo ≤ c ∧ c < hi ∧ h[c]? = some cn ∧
    cn.type = InstructionType.CJMP ∧
    cn.condition_op = some ConditionalOperatorType.CONDITION_NOTEQUAL ∧
    cn.target = some b ∧ NextReach h b i ∧ h[i]? = some jn ∧
    jn.type = InstructionType.JMP

/-- The nodes with addresses in `[lo, hi)` of the heap `h` form a finished subgraph
with entry `e`: the `next` chain of `e` ends at the node `t`, whose `next` is empty;
every node of the region is reached from `e`; every jump of the region has its
target set; and a node of the region with empty `next` is `t` or the jump appended
to a case body. -/
structure Sub (h : List InstructionNode) (lo hi e t : Nat) : Prop where
  entry_in : lo ≤ e ∧ e < hi
  tail_in : lo ≤ t ∧ t < hi
  chain : NextReach h e t
  tail : ∃ nt, h[t]? = some nt ∧ nt.next = none
  conn : ∀ i, lo ≤ i → i < hi → Reach h e i
  tgt : ∀ i n, lo ≤ i → i < hi → h[i]? = some n →
    (n.type = InstructionType.CJMP ∨ n.type = InstructionType.JMP) → n.target ≠ none
  empt : ∀ i n, lo ≤ i → i < hi → h[i]? = some n → n.next = none →
    i = t ∨ CaseJumpIn h lo hi i

/-- The nodes with addresses in `[lo, hi)` of the heap `h` form a subgraph with
entry `e` whose `next` chain ends at `t`, and `t` has been given the successor
`X`. -/
structure Linked (h : List InstructionNode) (lo hi e t X : Nat) : Prop where
  entry_in : lo ≤ e ∧ e < hi
  tail_in : lo ≤ t ∧ t < hi
  chain : NextReach h e t
  link : ∃ nt, h[t]? = some nt ∧ nt.next = some X
  conn : ∀ i, lo ≤ i → i < hi → Reach h e i
  tgt : ∀ i n, lo ≤ i → i < hi → h[i]? = some n →
    (n.type = InstructionType.CJMP ∨ n.type = InstructionType.JMP) → n.target ≠ none
  empt : ∀ i n, lo ≤ i → i < hi → h[i]? = some n → n.next = none →
    CaseJumpIn h lo hi i

/-- What the induction on the recursion budget carries for a procedure that returns
the entry of a subgraph: the nodes it added form a finished subgraph. -/
def BuildsSub (p : ParserState → Res Nat) : Prop :=
  ∀ s e s2, p s = .ok (e, s2) → ∃ t, Sub s2.heap s.heap.length s2.heap.length e t

/-- The token can start a statement: it is an identifier or one of the keywords
`while`, `if`, `switch`, `for`, `output`, `input`. -/
def startsStmt (t : Token) : Prop :=
  t.token_type = TokenType.ID ∨ t.token_type = TokenType.WHILE ∨
  t.token_type = TokenType.IF ∨ t.token_type = TokenType.SWITCH ∨
  t.token_type = TokenType.FOR ∨ t.token_type = TokenType.OUTPUT ∨
  t.token_type = TokenType.INPUT

/-- Node `i` plays its part in the subgraph of the region `[lo, hi)` with entry `e`
and tail `t`: it is reached from `e`; if it is a jump its target is set; and if
its `next` is empty it is `t` or the jump appended to a case body. -/
def Part (h : List InstructionNode) (lo hi e t i : Nat) : Prop :=
  Reach h e i ∧ ∀ n, h[i]? = some n →
    ((n.type = InstructionType.CJMP ∨ n.type = InstructionType.JMP) →
      n.target ≠ none) ∧
    (n.next = none → i = t ∨ CaseJumpIn h lo hi i)

/-- What the induction on the recursion budget carries for the case loop of
`processSwitch`: the loop is a run over clauses, the body of every clause is a
finished subgraph on its region, and the regions of the clauses cover the nodes the
loop added. -/
def CasesSub (fuel : Nat) : Prop :=
  ∀ cv cb s cv2 cb2 s2, parseCases fuel cv cb s = .ok ((cv2, cb2), s2) →
    ∃ cl, CaseRun s cl s2 ∧ cv2 = cv ++ cl.map CaseClause.loc ∧
      cb2 = cb ++ cl.map CaseClause.body ∧
      (∀ (i : Nat) (c : CaseClause), cl[i]? = some c →
        ∃ t, Sub s2.heap c.lo c.hi c.body t) ∧
      (∀ p, s.heap.length ≤ p → p < s2.heap.length →
        ∃ (i : Nat) (c : CaseClause), cl[i]? = some c ∧ c.lo ≤ p ∧ p < c.hi)

/-- What the induction on the recursion budget carries for the default clause of
`processSwitch`: without a default nothing changes, and a default body is a
finished subgraph on the nodes added. -/
def DefaultSub (fuel : Nat) : Prop :=
  ∀ s d s2, parseDefault fuel s = .ok (d, s2) →
    (d = none ∧ s2 = s) ∨
    ∃ b t, d = some b ∧ Sub s2.heap s.heap.length s2.heap.length b t

/-- The tokens of the program `i; { for (i = 0; i < 3; i = i + 1;) { output i; } }`. -/
def forProgramTokens : List Token :=
  declTokens "i" [] ++ [mkToken TokenType.LBRACE "\x7b"] ++ forTokens ++
    [mkToken TokenType.RBRACE "\x7d"]

/-- The tokens of the program `x, a, b; switch-body`, where the body holds the
two-case switch of `switchTokens`. -/
def switchProgramTokens : List Token :=
  declTokens "x" ["a", "b"] ++ [mkToken TokenType.LBRACE "\x7b"] ++ switchTokens ++
    [mkToken TokenType.RBRACE "\x7d"]

/-- Node `c` is reached from node `a` by following exactly `k` `next` edges. -/
inductive NextN (h : List InstructionNode) : Nat → Nat → Nat → Prop
  | zero (a : Nat) : NextN h 0 a a
  | succ {k a b c : Nat} {n : InstructionNode} :
      h[a]? = some n → n.next = some b → NextN h k b c → NextN h (k + 1) a c

/-- Every node of the list but the last has the node after it as its `next`. -/
def NextChain (h : List InstructionNode) : List Nat → Prop
  | [] => True
  | [_] => True
  | a :: b :: rest => (∃ n, h[a]? = some n ∧ n.next = some b) ∧ NextChain h (b :: rest)

/-- The error is one of the ways the parser stops by itself: the fatal exit, the
throw of `stoi`, or the exhaustion of the recursion budget of the model; it is not a
tail walk that never ends nor the use of a pointer to no node. -/
def Plain (e : ParseError) : Prop :=
  e = ParseError.fatal ∨ e = ParseError.stoiThrow ∨ e = ParseError.outOfFuel

/-- Whenever the result is an error, the error is plain. -/
def PlainErrors {α : Type} (r : Res α) : Prop :=
  ∀ e, r = .error e → Plain e

/-- The result is neither the error of a tail walk that never reaches a node with
empty `next` nor the error of a pointer to no node. -/
def NeverLoops {α : Type} (r : Res α) : Prop :=
  r ≠ .error ParseError.loopForever ∧ r ≠ .error ParseError.wildPointer

/-- One statement of a statement list as the parser met it: the entry `handleStmt`
returned, the last node of the `next` chain of the entry, and the heap lengths
before and after the statement was parsed (its nodes have the addresses
`lo ≤ p < hi`). -/
structure StmtItem where
  entry : Nat
  tail : Nat
  lo : Nat
  hi : Nat

/-- The statements `items` are parsed by `handleStmt` one after the other, from
state `s` to state `s2`, each from the state the one before left: after every
statement but the last `peek(1)` can start a statement, after the last it cannot.
For every statement, `tail` is the node at which the `next` chain of its entry ends
in the heap `handleStmt` left.  The first index is the recursion budget of
`buildStmtList`, which hands one unit less to `handleStmt` and to the rest of the
list. -/
inductive StmtRun : Nat → ParserState → List StmtItem → ParserState → Prop
  | last {s s1 : ParserState} {fuel e t : Nat} {nt : InstructionNode} :
      handleStmt fuel s = .ok (e, s1) → ¬ startsStmt (peek 1 s1) →
      NextReach s1.heap e t → s1.heap[t]? = some nt → nt.next = none →
      StmtRun (fuel + 1) s
        [{ entry := e, tail := t, lo := s.heap.length, hi := s1.heap.length }] s1
  | more {s s1 s2 : ParserState} {fuel e t : Nat} {nt : InstructionNode}
      {rest : List StmtItem} :
      handleStmt fuel s = .ok (e, s1) → startsStmt (peek 1 s1) →
      NextReach s1.heap e t → s1.heap[t]? = some nt → nt.next = none →
      StmtRun fuel s1 rest s2 →
      StmtRun (fuel + 1) s
        ({ entry := e, tail := t, lo := s.heap.length, hi := s1.heap.length } :: rest)
        s2

/-- How the result `(e, s2)` of `buildStmtList` on the statements `items` relates to
the state `sEnd` the last `handleStmt` left: `e` is the entry of the first statement;
`s2` is `sEnd` with another heap of the same length; the tail of every statement but
the last got the entry of the following statement as `next` and changed in nothing
else; the tail of the last statement has no `next`; the chain of every statement
still leads from its entry to its tail; and every other node is the node of
`sEnd`. -/
def Spliced (s : ParserState) (e : Nat) (s2 : ParserState) (items : List StmtItem)
    (sEnd : ParserState) : Prop :=
  (∃ first, items.head? = some first ∧ e = first.entry) ∧
  s2 = { sEnd with heap := s2.heap } ∧ s2.heap.length = sEnd.heap.length ∧
  (∀ (j : Nat) (a : StmtItem), items[j]? = some a →
    s.heap.length ≤ a.lo ∧ a.lo ≤ a.entry ∧ a.entry < a.hi ∧ a.lo ≤ a.tail ∧
    a.tail < a.hi ∧ a.hi ≤ sEnd.heap.length) ∧
  (∀ (j : Nat) (a b : StmtItem), items[j]? = some a → items[j + 1]? = some b →
    ∃ nt, sEnd.heap[a.tail]? = some nt ∧ nt.next = none ∧
      s2.heap[a.tail]? = some { nt with next := some b.entry }) ∧
  (∀ a, items.getLast? = some a →
    ∃ nt, s2.heap[a.tail]? = some nt ∧ nt.next = none) ∧
  (∀ (j : Nat) (a : StmtItem), items[j]? = some a →
    NextReach s2.heap a.entry a.tail) ∧
  (∀ p, (∀ (j : Nat) (a : StmtItem), items[j]? = some a → j + 1 < items.length →
    p ≠ a.tail) → s2.heap[p]? = sEnd.heap[p]?)

/-- The tokens of the statement list `a = 5 ; output a ;` followed by the closing
brace of its body. -/
def twoStmtTokens : List Token :=
  assignBareTokens ++ [mkToken TokenType.OUTPUT "output", mkToken TokenType.ID "a",
    mkToken TokenType.SEMICOLON ";", mkToken TokenType.RBRACE "\x7d"]

/-- The state `handleStmt` leaves after `a = 5 ;` of `twoStmtTokens`. -/
def twoStmtMid : ParserState :=
  finalState (stateAB []) (handleStmt 2 (stateAB twoStmtTokens))

/-- The state `handleStmt` leaves after `output a ;` of `twoStmtTokens`. -/
def twoStmtEnd : ParserState :=
  finalState (stateAB []) (handleStmt 1 twoStmtMid)

/-! # Theorems -/

theorem NextReach.append {h : List InstructionNode} {a b c : Nat}
    (h1 : NextReach h a b) (h2 : NextReach h b c) : NextReach h a c := by
  induction h1 with
  | refl => exact h2
  | step hn hx _ ih => exact NextReach.step hn hx (ih h2)

theorem NextReach.snoc {h : List InstructionNode} {a b c : Nat} {n : InstructionNode}
    (h1 : NextReach h a b) (hn : h[b]? = some n) (hx : n.next = some c) :
    NextReach h a c :=
  h1.append (NextReach.step hn hx (NextReach.refl c))

theorem NextReach.in_region {h : List InstructionNode} {lo hi a t : Nat}
    (hc : RegionClosed lo hi h) (hr : NextReach h a t) (ha : lo ≤ a ∧ a < hi) :
    lo ≤ t ∧ t < hi := by
  induction hr with
  | refl => exact ha
  | step hn hx _ ih => exact ih ((hc _ _ ha.1 ha.2 hn).1 _ hx)

theorem NextReach.congr_region {h h2 : List InstructionNode} {lo hi a t : Nat}
    (hc : RegionClosed lo hi h) (hag : ∀ i, lo ≤ i → i < hi → h2[i]? = h[i]?)
    (hr : NextReach h a t) (ha : lo ≤ a ∧ a < hi) : NextReach h2 a t := by
  induction hr with
  | refl => exact NextReach.refl _
  | step hn hx _ ih =>
    have hb := (hc _ _ ha.1 ha.2 hn).1 _ hx
    exact NextReach.step ((hag _ ha.1 ha.2).trans hn) hx (ih hb)

theorem NextReach.modify_tail {h : List InstructionNode} {a t : Nat}
    {nt : InstructionNode} (f : InstructionNode → InstructionNode)
    (hr : NextReach h a t) (ht : h[t]? = some nt) (htn : nt.next = none) :
    NextReach (List.modify f t h) a t := by
  induction hr with
  | refl => exact NextReach.refl _
  | @step a b c n hn hx _ ih =>
    have hne : c ≠ a := by
      intro hEq
      subst hEq
      rw [hn] at ht
      cases ht
      rw [hx] at htn
      cases htn
    refine NextReach.step ?_ hx (ih ht)
    rw [List.getElem?_modify, hn]
    simp [hne]

theorem walkToTail_spec :
    ∀ (fuel : Nat) (h : List InstructionNode) (a t : Nat),
      walkToTail fuel h a = .ok t →
      NextReach h a t ∧ ∃ n, h[t]? = some n ∧ n.next = none := by
  intro fuel
  induction fuel with
  | zero =>
    intro h a t hw
    unfold walkToTail at hw
    split at hw
    · cases hw
    · rename_i n hn
      split at hw
      · rename_i hx
        cases hw
        exact ⟨NextReach.refl _, n, hn, hx⟩
      · cases hw
  | succ fuel ih =>
    intro h a t hw
    unfold walkToTail at hw
    split at hw
    · cases hw
    · rename_i n hn
      split at hw
      · rename_i hx
        cases hw
        exact ⟨NextReach.refl _, n, hn, hx⟩
      · rename_i nx hx
        obtain ⟨hr, hfin⟩ := ih h nx t hw
        exact ⟨NextReach.step hn hx hr, hfin⟩

theorem Ext.refl (h : List InstructionNode) : Ext h h := by
  refine ⟨le_refl _, fun _ _ => rfl, ?_⟩
  intro i n hlo hhi
  omega

theorem Ext.compose {h h1 h2 : List InstructionNode} (a : Ext h h1) (b : Ext h1 h2) :
    Ext h h2 := by
  obtain ⟨al, ao, ac⟩ := a
  obtain ⟨bl, bo, bc⟩ := b
  refine ⟨le_trans al bl, ?_, ?_⟩
  · intro i hi
    rw [bo i (lt_of_lt_of_le hi al), ao i hi]
  · intro i n hlo hhi hn
    by_cases hi : i < h1.length
    · rw [bo i hi] at hn
      obtain ⟨c1, c2⟩ := ac i n hlo hi hn
      exact ⟨fun p hp => ⟨(c1 p hp).1, lt_of_lt_of_le (c1 p hp).2 bl⟩,
        fun p hp => ⟨(c2 p hp).1, lt_of_lt_of_le (c2 p hp).2 bl⟩⟩
    · have hi2 : h1.length ≤ i := Nat.le_of_not_lt hi
      obtain ⟨c1, c2⟩ := bc i n hi2 hhi hn
      exact ⟨fun p hp => ⟨le_trans al (c1 p hp).1, (c1 p hp).2⟩,
        fun p hp => ⟨le_trans al (c2 p hp).1, (c2 p hp).2⟩⟩

theorem Ext.push {h h1 : List InstructionNode} (a : Ext h h1) (n : InstructionNode)
    (hx : ∀ p, n.next = some p → h.length ≤ p ∧ p < h1.length + 1)
    (ht : ∀ p, n.target = some p → h.length ≤ p ∧ p < h1.length + 1) :
    Ext h (h1 ++ [n]) := by
  obtain ⟨al, ao, ac⟩ := a
  refine ⟨by simp; omega, ?_, ?_⟩
  · intro i hi
    rw [List.getElem?_append_left (lt_of_lt_of_le hi al), ao i hi]
  · intro i m hlo hhi hm
    simp only [List.length_append, List.length_singleton] at hhi ⊢
    by_cases hi : i < h1.length
    · rw [List.getElem?_append_left hi] at hm
      obtain ⟨c1, c2⟩ := ac i m hlo hi hm
      exact ⟨fun p hp => ⟨(c1 p hp).1, by have := (c1 p hp).2; omega⟩,
        fun p hp => ⟨(c2 p hp).1, by have := (c2 p hp).2; omega⟩⟩
    · have hi2 : i = h1.length := by omega
      subst hi2
      rw [List.getElem?_concat_length] at hm
      cases hm
      exact ⟨hx, ht⟩

theorem Ext.modify {h h1 : List InstructionNode} (a : Ext h h1) (p : Nat)
    (f : InstructionNode → InstructionNode) (hp : h.length ≤ p)
    (hx : ∀ n q, (f n).next = some q →
      n.next = some q ∨ (h.length ≤ q ∧ q < h1.length))
    (ht : ∀ n q, (f n).target = some q →
      n.target = some q ∨ (h.length ≤ q ∧ q < h1.length)) :
    Ext h (List.modify f p h1) := by
  obtain ⟨al, ao, ac⟩ := a
  refine ⟨by simp; omega, ?_, ?_⟩
  · intro i hi
    rw [List.getElem?_modify, ← ao i hi]
    have hne : p ≠ i := by omega
    cases h1[i]? <;> simp [hne]
  · intro i m hlo hhi hm
    simp only [List.length_modify] at hhi ⊢
    rw [List.getElem?_modify] at hm
    cases hn : h1[i]? with
    | none => rw [hn] at hm; cases hm
    | some n =>
      rw [hn] at hm
      obtain ⟨c1, c2⟩ := ac i n hlo hhi hn
      by_cases hpi : p = i
      · simp [hpi] at hm
        subst hm
        refine ⟨fun q hq => ?_, fun q hq => ?_⟩
        · rcases hx n q hq with h0 | h0
          · exact c1 q h0
          · exact h0
        · rcases ht n q hq with h0 | h0
          · exact c2 q h0
          · exact h0
      · simp [hpi] at hm
        subst hm
        exact ⟨c1, c2⟩

/-! ## Effect of the leaf procedures on the heap -/

theorem modify_concat_length (f : InstructionNode → InstructionNode)
    (l : List InstructionNode) (x : InstructionNode) :
    List.modify f l.length (l ++ [x]) = l ++ [f x] := by
  induction l with
  | nil => rfl
  | cons a l ih => simp [List.modify_succ_cons, ih]

theorem eq_ok_of_returned {α : Type} (d : ParserState) {r : Res α} {v : α}
    (h : returned r = some v) : r = .ok (v, finalState d r) := by
  cases r with
  | error e => cases h
  | ok p =>
    obtain ⟨x, s⟩ := p
    simp only [returned, Option.some.injEq] at h
    subst h
    rfl

theorem GetToken_heap (s : ParserState) : (GetToken s).2.heap = s.heap := by
  unfold GetToken
  split <;> rfl

theorem verifyToken_heap {e : TokenType} {s s2 : ParserState} {t : Token}
    (h : verifyToken e s = .ok (t, s2)) : s2.heap = s.heap := by
  unfold verifyToken at h
  simp only at h
  split at h
  · cases h
  · cases h
    exact GetToken_heap s

theorem findVarLocation_state {name : String} {s s2 : ParserState} {l : Nat}
    (h : findVarLocation name s = .ok (l, s2)) :
    s2 = s ∧ mapFind s.varLocations name = some l := by
  unfold findVarLocation at h
  split at h
  · cases h
  · rename_i loc hl
    cases h
    exact ⟨rfl, hl⟩

theorem getPrimaryValue_heap {s s2 : ParserState} {l : Nat}
    (h : getPrimaryValue s = .ok (l, s2)) : s2.heap = s.heap := by
  unfold getPrimaryValue at h
  simp only at h
  split at h
  · rw [(findVarLocation_state h).1]
    exact GetToken_heap s
  · split at h
    · split at h
      · cases h
      · cases h
        exact GetToken_heap s
    · cases h

theorem getOperator_heap {s s2 : ParserState} {o : ArithmeticOperatorType}
    (h : getOperator s = .ok (o, s2)) : s2.heap = s.heap := by
  unfold getOperator at h
  simp only at h
  split at h <;> cases h <;> exact GetToken_heap s

theorem getRelationalOp_heap {s s2 : ParserState} {o : ConditionalOperatorType}
    (h : getRelationalOp s = .ok (o, s2)) : s2.heap = s.heap := by
  unfold getRelationalOp at h
  simp only at h
  repeat' split at h
  all_goals cases h
  all_goals exact GetToken_heap s

theorem processExpression_heap {s s2 : ParserState}
    {r : Nat × ArithmeticOperatorType × Nat}
    (h : processExpression s = .ok (r, s2)) : s2.heap = s.heap := by
  unfold processExpression at h
  split at h
  · cases h
  · rename_i first s1 h1
    split at h
    · cases h
    · rename_i oper s3 h2
      split at h
      · cases h
      · rename_i second s4 h3
        cases h
        rw [getPrimaryValue_heap h3, getOperator_heap h2, getPrimaryValue_heap h1]

theorem checkCondition_heap {s s2 : ParserState}
    {r : ConditionalOperatorType × Nat × Nat}
    (h : checkCondition s = .ok (r, s2)) : s2.heap = s.heap := by
  unfold checkCondition at h
  split at h
  · cases h
  · rename_i first s1 h1
    split at h
    · cases h
    · rename_i oper s3 h2
      split at h
      · cases h
      · rename_i second s4 h3
        cases h
        rw [getPrimaryValue_heap h3, getRelationalOp_heap h2, getPrimaryValue_heap h1]

theorem storeConstant_heap (v : Int) (s : ParserState) :
    (storeConstant v s).2.heap = s.heap := rfl

/-- A successful `createAssignNode` appends exactly one node, an `ASSIGN` node with
no `next` and no `target`, and returns its address. -/
theorem createAssignNode_heap {s s2 : ParserState} {e : Nat}
    (h : createAssignNode s = .ok (e, s2)) :
    e = s.heap.length ∧ ∃ n, s2.heap = s.heap ++ [n] ∧
      n.type = InstructionType.ASSIGN ∧ n.next = none ∧ n.target = none := by
  unfold createAssignNode at h
  simp only [newNode] at h
  split at h
  · cases h
  · rename_i var s1 h1
    have e1 := verifyToken_heap h1
    split at h
    · cases h
    · rename_i lhs s2a h2
      obtain ⟨e2, -⟩ := findVarLocation_state h2
      subst e2
      split at h
      · cases h
      · rename_i x s4 h4
        have e4 := verifyToken_heap h4
        simp only [setNode] at e4
        split at h
        · split at h
          · cases h
          · rename_i p s5 h5
            have e5 := getPrimaryValue_heap h5
            split at h
            · cases h
            · rename_i y s8 h8
              have e8 := verifyToken_heap h8
              cases h
              refine ⟨rfl, ?_⟩
              simp only [setNode] at e8
              rw [e8, e5, e4, e1]
              simp only [modify_concat_length]
              exact ⟨_, rfl, rfl, rfl, rfl⟩
        · split at h
          · cases h
          · rename_i r s5 h5
            have e5 := processExpression_heap h5
            split at h
            · cases h
            · rename_i y s9 h9
              have e9 := verifyToken_heap h9
              cases h
              refine ⟨rfl, ?_⟩
              simp only [setNode] at e9
              rw [e9, e5, e4, e1]
              simp only [modify_concat_length]
              exact ⟨_, rfl, rfl, rfl, rfl⟩

theorem makeOutputNode_heap {s s2 : ParserState} {e : Nat}
    (h : makeOutputNode s = .ok (e, s2)) :
    e = s.heap.length ∧ ∃ n, s2.heap = s.heap ++ [n] ∧
      n.type = InstructionType.OUT ∧ n.next = none ∧ n.target = none := by
  unfold makeOutputNode at h
  simp only [newNode] at h
  split at h
  · cases h
  · rename_i x s1 h1
    have e1 := verifyToken_heap h1
    split at h
    · cases h
    · rename_i var s2a h2
      have e2 := verifyToken_heap h2
      split at h
      · cases h
      · rename_i loc s3 h3
        obtain ⟨e3, -⟩ := findVarLocation_state h3
        subst e3
        split at h
        · cases h
        · rename_i y s5 h5
          have e5 := verifyToken_heap h5
          cases h
          refine ⟨rfl, ?_⟩
          simp only [setNode] at e5
          rw [e5, e2, e1]
          simp only [modify_concat_length]
          exact ⟨_, rfl, rfl, rfl, rfl⟩

theorem makeInputNode_heap {s s2 : ParserState} {e : Nat}
    (h : makeInputNode s = .ok (e, s2)) :
    e = s.heap.length ∧ ∃ n, s2.heap = s.heap ++ [n] ∧
      n.type = InstructionType.IN ∧ n.next = none ∧ n.target = none := by
  unfold makeInputNode at h
  simp only [newNode] at h
  split at h
  · cases h
  · rename_i x s1 h1
    have e1 := verifyToken_heap h1
    split at h
    · cases h
    · rename_i var s2a h2
      have e2 := verifyToken_heap h2
      split at h
      · cases h
      · rename_i loc s3 h3
        obtain ⟨e3, -⟩ := findVarLocation_state h3
        subst e3
        split at h
        · cases h
        · rename_i y s5 h5
          have e5 := verifyToken_heap h5
          cases h
          refine ⟨rfl, ?_⟩
          simp only [setNode] at e5
          rw [e5, e2, e1]
          simp only [modify_concat_length]
          exact ⟨_, rfl, rfl, rfl, rfl⟩

/-! ## Every statement procedure extends the heap by a closed region -/

theorem Built.single {h h2 : List InstructionNode} {e : Nat} {n : InstructionNode}
    (he : e = h.length) (hh : h2 = h ++ [n]) (hx : n.next = none)
    (ht : n.target = none) : Built h h2 e := by
  subst he hh
  refine ⟨Ext.push (Ext.refl h) n ?_ ?_, le_refl _, by simp⟩
  · intro p hp
    rw [hx] at hp
    cases hp
  · intro p hp
    rw [ht] at hp
    cases hp

theorem Ext.heap_setNext {h : List InstructionNode} {s : ParserState} {p q : Nat}
    (a : Ext h s.heap) (hp : h.length ≤ p) (hq : h.length ≤ q ∧ q < s.heap.length) :
    Ext h (setNext p (some q) s).heap := by
  refine Ext.modify a p _ hp ?_ ?_
  · intro n r hr
    simp only [Option.some.injEq] at hr
    subst hr
    exact Or.inr hq
  · intro n r hr
    exact Or.inl hr

theorem Ext.heap_setTarget {h : List InstructionNode} {s : ParserState} {p q : Nat}
    (a : Ext h s.heap) (hp : h.length ≤ p) (hq : h.length ≤ q ∧ q < s.heap.length) :
    Ext h (setTarget p (some q) s).heap := by
  refine Ext.modify a p _ hp ?_ ?_
  · intro n r hr
    exact Or.inl hr
  · intro n r hr
    simp only [Option.some.injEq] at hr
    subst hr
    exact Or.inr hq

theorem Ext.heap_setCond {h : List InstructionNode} {s : ParserState} {p : Nat}
    (c : ConditionalOperatorType) (l r : Nat)
    (a : Ext h s.heap) (hp : h.length ≤ p) : Ext h (setCond p c l r s).heap := by
  refine Ext.modify a p _ hp ?_ ?_
  · intro n r hr
    exact Or.inl hr
  · intro n r hr
    exact Or.inl hr

/-- The tail found by a walk that starts inside the added region lies inside it, and
linking a node of the region there keeps the extension. -/
theorem Ext.walk {h h1 : List InstructionNode} {fuel start t : Nat}
    (a : Ext h h1) (hs : h.length ≤ start ∧ start < h1.length)
    (hw : walkToTail fuel h1 start = .ok t) :
    h.length ≤ t ∧ t < h1.length :=
  (walkToTail_spec fuel h1 start t hw).1.in_region a.2.2 hs

theorem Ext.heap_link {h : List InstructionNode} {s s2 : ParserState} {start nw : Nat}
    (a : Ext h s.heap) (hs : h.length ≤ start ∧ start < s.heap.length)
    (hn : h.length ≤ nw ∧ nw < s.heap.length)
    (hl : linkNodes (some start) nw s = .ok s2) : Ext h s2.heap := by
  unfold linkNodes at hl
  simp only at hl
  split at hl
  · cases hl
  · rename_i cur hw
    cases hl
    exact Ext.heap_setNext a (Ext.walk a hs hw).1 hn

theorem length_setNode (p : Nat) (f : InstructionNode → InstructionNode)
    (s : ParserState) : (setNode p f s).heap.length = s.heap.length := by
  simp [setNode]

theorem length_setNext (p : Nat) (v : Option Nat) (s : ParserState) :
    (setNext p v s).heap.length = s.heap.length := length_setNode _ _ _

theorem length_setTarget (p : Nat) (v : Option Nat) (s : ParserState) :
    (setTarget p v s).heap.length = s.heap.length := length_setNode _ _ _

theorem length_setCond (p : Nat) (c : ConditionalOperatorType) (l r : Nat)
    (s : ParserState) : (setCond p c l r s).heap.length = s.heap.length :=
  length_setNode _ _ _

theorem length_linkNodes {s s2 : ParserState} {start : Option Nat} {nw : Nat}
    (hl : linkNodes start nw s = .ok s2) : s2.heap.length = s.heap.length := by
  unfold linkNodes at hl
  split at hl
  · cases hl
    rfl
  · split at hl
    · cases hl
    · cases hl
      exact length_setNext _ _ _

theorem getBodyCode_step (fuel : Nat) (ih : BuildsRegion (buildStmtList fuel)) :
    BuildsRegion (getBodyCode (fuel + 1)) := by
  intro s e s2 h
  rw [getBodyCode] at h
  split at h
  · cases h
  · rename_i x s1 h1
    split at h
    · cases h
    · rename_i st s2a h2
      split at h
      · cases h
      · rename_i y s3 h3
        cases h
        have b := ih _ _ _ h2
        rw [verifyToken_heap h1] at b
        rw [verifyToken_heap h3]
        exact b

theorem buildStmtList_step (fuel : Nat) (ihs : BuildsRegion (handleStmt fuel))
    (ihl : BuildsRegion (buildStmtList fuel)) :
    BuildsRegion (buildStmtList (fuel + 1)) := by
  intro s e s2 h
  rw [buildStmtList] at h
  split at h
  · cases h
  · rename_i firstNode s1 h1
    have b1 := ihs _ _ _ h1
    simp only at h
    split at h
    · split at h
      · cases h
      · rename_i restNodes s2a h2
        have b2 := ihl _ _ _ h2
        split at h
        · cases h
        · rename_i current hw
          simp only [Except.ok.injEq, Prod.mk.injEq] at h
          obtain ⟨rfl, rfl⟩ := h
          have a : Ext s.heap s2a.heap := b1.1.compose b2.1
          have hf : s.heap.length ≤ firstNode ∧ firstNode < s2a.heap.length :=
            ⟨b1.2.1, lt_of_lt_of_le b1.2.2 b2.1.1⟩
          have hr : s.heap.length ≤ restNodes ∧ restNodes < s2a.heap.length :=
            ⟨le_trans b1.1.1 b2.2.1, b2.2.2⟩
          refine ⟨Ext.heap_setNext a (Ext.walk a hf hw).1 hr, hf.1, ?_⟩
          rw [length_setNext]
          exact hf.2
    · cases h
      exact b1

theorem buildWhileLoop_step (fuel : Nat) (ih : BuildsRegion (getBodyCode fuel)) :
    BuildsRegion (buildWhileLoop (fuel + 1)) := by
  intro s e s2 h
  rw [buildWhileLoop] at h
  simp only [newNode, makeNoop] at h
  split at h
  · cases h
  · rename_i x s1 h1
    have e1 := verifyToken_heap h1
    split at h
    · cases h
    · rename_i condOp left right s2a h2
      have e2 := checkCondition_heap h2
      simp only at e1
      split at h
      · cases h
      · rename_i bodyCode s4 h4
        have b4 := ih _ _ _ h4
        split at h
        · cases h
        · rename_i s7 h7
          cases h
          have a0 : Ext s.heap s2a.heap := by
            rw [e2, e1]
            refine Ext.push (Ext.refl _) _ ?_ ?_ <;> intro p hp <;> cases hp
          have l2 : s2a.heap.length = s.heap.length + 1 := by
            rw [e2, e1]
            simp
          have a3 : Ext s.heap (setCond s.heap.length condOp left right s2a).heap :=
            Ext.heap_setCond _ _ _ a0 (le_refl _)
          have l3 := length_setCond s.heap.length condOp left right s2a
          have a4 : Ext s.heap s4.heap := a3.compose b4.1
          have hb : s.heap.length ≤ bodyCode ∧ bodyCode < s4.heap.length :=
            ⟨by have := b4.2.1; omega, b4.2.2⟩
          have a5 : Ext s.heap (setNext s.heap.length (some bodyCode) s4).heap :=
            Ext.heap_setNext a4 (le_refl _) hb
          have l5 := length_setNext s.heap.length (some bodyCode) s4
          have l4 : s.heap.length < s4.heap.length := by
            have := b4.1.1
            omega
          have a6 := Ext.push a5
            { type := InstructionType.JMP, target := some s.heap.length
              next := none }
            (by intro p hp; cases hp)
            (by
              intro p hp
              cases hp
              exact ⟨le_refl _, by omega⟩)
          have a7 := Ext.heap_link (s := { s4 with heap :=
              (setNext s.heap.length (some bodyCode) s4).heap ++
                [{ type := InstructionType.JMP, target := some s.heap.length
                   next := none }] }) a6
            (by simp only [List.length_append, l5, List.length_singleton]; omega)
            (by simp only [List.length_append, l5, List.length_singleton]; omega) h7
          have l7 := length_linkNodes h7
          simp only [List.length_append, l5, List.length_singleton] at l7
          have a8 := Ext.push a7 { type := InstructionType.NOOP, next := none }
            (by intro p hp; cases hp) (by intro p hp; cases hp)
          have a9 := Ext.heap_setTarget (s := { s7 with heap := s7.heap ++
              [{ type := InstructionType.NOOP, next := none }] })
            (p := s.heap.length) (q := s7.heap.length) a8 (le_refl _)
            (by simp only [List.length_append, List.length_singleton]; omega)
          have a10 := Ext.heap_setNext (p := s4.heap.length) (q := s7.heap.length) a9
            (by omega)
            (by
              rw [length_setTarget]
              simp only [List.length_append, List.length_singleton]
              omega)
          refine ⟨?_, le_refl _, ?_⟩
          · simpa only [l5] using a10
          · rw [length_setNext, length_setTarget]
            simp only [List.length_append, List.length_singleton]
            omega

theorem linkNodes_some {s s2 : ParserState} {start nw : Nat}
    (hl : linkNodes (some start) nw s = .ok s2) :
    ∃ t, walkToTail s.heap.length s.heap start = .ok t ∧
      s2 = setNext t (some nw) s := by
  unfold linkNodes at hl
  simp only at hl
  split at hl
  · cases hl
  · rename_i cur hw
    cases hl
    exact ⟨cur, hw, rfl⟩

/-- The steps of a successful `handleIfStmt`, in the order of the source. -/
theorem handleIfStmt_inv {fuel : Nat} {s s2 : ParserState} {e : Nat}
    (h : handleIfStmt (fuel + 1) s = .ok (e, s2)) :
    ∃ tok s1 condOp left right sc bodyCode s4 t,
      verifyToken TokenType.IF
        (newNode { type := InstructionType.CJMP, next := none } s).2 = .ok (tok, s1) ∧
      checkCondition s1 = .ok ((condOp, left, right), sc) ∧
      getBodyCode fuel (setCond s.heap.length condOp left right sc) =
        .ok (bodyCode, s4) ∧
      walkToTail
        (setTarget s.heap.length (some s4.heap.length)
          (makeNoop (setNext s.heap.length (some bodyCode) s4)).2).heap.length
        (setTarget s.heap.length (some s4.heap.length)
          (makeNoop (setNext s.heap.length (some bodyCode) s4)).2).heap bodyCode =
        .ok t ∧
      e = s.heap.length ∧
      s2 = setNext t (some s4.heap.length)
        (setTarget s.heap.length (some s4.heap.length)
          (makeNoop (setNext s.heap.length (some bodyCode) s4)).2) := by
  rw [handleIfStmt] at h
  simp only [newNode, makeNoop] at h
  split at h
  · cases h
  · rename_i tok s1 h1
    split at h
    · cases h
    · rename_i condOp left right sc h2
      split at h
      · cases h
      · rename_i bodyCode s4 h4
        split at h
        · cases h
        · rename_i s8 h8
          obtain ⟨t, hw, hs⟩ := linkNodes_some h8
          have hlen : (setNext s.heap.length (some bodyCode) s4).heap.length =
              s4.heap.length := length_setNext _ _ _
          rw [hlen] at hw hs
          simp only [Except.ok.injEq, Prod.mk.injEq] at h
          obtain ⟨rfl, rfl⟩ := h
          exact ⟨tok, s1, condOp, left, right, sc, bodyCode, s4, t, h1, h2, h4, hw,
            rfl, hs⟩

theorem RegionClosed.of_agree {h h1 : List InstructionNode} {lo hi : Nat}
    (hc : RegionClosed lo hi h) (hag : ∀ i, lo ≤ i → i < hi → h1[i]? = h[i]?) :
    RegionClosed lo hi h1 := by
  intro i n hlo hhi hn
  rw [hag i hlo hhi] at hn
  exact hc i n hlo hhi hn

/-- Attaching a node at the tail of a subgraph.  The subgraph occupies the closed
region `[lo, hi)` of heap `h`; the walk runs in a heap `h1` that agrees with `h` on the
region.  The tail `t` it finds is the last node of the `next` chain of the subgraph
in `h`, and after the store `t->next = N` the chain from `start` ends at `N`. -/
theorem attach_tail {h h1 : List InstructionNode} {lo hi start t fuel : Nat}
    (N : Nat) (hc : RegionClosed lo hi h)
    (hag : ∀ i, lo ≤ i → i < hi → h1[i]? = h[i]?)
    (hs : lo ≤ start ∧ start < hi)
    (hw : walkToTail fuel h1 start = .ok t) :
    (lo ≤ t ∧ t < hi) ∧ NextReach h start t ∧
    ∃ nt, h[t]? = some nt ∧ nt.next = none ∧
      (List.modify (fun n => { n with next := some N }) t h1)[t]? =
        some { nt with next := some N } ∧
      NextReach (List.modify (fun n => { n with next := some N }) t h1) start t ∧
      NextReach (List.modify (fun n => { n with next := some N }) t h1) start N := by
  have hc1 : RegionClosed lo hi h1 := hc.of_agree hag
  obtain ⟨hr, nt, hnt, hnx⟩ := walkToTail_spec fuel h1 start t hw
  have ht := hr.in_region hc1 hs
  have hr0 : NextReach h start t :=
    hr.congr_region hc1 (fun i hlo hhi => (hag i hlo hhi).symm) hs
  have hmt : (List.modify (fun n => { n with next := some N }) t h1)[t]? =
      some { nt with next := some N } := by
    rw [List.getElem?_modify, hnt]
    simp
  have hr1 := hr.modify_tail (fun n => { n with next := some N }) hnt hnx
  refine ⟨ht, hr0, nt, ?_, hnx, hmt, hr1, hr1.snoc hmt rfl⟩
  rw [← hag t ht.1 ht.2]
  exact hnt

/-- The heap on which `handleIfStmt` and `buildWhileLoop` call `getBodyCode`: the
heap of the caller plus the conditional-jump node with its relation and operands. -/
theorem cond_prefix_heap {s s1 sc : ParserState} {tok : Token} {ty : TokenType}
    {cond : ConditionalOperatorType} {l r : Nat}
    (h1 : verifyToken ty
      (newNode { type := InstructionType.CJMP, next := none } s).2 = .ok (tok, s1))
    (h2 : checkCondition s1 = .ok ((cond, l, r), sc)) :
    (setCond s.heap.length cond l r sc).heap =
      s.heap ++ [cjmpNode cond l r none none] := by
  have e1 := verifyToken_heap h1
  have e2 := checkCondition_heap h2
  simp only [newNode] at e1
  simp only [setCond, setNode, e2, e1, modify_concat_length]

theorem handleIfStmt_step (fuel : Nat) (ih : BuildsRegion (getBodyCode fuel)) :
    BuildsRegion (handleIfStmt (fuel + 1)) := by
  intro s e s2 h
  obtain ⟨tok, s1, cond, l, r, sc, body, s4, t, h1, h2, h4, hw, rfl, rfl⟩ :=
    handleIfStmt_inv h
  have b4 := ih _ _ _ h4
  have e3 := cond_prefix_heap h1 h2
  rw [e3] at b4
  have l3 : (s.heap ++ [cjmpNode cond l r none none]).length = s.heap.length + 1 := by
    simp
  have a0 : Ext s.heap (s.heap ++ [cjmpNode cond l r none none]) := by
    refine Ext.push (Ext.refl _) _ ?_ ?_ <;> intro p hp <;> cases hp
  have a4 : Ext s.heap s4.heap := a0.compose b4.1
  have hb : s.heap.length ≤ body ∧ body < s4.heap.length :=
    ⟨by have := b4.2.1; omega, b4.2.2⟩
  have hlt : s.heap.length < s4.heap.length := by
    have := b4.1.1
    omega
  have a5 := Ext.heap_setNext a4 (le_refl _) hb
  have a6 := Ext.push a5 noopNode
    (by intro p hp; cases hp) (by intro p hp; cases hp)
  have a7 : Ext s.heap (setTarget s.heap.length (some s4.heap.length)
      (makeNoop (setNext s.heap.length (some body) s4)).2).heap :=
    Ext.heap_setTarget (s := (makeNoop (setNext s.heap.length (some body) s4)).2)
      a6 (le_refl _) (by simp [makeNoop, newNode, length_setNext]; omega)
  have l7 : (setTarget s.heap.length (some s4.heap.length)
      (makeNoop (setNext s.heap.length (some body) s4)).2).heap.length =
      s4.heap.length + 1 := by
    simp [makeNoop, newNode, length_setNext, length_setTarget]
  have ht := Ext.walk a7 (by rw [l7]; omega) hw
  refine ⟨Ext.heap_setNext a7 ht.1 (by rw [l7]; omega), le_refl _, ?_⟩
  rw [length_setNext, l7]
  omega

/-- The steps of a successful `buildWhileLoop`, in the order of the source. -/
theorem buildWhileLoop_inv {fuel : Nat} {s s2 : ParserState} {e : Nat}
    (h : buildWhileLoop (fuel + 1) s = .ok (e, s2)) :
    ∃ tok s1 condOp left right sc bodyCode s4 t,
      verifyToken TokenType.WHILE
        (newNode { type := InstructionType.CJMP, next := none } s).2 = .ok (tok, s1) ∧
      checkCondition s1 = .ok ((condOp, left, right), sc) ∧
      getBodyCode fuel (setCond s.heap.length condOp left right sc) =
        .ok (bodyCode, s4) ∧
      walkToTail
        (newNode (jmpNode none (some s.heap.length))
          (setNext s.heap.length (some bodyCode) s4)).2.heap.length
        (newNode (jmpNode none (some s.heap.length))
          (setNext s.heap.length (some bodyCode) s4)).2.heap bodyCode = .ok t ∧
      e = s.heap.length ∧
      s2 = setNext s4.heap.length (some (s4.heap.length + 1))
        (setTarget s.heap.length (some (s4.heap.length + 1))
          (makeNoop (setNext t (some s4.heap.length)
            (newNode (jmpNode none (some s.heap.length))
              (setNext s.heap.length (some bodyCode) s4)).2)).2) := by
  rw [buildWhileLoop] at h
  simp only [newNode, makeNoop] at h
  split at h
  · cases h
  · rename_i tok s1 h1
    split at h
    · cases h
    · rename_i condOp left right sc h2
      split at h
      · cases h
      · rename_i bodyCode s4 h4
        split at h
        · cases h
        · rename_i s7 h7
          obtain ⟨t, hw, hs⟩ := linkNodes_some h7
          have hlen : (setNext s.heap.length (some bodyCode) s4).heap.length =
              s4.heap.length := length_setNext _ _ _
          rw [hlen] at hs
          subst hs
          simp only [Except.ok.injEq, Prod.mk.injEq] at h
          obtain ⟨rfl, rfl⟩ := h
          refine ⟨tok, s1, condOp, left, right, sc, bodyCode, s4, t, h1, h2, h4, hw,
            rfl, ?_⟩
          simp only [newNode, makeNoop, length_setNext, List.length_append,
            List.length_singleton, hlen]

/-- The steps of a successful `createForLoop`, in the order of the source. -/
theorem createForLoop_inv {fuel : Nat} {s s2 : ParserState} {e : Nat}
    (h : createForLoop (fuel + 1) s = .ok (e, s2)) :
    ∃ t1 s1 t2 sa init s3 cond left right s4 t5 s5 update s6 t7 s7 body s9 t,
      verifyToken TokenType.FOR s = .ok (t1, s1) ∧
      verifyToken TokenType.LPAREN s1 = .ok (t2, sa) ∧
      createAssignNode sa = .ok (init, s3) ∧
      checkCondition s3 = .ok ((cond, left, right), s4) ∧
      verifyToken TokenType.SEMICOLON s4 = .ok (t5, s5) ∧
      createAssignNode s5 = .ok (update, s6) ∧
      verifyToken TokenType.RPAREN s6 = .ok (t7, s7) ∧
      getBodyCode fuel (newNode (cjmpNode cond left right none none) s7).2 =
        .ok (body, s9) ∧
      walkToTail
        (setNext s7.heap.length (some body)
          (setNext init (some s7.heap.length) (makeNoop s9).2)).heap.length
        (setNext s7.heap.length (some body)
          (setNext init (some s7.heap.length) (makeNoop s9).2)).heap body = .ok t ∧
      e = init ∧
      s2 = setTarget s7.heap.length (some s9.heap.length)
        (setNext update (some (s9.heap.length + 1))
          (newNode (jmpNode (some s9.heap.length) (some s7.heap.length))
            (setNext t (some update)
              (setNext s7.heap.length (some body)
                (setNext init (some s7.heap.length) (makeNoop s9).2)))).2) := by
  rw [createForLoop] at h
  split at h
  · cases h
  · rename_i t1 s1 h1
    split at h
    · cases h
    · rename_i t2 sa h2
      split at h
      · cases h
      · rename_i init s3 h3
        split at h
        · cases h
        · rename_i cond left right s4 h4
          split at h
          · cases h
          · rename_i t5 s5 h5
            split at h
            · cases h
            · rename_i update s6 h6
              split at h
              · cases h
              · rename_i t7 s7 h7
                simp only [newNode, makeNoop] at h
                split at h
                · cases h
                · rename_i body s9 h9
                  split at h
                  · cases h
                  · rename_i s13 h13
                    obtain ⟨t, hw, hs⟩ := linkNodes_some h13
                    subst hs
                    simp only [Except.ok.injEq, Prod.mk.injEq] at h
                    obtain ⟨rfl, rfl⟩ := h
                    refine ⟨t1, s1, t2, sa, _, s3, cond, left, right, s4, t5, s5, update,
                      s6, t7, s7, body, s9, t, h1, h2, h3, h4, h5, h6, h7, h9, hw, rfl, ?_⟩
                    simp only [newNode, makeNoop, length_setNext, List.length_append,
                      List.length_singleton]

theorem newNode_fst (n : InstructionNode) (s : ParserState) :
    (newNode n s).1 = s.heap.length := rfl

theorem length_newNode (n : InstructionNode) (s : ParserState) :
    (newNode n s).2.heap.length = s.heap.length + 1 := by
  simp [newNode]

theorem length_makeNoop (s : ParserState) :
    (makeNoop s).2.heap.length = s.heap.length + 1 := length_newNode _ _

theorem Ext.heap_newNode {h : List InstructionNode} {s : ParserState}
    (a : Ext h s.heap) (n : InstructionNode)
    (hx : ∀ p, n.next = some p → h.length ≤ p ∧ p < s.heap.length + 1)
    (ht : ∀ p, n.target = some p → h.length ≤ p ∧ p < s.heap.length + 1) :
    Ext h (newNode n s).2.heap :=
  Ext.push a n hx ht

theorem Ext.heap_makeNoop {h : List InstructionNode} {s : ParserState}
    (a : Ext h s.heap) : Ext h (makeNoop s).2.heap :=
  Ext.push a _ (by intro p hp; cases hp) (by intro p hp; cases hp)

theorem createForLoop_step (fuel : Nat) (ih : BuildsRegion (getBodyCode fuel)) :
    BuildsRegion (createForLoop (fuel + 1)) := by
  intro s e s2 h
  obtain ⟨t1, s1, t2, sa, init, s3, cond, left, right, s4, t5, s5, update, s6, t7, s7,
    body, s9, t, h1, h2, h3, h4, h5, h6, h7, h9, hw, he, rfl⟩ := createForLoop_inv h
  subst he
  have ea : sa.heap = s.heap := by rw [verifyToken_heap h2, verifyToken_heap h1]
  obtain ⟨hi, ni, e3, -, nix, nit⟩ := createAssignNode_heap h3
  have e5 : s5.heap = s3.heap := by rw [verifyToken_heap h5, checkCondition_heap h4]
  obtain ⟨hu, nu, e6, -, nux, nut⟩ := createAssignNode_heap h6
  have e7 : s7.heap = s6.heap := verifyToken_heap h7
  have b9 := ih _ _ _ h9
  rw [ea] at hi e3
  rw [e5, e3] at hu e6
  rw [e6] at e7
  have l7 : s7.heap.length = s.heap.length + 2 := by simp [e7]
  have hul : update = s.heap.length + 1 := by simp [hu]
  have a7 : Ext s.heap s7.heap := by
    rw [e7]
    refine Ext.push (Ext.push (Ext.refl _) ni ?_ ?_) nu ?_ ?_ <;> intro p hp
    · rw [nix] at hp; cases hp
    · rw [nit] at hp; cases hp
    · rw [nux] at hp; cases hp
    · rw [nut] at hp; cases hp
  have a8 : Ext s.heap (newNode (cjmpNode cond left right none none) s7).2.heap :=
    Ext.heap_newNode a7 _ (by intro p hp; cases hp) (by intro p hp; cases hp)
  have a9 : Ext s.heap s9.heap := a8.compose b9.1
  have l9 : s.heap.length + 3 ≤ s9.heap.length := by
    have := b9.1.1
    rw [length_newNode] at this
    omega
  have hb : s.heap.length + 3 ≤ body ∧ body < s9.heap.length := by
    have := b9.2.1
    rw [length_newNode] at this
    exact ⟨by omega, b9.2.2⟩
  have a10 := Ext.heap_makeNoop a9
  have a11 := Ext.heap_setNext (p := e) (q := s7.heap.length) a10 (by omega)
    (by rw [length_makeNoop]; omega)
  have a12 := Ext.heap_setNext (p := s7.heap.length) (q := body) a11 (by omega)
    (by rw [length_setNext, length_makeNoop]; omega)
  have ht := Ext.walk a12
    (by rw [length_setNext, length_setNext, length_makeNoop]; omega) hw
  have a13 := Ext.heap_setNext (p := t) (q := update) a12 ht.1
    (by rw [length_setNext, length_setNext, length_makeNoop]; omega)
  have a14 := Ext.heap_newNode a13
    (jmpNode (some s9.heap.length) (some s7.heap.length))
    (by
      intro p hp
      cases hp
      rw [length_setNext, length_setNext, length_setNext, length_makeNoop]
      omega)
    (by
      intro p hp
      cases hp
      rw [length_setNext, length_setNext, length_setNext, length_makeNoop]
      omega)
  have a15 := Ext.heap_setNext (p := update) (q := s9.heap.length + 1) a14 (by omega)
    (by
      rw [length_newNode, length_setNext, length_setNext, length_setNext,
        length_makeNoop]
      omega)
  have a16 := Ext.heap_setTarget (p := s7.heap.length) (q := s9.heap.length) a15
    (by omega)
    (by
      rw [length_setNext, length_newNode, length_setNext, length_setNext,
        length_setNext, length_makeNoop]
      omega)
  refine ⟨a16, by omega, ?_⟩
  rw [length_setTarget, length_setNext, length_newNode, length_setNext, length_setNext,
    length_setNext, length_makeNoop]
  omega

theorem parseCases_step (fuel : Nat) (ihb : BuildsRegion (getBodyCode fuel))
    (ihc : CasesRegion fuel) : CasesRegion (fuel + 1) := by
  intro cv cb s cv2 cb2 s2 h
  rw [parseCases] at h
  split at h
  · split at h
    · cases h
    · rename_i t1 s1 h1
      split at h
      · cases h
      · rename_i num sn h2
        split at h
        · cases h
        · rename_i val hv
          simp only at h
          split at h
          · cases h
          · rename_i t4 s4 h4
            split at h
            · cases h
            · rename_i body s5 h5
              have b5 := ihb _ _ _ h5
              obtain ⟨a, nv, nb, hnv, hnb, hlen, hin⟩ := ihc _ _ _ _ _ _ h
              have e4 : s4.heap = s.heap := by
                rw [verifyToken_heap h4, storeConstant_heap, verifyToken_heap h2,
                  verifyToken_heap h1]
              rw [e4] at b5
              refine ⟨b5.1.compose a, [(storeConstant val sn).1] ++ nv, [body] ++ nb,
                ?_, ?_, ?_, ?_⟩
              · rw [hnv, List.append_assoc]
              · rw [hnb, List.append_assoc]
              · simp [hlen]
              · intro b hb
                rcases List.mem_append.1 hb with hb | hb
                · rw [List.mem_singleton] at hb
                  subst hb
                  exact ⟨b5.2.1, lt_of_lt_of_le b5.2.2 a.1⟩
                · exact ⟨le_trans b5.1.1 (hin b hb).1, (hin b hb).2⟩
  · simp only [Except.ok.injEq, Prod.mk.injEq] at h
    obtain ⟨⟨rfl, rfl⟩, rfl⟩ := h
    exact ⟨Ext.refl _, [], [], by simp, by simp, rfl, by simp⟩

theorem parseDefault_step (fuel : Nat) (ihb : BuildsRegion (getBodyCode fuel)) :
    DefaultRegion (fuel + 1) := by
  intro s d s2 h
  rw [parseDefault] at h
  split at h
  · split at h
    · cases h
    · rename_i t1 s1 h1
      split at h
      · cases h
      · rename_i t2 sb h2
        split at h
        · cases h
        · rename_i body s3 h3
          have b3 := ihb _ _ _ h3
          have e2 : sb.heap = s.heap := by
            rw [verifyToken_heap h2, verifyToken_heap h1]
          rw [e2] at b3
          simp only [Except.ok.injEq, Prod.mk.injEq] at h
          obtain ⟨rfl, rfl⟩ := h
          refine ⟨b3.1, ?_⟩
          intro b hb
          cases hb
          exact ⟨b3.2.1, b3.2.2⟩
  · simp only [Except.ok.injEq, Prod.mk.injEq] at h
    obtain ⟨rfl, rfl⟩ := h
    exact ⟨Ext.refl _, by intro b hb; cases hb⟩

theorem switchChain_ext {h0 : List InstructionNode} (sv X : Nat) (cv cb : List Nat) :
    ∀ (i nextNode : Nat) (s : ParserState) (e : Nat) (s2 : ParserState),
      Ext h0 s.heap →
      (∀ (j b : Nat), cb[j]? = some b → h0.length ≤ b ∧ b < s.heap.length) →
      (h0.length ≤ X ∧ X < s.heap.length) →
      (h0.length ≤ nextNode ∧ nextNode < s.heap.length) →
      switchChain sv X cv cb i nextNode s = .ok (e, s2) →
      Ext h0 s2.heap ∧ h0.length ≤ e ∧ e < s2.heap.length := by
  intro i
  induction i with
  | zero =>
    intro nextNode s e s2 a _ _ hn h
    rw [switchChain] at h
    simp only [Except.ok.injEq, Prod.mk.injEq] at h
    obtain ⟨rfl, rfl⟩ := h
    exact ⟨a, hn⟩
  | succ i ih =>
    intro nextNode s e s2 a hcb hX hn h
    rw [switchChain] at h
    split at h
    · rename_i body value hb hv
      simp only [newNode_fst] at h
      split at h
      · cases h
      · rename_i sl hl
        have hbr := hcb i body hb
        have a1 : Ext h0 (newNode (jmpNode none (some X)) s).2.heap :=
          Ext.heap_newNode a _ (by intro p hp; cases hp)
            (by intro p hp; cases hp; exact ⟨hX.1, by omega⟩)
        have a2 := Ext.heap_link (s := (newNode (jmpNode none (some X)) s).2) a1
          (by rw [length_newNode]; exact ⟨hbr.1, by omega⟩)
          (by rw [length_newNode]; exact ⟨by have := a.1; omega, by omega⟩) hl
        have l2 : sl.heap.length = s.heap.length + 1 := by
          rw [length_linkNodes hl, length_newNode]
        have a3 := Ext.heap_newNode a2
          (cjmpNode ConditionalOperatorType.CONDITION_NOTEQUAL sv value
            (some nextNode) (some body))
          (by intro p hp; cases hp; exact ⟨hn.1, by omega⟩)
          (by intro p hp; cases hp; exact ⟨hbr.1, by omega⟩)
        refine ih _ _ _ _ a3 ?_ ?_ ?_ h
        · intro j b hj
          have := hcb j b hj
          rw [length_newNode, l2]
          exact ⟨this.1, by omega⟩
        · rw [length_newNode, l2]
          exact ⟨hX.1, by omega⟩
        · rw [length_newNode, l2]
          exact ⟨by have := a.1; omega, by omega⟩
    · cases h

/-- The steps of a successful `processSwitch`, in the order of the source. -/
theorem processSwitch_inv {fuel : Nat} {s s2 : ParserState} {e : Nat}
    (h : processSwitch (fuel + 1) s = .ok (e, s2)) :
    ∃ t1 s1 t sb switchVar s3 t4 s4 caseValues caseBodies s5 defaultCase s6 t7 s7,
      verifyToken TokenType.SWITCH s = .ok (t1, s1) ∧
      verifyToken TokenType.ID s1 = .ok (t, sb) ∧
      findVarLocation t.lexeme sb = .ok (switchVar, s3) ∧
      verifyToken TokenType.LBRACE s3 = .ok (t4, s4) ∧
      parseCases fuel [] [] s4 = .ok ((caseValues, caseBodies), s5) ∧
      parseDefault fuel s5 = .ok (defaultCase, s6) ∧
      verifyToken TokenType.RBRACE s6 = .ok (t7, s7) ∧
      ((caseBodies = [] ∧ defaultCase = none ∧ e = s7.heap.length ∧
          s2 = (makeNoop s7).2) ∨
        (¬ (caseBodies = [] ∧ defaultCase = none) ∧
          ∃ s9, linkNodes defaultCase s7.heap.length (makeNoop s7).2 = .ok s9 ∧
            switchChain switchVar s7.heap.length caseValues caseBodies
              caseBodies.length (defaultCase.getD s7.heap.length) s9 = .ok (e, s2))) := by
  rw [processSwitch] at h
  split at h
  · cases h
  · rename_i t1 s1 h1
    split at h
    · cases h
    · rename_i t sb h2
      split at h
      · cases h
      · rename_i switchVar s3 h3
        split at h
        · cases h
        · rename_i t4 s4 h4
          split at h
          · cases h
          · rename_i caseValues caseBodies s5 h5
            split at h
            · cases h
            · rename_i defaultCase s6 h6
              split at h
              · cases h
              · rename_i t7 s7 h7
                refine ⟨t1, s1, t, sb, switchVar, s3, t4, s4, caseValues, caseBodies, s5,
                  defaultCase, s6, t7, s7, h1, h2, h3, h4, h5, h6, h7, ?_⟩
                simp only [makeNoop, newNode_fst] at h ⊢
                split at h
                · rename_i hc
                  simp only [Except.ok.injEq, Prod.mk.injEq] at h
                  exact Or.inl ⟨hc.1, hc.2, h.1.symm, h.2.symm⟩
                · rename_i hc
                  split at h
                  · cases h
                  · rename_i s9 h9
                    exact Or.inr ⟨hc, s9, h9, h⟩

theorem processSwitch_step (fuel : Nat) (ihc : CasesRegion fuel)
    (ihd : DefaultRegion fuel) : BuildsRegion (processSwitch (fuel + 1)) := by
  intro s e s2 h
  obtain ⟨t1, s1, t, sb, sv, s3, t4, s4, cv, cb, s5, d, s6, t7, s7, h1, h2, h3, h4, h5,
    h6, h7, hrest⟩ := processSwitch_inv h
  have e4 : s4.heap = s.heap := by
    rw [verifyToken_heap h4, (findVarLocation_state h3).1, verifyToken_heap h2,
      verifyToken_heap h1]
  obtain ⟨a5, nv, nb, hnv, hnb, hlen, hin⟩ := ihc _ _ _ _ _ _ h5
  obtain ⟨a6, hd⟩ := ihd _ _ _ h6
  have e7 : s7.heap = s6.heap := verifyToken_heap h7
  rw [e4] at a5 hin
  have a7 : Ext s.heap s7.heap := by
    rw [e7]
    exact a5.compose a6
  have a8 : Ext s.heap (makeNoop s7).2.heap := Ext.heap_makeNoop a7
  rcases hrest with ⟨-, -, rfl, rfl⟩ | ⟨-, s9, h9, hch⟩
  · exact ⟨a8, a7.1, by rw [length_makeNoop]; omega⟩
  · have hX : s.heap.length ≤ s7.heap.length ∧
        s7.heap.length < (makeNoop s7).2.heap.length :=
      ⟨a7.1, by rw [length_makeNoop]; omega⟩
    have l9 : s9.heap.length = s7.heap.length + 1 := by
      rw [length_linkNodes h9, length_makeNoop]
    have hdr : ∀ b, d = some b → s.heap.length ≤ b ∧ b < s7.heap.length := by
      intro b hb
      have := hd b hb
      rw [e7]
      exact ⟨le_trans a5.1 this.1, this.2⟩
    have a9 : Ext s.heap s9.heap := by
      cases d with
      | none =>
        simp only [linkNodes, Except.ok.injEq] at h9
        rw [← h9]
        exact a8
      | some b =>
        have := hdr b rfl
        exact Ext.heap_link a8 ⟨this.1, by rw [length_makeNoop]; omega⟩ hX h9
    refine switchChain_ext sv _ cv cb _ _ _ _ _ a9 ?_ ?_ ?_ hch
    · intro j b hj
      simp only [hnb, List.nil_append] at hj
      have hm : b ∈ nb := List.getElem?_mem hj
      have := hin b hm
      rw [l9, e7]
      exact ⟨this.1, by have := a6.1; omega⟩
    · rw [l9]
      exact ⟨a7.1, by omega⟩
    · rw [l9]
      cases d with
      | none => exact ⟨a7.1, by simp⟩
      | some b =>
        have := hdr b rfl
        exact ⟨this.1, by simp only [Option.getD_some]; omega⟩

theorem handleStmt_step (fuel : Nat) (ihw : BuildsRegion (buildWhileLoop fuel))
    (ihi : BuildsRegion (handleIfStmt fuel)) (ihs : BuildsRegion (processSwitch fuel))
    (ihf : BuildsRegion (createForLoop fuel)) :
    BuildsRegion (handleStmt (fuel + 1)) := by
  intro s e s2 h
  rw [handleStmt] at h
  split at h
  · obtain ⟨he, n, hh, -, hx, ht⟩ := createAssignNode_heap h
    exact Built.single he hh hx ht
  · exact ihw _ _ _ h
  · exact ihi _ _ _ h
  · exact ihs _ _ _ h
  · exact ihf _ _ _ h
  · obtain ⟨he, n, hh, -, hx, ht⟩ := makeOutputNode_heap h
    exact Built.single he hh hx ht
  · obtain ⟨he, n, hh, -, hx, ht⟩ := makeInputNode_heap h
    exact Built.single he hh hx ht
  · cases h

/-- Every procedure of the mutual recursion that succeeds leaves the nodes that
existed before the call untouched and adds a region closed under `next` and
`target` that holds the returned entry. -/
theorem builds_all (fuel : Nat) :
    BuildsRegion (getBodyCode fuel) ∧ BuildsRegion (buildStmtList fuel) ∧
    BuildsRegion (handleStmt fuel) ∧ BuildsRegion (buildWhileLoop fuel) ∧
    BuildsRegion (handleIfStmt fuel) ∧ CasesRegion fuel ∧
    BuildsRegion (processSwitch fuel) ∧ DefaultRegion fuel ∧
    BuildsRegion (createForLoop fuel) := by
  induction fuel with
  | zero =>
    refine ⟨?_, ?_, ?_, ?_, ?_, ?_, ?_, ?_, ?_⟩
    · intro s e s2 h; rw [getBodyCode] at h; cases h
    · intro s e s2 h; rw [buildStmtList] at h; cases h
    · intro s e s2 h; rw [handleStmt] at h; cases h
    · intro s e s2 h; rw [buildWhileLoop] at h; cases h
    · intro s e s2 h; rw [handleIfStmt] at h; cases h
    · intro cv cb s cv2 cb2 s2 h; rw [parseCases] at h; cases h
    · intro s e s2 h; rw [processSwitch] at h; cases h
    · intro s e s2 h; rw [parseDefault] at h; cases h
    · intro s e s2 h; rw [createForLoop] at h; cases h
  | succ fuel ih =>
    obtain ⟨ib, il, ist, iw, ii, ic, isw, idf, ifo⟩ := ih
    exact ⟨getBodyCode_step fuel il, buildStmtList_step fuel ist il,
      handleStmt_step fuel iw ii isw ifo, buildWhileLoop_step fuel ib,
      handleIfStmt_step fuel ib, parseCases_step fuel ib ic,
      processSwitch_step fuel ic idf, parseDefault_step fuel ib,
      createForLoop_step fuel ib⟩

theorem getBodyCode_built {fuel : Nat} {s s2 : ParserState} {e : Nat}
    (h : getBodyCode fuel s = .ok (e, s2)) : Built s.heap s2.heap e :=
  (builds_all fuel).1 s e s2 h

/-! ## Looking up nodes after stores and allocations -/

theorem get_setNode_ne {p i : Nat} (f : InstructionNode → InstructionNode)
    (s : ParserState) (hne : p ≠ i) : (setNode p f s).heap[i]? = s.heap[i]? := by
  simp only [setNode, List.getElem?_modify]
  cases s.heap[i]? <;> simp [hne]

theorem get_setNode_eq {p : Nat} (f : InstructionNode → InstructionNode)
    {s : ParserState} {n : InstructionNode} (hn : s.heap[p]? = some n) :
    (setNode p f s).heap[p]? = some (f n) := by
  simp only [setNode, List.getElem?_modify, hn]
  simp

theorem get_setNext_ne {p i : Nat} (v : Option Nat) (s : ParserState) (hne : p ≠ i) :
    (setNext p v s).heap[i]? = s.heap[i]? := get_setNode_ne _ s hne

theorem get_setNext_eq {p : Nat} (v : Option Nat) {s : ParserState}
    {n : InstructionNode} (hn : s.heap[p]? = some n) :
    (setNext p v s).heap[p]? = some { n with next := v } := get_setNode_eq _ hn

theorem get_setTarget_ne {p i : Nat} (v : Option Nat) (s : ParserState) (hne : p ≠ i) :
    (setTarget p v s).heap[i]? = s.heap[i]? := get_setNode_ne _ s hne

theorem get_setTarget_eq {p : Nat} (v : Option Nat) {s : ParserState}
    {n : InstructionNode} (hn : s.heap[p]? = some n) :
    (setTarget p v s).heap[p]? = some { n with target := v } := get_setNode_eq _ hn

theorem get_newNode_lt {i : Nat} (n : InstructionNode) (s : ParserState)
    (hi : i < s.heap.length) : (newNode n s).2.heap[i]? = s.heap[i]? := by
  simp only [newNode]
  exact List.getElem?_append_left hi

theorem get_newNode_eq (n : InstructionNode) (s : ParserState) :
    (newNode n s).2.heap[s.heap.length]? = some n := by
  simp only [newNode]
  exact List.getElem?_concat_length _ _

theorem get_makeNoop_lt {i : Nat} (s : ParserState) (hi : i < s.heap.length) :
    (makeNoop s).2.heap[i]? = s.heap[i]? := get_newNode_lt _ s hi

theorem get_makeNoop_eq (s : ParserState) :
    (makeNoop s).2.heap[s.heap.length]? = some noopNode := get_newNode_eq _ s

/-! ## C1: lowering of `if` -/

/-- C1: when `handleIfStmt` succeeds, the returned entry `E` is the address of a
`CJMP` node that carries the relation and the two operand locations delivered by
`checkCondition` on the tokens after `IF`; `E.next` is the entry `body` delivered
by `getBodyCode`; `E.target` is a node `N` allocated after the body was parsed, of
type `NOOP` and with empty `next`; `N` has been stored into the `next` field of the
last node `t` of the body's `next` chain, so following `next` edges from `body`
ends at `N`.  Under the step rule of the executor the entry goes to `body` when
the relation holds and to `N` when it does not. -/
theorem handleIfStmt_shape (fuel : Nat) (s s2 : ParserState) (E : Nat)
    (h : handleIfStmt fuel s = .ok (E, s2)) :
    ∃ f tok s1 cond l r sc body sb N nE nN t nt,
      fuel = f + 1 ∧
      verifyToken TokenType.IF
        (newNode { type := InstructionType.CJMP, next := none } s).2 = .ok (tok, s1) ∧
      checkCondition s1 = .ok ((cond, l, r), sc) ∧
      getBodyCode f (setCond s.heap.length cond l r sc) = .ok (body, sb) ∧
      s2.heap[E]? = some nE ∧
      nE = cjmpNode cond l r (some body) (some N) ∧
      N = sb.heap.length ∧ s2.heap.length = N + 1 ∧
      s2.heap[N]? = some nN ∧ nN = noopNode ∧
      NextReach sb.heap body t ∧ sb.heap[t]? = some nt ∧ nt.next = none ∧
      s2.heap[t]? = some { nt with next := some N } ∧
      NextReach s2.heap body N ∧
      nextPc nE true = some body ∧ nextPc nE false = some N := by
  cases fuel with
  | zero =>
    rw [handleIfStmt] at h
    cases h
  | succ f =>
    obtain ⟨tok, s1, cond, l, r, sc, body, s4, t, h1, h2, h4, hw, rfl, rfl⟩ :=
      handleIfStmt_inv h
    have b4 := getBodyCode_built h4
    have e3 := cond_prefix_heap h1 h2
    rw [e3] at b4
    obtain ⟨⟨bl, bo, bc⟩, blo, bhi⟩ := b4
    simp only [List.length_append, List.length_singleton] at bl bo bc blo
    -- the conditional jump as the body parse left it
    have hc4 : s4.heap[s.heap.length]? = some (cjmpNode cond l r none none) := by
      rw [bo _ (by omega)]
      exact List.getElem?_concat_length _ _
    -- the heap on which the tail walk runs agrees with the parsed body
    have hag : ∀ i, s.heap.length + 1 ≤ i → i < s4.heap.length →
        (setTarget s.heap.length (some s4.heap.length)
          (makeNoop (setNext s.heap.length (some body) s4)).2).heap[i]? =
        s4.heap[i]? := by
      intro i hlo hhi
      rw [get_setTarget_ne _ _ (by omega),
        get_makeNoop_lt _ (by rw [length_setNext]; exact hhi),
        get_setNext_ne _ _ (by omega)]
    obtain ⟨htr, hr4, nt, hnt, hntx, hmt, -, hrN⟩ :=
      attach_tail s4.heap.length bc hag ⟨blo, bhi⟩ hw
    have hE : (setNext t (some s4.heap.length)
        (setTarget s.heap.length (some s4.heap.length)
          (makeNoop (setNext s.heap.length (some body) s4)).2)).heap[s.heap.length]? =
        some (cjmpNode cond l r (some body) (some s4.heap.length)) := by
      rw [get_setNext_ne _ _ (by omega),
        get_setTarget_eq (n := cjmpNode cond l r (some body) none) _ ?_]
      rw [get_makeNoop_lt _ (by rw [length_setNext]; omega), get_setNext_eq _ hc4]
    have hN : (setNext t (some s4.heap.length)
        (setTarget s.heap.length (some s4.heap.length)
          (makeNoop (setNext s.heap.length (some body) s4)).2)).heap[s4.heap.length]? =
        some noopNode := by
      rw [get_setNext_ne _ _ (by omega), get_setTarget_ne _ _ (by omega)]
      have := get_makeNoop_eq (setNext s.heap.length (some body) s4)
      rw [length_setNext] at this
      exact this
    refine ⟨f, tok, s1, cond, l, r, sc, body, s4, s4.heap.length, _, _, t, nt, rfl, h1,
      h2, h4, hE, rfl, rfl, ?_, hN, rfl, hr4, hnt, hntx, hmt, hrN, rfl, rfl⟩
    rw [length_setNext, length_setTarget, length_makeNoop, length_setNext]

/-- Witness of C1 on `if a > b { output a; }`: the parse succeeds and the chain of
`next` edges from the body (node 1) ends at the join node (node 2). -/
theorem handleIfStmt_shape_witness :
    handleIfStmt 10 (stateAB ifTokens) = .ok (0, ifFinal) ∧
    NextReach ifFinal.heap 1 2 := by
  refine ⟨rfl, ?_⟩
  obtain ⟨f, tok, s1, cond, l, r, sc, body, sb, N, nE, nN, t, nt, -, -, -, -, hE, hnE,
    -, hlen, -, -, -, -, -, -, hr, hpt, -⟩ :=
    handleIfStmt_shape 10 (stateAB ifTokens) ifFinal 0 rfl
  have hN : N = 2 := by
    have : ifFinal.heap.length = 3 := rfl
    omega
  have hnE2 : nE = cjmpNode ConditionalOperatorType.CONDITION_GREATER 0 1 (some 1)
      (some 2) := by
    have : ifFinal.heap[0]? = some (cjmpNode ConditionalOperatorType.CONDITION_GREATER
      0 1 (some 1) (some 2)) := rfl
    rw [this] at hE
    exact (Option.some.inj hE).symm
  have hb : body = 1 := by
    rw [hnE2] at hpt
    exact (Option.some.inj hpt).symm
  rw [hN, hb] at hr
  exact hr

/-- A chain that ends at `t` survives in any heap that agrees with the original one
on the region of the chain everywhere except at `t`. -/
theorem NextReach.to_modified {h h2 : List InstructionNode} {lo hi a t : Nat}
    {nt : InstructionNode} (hc : RegionClosed lo hi h) (hr : NextReach h a t)
    (ha : lo ≤ a ∧ a < hi) (ht : h[t]? = some nt) (htn : nt.next = none)
    (hag : ∀ i, lo ≤ i → i < hi → i ≠ t → h2[i]? = h[i]?) : NextReach h2 a t := by
  induction hr with
  | refl => exact NextReach.refl _
  | @step a b c n hn hx _ ih =>
    have hne : a ≠ c := by
      intro hEq
      subst hEq
      rw [hn] at ht
      cases ht
      rw [hx] at htn
      cases htn
    have hb := (hc _ _ ha.1 ha.2 hn).1 _ hx
    exact NextReach.step ((hag a ha.1 ha.2 hne).trans hn) hx (ih hb ht hag)

/-! ## C2: lowering of `while` -/

/-- C2: when `buildWhileLoop` succeeds, the returned entry `C` is a `CJMP` node that
carries the relation and operand locations delivered by `checkCondition` on the
tokens after `WHILE`; `C.next` is the entry `body` delivered by `getBodyCode`; the
last node `t` of the body's `next` chain has received as `next` a `JMP` node `J`
whose target is `C`; `J.next` is a `NOOP` node `N` with empty `next`; and
`C.target` is that same `N`. -/
theorem buildWhileLoop_shape (fuel : Nat) (s s2 : ParserState) (C : Nat)
    (h : buildWhileLoop fuel s = .ok (C, s2)) :
    ∃ f tok s1 cond l r sc body sb J N t nt,
      fuel = f + 1 ∧
      verifyToken TokenType.WHILE
        (newNode { type := InstructionType.CJMP, next := none } s).2 = .ok (tok, s1) ∧
      checkCondition s1 = .ok ((cond, l, r), sc) ∧
      getBodyCode f (setCond s.heap.length cond l r sc) = .ok (body, sb) ∧
      s2.heap[C]? = some (cjmpNode cond l r (some body) (some N)) ∧
      NextReach sb.heap body t ∧ sb.heap[t]? = some nt ∧ nt.next = none ∧
      s2.heap[t]? = some { nt with next := some J } ∧
      s2.heap[J]? = some (jmpNode (some N) (some C)) ∧
      s2.heap[N]? = some noopNode ∧
      J = sb.heap.length ∧ N = J + 1 ∧ s2.heap.length = N + 1 ∧
      NextReach s2.heap body J ∧ NextReach s2.heap body N := by
  cases fuel with
  | zero =>
    rw [buildWhileLoop] at h
    cases h
  | succ f =>
    obtain ⟨tok, s1, cond, l, r, sc, body, s4, t, h1, h2, h4, hw, rfl, rfl⟩ :=
      buildWhileLoop_inv h
    have b4 := getBodyCode_built h4
    have e3 := cond_prefix_heap h1 h2
    rw [e3] at b4
    obtain ⟨⟨bl, bo, bc⟩, blo, bhi⟩ := b4
    simp only [List.length_append, List.length_singleton] at bl bo bc blo
    have hc4 : s4.heap[s.heap.length]? = some (cjmpNode cond l r none none) := by
      rw [bo _ (by omega)]
      exact List.getElem?_concat_length _ _
    have hag : ∀ i, s.heap.length + 1 ≤ i → i < s4.heap.length →
        (newNode (jmpNode none (some s.heap.length))
          (setNext s.heap.length (some body) s4)).2.heap[i]? = s4.heap[i]? := by
      intro i hlo hhi
      rw [get_newNode_lt _ _ (by rw [length_setNext]; exact hhi),
        get_setNext_ne _ _ (by omega)]
    obtain ⟨htr, hr4, nt, hnt, hntx, -, -, -⟩ :=
      attach_tail s4.heap.length bc hag ⟨blo, bhi⟩ hw
    have hJ6 : (newNode (jmpNode none (some s.heap.length))
        (setNext s.heap.length (some body) s4)).2.heap[s4.heap.length]? =
        some (jmpNode none (some s.heap.length)) := by
      have := get_newNode_eq (jmpNode none (some s.heap.length))
        (setNext s.heap.length (some body) s4)
      rw [length_setNext] at this
      exact this
    have l6 : (setNext t (some s4.heap.length)
        (newNode (jmpNode none (some s.heap.length))
          (setNext s.heap.length (some body) s4)).2).heap.length =
        s4.heap.length + 1 := by
      rw [length_setNext, length_newNode, length_setNext]
    have hC : (setNext s4.heap.length (some (s4.heap.length + 1))
        (setTarget s.heap.length (some (s4.heap.length + 1))
          (makeNoop (setNext t (some s4.heap.length)
            (newNode (jmpNode none (some s.heap.length))
              (setNext s.heap.length (some body) s4)).2)).2)).heap[s.heap.length]? =
        some (cjmpNode cond l r (some body) (some (s4.heap.length + 1))) := by
      rw [get_setNext_ne _ _ (by omega),
        get_setTarget_eq (n := cjmpNode cond l r (some body) none) _ ?_]
      rw [get_makeNoop_lt _ (by rw [l6]; omega), get_setNext_ne _ _ (by omega),
        get_newNode_lt _ _ (by rw [length_setNext]; omega), get_setNext_eq _ hc4]
    have hJ : (setNext s4.heap.length (some (s4.heap.length + 1))
        (setTarget s.heap.length (some (s4.heap.length + 1))
          (makeNoop (setNext t (some s4.heap.length)
            (newNode (jmpNode none (some s.heap.length))
              (setNext s.heap.length (some body) s4)).2)).2)).heap[s4.heap.length]? =
        some (jmpNode (some (s4.heap.length + 1)) (some s.heap.length)) := by
      rw [get_setNext_eq (n := jmpNode none (some s.heap.length)) _ ?_]
      rw [get_setTarget_ne _ _ (by omega), get_makeNoop_lt _ (by rw [l6]; omega),
        get_setNext_ne _ _ (by omega)]
      exact hJ6
    have hN : (setNext s4.heap.length (some (s4.heap.length + 1))
        (setTarget s.heap.length (some (s4.heap.length + 1))
          (makeNoop (setNext t (some s4.heap.length)
            (newNode (jmpNode none (some s.heap.length))
              (setNext s.heap.length (some body) s4)).2)).2)).heap[s4.heap.length + 1]? =
        some noopNode := by
      rw [get_setNext_ne _ _ (by omega), get_setTarget_ne _ _ (by omega)]
      have := get_makeNoop_eq (setNext t (some s4.heap.length)
        (newNode (jmpNode none (some s.heap.length))
          (setNext s.heap.length (some body) s4)).2)
      rw [l6] at this
      exact this
    have hother : ∀ i, s.heap.length + 1 ≤ i → i < s4.heap.length → i ≠ t →
        (setNext s4.heap.length (some (s4.heap.length + 1))
        (setTarget s.heap.length (some (s4.heap.length + 1))
          (makeNoop (setNext t (some s4.heap.length)
            (newNode (jmpNode none (some s.heap.length))
              (setNext s.heap.length (some body) s4)).2)).2)).heap[i]? =
        s4.heap[i]? := by
      intro i hlo hhi hne
      rw [get_setNext_ne _ _ (by omega), get_setTarget_ne _ _ (by omega),
        get_makeNoop_lt _ (by rw [l6]; omega), get_setNext_ne _ _ (Ne.symm hne)]
      exact hag i hlo hhi
    have ht : (setNext s4.heap.length (some (s4.heap.length + 1))
        (setTarget s.heap.length (some (s4.heap.length + 1))
          (makeNoop (setNext t (some s4.heap.length)
            (newNode (jmpNode none (some s.heap.length))
              (setNext s.heap.length (some body) s4)).2)).2)).heap[t]? =
        some { nt with next := some s4.heap.length } := by
      rw [get_setNext_ne _ _ (by omega), get_setTarget_ne _ _ (by omega),
        get_makeNoop_lt _ (by rw [l6]; omega),
        get_setNext_eq (n := nt) _ ?_]
      rw [hag t htr.1 htr.2]
      exact hnt
    have hrt := hr4.to_modified bc ⟨blo, bhi⟩ hnt hntx hother
    have hrJ := hrt.snoc ht rfl
    have hrN := hrJ.snoc hJ rfl
    refine ⟨f, tok, s1, cond, l, r, sc, body, s4, s4.heap.length, s4.heap.length + 1,
      t, nt, rfl, h1, h2, h4, hC, hr4, hnt, hntx, ht, hJ, hN, rfl, rfl, ?_, hrJ, hrN⟩
    rw [length_setNext, length_setTarget, length_makeNoop, l6]

/-- Witness of C2 on `while a < b { input a; }`: the parse succeeds and the chain of
`next` edges from the body (node 1) passes the back jump (node 2) and ends at the
exit node (node 3). -/
theorem buildWhileLoop_shape_witness :
    buildWhileLoop 10 (stateAB whileTokens) = .ok (0, whileFinal) ∧
    NextReach whileFinal.heap 1 2 ∧ NextReach whileFinal.heap 1 3 := by
  refine ⟨rfl, ?_⟩
  obtain ⟨f, tok, s1, cond, l, r, sc, body, sb, J, N, t, nt, -, -, -, -, hC, -, -, -, -,
    -, -, -, hN, hlen, hrJ, hrN⟩ :=
    buildWhileLoop_shape 10 (stateAB whileTokens) whileFinal 0 rfl
  have hl : whileFinal.heap.length = 4 := rfl
  have hN3 : N = 3 := by omega
  have hJ2 : J = 2 := by omega
  have hC2 : whileFinal.heap[0]? = some (cjmpNode
      ConditionalOperatorType.CONDITION_LESS 0 1 (some 1) (some 3)) := rfl
  rw [hC2] at hC
  have hb := congrArg InstructionNode.next (Option.some.inj hC)
  simp only [Option.some.injEq] at hb
  rw [hN3, ← hb] at hrN
  rw [hJ2, ← hb] at hrJ
  exact ⟨hrJ, hrN⟩

/-! ## C5: lowering of `for` -/

/-- C5: when `createForLoop` succeeds, the returned entry `E` is the `ASSIGN` node
that `createAssignNode` built for `init`; `E.next` is a `CJMP` node `C` that carries
the relation and operand locations delivered by `checkCondition`; `C.next` is the
entry `body` delivered by `getBodyCode`; the last node `t` of the body's `next`
chain has received as `next` the `ASSIGN` node `U` built for `update`; `U.next` is
a `JMP` node `J` whose target is `C`; `J.next` is a `NOOP` node `N` with empty
`next`; and `C.target` is that same `N`. -/
theorem createForLoop_shape (fuel : Nat) (s s2 : ParserState) (E : Nat)
    (h : createForLoop fuel s = .ok (E, s2)) :
    ∃ f t1 s1 t2 sa s3 cond l r s4 t5 s5 U s6 t7 s7 body sb ni nu C J N t nt,
      fuel = f + 1 ∧
      verifyToken TokenType.FOR s = .ok (t1, s1) ∧
      verifyToken TokenType.LPAREN s1 = .ok (t2, sa) ∧
      createAssignNode sa = .ok (E, s3) ∧
      checkCondition s3 = .ok ((cond, l, r), s4) ∧
      verifyToken TokenType.SEMICOLON s4 = .ok (t5, s5) ∧
      createAssignNode s5 = .ok (U, s6) ∧
      verifyToken TokenType.RPAREN s6 = .ok (t7, s7) ∧
      getBodyCode f (newNode (cjmpNode cond l r none none) s7).2 = .ok (body, sb) ∧
      s3.heap[E]? = some ni ∧ ni.type = InstructionType.ASSIGN ∧
      s2.heap[E]? = some { ni with next := some C } ∧
      s2.heap[C]? = some (cjmpNode cond l r (some body) (some N)) ∧
      NextReach sb.heap body t ∧ sb.heap[t]? = some nt ∧ nt.next = none ∧
      s2.heap[t]? = some { nt with next := some U } ∧
      s6.heap[U]? = some nu ∧ nu.type = InstructionType.ASSIGN ∧
      s2.heap[U]? = some { nu with next := some J } ∧
      s2.heap[J]? = some (jmpNode (some N) (some C)) ∧
      s2.heap[N]? = some noopNode ∧
      NextReach s2.heap body U ∧ NextReach s2.heap E N := by
  cases fuel with
  | zero =>
    rw [createForLoop] at h
    cases h
  | succ f =>
    obtain ⟨t1, s1, t2, sa, init, s3, cond, l, r, s4, t5, s5, U, s6, t7, s7, body, s9,
      t, h1, h2, h3, h4, h5, h6, h7, h9, hw, he, rfl⟩ := createForLoop_inv h
    subst he
    have ea : sa.heap = s.heap := by rw [verifyToken_heap h2, verifyToken_heap h1]
    obtain ⟨hi, ni, e3, nity, -, -⟩ := createAssignNode_heap h3
    have e5 : s5.heap = s3.heap := by rw [verifyToken_heap h5, checkCondition_heap h4]
    obtain ⟨hu, nu, e6, nuty, nux, -⟩ := createAssignNode_heap h6
    have e7 : s7.heap = s6.heap := verifyToken_heap h7
    have b9 := getBodyCode_built h9
    rw [ea] at hi e3
    rw [e5, e3] at hu e6
    rw [e6] at e7
    have l7 : s7.heap.length = s.heap.length + 2 := by simp [e7]
    have hul : U = s.heap.length + 1 := by simp [hu]
    obtain ⟨⟨bl, bo, bc⟩, blo, bhi⟩ := b9
    rw [length_newNode] at bl bo bc blo
    have g3 : s3.heap[E]? = some ni := by
      rw [e3, hi]
      exact List.getElem?_concat_length _ _
    have g6 : s6.heap[U]? = some nu := by
      rw [e6, hu]
      exact List.getElem?_concat_length _ _
    have gI9 : s9.heap[E]? = some ni := by
      rw [bo _ (by omega), get_newNode_lt _ _ (by omega), e7, hi,
        List.getElem?_append_left (by simp)]
      exact List.getElem?_concat_length _ _
    have gU9 : s9.heap[U]? = some nu := by
      rw [bo _ (by omega), get_newNode_lt _ _ (by omega), e7, hu]
      exact List.getElem?_concat_length _ _
    have gC9 : s9.heap[s7.heap.length]? = some (cjmpNode cond l r none none) := by
      rw [bo _ (by omega)]
      exact get_newNode_eq _ _
    have hag : ∀ i, s7.heap.length + 1 ≤ i → i < s9.heap.length →
        (setNext s7.heap.length (some body)
          (setNext E (some s7.heap.length) (makeNoop s9).2)).heap[i]? =
        s9.heap[i]? := by
      intro i hlo hhi
      rw [get_setNext_ne _ _ (by omega), get_setNext_ne _ _ (by omega),
        get_makeNoop_lt _ hhi]
    obtain ⟨htr, hr9, nt, hnt, hntx, -, -, -⟩ :=
      attach_tail s9.heap.length bc hag ⟨blo, bhi⟩ hw
    have l12 : (setNext s7.heap.length (some body)
        (setNext E (some s7.heap.length) (makeNoop s9).2)).heap.length =
        s9.heap.length + 1 := by
      rw [length_setNext, length_setNext, length_makeNoop]
    have l13 : (setNext t (some U) (setNext s7.heap.length (some body)
        (setNext E (some s7.heap.length) (makeNoop s9).2))).heap.length =
        s9.heap.length + 1 := by
      rw [length_setNext, l12]
    have fE : (setTarget s7.heap.length (some s9.heap.length)
        (setNext U (some (s9.heap.length + 1))
          (newNode (jmpNode (some s9.heap.length) (some s7.heap.length))
            (setNext t (some U) (setNext s7.heap.length (some body)
              (setNext E (some s7.heap.length) (makeNoop s9).2)))).2)).heap[E]? =
        some { ni with next := some s7.heap.length } := by
      rw [get_setTarget_ne _ _ (by omega), get_setNext_ne _ _ (by omega),
        get_newNode_lt _ _ (by rw [l13]; omega), get_setNext_ne _ _ (by omega),
        get_setNext_ne _ _ (by omega), get_setNext_eq (n := ni) _ ?_]
      rw [get_makeNoop_lt _ (by omega)]
      exact gI9
    have fC : (setTarget s7.heap.length (some s9.heap.length)
        (setNext U (some (s9.heap.length + 1))
          (newNode (jmpNode (some s9.heap.length) (some s7.heap.length))
            (setNext t (some U) (setNext s7.heap.length (some body)
              (setNext E (some s7.heap.length) (makeNoop s9).2)))).2)).heap[
                s7.heap.length]? =
        some (cjmpNode cond l r (some body) (some s9.heap.length)) := by
      rw [get_setTarget_eq (n := cjmpNode cond l r (some body) none) _ ?_]
      rw [get_setNext_ne _ _ (by omega),
        get_newNode_lt _ _ (by rw [l13]; omega), get_setNext_ne _ _ (by omega),
        get_setNext_eq (n := cjmpNode cond l r none none) _ ?_]
      rw [get_setNext_ne _ _ (by omega), get_makeNoop_lt _ (by omega)]
      exact gC9
    have ft : (setTarget s7.heap.length (some s9.heap.length)
        (setNext U (some (s9.heap.length + 1))
          (newNode (jmpNode (some s9.heap.length) (some s7.heap.length))
            (setNext t (some U) (setNext s7.heap.length (some body)
              (setNext E (some s7.heap.length) (makeNoop s9).2)))).2)).heap[t]? =
        some { nt with next := some U } := by
      rw [get_setTarget_ne _ _ (by omega), get_setNext_ne _ _ (by omega),
        get_newNode_lt _ _ (by rw [l13]; omega), get_setNext_eq (n := nt) _ ?_]
      rw [hag t htr.1 htr.2]
      exact hnt
    have fU : (setTarget s7.heap.length (some s9.heap.length)
        (setNext U (some (s9.heap.length + 1))
          (newNode (jmpNode (some s9.heap.length) (some s7.heap.length))
            (setNext t (some U) (setNext s7.heap.length (some body)
              (setNext E (some s7.heap.length) (makeNoop s9).2)))).2)).heap[U]? =
        some { nu with next := some (s9.heap.length + 1) } := by
      rw [get_setTarget_ne _ _ (by omega), get_setNext_eq (n := nu) _ ?_]
      rw [get_newNode_lt _ _ (by rw [l13]; omega), get_setNext_ne _ _ (by omega),
        get_setNext_ne _ _ (by omega), get_setNext_ne _ _ (by omega),
        get_makeNoop_lt _ (by omega)]
      exact gU9
    have fJ : (setTarget s7.heap.length (some s9.heap.length)
        (setNext U (some (s9.heap.length + 1))
          (newNode (jmpNode (some s9.heap.length) (some s7.heap.length))
            (setNext t (some U) (setNext s7.heap.length (some body)
              (setNext E (some s7.heap.length) (makeNoop s9).2)))).2)).heap[
                s9.heap.length + 1]? =
        some (jmpNode (some s9.heap.length) (some s7.heap.length)) := by
      rw [get_setTarget_ne _ _ (by omega), get_setNext_ne _ _ (by omega)]
      have := get_newNode_eq (jmpNode (some s9.heap.length) (some s7.heap.length))
        (setNext t (some U) (setNext s7.heap.length (some body)
          (setNext E (some s7.heap.length) (makeNoop s9).2)))
      rw [l13] at this
      exact this
    have fN : (setTarget s7.heap.length (some s9.heap.length)
        (setNext U (some (s9.heap.length + 1))
          (newNode (jmpNode (some s9.heap.length) (some s7.heap.length))
            (setNext t (some U) (setNext s7.heap.length (some body)
              (setNext E (some s7.heap.length) (makeNoop s9).2)))).2)).heap[
                s9.heap.length]? = some noopNode := by
      rw [get_setTarget_ne _ _ (by omega), get_setNext_ne _ _ (by omega),
        get_newNode_lt _ _ (by rw [l13]; omega), get_setNext_ne _ _ (by omega),
        get_setNext_ne _ _ (by omega), get_setNext_ne _ _ (by omega)]
      exact get_makeNoop_eq s9
    have hother : ∀ i, s7.heap.length + 1 ≤ i → i < s9.heap.length → i ≠ t →
        (setTarget s7.heap.length (some s9.heap.length)
        (setNext U (some (s9.heap.length + 1))
          (newNode (jmpNode (some s9.heap.length) (some s7.heap.length))
            (setNext t (some U) (setNext s7.heap.length (some body)
              (setNext E (some s7.heap.length) (makeNoop s9).2)))).2)).heap[i]? =
        s9.heap[i]? := by
      intro i hlo hhi hne
      rw [get_setTarget_ne _ _ (by omega), get_setNext_ne _ _ (by omega),
        get_newNode_lt _ _ (by rw [l13]; omega), get_setNext_ne _ _ (Ne.symm hne)]
      exact hag i hlo hhi
    have hrt := hr9.to_modified bc ⟨blo, bhi⟩ hnt hntx hother
    have hrU := hrt.snoc ft rfl
    have hrN := ((hrU.snoc fU rfl).snoc fJ rfl)
    have hrE := NextReach.step fE rfl (NextReach.step fC rfl hrN)
    exact ⟨f, t1, s1, t2, sa, s3, cond, l, r, s4, t5, s5, U, s6, t7, s7, body, s9, ni,
      nu, s7.heap.length, s9.heap.length + 1, s9.heap.length, t, nt, rfl, h1, h2, h3,
      h4, h5, h6, h7, h9, g3, nity, fE, fC, hr9, hnt, hntx, ft, g6, nuty, fU, fJ, fN,
      hrU, hrE⟩

/-- Witness of C5 on `for (i = 0; i < 3; i = i + 1;) { output i; }`: the parse
succeeds, builds the six nodes of `forHeap`, and the chain of `next` edges from the
entry (node 0) ends at the exit node (node 4). -/
theorem createForLoop_shape_witness :
    returned (createForLoop 10 (stateI forTokens)) = some 0 ∧
    (finalState (stateI []) (createForLoop 10 (stateI forTokens))).heap = forHeap ∧
    NextReach forHeap 0 4 := by
  have hret : returned (createForLoop 10 (stateI forTokens)) = some 0 := by decide!
  have hheap : (finalState (stateI []) (createForLoop 10 (stateI forTokens))).heap =
      forHeap := by decide!
  refine ⟨hret, hheap, ?_⟩
  obtain ⟨f, t1, s1, t2, sa, s3, cond, l, r, s4, t5, s5, U, s6, t7, s7, body, sb, ni,
    nu, C, J, N, t, nt, -, -, -, -, -, -, -, -, -, -, -, hE, hC, -, -, -, -, -, -, -, -,
    -, -, hr⟩ := createForLoop_shape 10 (stateI forTokens)
      (finalState (stateI []) (createForLoop 10 (stateI forTokens))) 0
      (eq_ok_of_returned (stateI []) hret)
  rw [hheap] at hE hC hr
  have hc : some (some 2) = some (some C) :=
    congrArg (Option.map InstructionNode.next) hE
  simp only [Option.some.injEq] at hc
  rw [← hc] at hC
  have hn : some (some 4) = some (some N) :=
    congrArg (Option.map InstructionNode.target) hC
  simp only [Option.some.injEq] at hn
  rw [← hn] at hr
  exact hr

/-! ## Evaluating the parser on given tokens -/

theorem modify_append_add (f : InstructionNode → InstructionNode)
    (l xs : List InstructionNode) (k : Nat) :
    List.modify f (l.length + k) (l ++ xs) = l ++ List.modify f k xs := by
  induction l with
  | nil => simp
  | cons a l ih =>
    have : (a :: l).length + k = (l.length + k) + 1 := by simp; omega
    rw [this, List.cons_append, List.modify_succ_cons, ih]
    rfl

theorem modify_append_length (f : InstructionNode → InstructionNode)
    (l xs : List InstructionNode) :
    List.modify f l.length (l ++ xs) = l ++ List.modify f 0 xs :=
  modify_append_add f l xs 0

theorem getElem?_append_add (l xs : List InstructionNode) (k : Nat) :
    (l ++ xs)[l.length + k]? = xs[k]? := by
  rw [List.getElem?_append_right (by omega)]
  simp

theorem getElem?_append_length (l xs : List InstructionNode) :
    (l ++ xs)[l.length]? = xs[0]? := getElem?_append_add l xs 0

theorem walkToTail_of_tail {fuel : Nat} {heap : List InstructionNode} {cur : Nat}
    {n : InstructionNode} (h1 : heap[cur]? = some n) (h2 : n.next = none) :
    walkToTail fuel heap cur = .ok cur := by
  cases fuel <;> rw [walkToTail] <;> simp [h1, h2]

/-! ## C7: the `if` example -/

/-- C7, as stated, fails: on the tokens of `if (a > b) { output a; }` with `a` and
`b` declared, `handleIfStmt` does not return; after `IF` it reads the condition
with `getPrimaryValue`, which meets `LPAREN` and exits. -/
theorem handleIfStmt_paren_rejected :
    handleIfStmt 10 (stateAB ifParenTokens) = .error ParseError.fatal ∧
    ¬ ∃ fuel E s2, handleIfStmt fuel (stateAB ifParenTokens) = .ok (E, s2) := by
  refine ⟨rfl, ?_⟩
  rintro ⟨fuel, E, s2, h⟩
  cases fuel with
  | zero =>
    rw [handleIfStmt] at h
    cases h
  | succ f =>
    simp [handleIfStmt, stateAB, ifParenTokens, mkToken, verifyToken, GetToken,
      checkCondition, getPrimaryValue, newNode] at h

/-- C7, amended: with `a` declared at `la` and `b` at `lb`, on the tokens of
`if a > b { output a; }` (no parentheses) `handleIfStmt` returns the address of a
`CJMP` node with relation greater-than and operands `la`, `lb`, whose `next` is an
`OUT` node for `la`, whose own `next` is a `NOOP` node, and whose `target` is that
same `NOOP` node; the three nodes are appended to the heap and nothing else
changes but the consumed tokens. -/
theorem handleIfStmt_example (fuel : Nat) (vl : List (String × Nat)) (m : Nat → Int)
    (na : Nat) (inp : List Int) (h : List InstructionNode) (rest : List Token)
    (la lb : Nat) (ha : mapFind vl "a" = some la) (hb : mapFind vl "b" = some lb) :
    handleIfStmt (fuel + 4)
      { tokens := ifTokens ++ rest, varLocations := vl, mem := m, next_available := na,
        inputs := inp, heap := h } =
    .ok (h.length,
      { tokens := rest, varLocations := vl, mem := m, next_available := na,
        inputs := inp,
        heap := h ++ [cjmpNode ConditionalOperatorType.CONDITION_GREATER la lb
            (some (h.length + 1)) (some (h.length + 2)),
          { type := InstructionType.OUT, var_loc := some la,
            next := some (h.length + 2) },
          noopNode] }) := by
  simp [handleIfStmt, ifTokens, mkToken, verifyToken, GetToken, checkCondition,
    getPrimaryValue, findVarLocation, getRelationalOp, getBodyCode, buildStmtList,
    handleStmt, makeOutputNode, peek, newNode, makeNoop, setCond, setNode, setNext,
    setTarget, linkNodes, ha, hb, Nat.add_assoc, modify_append_add,
    modify_append_length, getElem?_append_add, getElem?_append_length]
  rw [walkToTail_of_tail (n := { type := InstructionType.OUT, var_loc := some la })
    (by rw [getElem?_append_add]; rfl) rfl]
  simp [modify_append_add]

/-- Witness of the amended C7 in the state after `a, b;` with an empty heap: the
entry is node 0 and the heap is the one of `ifFinal`. -/
theorem handleIfStmt_example_witness :
    mapFind [("a", 0), ("b", 1)] "a" = some 0 ∧
    mapFind [("a", 0), ("b", 1)] "b" = some 1 ∧
    handleIfStmt (6 + 4) (stateAB (ifTokens ++ [])) = .ok (0, ifFinal) :=
  ⟨by decide, by decide,
    handleIfStmt_example 6 [("a", 0), ("b", 1)] (fun _ => 0) 2 [] [] [] 0 1
      (by decide) (by decide)⟩

theorem stoi_0 : stoi "0" = some 0 := by decide

theorem stoi_1 : stoi "1" = some 1 := by decide

theorem stoi_3 : stoi "3" = some 3 := by decide

/-! ## C6: the `for` example -/

/-- C6, as stated, fails: on the tokens of
`for (i = 0; i < 3; i = i + 1) { output i; }` with `i` declared, `createForLoop`
does not return; the update is parsed by `createAssignNode`, which requires a
`SEMICOLON` after `i + 1` and meets `RPAREN`. -/
theorem createForLoop_spec_example_rejected :
    returned (createForLoop 10 (stateI forSpecTokens)) = none ∧
    ¬ ∃ fuel E s2, createForLoop fuel (stateI forSpecTokens) = .ok (E, s2) := by
  refine ⟨by decide!, ?_⟩
  rintro ⟨fuel, E, s2, h⟩
  cases fuel with
  | zero =>
    rw [createForLoop] at h
    cases h
  | succ f =>
    simp [createForLoop, stateI, forSpecTokens, mkToken, verifyToken, GetToken,
      checkCondition, getPrimaryValue, findVarLocation, getRelationalOp, peek, newNode,
      setNode, createAssignNode, processExpression, getOperator, stoi_0, stoi_1,
      stoi_3, mapFind] at h

/-- C6, amended: with `i` declared at `li`, on the tokens of
`for (i = 0; i < 3; i = i + 1;) { output i; }` (the update ends with its own
semicolon) `createForLoop` returns the `ASSIGN` node of `i = 0`; following `next`
edges from it come the `CJMP` node (less-than, `i`, the cell of 3), the `OUT` node
for `i`, the `ASSIGN` node of `i = i + 1`, a `JMP` node back to the `CJMP` node, and
the `NOOP` node that is the target of the `CJMP` node.  The literals 0, 3 and 1 are
stored in three new cells. -/
theorem createForLoop_example (fuel : Nat) (vl : List (String × Nat)) (m : Nat → Int)
    (na : Nat) (inp : List Int) (h : List InstructionNode) (rest : List Token)
    (li : Nat) (hi : mapFind vl "i" = some li) :
    createForLoop (fuel + 4)
      { tokens := forTokens ++ rest, varLocations := vl, mem := m, next_available := na,
        inputs := inp, heap := h } =
    .ok (h.length,
      { tokens := rest, varLocations := vl,
        mem := memWrite (memWrite (memWrite m na 0) (na + 1) 3) (na + 2) 1,
        next_available := na + 3, inputs := inp,
        heap := h ++ [
          { type := InstructionType.ASSIGN, lhs_loc := some li, op1_loc := some na,
            op := some ArithmeticOperatorType.OPERATOR_NONE,
            next := some (h.length + 2) },
          { type := InstructionType.ASSIGN, lhs_loc := some li, op1_loc := some li,
            op2_loc := some (na + 2),
            op := some ArithmeticOperatorType.OPERATOR_PLUS,
            next := some (h.length + 5) },
          cjmpNode ConditionalOperatorType.CONDITION_LESS li (na + 1)
            (some (h.length + 3)) (some (h.length + 4)),
          { type := InstructionType.OUT, var_loc := some li,
            next := some (h.length + 1) },
          noopNode,
          jmpNode (some (h.length + 4)) (some (h.length + 2))] }) := by
  simp [createForLoop, forTokens, mkToken, verifyToken, GetToken, checkCondition,
    getPrimaryValue, findVarLocation, getRelationalOp, getBodyCode, buildStmtList,
    handleStmt, makeOutputNode, peek, newNode, makeNoop, setCond, setNode, setNext,
    setTarget, linkNodes, hi, Nat.add_assoc, modify_append_add,
    modify_append_length, getElem?_append_add, getElem?_append_length,
    createAssignNode, processExpression, getOperator, stoi_0, stoi_1, stoi_3]
  rw [walkToTail_of_tail (n := { type := InstructionType.OUT, var_loc := some li })
    (by rw [getElem?_append_add]; rfl) rfl]
  simp [modify_append_add, Nat.add_assoc]

/-- Witness of the amended C6 in the state after `i;` with an empty heap: the entry
is node 0 and the heap is `forHeap`. -/
theorem createForLoop_example_witness :
    mapFind [("i", 0)] "i" = some 0 ∧
    createForLoop (6 + 4) (stateI (forTokens ++ [])) =
      .ok (0,
        { tokens := [], varLocations := [("i", 0)],
          mem := memWrite (memWrite (memWrite (fun _ => 0) 1 0) (1 + 1) 3) (1 + 2) 1,
          next_available := 1 + 3, inputs := [], heap := forHeap }) :=
  ⟨by decide, createForLoop_example 6 [("i", 0)] (fun _ => 0) 1 [] [] [] 0 (by decide)⟩

/-! ## Effect of the procedures on the arena and the symbol table -/

theorem SameArena.same (s : ParserState) : SameArena s s := ⟨rfl, rfl, rfl, rfl⟩

theorem SameArena.chain {s s1 s2 : ParserState} (a : SameArena s s1)
    (b : SameArena s1 s2) : SameArena s s2 :=
  ⟨b.1.trans a.1, b.2.1.trans a.2.1, b.2.2.1.trans a.2.2.1, b.2.2.2.trans a.2.2.2⟩

theorem Frame.rest (s : ParserState) : Frame s s :=
  ⟨rfl, rfl, le_refl _, fun _ _ => rfl⟩

theorem Frame.link {s s1 s2 : ParserState} (a : Frame s s1) (b : Frame s1 s2) :
    Frame s s2 :=
  ⟨b.1.trans a.1, b.2.1.trans a.2.1, le_trans a.2.2.1 b.2.2.1,
    fun i hi => (b.2.2.2 i (lt_of_lt_of_le hi a.2.2.1)).trans (a.2.2.2 i hi)⟩

theorem SameArena.frame {s s2 : ParserState} (a : SameArena s s2) : Frame s s2 :=
  ⟨a.1, a.2.2.2, le_of_eq a.2.2.1.symm, fun i _ => by rw [a.2.1]⟩

theorem GetToken_arena (s : ParserState) : SameArena s (GetToken s).2 := by
  unfold GetToken
  split <;> exact ⟨rfl, rfl, rfl, rfl⟩

theorem verifyToken_arena {e : TokenType} {s s2 : ParserState} {t : Token}
    (h : verifyToken e s = .ok (t, s2)) : SameArena s s2 := by
  unfold verifyToken at h
  simp only at h
  split at h
  · cases h
  · cases h
    exact GetToken_arena s

theorem newNode_arena (n : InstructionNode) (s : ParserState) :
    SameArena s (newNode n s).2 := ⟨rfl, rfl, rfl, rfl⟩

theorem makeNoop_arena (s : ParserState) : SameArena s (makeNoop s).2 :=
  ⟨rfl, rfl, rfl, rfl⟩

theorem setNode_arena (p : Nat) (f : InstructionNode → InstructionNode)
    (s : ParserState) : SameArena s (setNode p f s) := ⟨rfl, rfl, rfl, rfl⟩

theorem setNext_arena (p : Nat) (v : Option Nat) (s : ParserState) :
    SameArena s (setNext p v s) := ⟨rfl, rfl, rfl, rfl⟩

theorem setTarget_arena (p : Nat) (v : Option Nat) (s : ParserState) :
    SameArena s (setTarget p v s) := ⟨rfl, rfl, rfl, rfl⟩

theorem setCond_arena (p : Nat) (c : ConditionalOperatorType) (l r : Nat)
    (s : ParserState) : SameArena s (setCond p c l r s) := ⟨rfl, rfl, rfl, rfl⟩

theorem linkNodes_arena {s s2 : ParserState} {start : Option Nat} {nw : Nat}
    (hl : linkNodes start nw s = .ok s2) : SameArena s s2 := by
  unfold linkNodes at hl
  split at hl
  · cases hl
    exact SameArena.same s
  · split at hl
    · cases hl
    · cases hl
      exact setNext_arena _ _ _

theorem getOperator_arena {s s2 : ParserState} {o : ArithmeticOperatorType}
    (h : getOperator s = .ok (o, s2)) : SameArena s s2 := by
  unfold getOperator at h
  simp only at h
  split at h <;> cases h <;> exact GetToken_arena s

theorem getRelationalOp_arena {s s2 : ParserState} {o : ConditionalOperatorType}
    (h : getRelationalOp s = .ok (o, s2)) : SameArena s s2 := by
  unfold getRelationalOp at h
  simp only at h
  repeat' split at h
  all_goals cases h
  all_goals exact GetToken_arena s

/-- An allocation: the cell at the cursor receives `v`, the cursor advances by one
and nothing else of the arena or the symbol table changes. -/
theorem Frame.alloc {s s2 : ParserState} (v : Int)
    (hv : s2.varLocations = s.varLocations) (hi : s2.inputs = s.inputs)
    (hn : s2.next_available = s.next_available + 1)
    (hm : s2.mem = memWrite s.mem s.next_available v) : Frame s s2 := by
  refine ⟨hv, hi, by omega, ?_⟩
  intro i hlt
  rw [hm]
  simp only [memWrite]
  rw [if_neg (by omega)]

theorem storeConstant_frame (v : Int) (s : ParserState) :
    Frame s (storeConstant v s).2 :=
  Frame.alloc v rfl rfl rfl rfl

/-- The two outcomes of a successful `getPrimaryValue`: on an identifier the arena
is untouched and the location is the one recorded for the name; on a number the
value is stored at the cursor, which is returned and advanced by one. -/
theorem getPrimaryValue_inv {s s2 : ParserState} {l : Nat}
    (h : getPrimaryValue s = .ok (l, s2)) :
    ((GetToken s).1.token_type = TokenType.ID ∧ s2 = (GetToken s).2 ∧
      mapFind s.varLocations (GetToken s).1.lexeme = some l) ∨
    ((GetToken s).1.token_type = TokenType.NUM ∧ l = s.next_available ∧
      ∃ v, stoi (GetToken s).1.lexeme = some v ∧
        s2 = { (GetToken s).2 with
          mem := memWrite s.mem s.next_available v,
          next_available := s.next_available + 1 }) := by
  have ga := GetToken_arena s
  unfold getPrimaryValue at h
  simp only at h
  split at h
  · rename_i hid
    obtain ⟨e1, e2⟩ := findVarLocation_state h
    rw [ga.1] at e2
    exact Or.inl ⟨hid, e1, e2⟩
  · split at h
    · rename_i hnum
      split at h
      · cases h
      · rename_i v hv
        simp only [Except.ok.injEq, Prod.mk.injEq] at h
        obtain ⟨rfl, rfl⟩ := h
        refine Or.inr ⟨hnum, ga.2.2.1, v, hv, ?_⟩
        rw [ga.2.1, ga.2.2.1]
    · cases h

theorem getPrimaryValue_frame {s s2 : ParserState} {l : Nat}
    (h : getPrimaryValue s = .ok (l, s2)) : Frame s s2 := by
  have ga := GetToken_arena s
  rcases getPrimaryValue_inv h with ⟨-, rfl, -⟩ | ⟨-, -, v, -, rfl⟩
  · exact ga.frame
  · exact Frame.alloc v ga.1 ga.2.2.2 rfl rfl

theorem processExpression_frame {s s2 : ParserState}
    {r : Nat × ArithmeticOperatorType × Nat}
    (h : processExpression s = .ok (r, s2)) : Frame s s2 := by
  unfold processExpression at h
  split at h
  · cases h
  · rename_i first s1 h1
    split at h
    · cases h
    · rename_i oper s3 h2
      split at h
      · cases h
      · rename_i second s4 h3
        cases h
        exact ((getPrimaryValue_frame h1).link (getOperator_arena h2).frame).link
          (getPrimaryValue_frame h3)

theorem checkCondition_frame {s s2 : ParserState}
    {r : ConditionalOperatorType × Nat × Nat}
    (h : checkCondition s = .ok (r, s2)) : Frame s s2 := by
  unfold checkCondition at h
  split at h
  · cases h
  · rename_i first s1 h1
    split at h
    · cases h
    · rename_i oper s3 h2
      split at h
      · cases h
      · rename_i second s4 h3
        cases h
        exact ((getPrimaryValue_frame h1).link (getRelationalOp_arena h2).frame).link
          (getPrimaryValue_frame h3)

theorem createAssignNode_frame {s s2 : ParserState} {e : Nat}
    (h : createAssignNode s = .ok (e, s2)) : Frame s s2 := by
  unfold createAssignNode at h
  simp only at h
  split at h
  · cases h
  · rename_i var s1 h1
    have f1 := ((newNode_arena _ s).chain (verifyToken_arena h1)).frame
    split at h
    · cases h
    · rename_i lhs s2a h2
      obtain ⟨e2, -⟩ := findVarLocation_state h2
      subst e2
      split at h
      · cases h
      · rename_i x s4 h4
        have f4 := f1.link ((setNode_arena _ _ _).chain (verifyToken_arena h4)).frame
        split at h
        · split at h
          · cases h
          · rename_i p s5 h5
            split at h
            · cases h
            · rename_i y s8 h8
              cases h
              exact (f4.link (getPrimaryValue_frame h5)).link
                (((setNode_arena _ _ _).chain (setNode_arena _ _ _)).chain
                  (verifyToken_arena h8)).frame
        · split at h
          · cases h
          · rename_i r s5 h5
            split at h
            · cases h
            · rename_i y s9 h9
              cases h
              exact (f4.link (processExpression_frame h5)).link
                ((((setNode_arena _ _ _).chain (setNode_arena _ _ _)).chain
                  (setNode_arena _ _ _)).chain (verifyToken_arena h9)).frame

theorem makeOutputNode_arena {s s2 : ParserState} {e : Nat}
    (h : makeOutputNode s = .ok (e, s2)) : SameArena s s2 := by
  unfold makeOutputNode at h
  simp only at h
  split at h
  · cases h
  · rename_i x s1 h1
    split at h
    · cases h
    · rename_i var s2a h2
      split at h
      · cases h
      · rename_i loc s3 h3
        obtain ⟨e3, -⟩ := findVarLocation_state h3
        subst e3
        split at h
        · cases h
        · rename_i y s5 h5
          cases h
          exact ((((newNode_arena _ s).chain (verifyToken_arena h1)).chain
            (verifyToken_arena h2)).chain (setNode_arena _ _ _)).chain
            (verifyToken_arena h5)

theorem makeInputNode_arena {s s2 : ParserState} {e : Nat}
    (h : makeInputNode s = .ok (e, s2)) : SameArena s s2 := by
  unfold makeInputNode at h
  simp only at h
  split at h
  · cases h
  · rename_i x s1 h1
    split at h
    · cases h
    · rename_i var s2a h2
      split at h
      · cases h
      · rename_i loc s3 h3
        obtain ⟨e3, -⟩ := findVarLocation_state h3
        subst e3
        split at h
        · cases h
        · rename_i y s5 h5
          cases h
          exact ((((newNode_arena _ s).chain (verifyToken_arena h1)).chain
            (verifyToken_arena h2)).chain (setNode_arena _ _ _)).chain
            (verifyToken_arena h5)

theorem switchChain_arena (sv X : Nat) (cv cb : List Nat) :
    ∀ (i nextNode : Nat) (s : ParserState) (e : Nat) (s2 : ParserState),
      switchChain sv X cv cb i nextNode s = .ok (e, s2) → SameArena s s2 := by
  intro i
  induction i with
  | zero =>
    intro nextNode s e s2 h
    rw [switchChain] at h
    simp only [Except.ok.injEq, Prod.mk.injEq] at h
    obtain ⟨-, rfl⟩ := h
    exact SameArena.same s
  | succ i ih =>
    intro nextNode s e s2 h
    rw [switchChain] at h
    split at h
    · simp only [newNode_fst] at h
      split at h
      · cases h
      · rename_i sl hl
        exact (((newNode_arena _ s).chain (linkNodes_arena hl)).chain
          (newNode_arena _ sl)).chain (ih _ _ _ _ h)
    · cases h

theorem getBodyCode_frame_step (fuel : Nat) (ih : KeepsFrame (buildStmtList fuel)) :
    KeepsFrame (getBodyCode (fuel + 1)) := by
  intro s e s2 h
  rw [getBodyCode] at h
  split at h
  · cases h
  · rename_i x s1 h1
    split at h
    · cases h
    · rename_i st s2a h2
      split at h
      · cases h
      · rename_i y s3 h3
        cases h
        exact ((verifyToken_arena h1).frame.link (ih _ _ _ h2)).link
          (verifyToken_arena h3).frame

theorem buildStmtList_frame_step (fuel : Nat) (ihs : KeepsFrame (handleStmt fuel))
    (ihl : KeepsFrame (buildStmtList fuel)) :
    KeepsFrame (buildStmtList (fuel + 1)) := by
  intro s e s2 h
  rw [buildStmtList] at h
  split at h
  · cases h
  · rename_i firstNode s1 h1
    have f1 := ihs _ _ _ h1
    simp only at h
    split at h
    · split at h
      · cases h
      · rename_i restNodes s2a h2
        have f2 := ihl _ _ _ h2
        split at h
        · cases h
        · cases h
          exact (f1.link f2).link (setNext_arena _ _ _).frame
    · cases h
      exact f1

theorem buildWhileLoop_frame_step (fuel : Nat) (ih : KeepsFrame (getBodyCode fuel)) :
    KeepsFrame (buildWhileLoop (fuel + 1)) := by
  intro s e s2 h
  obtain ⟨tok, s1, cond, l, r, sc, body, s4, t, h1, h2, h4, -, -, rfl⟩ :=
    buildWhileLoop_inv h
  refine ((((newNode_arena _ s).chain (verifyToken_arena h1)).frame.link
    (checkCondition_frame h2)).link ((setCond_arena _ _ _ _ _).frame.link
      (ih _ _ _ h4))).link ?_
  exact ((((((setNext_arena _ _ _).chain (newNode_arena _ _)).chain
    (setNext_arena _ _ _)).chain (makeNoop_arena _)).chain
    (setTarget_arena _ _ _)).chain (setNext_arena _ _ _)).frame

theorem handleIfStmt_frame_step (fuel : Nat) (ih : KeepsFrame (getBodyCode fuel)) :
    KeepsFrame (handleIfStmt (fuel + 1)) := by
  intro s e s2 h
  obtain ⟨tok, s1, cond, l, r, sc, body, s4, t, h1, h2, h4, -, -, rfl⟩ :=
    handleIfStmt_inv h
  refine ((((newNode_arena _ s).chain (verifyToken_arena h1)).frame.link
    (checkCondition_frame h2)).link ((setCond_arena _ _ _ _ _).frame.link
      (ih _ _ _ h4))).link ?_
  exact ((((setNext_arena _ _ _).chain (makeNoop_arena _)).chain
    (setTarget_arena _ _ _)).chain (setNext_arena _ _ _)).frame

theorem createForLoop_frame_step (fuel : Nat) (ih : KeepsFrame (getBodyCode fuel)) :
    KeepsFrame (createForLoop (fuel + 1)) := by
  intro s e s2 h
  obtain ⟨t1, s1, t2, sa, init, s3, cond, l, r, s4, t5, s5, U, s6, t7, s7, body, s9,
    t, h1, h2, h3, h4, h5, h6, h7, h9, -, -, rfl⟩ := createForLoop_inv h
  have fa := ((verifyToken_arena h1).chain (verifyToken_arena h2)).frame
  have f5 := ((fa.link (createAssignNode_frame h3)).link
    (checkCondition_frame h4)).link (verifyToken_arena h5).frame
  have f8 := (f5.link (createAssignNode_frame h6)).link
    ((verifyToken_arena h7).chain
      (newNode_arena (cjmpNode cond l r none none) s7)).frame
  refine (f8.link (ih _ _ _ h9)).link ?_
  exact (((((((makeNoop_arena _).chain (setNext_arena _ _ _)).chain
    (setNext_arena _ _ _)).chain (setNext_arena _ _ _)).chain
    (newNode_arena _ _)).chain (setNext_arena _ _ _)).chain
    (setTarget_arena _ _ _)).frame

theorem parseCases_frame_step (fuel : Nat) (ihb : KeepsFrame (getBodyCode fuel))
    (ihc : ∀ cv cb, KeepsFrame (parseCases fuel cv cb)) :
    ∀ cv cb, KeepsFrame (parseCases (fuel + 1) cv cb) := by
  intro cv cb s r s2 h
  rw [parseCases] at h
  split at h
  · split at h
    · cases h
    · rename_i t1 s1 h1
      split at h
      · cases h
      · rename_i num sn h2
        split at h
        · cases h
        · rename_i val hv
          simp only at h
          split at h
          · cases h
          · rename_i t4 s4 h4
            split at h
            · cases h
            · rename_i body s5 h5
              exact (((((verifyToken_arena h1).chain (verifyToken_arena h2)).frame.link
                (storeConstant_frame val sn)).link (verifyToken_arena h4).frame).link
                (ihb _ _ _ h5)).link (ihc _ _ _ _ _ h)
  · cases h
    exact Frame.rest s

theorem parseDefault_frame_step (fuel : Nat) (ihb : KeepsFrame (getBodyCode fuel)) :
    KeepsFrame (parseDefault (fuel + 1)) := by
  intro s d s2 h
  rw [parseDefault] at h
  split at h
  · split at h
    · cases h
    · rename_i t1 s1 h1
      split at h
      · cases h
      · rename_i t2 sb h2
        split at h
        · cases h
        · rename_i body s3 h3
          cases h
          exact ((verifyToken_arena h1).chain (verifyToken_arena h2)).frame.link
            (ihb _ _ _ h3)
  · cases h
    exact Frame.rest s

theorem processSwitch_frame_step (fuel : Nat)
    (ihc : ∀ cv cb, KeepsFrame (parseCases fuel cv cb))
    (ihd : KeepsFrame (parseDefault fuel)) :
    KeepsFrame (processSwitch (fuel + 1)) := by
  intro s e s2 h
  obtain ⟨t1, s1, t, sb, sv, s3, t4, s4, cv, cb, s5, d, s6, t7, s7, h1, h2, h3, h4, h5,
    h6, h7, hrest⟩ := processSwitch_inv h
  obtain ⟨e3, -⟩ := findVarLocation_state h3
  subst e3
  have f4 := (((verifyToken_arena h1).chain (verifyToken_arena h2)).chain
    (verifyToken_arena h4)).frame
  have f8 := ((f4.link (ihc _ _ _ _ _ h5)).link (ihd _ _ _ h6)).link
    ((verifyToken_arena h7).chain (makeNoop_arena s7)).frame
  rcases hrest with ⟨-, -, -, rfl⟩ | ⟨-, s9, h9, hch⟩
  · exact f8
  · exact f8.link ((linkNodes_arena h9).chain
      (switchChain_arena _ _ _ _ _ _ _ _ _ hch)).frame

theorem handleStmt_frame_step (fuel : Nat) (ihw : KeepsFrame (buildWhileLoop fuel))
    (ihi : KeepsFrame (handleIfStmt fuel)) (ihs : KeepsFrame (processSwitch fuel))
    (ihf : KeepsFrame (createForLoop fuel)) :
    KeepsFrame (handleStmt (fuel + 1)) := by
  intro s e s2 h
  rw [handleStmt] at h
  split at h
  · exact createAssignNode_frame h
  · exact ihw _ _ _ h
  · exact ihi _ _ _ h
  · exact ihs _ _ _ h
  · exact ihf _ _ _ h
  · exact (makeOutputNode_arena h).frame
  · exact (makeInputNode_arena h).frame
  · cases h

/-- Every procedure of the mutual recursion that succeeds leaves the symbol table
and the input queue as they were, does not move the cursor back and does not
change a cell below the cursor it started with. -/
theorem frames_all (fuel : Nat) :
    KeepsFrame (getBodyCode fuel) ∧ KeepsFrame (buildStmtList fuel) ∧
    KeepsFrame (handleStmt fuel) ∧ KeepsFrame (buildWhileLoop fuel) ∧
    KeepsFrame (handleIfStmt fuel) ∧ (∀ cv cb, KeepsFrame (parseCases fuel cv cb)) ∧
    KeepsFrame (processSwitch fuel) ∧ KeepsFrame (parseDefault fuel) ∧
    KeepsFrame (createForLoop fuel) := by
  induction fuel with
  | zero =>
    refine ⟨?_, ?_, ?_, ?_, ?_, ?_, ?_, ?_, ?_⟩
    · intro s e s2 h; rw [getBodyCode] at h; cases h
    · intro s e s2 h; rw [buildStmtList] at h; cases h
    · intro s e s2 h; rw [handleStmt] at h; cases h
    · intro s e s2 h; rw [buildWhileLoop] at h; cases h
    · intro s e s2 h; rw [handleIfStmt] at h; cases h
    · intro cv cb s r s2 h; rw [parseCases] at h; cases h
    · intro s e s2 h; rw [processSwitch] at h; cases h
    · intro s e s2 h; rw [parseDefault] at h; cases h
    · intro s e s2 h; rw [createForLoop] at h; cases h
  | succ fuel ih =>
    obtain ⟨ib, il, ist, iw, ii, ic, isw, idf, ifo⟩ := ih
    exact ⟨getBodyCode_frame_step fuel il, buildStmtList_frame_step fuel ist il,
      handleStmt_frame_step fuel iw ii isw ifo, buildWhileLoop_frame_step fuel ib,
      handleIfStmt_frame_step fuel ib, parseCases_frame_step fuel ib ic,
      processSwitch_frame_step fuel ic idf, parseDefault_frame_step fuel ib,
      createForLoop_frame_step fuel ib⟩

theorem getBodyCode_frame {fuel : Nat} {s s2 : ParserState} {e : Nat}
    (h : getBodyCode fuel s = .ok (e, s2)) : Frame s s2 :=
  (frames_all fuel).1 s e s2 h

/-! ## The symbol table and the declaration list -/

theorem mapFind_mapAssign (m : List (String × Nat)) (x y : String) (v : Nat) :
    mapFind (mapAssign m x v) y = if x = y then some v else mapFind m y := by
  induction m with
  | nil => simp [mapAssign, mapFind]
  | cons p m ih =>
    obtain ⟨k, w⟩ := p
    by_cases hk : k = x
    · subst hk
      by_cases hky : k = y <;> simp [mapAssign, mapFind, hky]
    · by_cases hky : k = y
      · subst hky
        simp [mapAssign, mapFind, hk, Ne.symm hk]
      · simp [mapAssign, mapFind, hk, hky, ih]

/-- The steps of a successful `processIdList`. -/
theorem processIdList_inv {fuel : Nat} {s s2 : ParserState}
    (h : processIdList (fuel + 1) s = .ok ((), s2)) :
    ∃ tok s1, verifyToken TokenType.ID s = .ok (tok, s1) ∧
      (((GetToken (declare tok.lexeme s1)).1.token_type = TokenType.COMMA ∧
          processIdList fuel (GetToken (declare tok.lexeme s1)).2 = .ok ((), s2)) ∨
        ((GetToken (declare tok.lexeme s1)).1.token_type = TokenType.SEMICOLON ∧
          s2 = (GetToken (declare tok.lexeme s1)).2)) := by
  rw [processIdList] at h
  split at h
  · cases h
  · rename_i tok s1 h1
    refine ⟨tok, s1, h1, ?_⟩
    simp only at h
    split at h
    · rename_i hc
      exact Or.inl ⟨hc, h⟩
    · split at h
      · cases h
      · rename_i hc hs
        simp only [ne_eq, Decidable.not_not] at hs
        cases h
        exact Or.inr ⟨hs, rfl⟩

/-! ## C8: allocation order -/

/-- C8: every allocating call hands out the cell at the cursor and advances the
cursor by exactly one, and nothing else moves the cursor, so the locations
returned by successive allocating calls are consecutive.  (1) `storeConstant`
returns the cursor, advances it by one and stores the value there; (2)
`getPrimaryValue` on a `NUM` token does the same with the value of the lexeme, and
on an `ID` token leaves the cursor alone; (3) a declaration in `processIdList`
records the cursor for the name, stores 0 there and advances the cursor by one;
(4) `GetToken`, `verifyToken`, `findVarLocation`, `getOperator`,
`getRelationalOp`, `newNode`, `setNode` and `linkNodes` leave the cursor and the
cells alone; (5) no statement procedure moves the cursor back or changes a cell
below it; (6) two occurrences of one numeric literal in a condition receive the two
distinct locations `k` and `k + 1`, each holding the value. -/
theorem allocation_is_consecutive :
    (∀ (v : Int) (s : ParserState),
      (storeConstant v s).1 = s.next_available ∧
      (storeConstant v s).2.next_available = s.next_available + 1 ∧
      (storeConstant v s).2.mem s.next_available = v) ∧
    (∀ (s s2 : ParserState) (l : Nat), getPrimaryValue s = .ok (l, s2) →
      ((GetToken s).1.token_type = TokenType.NUM →
        l = s.next_available ∧ s2.next_available = s.next_available + 1 ∧
        stoi (GetToken s).1.lexeme = some (s2.mem l)) ∧
      ((GetToken s).1.token_type = TokenType.ID →
        s2.next_available = s.next_available ∧ s2.mem = s.mem)) ∧
    (∀ (name : String) (s : ParserState),
      mapFind (declare name s).varLocations name = some s.next_available ∧
      (declare name s).next_available = s.next_available + 1 ∧
      (declare name s).mem s.next_available = 0) ∧
    ((∀ s, SameArena s (GetToken s).2) ∧
      (∀ e s t s2, verifyToken e s = .ok (t, s2) → SameArena s s2) ∧
      (∀ name s l s2, findVarLocation name s = .ok (l, s2) → s2 = s) ∧
      (∀ s o s2, getOperator s = .ok (o, s2) → SameArena s s2) ∧
      (∀ s o s2, getRelationalOp s = .ok (o, s2) → SameArena s s2) ∧
      (∀ n s, SameArena s (newNode n s).2) ∧
      (∀ p f s, SameArena s (setNode p f s)) ∧
      (∀ start nw s s2, linkNodes start nw s = .ok s2 → SameArena s s2)) ∧
    (∀ (fuel : Nat) (s s2 : ParserState) (e : Nat),
      (handleStmt fuel s = .ok (e, s2) ∨ buildStmtList fuel s = .ok (e, s2) ∨
        getBodyCode fuel s = .ok (e, s2)) →
      s.next_available ≤ s2.next_available ∧
      ∀ i, i < s.next_available → s2.mem i = s.mem i) ∧
    (∀ (s : ParserState) (lx : String) (rel : Token) (rest : List Token) (v : Int),
      s.tokens = mkToken TokenType.NUM lx :: rel :: mkToken TokenType.NUM lx :: rest →
      stoi lx = some v →
      (rel.token_type = TokenType.GREATER ∨ rel.token_type = TokenType.LESS ∨
        rel.token_type = TokenType.NOTEQUAL) →
      ∃ cond s2, checkCondition s =
          .ok ((cond, s.next_available, s.next_available + 1), s2) ∧
        s2.mem s.next_available = v ∧ s2.mem (s.next_available + 1) = v ∧
        s2.next_available = s.next_available + 2) := by
  refine ⟨fun v s => ⟨rfl, rfl, by simp [storeConstant, memWrite]⟩, ?_, ?_, ?_, ?_, ?_⟩
  · intro s s2 l h
    rcases getPrimaryValue_inv h with ⟨hid, rfl, -⟩ | ⟨hnum, rfl, v, hv, rfl⟩
    · refine ⟨fun hn => ?_, fun _ => ⟨(GetToken_arena s).2.2.1, (GetToken_arena s).2.1⟩⟩
      rw [hid] at hn
      cases hn
    · refine ⟨fun _ => ⟨rfl, rfl, ?_⟩, fun hi => ?_⟩
      · simp [memWrite, hv]
      · rw [hnum] at hi
        cases hi
  · intro name s
    refine ⟨?_, rfl, ?_⟩
    · simp [declare, mapFind_mapAssign]
    · simp [declare, memWrite]
  · exact ⟨GetToken_arena, fun _ _ _ _ h => verifyToken_arena h,
      fun _ _ _ _ h => (findVarLocation_state h).1,
      fun _ _ _ h => getOperator_arena h, fun _ _ _ h => getRelationalOp_arena h,
      newNode_arena, setNode_arena, fun _ _ _ _ h => linkNodes_arena h⟩
  · intro fuel s s2 e h
    have hf : Frame s s2 := by
      rcases h with h | h | h
      · exact (frames_all fuel).2.2.1 s e s2 h
      · exact (frames_all fuel).2.1 s e s2 h
      · exact (frames_all fuel).1 s e s2 h
    exact ⟨hf.2.2.1, hf.2.2.2⟩
  · intro s lx rel rest v ht hv hrel
    rcases hrel with hr | hr | hr
    all_goals
      simp only [checkCondition, getPrimaryValue, getRelationalOp, GetToken, ht, mkToken,
        hv, hr, reduceCtorEq, if_false, if_true]
      refine ⟨_, _, rfl, ?_, ?_, rfl⟩ <;> simp [memWrite]

/-- Witness of C8: the condition `5 < 5` parsed with cursor 2 stores the two
occurrences of the literal at the locations 2 and 3. -/
theorem allocation_is_consecutive_witness :
    stoi "5" = some 5 ∧
    ∃ cond s2,
      checkCondition (stateAB [mkToken TokenType.NUM "5", mkToken TokenType.LESS "<",
        mkToken TokenType.NUM "5"]) = .ok ((cond, 2, 3), s2) ∧
      s2.mem 2 = 5 ∧ s2.mem 3 = 5 ∧ s2.next_available = 4 :=
  ⟨by decide,
    allocation_is_consecutive.2.2.2.2.2
      (stateAB [mkToken TokenType.NUM "5", mkToken TokenType.LESS "<",
        mkToken TokenType.NUM "5"])
      "5" (mkToken TokenType.LESS "<") [] 5 rfl (by decide) (Or.inr (Or.inl rfl))⟩

/-! ## C9: the capacity of the arena -/

/-- C9, as stated, fails: with the cursor at the capacity 1000 every allocating
operation returns normally.  `storeConstant` and `getPrimaryValue` return the
location 1000 and the declaration of `x` records the location 1000; the store
goes to index 1000, which `int mem[1000]` does not have. -/
theorem allocation_at_capacity_returns :
    (storeConstant 7 (stateFull [])).1 = 1000 ∧
    (storeConstant 7 (stateFull [])).2.mem 1000 = 7 ∧
    returned (getPrimaryValue (stateFull [mkToken TokenType.NUM "7"])) = some 1000 ∧
    (finalState (stateFull [])
      (getPrimaryValue (stateFull [mkToken TokenType.NUM "7"]))).mem 1000 = 7 ∧
    returned (processIdList 2 (stateFull [mkToken TokenType.ID "x",
      mkToken TokenType.SEMICOLON ";"])) = some () ∧
    mapFind (finalState (stateFull []) (processIdList 2 (stateFull
      [mkToken TokenType.ID "x", mkToken TokenType.SEMICOLON ";"]))).varLocations "x" =
      some 1000 := by
  refine ⟨rfl, by decide!, by decide!, by decide!, by decide!, by decide!⟩

/-- C9, amended: no allocating operation compares the cursor with the capacity.
For every state, whatever its cursor, `storeConstant` returns the cursor and
advances it by one; `getPrimaryValue` on a `NUM` token whose lexeme `stoi` accepts
does the same; so does a declaration in `processIdList`, which never fails after
its identifier was read unless the token that follows is neither a comma nor a
semicolon.  Each of them writes only the cell at the cursor, so while the cursor
is below the capacity no cell at an index from 1000 on is written. -/
theorem allocation_is_unchecked :
    (∀ (v : Int) (s : ParserState),
      (storeConstant v s).1 = s.next_available ∧
      (storeConstant v s).2.next_available = s.next_available + 1 ∧
      (∀ i, i ≠ s.next_available → (storeConstant v s).2.mem i = s.mem i) ∧
      (s.next_available < memCapacity →
        ∀ i, memCapacity ≤ i → (storeConstant v s).2.mem i = s.mem i)) ∧
    (∀ (s : ParserState) (t : Token) (rest : List Token) (v : Int),
      s.tokens = t :: rest → t.token_type = TokenType.NUM → stoi t.lexeme = some v →
      ∃ s2, getPrimaryValue s = .ok (s.next_available, s2) ∧
        s2.next_available = s.next_available + 1 ∧
        (∀ i, i ≠ s.next_available → s2.mem i = s.mem i) ∧
        (s.next_available < memCapacity →
          ∀ i, memCapacity ≤ i → s2.mem i = s.mem i)) ∧
    (∀ (name : String) (s : ParserState),
      mapFind (declare name s).varLocations name = some s.next_available ∧
      (declare name s).next_available = s.next_available + 1 ∧
      (∀ i, i ≠ s.next_available → (declare name s).mem i = s.mem i) ∧
      (s.next_available < memCapacity →
        ∀ i, memCapacity ≤ i → (declare name s).mem i = s.mem i)) ∧
    (∀ (fuel : Nat) (s : ParserState) (t : Token) (rest : List Token),
      s.tokens = t :: rest → t.token_type = TokenType.ID →
      processIdList (fuel + 1) s = .error ParseError.fatal →
      (GetToken (declare t.lexeme (GetToken s).2)).1.token_type ≠ TokenType.SEMICOLON) := by
  refine ⟨?_, ?_, ?_, ?_⟩
  · intro v s
    refine ⟨rfl, rfl, ?_, ?_⟩
    · intro i hi
      simp [storeConstant, memWrite, hi]
    · intro hlt i hi
      have : i ≠ s.next_available := by omega
      simp [storeConstant, memWrite, this]
  · intro s t rest v ht hty hv
    refine ⟨{ s with tokens := rest, mem := memWrite s.mem s.next_available v,
                     next_available := s.next_available + 1 }, ?_, ?_, ?_, ?_⟩
    · simp only [getPrimaryValue, GetToken, ht, hty, hv, reduceCtorEq, if_false,
        if_true]
    · rfl
    · intro i hi
      simp [memWrite, hi]
    · intro hlt i hi
      have : i ≠ s.next_available := by omega
      simp [memWrite, this]
  · intro name s
    refine ⟨?_, rfl, ?_, ?_⟩
    · simp [declare, mapFind_mapAssign]
    · intro i hi
      simp [declare, memWrite, hi]
    · intro hlt i hi
      have : i ≠ s.next_available := by omega
      simp [declare, memWrite, this]
  · intro fuel s t rest ht hty herr hsemi
    have hv : verifyToken TokenType.ID s = .ok (t, (GetToken s).2) := by
      simp [verifyToken, GetToken, ht, hty]
    rw [processIdList, hv] at herr
    simp [hsemi] at herr

/-- Witness of the amended C9: with the cursor at 1000, `getPrimaryValue` on the
literal 7 returns the location 1000. -/
theorem allocation_is_unchecked_witness :
    stoi "7" = some 7 ∧
    ∃ s2, getPrimaryValue (stateFull [mkToken TokenType.NUM "7"]) = .ok (1000, s2) ∧
      s2.next_available = 1001 :=
  ⟨by decide, by
    obtain ⟨s2, h1, h2, -, -⟩ := allocation_is_unchecked.2.1
      (stateFull [mkToken TokenType.NUM "7"]) (mkToken TokenType.NUM "7") [] 7 rfl rfl
      (by decide)
    exact ⟨s2, h1, h2⟩⟩

theorem processIdList_comma {fuel : Nat} {s : ParserState} {x : String}
    {more : List Token}
    (ht : s.tokens = mkToken TokenType.ID x :: mkToken TokenType.COMMA "," :: more) :
    processIdList (fuel + 1) s =
      processIdList fuel { declare x s with tokens := more } := by
  rw [processIdList]
  simp [verifyToken, GetToken, ht, mkToken, declare]

theorem processIdList_semicolon {fuel : Nat} {s : ParserState} {x : String}
    {rest : List Token}
    (ht : s.tokens = mkToken TokenType.ID x :: mkToken TokenType.SEMICOLON ";" :: rest) :
    processIdList (fuel + 1) s = .ok ((), { declare x s with tokens := rest }) := by
  rw [processIdList]
  simp [verifyToken, GetToken, ht, mkToken, declare]

/-- What `processIdList` does on a declaration list `x, names...;`: it succeeds,
consumes the list, advances the cursor by the number of names, maps every name to
the location allocated at its last occurrence and leaves the other names alone. -/
theorem processIdList_spec (names : List String) :
    ∀ (x : String) (rest : List Token) (s : ParserState) (fuel : Nat),
      names.length < fuel → s.tokens = declTokens x names ++ rest →
      ∃ s2, processIdList fuel s = .ok ((), s2) ∧ s2.tokens = rest ∧
        s2.next_available = s.next_available + (names.length + 1) ∧
        (∀ (j : Nat) (w : String), (x :: names)[j]? = some w →
          (∀ j2, j < j2 → (x :: names)[j2]? ≠ some w) →
          mapFind s2.varLocations w = some (s.next_available + j)) ∧
        (∀ z, z ∉ x :: names → mapFind s2.varLocations z = mapFind s.varLocations z) := by
  induction names with
  | nil =>
    intro x rest s fuel hf ht
    obtain ⟨f, rfl⟩ : ∃ f, fuel = f + 1 := ⟨fuel - 1, by simp at hf; omega⟩
    refine ⟨_, processIdList_semicolon ht, rfl, rfl, ?_, ?_⟩
    · intro j w hj _
      cases j with
      | zero =>
        simp only [List.getElem?_cons_zero, Option.some.injEq] at hj
        subst hj
        simp [declare, mapFind_mapAssign]
      | succ j => simp at hj
    · intro z hz
      have hne : x ≠ z := by
        intro hEq
        exact hz (by simp [hEq])
      simp [declare, mapFind_mapAssign, hne]
  | cons y ns ih =>
    intro x rest s fuel hf ht
    obtain ⟨f, rfl⟩ : ∃ f, fuel = f + 1 := ⟨fuel - 1, by simp at hf; omega⟩
    have ht2 : s.tokens = mkToken TokenType.ID x :: mkToken TokenType.COMMA "," ::
        (declTokens y ns ++ rest) := by
      rw [ht]
      rfl
    obtain ⟨s2, hp, htok, hna, hmap, hfr⟩ := ih y rest
      { declare x s with tokens := declTokens y ns ++ rest } f
      (by simp only [List.length_cons] at hf; omega) rfl
    refine ⟨s2, (processIdList_comma ht2).trans hp, htok, ?_, ?_, ?_⟩
    · rw [hna]
      simp only [declare, List.length_cons]
      omega
    · intro j w hj hlast
      cases j with
      | zero =>
        simp only [List.getElem?_cons_zero, Option.some.injEq] at hj
        subst hj
        have hnot : x ∉ y :: ns := by
          intro hmem
          obtain ⟨n, hn⟩ := List.mem_iff_getElem?.1 hmem
          exact hlast (n + 1) (by omega) (by simpa using hn)
        rw [hfr x hnot]
        simp [declare, mapFind_mapAssign]
      | succ j =>
        have hj2 : (y :: ns)[j]? = some w := by simpa using hj
        have := hmap j w hj2 (by
          intro j2 hlt
          have := hlast (j2 + 1) (by omega)
          simpa using this)
        rw [this]
        simp only [declare]
        congr 1
        omega
    · intro z hz
      have hzx : x ≠ z := by
        intro hEq
        exact hz (by simp [hEq])
      have hzr : z ∉ y :: ns := by
        intro hmem
        exact hz (List.mem_cons_of_mem _ hmem)
      rw [hfr z hzr]
      simp [declare, mapFind_mapAssign, hzx]

/-! ## C10: duplicate declarations -/

/-- C10, as stated, fails: on the declaration list `a, a;` read with cursor 0,
`processIdList` returns and the symbol table maps `a` to location 1, the location
allocated at the second occurrence, although the first occurrence had been given
location 0. -/
theorem duplicate_declaration_overwrites :
    mapFind (declare "a" (stateInit [])).varLocations "a" = some 0 ∧
    returned (processIdList 5 (stateInit (declTokens "a" ["a"]))) = some () ∧
    mapFind (finalState (stateInit [])
      (processIdList 5 (stateInit (declTokens "a" ["a"])))).varLocations "a" =
      some 1 := by
  refine ⟨by decide!, by decide!, by decide!⟩

/-- C10, amended: the last declaration wins.  On a declaration list
`x, names...;` read with cursor `k`, `processIdList` returns; an identifier whose
last occurrence is the `j`-th one of the list (counted from 0) is mapped to the
location `k + j` allocated at that occurrence, so a later occurrence of a name
overwrites the entry of an earlier one; names that are not in the list keep their
entry. -/
theorem processIdList_last_wins (x : String) (names : List String)
    (rest : List Token) (s : ParserState) (fuel : Nat) (hf : names.length < fuel)
    (ht : s.tokens = declTokens x names ++ rest) :
    ∃ s2, processIdList fuel s = .ok ((), s2) ∧
      (∀ (j : Nat) (w : String), (x :: names)[j]? = some w →
        (∀ j2, j < j2 → (x :: names)[j2]? ≠ some w) →
        mapFind s2.varLocations w = some (s.next_available + j)) ∧
      (∀ z, z ∉ x :: names → mapFind s2.varLocations z = mapFind s.varLocations z) := by
  obtain ⟨s2, hp, -, -, hmap, hfr⟩ := processIdList_spec names x rest s fuel hf ht
  exact ⟨s2, hp, hmap, hfr⟩

/-- Witness of the amended C10 on `a, b, a;` read with cursor 0: `a` is mapped to
location 2 and `b` to location 1. -/
theorem processIdList_last_wins_witness :
    ["b", "a"].length < 5 ∧
    (stateInit (declTokens "a" ["b", "a"])).tokens = declTokens "a" ["b", "a"] ++ [] ∧
    ∃ s2, processIdList 5 (stateInit (declTokens "a" ["b", "a"])) = .ok ((), s2) ∧
      mapFind s2.varLocations "a" = some 2 ∧ mapFind s2.varLocations "b" = some 1 := by
  refine ⟨by decide, by simp [stateInit], ?_⟩
  obtain ⟨s2, hp, hmap, -⟩ := processIdList_last_wins "a" ["b", "a"] []
    (stateInit (declTokens "a" ["b", "a"])) 5 (by decide) (by simp [stateInit])
  refine ⟨s2, hp, ?_, ?_⟩
  · have := hmap 2 "a" rfl (by
      intro j2 hlt
      have : ("a" :: ["b", "a"])[j2]? = none := by
        apply List.getElem?_eq_none
        simp
        omega
      rw [this]
      exact fun h => by cases h)
    simpa [stateInit] using this
  · have := hmap 1 "b" rfl (by
      intro j2 hlt
      cases j2 with
      | zero => omega
      | succ j2 =>
        cases j2 with
        | zero => omega
        | succ j2 =>
          cases j2 with
          | zero => decide
          | succ j2 => simp)
    simpa [stateInit] using this

/-! ## C3: lowering of `switch` -/

/-- The case loop returns the vectors extended by the locations and the bodies of
the clauses it parsed. -/
theorem parseCases_run :
    ∀ (fuel : Nat) (cv cb : List Nat) (s : ParserState) (cv2 cb2 : List Nat)
      (s2 : ParserState), parseCases fuel cv cb s = .ok ((cv2, cb2), s2) →
      ∃ cl, CaseRun s cl s2 ∧ cv2 = cv ++ cl.map CaseClause.loc ∧
        cb2 = cb ++ cl.map CaseClause.body := by
  intro fuel
  induction fuel with
  | zero =>
    intro cv cb s cv2 cb2 s2 h
    rw [parseCases] at h
    cases h
  | succ fuel ih =>
    intro cv cb s cv2 cb2 s2 h
    rw [parseCases] at h
    split at h
    · rename_i hpk
      split at h
      · cases h
      · rename_i t1 s1 h1
        split at h
        · cases h
        · rename_i num sn h2
          split at h
          · cases h
          · rename_i val hv
            simp only at h
            split at h
            · cases h
            · rename_i t4 s4 h4
              split at h
              · cases h
              · rename_i body s5 h5
                obtain ⟨cl, hrun, hcv, hcb⟩ := ih _ _ _ _ _ _ h
                refine ⟨_ :: cl, CaseRun.clause hpk h1 h2 hv h4 h5 hrun, ?_, ?_⟩
                · rw [hcv]
                  simp
                · rw [hcb]
                  simp
    · rename_i hpk
      simp only [Except.ok.injEq, Prod.mk.injEq] at h
      obtain ⟨⟨rfl, rfl⟩, rfl⟩ := h
      exact ⟨[], CaseRun.done hpk, by simp, by simp⟩

/-- What a run of the case loop leaves behind: the heap is extended, the arena
frame is kept, every clause's body lies in its own closed region, the regions
follow one another in the order of the clauses, and the cell of every constant
holds the constant. -/
theorem CaseRun.facts {s s2 : ParserState} {cl : List CaseClause}
    (hr : CaseRun s cl s2) :
    Ext s.heap s2.heap ∧ Frame s s2 ∧
    (∀ (i : Nat) (c : CaseClause), cl[i]? = some c →
      s.heap.length ≤ c.lo ∧ c.lo ≤ c.body ∧ c.body < c.hi ∧
      c.hi ≤ s2.heap.length ∧ RegionClosed c.lo c.hi s2.heap ∧
      c.loc < s2.next_available ∧ s2.mem c.loc = c.value) ∧
    (∀ (i j : Nat) (c d : CaseClause), i < j → cl[i]? = some c → cl[j]? = some d →
      c.hi ≤ d.lo) := by
  induction hr with
  | done _ =>
    refine ⟨Ext.refl _, Frame.rest _, ?_, ?_⟩
    · intro i c hc
      simp at hc
    · intro i j c d _ hc
      simp at hc
  | @clause s s1 sn s4 s5 s6 t1 num t4 c fuel body rest hpk h1 h2 hv h4 h5 _ ih =>
    obtain ⟨ihx, ihf, ihc, iho⟩ := ih
    have e4 : s4.heap = s.heap := by
      rw [verifyToken_heap h4, storeConstant_heap, verifyToken_heap h2,
        verifyToken_heap h1]
    have b5 := getBodyCode_built h5
    rw [e4] at b5
    have fn : Frame s sn := ((verifyToken_arena h1).chain (verifyToken_arena h2)).frame
    have f5 : Frame (storeConstant c sn).2 s5 :=
      (verifyToken_arena h4).frame.link (getBodyCode_frame h5)
    have f6 : Frame (storeConstant c sn).2 s6 := f5.link ihf
    refine ⟨b5.1.compose ihx, (fn.link (storeConstant_frame c sn)).link f6, ?_, ?_⟩
    · intro i cc hc
      cases i with
      | zero =>
        simp only [List.getElem?_cons_zero, Option.some.injEq] at hc
        subst hc
        simp only
        rw [e4]
        refine ⟨le_refl _, b5.2.1, b5.2.2, ihx.1, ?_, ?_, ?_⟩
        · exact b5.1.2.2.of_agree (fun p _ hp => ihx.2.1 p hp)
        · have := f6.2.2.1
          simp only [storeConstant] at this ⊢
          omega
        · rw [f6.2.2.2 _ (by simp [storeConstant])]
          simp [storeConstant, memWrite]
      | succ i =>
        simp only [List.getElem?_cons_succ] at hc
        obtain ⟨a1, a2, a3, a4, a5, a6, a7⟩ := ihc i cc hc
        exact ⟨le_trans b5.1.1 a1, a2, a3, a4, a5, a6, a7⟩
    · intro i j cc d hij hc hd
      cases j with
      | zero => omega
      | succ j =>
        simp only [List.getElem?_cons_succ] at hd
        cases i with
        | zero =>
          simp only [List.getElem?_cons_zero, Option.some.injEq] at hc
          subst hc
          exact (ihc j d hd).1
        | succ i =>
          simp only [List.getElem?_cons_succ] at hc
          exact iho i j cc d (by omega) hc hd

/-- The loop of `processSwitch` over the clauses `cl`, with `i` iterations left,
run on a heap in which the bodies of the clauses `0 .. i-1` still lie in closed
regions.  Iteration `j` allocates a `JMP` node to the exit and a `CJMP` node testing
the clause; the `JMP` node is linked at the tail of the body of the clause; nothing
else changes. -/
theorem switchChain_shape (sv X : Nat) (cl : List CaseClause)
    (hord : ∀ (j j2 : Nat) (c d : CaseClause), j < j2 → cl[j]? = some c →
      cl[j2]? = some d → c.hi ≤ d.lo) :
    ∀ (i nextNode : Nat) (s : ParserState) (e : Nat) (s2 : ParserState),
      i ≤ cl.length →
      (∀ (j : Nat) (c : CaseClause), j < i → cl[j]? = some c →
        c.lo ≤ c.body ∧ c.body < c.hi ∧ c.hi ≤ s.heap.length ∧
        RegionClosed c.lo c.hi s.heap) →
      switchChain sv X (cl.map CaseClause.loc) (cl.map CaseClause.body) i nextNode s =
        .ok (e, s2) →
      s2.heap.length = s.heap.length + 2 * i ∧
      e = (if i = 0 then nextNode else s.heap.length + 2 * i - 1) ∧
      (∀ p, p < s.heap.length →
        (∀ (j : Nat) (c : CaseClause), j < i → cl[j]? = some c →
          ¬ (c.lo ≤ p ∧ p < c.hi)) →
        s2.heap[p]? = s.heap[p]?) ∧
      (∀ (j : Nat) (c : CaseClause), j < i → cl[j]? = some c →
        s2.heap[s.heap.length + 2 * (i - j) - 1]? =
          some (cjmpNode ConditionalOperatorType.CONDITION_NOTEQUAL sv c.loc
            (some (if j + 1 < i then s.heap.length + 2 * (i - j) - 3 else nextNode))
            (some c.body)) ∧
        s2.heap[s.heap.length + 2 * (i - j) - 2]? = some (jmpNode none (some X)) ∧
        ∃ t nt, c.lo ≤ t ∧ t < c.hi ∧ NextReach s.heap c.body t ∧
          s.heap[t]? = some nt ∧ nt.next = none ∧
          s2.heap[t]? =
            some { nt with next := some (s.heap.length + 2 * (i - j) - 2) } ∧
          (∀ p, c.lo ≤ p → p < c.hi → p ≠ t → s2.heap[p]? = s.heap[p]?) ∧
          NextReach s2.heap c.body (s.heap.length + 2 * (i - j) - 2)) := by
  intro i
  induction i with
  | zero =>
    intro nextNode s e s2 _ _ h
    rw [switchChain] at h
    simp only [Except.ok.injEq, Prod.mk.injEq] at h
    obtain ⟨rfl, rfl⟩ := h
    refine ⟨by omega, by simp, fun _ _ _ => rfl, ?_⟩
    intro j c hj
    omega
  | succ i ih =>
    intro nextNode s e s2 hi hreg h
    obtain ⟨c, hc⟩ : ∃ c, cl[i]? = some c := by
      have hlt : i < cl.length := by omega
      exact ⟨cl[i], List.getElem?_eq_getElem hlt⟩
    obtain ⟨cb1, cb2, chi, ccl⟩ := hreg i c (by omega) hc
    rw [switchChain] at h
    simp only [List.getElem?_map, hc, Option.map_some', newNode_fst] at h
    split at h
    · cases h
    · rename_i sl hl
      obtain ⟨t, hw, hsl⟩ := linkNodes_some hl
      have hag1 : ∀ p, c.lo ≤ p → p < c.hi →
          (newNode (jmpNode none (some X)) s).2.heap[p]? = s.heap[p]? :=
        fun p _ hp => get_newNode_lt _ _ (by omega)
      obtain ⟨htr, hr0, nt, hnt, hntx, -, -, -⟩ :=
        attach_tail s.heap.length ccl hag1 ⟨cb1, cb2⟩ hw
      have l1 : sl.heap.length = s.heap.length + 1 := by
        rw [hsl, length_setNext, length_newNode]
      -- the heap after this iteration
      have g3 : ∀ p, p < s.heap.length → p ≠ t →
          (newNode (cjmpNode ConditionalOperatorType.CONDITION_NOTEQUAL sv c.loc
            (some nextNode) (some c.body)) sl).2.heap[p]? = s.heap[p]? := by
        intro p hp hne
        rw [get_newNode_lt _ _ (by omega), hsl, get_setNext_ne _ _ (Ne.symm hne),
          get_newNode_lt _ _ hp]
      have g3t : (newNode (cjmpNode ConditionalOperatorType.CONDITION_NOTEQUAL sv c.loc
            (some nextNode) (some c.body)) sl).2.heap[t]? =
          some { nt with next := some s.heap.length } := by
        rw [get_newNode_lt _ _ (by omega), hsl,
          get_setNext_eq (n := nt) _ (by rw [get_newNode_lt _ _ (by omega)]; exact hnt)]
      have g3J : (newNode (cjmpNode ConditionalOperatorType.CONDITION_NOTEQUAL sv c.loc
            (some nextNode) (some c.body)) sl).2.heap[s.heap.length]? =
          some (jmpNode none (some X)) := by
        rw [get_newNode_lt _ _ (by omega), hsl, get_setNext_ne _ _ (by omega)]
        exact get_newNode_eq _ _
      have g3T : (newNode (cjmpNode ConditionalOperatorType.CONDITION_NOTEQUAL sv c.loc
            (some nextNode) (some c.body)) sl).2.heap[s.heap.length + 1]? =
          some (cjmpNode ConditionalOperatorType.CONDITION_NOTEQUAL sv c.loc
            (some nextNode) (some c.body)) := by
        have := get_newNode_eq (cjmpNode ConditionalOperatorType.CONDITION_NOTEQUAL sv
          c.loc (some nextNode) (some c.body)) sl
        rw [l1] at this
        exact this
      have l3 : (newNode (cjmpNode ConditionalOperatorType.CONDITION_NOTEQUAL sv c.loc
            (some nextNode) (some c.body)) sl).2.heap.length = s.heap.length + 2 := by
        rw [length_newNode, l1]
      -- regions of the earlier clauses are untouched
      have hreg3 : ∀ (j : Nat) (d : CaseClause), j < i → cl[j]? = some d →
          d.lo ≤ d.body ∧ d.body < d.hi ∧
          d.hi ≤ (newNode (cjmpNode ConditionalOperatorType.CONDITION_NOTEQUAL sv c.loc
            (some nextNode) (some c.body)) sl).2.heap.length ∧
          RegionClosed d.lo d.hi
            (newNode (cjmpNode ConditionalOperatorType.CONDITION_NOTEQUAL sv c.loc
              (some nextNode) (some c.body)) sl).2.heap := by
        intro j d hj hd
        obtain ⟨d1, d2, d3, d4⟩ := hreg j d (by omega) hd
        have hdc := hord j i d c hj hd hc
        refine ⟨d1, d2, by rw [l3]; omega, d4.of_agree ?_⟩
        intro p _ hp
        exact g3 p (by omega) (by omega)
      obtain ⟨r1, r2, r3, r4⟩ := ih _ _ _ _ (by omega) hreg3 h
      rw [l3] at r1 r2 r3 r4
      have hout : ∀ p, c.lo ≤ p → p < s.heap.length + 2 →
          ∀ (j : Nat) (d : CaseClause), j < i → cl[j]? = some d →
            ¬ (d.lo ≤ p ∧ p < d.hi) := by
        intro p hp _ j d hj hd hin
        have := hord j i d c hj hd hc
        omega
      refine ⟨by omega, ?_, ?_, ?_⟩
      · rw [r2]
        by_cases hi0 : i = 0
        · simp [hi0, l1]
        · simp only [hi0, if_false, Nat.add_one_ne_zero]
          omega
      · intro p hp hnot
        have hpt : p ≠ t := by
          intro hEq
          exact hnot i c (by omega) hc (by omega)
        rw [r3 p (by omega) (fun j d hj hd => hnot j d (by omega) hd)]
        exact g3 p hp hpt
      · intro j d hj hd
        by_cases hji : j = i
        · subst hji
          rw [hc] at hd
          cases hd
          have e1 : s.heap.length + 2 * (j + 1 - j) - 1 = s.heap.length + 1 := by omega
          have e2 : s.heap.length + 2 * (j + 1 - j) - 2 = s.heap.length := by omega
          rw [e1, e2]
          have hregfr : ∀ p, c.lo ≤ p → p < c.hi → p ≠ t →
              s2.heap[p]? = s.heap[p]? := by
            intro p hp1 hp2 hne
            rw [r3 p (by omega) (hout p hp1 (by omega))]
            exact g3 p (by omega) hne
          have hft : s2.heap[t]? = some { nt with next := some s.heap.length } := by
            rw [r3 t (by omega) (hout t htr.1 (by omega))]
            exact g3t
          refine ⟨?_, ?_, t, nt, htr.1, htr.2, hr0, hnt, hntx, hft, hregfr, ?_⟩
          · rw [r3 _ (by omega) (hout _ (by omega) (by omega)), g3T]
            simp
          · rw [r3 _ (by omega) (hout _ (by omega) (by omega)), g3J]
          · exact (hr0.to_modified ccl ⟨cb1, cb2⟩ hnt hntx hregfr).snoc hft rfl
        · have hj2 : j < i := by omega
          obtain ⟨q1, q2, t2, nt2, q3, q4, q5, q6, q7, q8, q9, q10⟩ := r4 j d hj2 hd
          obtain ⟨d1, d2, d3, d4⟩ := hreg3 j d hj2 hd
          have hdc := hord j i d c hj2 hd hc
          have e1 : s.heap.length + 2 * (i + 1 - j) - 1 =
              s.heap.length + 2 + 2 * (i - j) - 1 := by omega
          have e2 : s.heap.length + 2 * (i + 1 - j) - 2 =
              s.heap.length + 2 + 2 * (i - j) - 2 := by omega
          rw [e1, e2]
          have hagd : ∀ p, d.lo ≤ p → p < d.hi →
              s.heap[p]? = (newNode (cjmpNode
                ConditionalOperatorType.CONDITION_NOTEQUAL sv c.loc
                (some nextNode) (some c.body)) sl).2.heap[p]? :=
            fun p _ hp2 => (g3 p (by omega) (by omega)).symm
          refine ⟨?_, q2, t2, nt2, q3, q4, q5.congr_region d4 hagd ⟨d1, d2⟩, ?_, q7, q8,
            ?_, q10⟩
          · rw [q1]
            congr 2
            by_cases hj1 : j + 1 < i
            · simp only [hj1, if_true]
              rw [if_pos (by omega)]
              congr 1
              omega
            · simp only [hj1, if_false]
              rw [if_pos (by omega)]
              congr 1
              omega
          · rw [hagd t2 q3 q4]
            exact q6
          · intro p hp1 hp2 hne
            rw [q9 p hp1 hp2 hne]
            exact (hagd p hp1 hp2).symm

/-- The graph a successful `processSwitch` leaves behind, with the clauses `cl`
parsed by the case loop, the optional default body `d`, the exit node
`X = s7.heap.length` and `k = cl.length`: the test of clause `i` is the node
`X + 2 * (k - i)`, the jump appended to its body is the node before it, the bodies
occupy consecutive closed regions of the heap and only the tail of each body was
changed. -/
theorem processSwitch_anatomy (fuel : Nat) (s s2 : ParserState) (e : Nat)
    (h : processSwitch fuel s = .ok (e, s2)) :
    ∃ f t1 s1 t sb sv s3 t4 s4 cl s5 d s6 t7 s7,
      fuel = f + 1 ∧
      verifyToken TokenType.SWITCH s = .ok (t1, s1) ∧
      verifyToken TokenType.ID s1 = .ok (t, sb) ∧
      findVarLocation t.lexeme sb = .ok (sv, s3) ∧
      verifyToken TokenType.LBRACE s3 = .ok (t4, s4) ∧
      CaseRun s4 cl s5 ∧
      parseDefault f s5 = .ok (d, s6) ∧
      verifyToken TokenType.RBRACE s6 = .ok (t7, s7) ∧
      s2.heap[s7.heap.length]? = some noopNode ∧
      (∀ (i : Nat) (c : CaseClause), cl[i]? = some c →
        s2.heap[s7.heap.length + 2 * (cl.length - i)]? =
          some (cjmpNode ConditionalOperatorType.CONDITION_NOTEQUAL sv c.loc
            (some (if i + 1 < cl.length then s7.heap.length + 2 * (cl.length - i) - 2
              else d.getD s7.heap.length))
            (some c.body)) ∧
        s2.mem c.loc = c.value ∧
        ∃ tl nt, NextReach s5.heap c.body tl ∧ s5.heap[tl]? = some nt ∧
          nt.next = none ∧
          s2.heap[tl]? =
            some { nt with next := some (s7.heap.length + 2 * (cl.length - i) - 1) } ∧
          s2.heap[s7.heap.length + 2 * (cl.length - i) - 1]? =
            some (jmpNode none (some s7.heap.length)) ∧
          NextReach s2.heap c.body (s7.heap.length + 2 * (cl.length - i) - 1) ∧
          (c.lo ≤ c.body ∧ c.body < c.hi ∧ c.hi ≤ s7.heap.length) ∧
          (c.lo ≤ tl ∧ tl < c.hi) ∧ RegionClosed c.lo c.hi s5.heap ∧
          (∀ p, c.lo ≤ p → p < c.hi → p ≠ tl → s2.heap[p]? = s5.heap[p]?)) ∧
      (∀ (i j : Nat) (c d : CaseClause), i < j → cl[i]? = some c → cl[j]? = some d →
        c.hi ≤ d.lo) ∧
      (∀ b, d = some b →
        ∃ tl nt, NextReach s6.heap b tl ∧ s6.heap[tl]? = some nt ∧ nt.next = none ∧
          s2.heap[tl]? = some { nt with next := some s7.heap.length } ∧
          NextReach s2.heap b s7.heap.length) ∧
      e = (if cl.length = 0 then d.getD s7.heap.length
        else s7.heap.length + 2 * cl.length) := by
  cases fuel with
  | zero =>
    rw [processSwitch] at h
    cases h
  | succ f =>
    obtain ⟨t1, s1, t, sb, sv, s3, t4, s4, cv, cb, s5, d, s6, t7, s7, h1, h2, h3, h4, h5,
      h6, h7, hrest⟩ := processSwitch_inv h
    obtain ⟨cl, hrun, hcv, hcb⟩ := parseCases_run _ _ _ _ _ _ _ h5
    simp only [List.nil_append] at hcv hcb
    subst hcv hcb
    obtain ⟨x5, f5, hcl, hord⟩ := hrun.facts
    obtain ⟨a6, hd⟩ := (builds_all f).2.2.2.2.2.2.2.1 _ _ _ h6
    have f6 : Frame s5 s6 := (frames_all f).2.2.2.2.2.2.2.1 _ _ _ h6
    have e7 : s7.heap = s6.heap := verifyToken_heap h7
    have l56 : s5.heap.length ≤ s7.heap.length := by
      rw [e7]
      exact a6.1
    refine ⟨f, t1, s1, t, sb, sv, s3, t4, s4, cl, s5, d, s6, t7, s7, rfl, h1, h2, h3, h4,
      hrun, h6, h7, ?_⟩
    rcases hrest with ⟨hcb0, hd0, rfl, rfl⟩ | ⟨hne, s9, h9, hch⟩
    · have hcl0 : cl = [] := by simpa using hcb0
      subst hcl0 hd0
      refine ⟨get_makeNoop_eq s7, ?_, hord, ?_, by simp⟩
      · intro i c hc
        simp at hc
      · intro b hb
        cases hb
    · -- the heap on which the loop over the clauses starts
      have l9 : s9.heap.length = s7.heap.length + 1 := by
        rw [length_linkNodes h9, length_makeNoop]
      have f9 : Frame s5 s2 :=
        (f6.link ((verifyToken_arena h7).chain (makeNoop_arena s7)).frame).link
          ((linkNodes_arena h9).chain (switchChain_arena _ _ _ _ _ _ _ _ _ hch)).frame
      -- the default body and its tail
      have hdef : ∀ b, d = some b →
          ∃ tl nt, (s5.heap.length ≤ tl ∧ tl < s6.heap.length) ∧
            NextReach s6.heap b tl ∧ s6.heap[tl]? = some nt ∧ nt.next = none ∧
            s9 = setNext tl (some s7.heap.length) (makeNoop s7).2 := by
        intro b hb
        subst hb
        obtain ⟨tl, hw, hs9⟩ := linkNodes_some h9
        have hagd : ∀ p, s5.heap.length ≤ p → p < s6.heap.length →
            (makeNoop s7).2.heap[p]? = s6.heap[p]? := by
          intro p _ hp
          rw [get_makeNoop_lt _ (by rw [e7]; exact hp), e7]
        obtain ⟨htr, hr6, nt, hnt, hntx, -, -, -⟩ :=
          attach_tail s7.heap.length a6.2.2 hagd (hd b rfl) hw
        exact ⟨tl, nt, htr, hr6, hnt, hntx, hs9⟩
      have g9 : ∀ p, p < s5.heap.length → s9.heap[p]? = s5.heap[p]? := by
        intro p hp
        cases hdd : d with
        | none =>
          rw [hdd] at h9
          simp only [linkNodes, Except.ok.injEq] at h9
          rw [← h9, get_makeNoop_lt _ (by omega), e7]
          exact a6.2.1 p hp
        | some b =>
          obtain ⟨tl, nt, htr, -, -, -, hs9⟩ := hdef b hdd
          rw [hs9, get_setNext_ne _ _ (by omega), get_makeNoop_lt _ (by omega), e7]
          exact a6.2.1 p hp
      have g9X : s9.heap[s7.heap.length]? = some noopNode := by
        cases hdd : d with
        | none =>
          rw [hdd] at h9
          simp only [linkNodes, Except.ok.injEq] at h9
          rw [← h9]
          exact get_makeNoop_eq s7
        | some b =>
          obtain ⟨tl, nt, htr, -, -, -, hs9⟩ := hdef b hdd
          rw [hs9, get_setNext_ne _ _ (by rw [e7]; omega)]
          exact get_makeNoop_eq s7
      have hreg9 : ∀ (j : Nat) (c : CaseClause), j < cl.length → cl[j]? = some c →
          c.lo ≤ c.body ∧ c.body < c.hi ∧ c.hi ≤ s9.heap.length ∧
          RegionClosed c.lo c.hi s9.heap := by
        intro j c _ hc
        obtain ⟨-, c2, c3, c4, c5, -, -⟩ := hcl j c hc
        refine ⟨c2, c3, by omega, c5.of_agree ?_⟩
        intro p _ hp
        exact g9 p (by omega)
      simp only [List.length_map] at hch
      obtain ⟨r1, r2, r3, r4⟩ := switchChain_shape sv s7.heap.length cl hord cl.length
        _ s9 e s2 (le_refl _) hreg9 hch
      rw [l9] at r1 r2 r3 r4
      have hout : ∀ p, s5.heap.length ≤ p →
          ∀ (j : Nat) (c : CaseClause), j < cl.length → cl[j]? = some c →
            ¬ (c.lo ≤ p ∧ p < c.hi) := by
        intro p hp j c _ hc hin
        have := (hcl j c hc).2.2.2.1
        omega
      refine ⟨?_, ?_, hord, ?_, ?_⟩
      · rw [r3 _ (by omega) (hout _ l56)]
        exact g9X
      · intro i c hc
        have hi : i < cl.length := (List.getElem?_eq_some.1 hc).1
        obtain ⟨q1, q2, tl, nt, q3, q4, q5, q6, q7, q8, q9, q10⟩ := r4 i c hi hc
        obtain ⟨c1, c2, c3, c4, c5, c6, c7⟩ := hcl i c hc
        have e1 : s7.heap.length + 1 + 2 * (cl.length - i) - 1 =
            s7.heap.length + 2 * (cl.length - i) := by omega
        have e2 : s7.heap.length + 1 + 2 * (cl.length - i) - 2 =
            s7.heap.length + 2 * (cl.length - i) - 1 := by omega
        have e3 : s7.heap.length + 1 + 2 * (cl.length - i) - 3 =
            s7.heap.length + 2 * (cl.length - i) - 2 := by omega
        rw [e1, e3] at q1
        rw [e2] at q2 q8 q10
        have hag5 : ∀ p, c.lo ≤ p → p < c.hi → s5.heap[p]? = s9.heap[p]? :=
          fun p _ hp => (g9 p (by omega)).symm
        refine ⟨q1, ?_, tl, nt, q5.congr_region (hreg9 i c hi hc).2.2.2 hag5 ⟨c2, c3⟩,
          ?_, q7, q8, q2, q10, ⟨c2, c3, by omega⟩, ⟨q3, q4⟩, c5, ?_⟩
        · rw [f9.2.2.2 _ c6]
          exact c7
        · rw [hag5 tl q3 q4]
          exact q6
        · intro p hp1 hp2 hne
          rw [q9 p hp1 hp2 hne]
          exact (hag5 p hp1 hp2).symm
      · intro b hb
        obtain ⟨tl, nt, htr, hr6, hnt, hntx, hs9⟩ := hdef b hb
        have hft : s2.heap[tl]? = some { nt with next := some s7.heap.length } := by
          rw [r3 tl (by rw [e7]; omega) (hout tl htr.1), hs9,
            get_setNext_eq (n := nt) _ ?_]
          rw [get_makeNoop_lt _ (by rw [e7]; omega), e7]
          exact hnt
        have hfr : ∀ p, s5.heap.length ≤ p → p < s6.heap.length → p ≠ tl →
            s2.heap[p]? = s6.heap[p]? := by
          intro p hp1 hp2 hne
          rw [r3 p (by rw [e7]; omega) (hout p hp1), hs9,
            get_setNext_ne _ _ (Ne.symm hne),
            get_makeNoop_lt _ (by rw [e7]; omega), e7]
        exact ⟨tl, nt, hr6, hnt, hntx, hft,
          (hr6.to_modified a6.2.2 (hd b hb) hnt hntx hfr).snoc hft rfl⟩
      · rw [r2]
        by_cases hk : cl.length = 0
        · simp [hk]
        · simp only [hk, if_false]
          omega

/-- C3: when `processSwitch` succeeds on a switch with the case clauses `cl`
(constants, their locations and bodies, in source order) and the optional
default body `d`, then with `X` the node allocated by `makeNoop` after the closing
brace and `k` the number of clauses: `X` is a `NOOP` node with empty `next`; for
every clause `i` the node `T i = X + 2 * (k - i)` is a `CJMP` node with relation
not-equal, operand 1 the location of the switch variable, operand 2 the location
that holds the constant of the clause, target the entry of the body of the clause,
and `next` the node `T (i + 1)` when `i + 1 < k` and otherwise the entry of the
default body if there is one and `X` if not; the last node of the `next` chain of
the body of clause `i` has received as `next` a `JMP` node whose target is `X`; the
last node of the `next` chain of the default body has received `X` as `next`; and
the returned entry is `T 0` when there is a clause, the entry of the default body
when there are no clauses but a default, and `X` otherwise. -/
theorem processSwitch_shape (fuel : Nat) (s s2 : ParserState) (e : Nat)
    (h : processSwitch fuel s = .ok (e, s2)) :
    ∃ f t1 s1 t sb sv s3 t4 s4 cl s5 d s6 t7 s7,
      fuel = f + 1 ∧
      verifyToken TokenType.SWITCH s = .ok (t1, s1) ∧
      verifyToken TokenType.ID s1 = .ok (t, sb) ∧
      findVarLocation t.lexeme sb = .ok (sv, s3) ∧
      verifyToken TokenType.LBRACE s3 = .ok (t4, s4) ∧
      CaseRun s4 cl s5 ∧
      parseDefault f s5 = .ok (d, s6) ∧
      verifyToken TokenType.RBRACE s6 = .ok (t7, s7) ∧
      s2.heap[s7.heap.length]? = some noopNode ∧
      (∀ (i : Nat) (c : CaseClause), cl[i]? = some c →
        s2.heap[s7.heap.length + 2 * (cl.length - i)]? =
          some (cjmpNode ConditionalOperatorType.CONDITION_NOTEQUAL sv c.loc
            (some (if i + 1 < cl.length then s7.heap.length + 2 * (cl.length - i) - 2
              else d.getD s7.heap.length))
            (some c.body)) ∧
        s2.mem c.loc = c.value ∧
        ∃ tl nt, NextReach s5.heap c.body tl ∧ s5.heap[tl]? = some nt ∧
          nt.next = none ∧
          s2.heap[tl]? =
            some { nt with next := some (s7.heap.length + 2 * (cl.length - i) - 1) } ∧
          s2.heap[s7.heap.length + 2 * (cl.length - i) - 1]? =
            some (jmpNode none (some s7.heap.length)) ∧
          NextReach s2.heap c.body (s7.heap.length + 2 * (cl.length - i) - 1)) ∧
      (∀ b, d = some b →
        ∃ tl nt, NextReach s6.heap b tl ∧ s6.heap[tl]? = some nt ∧ nt.next = none ∧
          s2.heap[tl]? = some { nt with next := some s7.heap.length } ∧
          NextReach s2.heap b s7.heap.length) ∧
      e = (if cl.length = 0 then d.getD s7.heap.length
        else s7.heap.length + 2 * cl.length) := by
  obtain ⟨f, t1, s1, t, sb, sv, s3, t4, s4, cl, s5, d, s6, t7, s7, hf, h1, h2, h3, h4,
    hrun, h6, h7, hX, hcl, -, hd, he⟩ := processSwitch_anatomy fuel s s2 e h
  refine ⟨f, t1, s1, t, sb, sv, s3, t4, s4, cl, s5, d, s6, t7, s7, hf, h1, h2, h3, h4,
    hrun, h6, h7, hX, ?_, hd, he⟩
  intro i c hc
  obtain ⟨q1, q2, tl, nt, q3, q4, q5, q6, q7, q8, -⟩ := hcl i c hc
  exact ⟨q1, q2, tl, nt, q3, q4, q5, q6, q7, q8⟩

/-- Witness of C3 on `switch x { case 1 : { output a; } case 2 : { output b; } }`:
the parse succeeds with entry 6, builds the seven nodes of `switchHeap`, and the
exit is a `NOOP` node of that heap. -/
theorem processSwitch_shape_witness :
    returned (processSwitch 10 (stateXAB switchTokens)) = some 6 ∧
    (finalState (stateXAB []) (processSwitch 10 (stateXAB switchTokens))).heap =
      switchHeap ∧
    ∃ X : Nat, switchHeap[X]? = some noopNode := by
  have hret : returned (processSwitch 10 (stateXAB switchTokens)) = some 6 := by
    decide!
  have hheap : (finalState (stateXAB [])
      (processSwitch 10 (stateXAB switchTokens))).heap = switchHeap := by decide!
  refine ⟨hret, hheap, ?_⟩
  obtain ⟨f, t1, s1, t, sb, sv, s3, t4, s4, cl, s5, d, s6, t7, s7, -, -, -, -, -, -, -,
    -, hX, -⟩ := processSwitch_shape 10 (stateXAB switchTokens)
      (finalState (stateXAB []) (processSwitch 10 (stateXAB switchTokens))) 6
      (eq_ok_of_returned (stateXAB []) hret)
  rw [hheap] at hX
  exact ⟨_, hX⟩

/-! ## C4: executing a switch -/

theorem step_cjmp {heap : List InstructionNode}
    {eff : InstructionNode → ExecState → Option ExecState} {p : Nat} {st : ExecState}
    {c : ConditionalOperatorType} {l r : Nat} {nx tg : Option Nat}
    (hp : heap[p]? = some (cjmpNode c l r nx tg)) :
    step heap eff p st =
      some (if relHolds c (st.mem l) (st.mem r) then nx else tg, st) := by
  simp only [step, hp, nextPc]

theorem step_jmp {heap : List InstructionNode}
    {eff : InstructionNode → ExecState → Option ExecState} {p : Nat} {st : ExecState}
    {nx tg : Option Nat} (hp : heap[p]? = some (jmpNode nx tg)) :
    step heap eff p st = some (tg, st) := by
  simp only [step, hp, nextPc]

/-- A step leaves a node along one of its two edges. -/
theorem step_edge {heap : List InstructionNode}
    {eff : InstructionNode → ExecState → Option ExecState} {p q : Nat}
    {st st2 : ExecState} (hs : step heap eff p st = some (some q, st2)) :
    ∃ n, heap[p]? = some n ∧ (n.next = some q ∨ n.target = some q) := by
  unfold step at hs
  split at hs
  · cases hs
  · rename_i n hn
    refine ⟨n, hn, ?_⟩
    have hpc : ∀ b, nextPc n b = some q → n.next = some q ∨ n.target = some q := by
      intro b hb
      unfold nextPc at hb
      split at hb
      · split at hb
        · exact Or.inl hb
        · exact Or.inr hb
      · exact Or.inr hb
      · exact Or.inl hb
    split at hs
    · split at hs
      · simp only [Option.some.injEq, Prod.mk.injEq] at hs
        exact hpc _ hs.1
      · cases hs
    · simp only [Option.some.injEq, Prod.mk.injEq] at hs
      exact hpc _ hs.1
    · split at hs
      · simp only [Option.some.injEq, Prod.mk.injEq] at hs
        exact hpc _ hs.1
      · cases hs

theorem trace_succ (heap : List InstructionNode)
    (eff : InstructionNode → ExecState → Option ExecState) (n pc : Nat)
    (st : ExecState) :
    trace heap eff (n + 1) pc st =
      pc :: (match step heap eff pc st with
        | some (some pc2, st2) => trace heap eff n pc2 st2
        | _ => []) := rfl

/-- A run of `m` case tests that all miss, from the test of clause `j` on: the
nodes executed are these `m` tests, the state is unchanged, and the execution
continues at the test of clause `j + m` (the exit after the last clause). -/
theorem tests_miss (H : List InstructionNode)
    (eff : InstructionNode → ExecState → Option ExecState) (sv X : Nat)
    (cl : List CaseClause) (st : ExecState)
    (hT : ∀ (j : Nat) (c : CaseClause), cl[j]? = some c →
      H[X + 2 * (cl.length - j)]? =
        some (cjmpNode ConditionalOperatorType.CONDITION_NOTEQUAL sv c.loc
          (some (if j + 1 < cl.length then X + 2 * (cl.length - j) - 2 else X))
          (some c.body)))
    (hconst : ∀ (j : Nat) (c : CaseClause), cl[j]? = some c → st.mem c.loc = c.value) :
    ∀ (m j : Nat), j + m ≤ cl.length →
      (∀ (j2 : Nat) (c : CaseClause), j ≤ j2 → j2 < j + m → cl[j2]? = some c →
        c.value ≠ st.mem sv) →
      ∀ n, trace H eff (m + n) (X + 2 * (cl.length - j)) st =
        (List.range' j m).map (fun q => X + 2 * (cl.length - q)) ++
          trace H eff n (X + 2 * (cl.length - (j + m))) st := by
  intro m
  induction m with
  | zero =>
    intro j _ _ n
    simp
  | succ m ih =>
    intro j hj hmiss n
    obtain ⟨c, hc⟩ : ∃ c, cl[j]? = some c :=
      ⟨cl[j], List.getElem?_eq_getElem (by omega)⟩
    have hne : c.value ≠ st.mem sv := hmiss j c (le_refl _) (by omega) hc
    have hstep : step H eff (X + 2 * (cl.length - j)) st =
        some (some (X + 2 * (cl.length - (j + 1))), st) := by
      rw [step_cjmp (hT j c hc), hconst j c hc]
      have hrel : relHolds ConditionalOperatorType.CONDITION_NOTEQUAL (st.mem sv)
          c.value = true := by
        simp only [relHolds, decide_eq_true_eq]
        exact fun h => hne h.symm
      have hx : (if j + 1 < cl.length then X + 2 * (cl.length - j) - 2 else X) =
          X + 2 * (cl.length - (j + 1)) := by
        split <;> omega
      rw [hrel, hx]
      simp only [if_true]
    have e1 : m + 1 + n = (m + n) + 1 := by omega
    rw [e1, trace_succ, hstep]
    simp only
    rw [ih (j + 1) (by omega) (fun j2 c2 h1 h2 h3 => hmiss j2 c2 (by omega) (by omega) h3)
      n, List.range'_succ, List.map_cons, List.cons_append]
    have e2 : j + 1 + m = j + (m + 1) := by omega
    rw [e2]

/-- The test of a clause whose constant equals the value of the switch variable
hands control to the body of the clause. -/
theorem test_hit (H : List InstructionNode)
    (eff : InstructionNode → ExecState → Option ExecState) (sv X : Nat)
    (cl : List CaseClause) (st : ExecState) (i : Nat) (c : CaseClause)
    (hT : H[X + 2 * (cl.length - i)]? =
      some (cjmpNode ConditionalOperatorType.CONDITION_NOTEQUAL sv c.loc
        (some (if i + 1 < cl.length then X + 2 * (cl.length - i) - 2 else X))
        (some c.body)))
    (hconst : st.mem c.loc = c.value) (heq : st.mem sv = c.value) (n : Nat) :
    trace H eff (n + 1) (X + 2 * (cl.length - i)) st =
      (X + 2 * (cl.length - i)) :: trace H eff n c.body st := by
  have hrel : relHolds ConditionalOperatorType.CONDITION_NOTEQUAL (st.mem sv)
      (st.mem c.loc) = false := by
    simp [relHolds, hconst, heq]
  rw [trace_succ, step_cjmp hT, hrel]
  simp

/-- An execution that starts inside a case body stays among the nodes of the body
and the jump appended to it until it executes the exit of the switch. -/
theorem body_confined (H : List InstructionNode)
    (eff : InstructionNode → ExecState → Option ExecState) (lo hi J X : Nat)
    (hreg : ∀ (p : Nat) (n : InstructionNode), lo ≤ p → p < hi → H[p]? = some n →
      (∀ q, n.next = some q → (lo ≤ q ∧ q < hi) ∨ q = J) ∧
      (∀ q, n.target = some q → (lo ≤ q ∧ q < hi) ∨ q = J))
    (hJ : H[J]? = some (jmpNode none (some X))) :
    ∀ (n p : Nat) (st : ExecState), ((lo ≤ p ∧ p < hi) ∨ p = J) →
      Confined (fun q => (lo ≤ q ∧ q < hi) ∨ q = J) X (trace H eff n p st) := by
  intro n
  induction n with
  | zero =>
    intro p st _
    exact trivial
  | succ n ih =>
    intro p st hp
    rw [trace_succ]
    refine Or.inl ⟨hp, ?_⟩
    cases hs : step H eff p st with
    | none => exact trivial
    | some r =>
      obtain ⟨q, st2⟩ := r
      cases q with
      | none => exact trivial
      | some q =>
        simp only
        rcases hp with hin | hj
        · obtain ⟨nd, hnd, hedge⟩ := step_edge hs
          have hc := hreg p nd hin.1 hin.2 hnd
          rcases hedge with he | he
          · exact ih q st2 (hc.1 q he)
          · exact ih q st2 (hc.2 q he)
        · subst hj
          rw [step_jmp hJ] at hs
          simp only [Option.some.injEq, Prod.mk.injEq] at hs
          obtain ⟨rfl, rfl⟩ := hs
          cases n with
          | zero => exact trivial
          | succ n =>
            rw [trace_succ]
            exact Or.inr rfl

/-- C4, as stated, fails: `switch x { case 1 : { while x > 0 { output x; } } }` is
accepted by `processSwitch`, its only body has no `ASSIGN` and no `IN` node, and
with the switch variable equal to the constant of case 1 the execution from the
entry (node 6) enters the body and never executes the exit of the switch (node 4):
it repeats the loop test, the output and the back jump. -/
theorem switch_body_may_not_reach_exit :
    returned (processSwitch 20 (stateXAB loopSwitchTokens)) = some 6 ∧
    (finalState (stateXAB []) (processSwitch 20 (stateXAB loopSwitchTokens))).heap =
      loopSwitchHeap ∧
    (∀ n, n ∈ loopSwitchHeap →
      n.type ≠ InstructionType.ASSIGN ∧ n.type ≠ InstructionType.IN) ∧
    (storeX 1 1 0).mem 0 = (storeX 1 1 0).mem 3 ∧
    trace loopSwitchHeap effect 8 6 (storeX 1 1 0) = [6, 0, 1, 2, 0, 1, 2, 0] ∧
    ¬ ∃ n, 4 ∈ trace loopSwitchHeap effect n 6 (storeX 1 1 0) := by
  refine ⟨by decide!, by decide!, by decide, by decide!, by decide!, ?_⟩
  have hloop : ∀ (n p : Nat), (p = 6 ∨ p = 0 ∨ p = 1 ∨ p = 2) →
      ∀ q, q ∈ trace loopSwitchHeap effect n p (storeX 1 1 0) →
        (q = 6 ∨ q = 0 ∨ q = 1 ∨ q = 2) := by
    intro n
    induction n with
    | zero =>
      intro p _ q hq
      simp [trace] at hq
    | succ n ih =>
      intro p hp q hq
      rw [trace_succ] at hq
      rcases List.mem_cons.1 hq with hq | hq
      · rw [hq]
        exact hp
      · rcases hp with rfl | rfl | rfl | rfl
        · have hs : step loopSwitchHeap effect 6 (storeX 1 1 0) =
              some (some 0, storeX 1 1 0) := by
            have hp : loopSwitchHeap[6]? = some (cjmpNode
                ConditionalOperatorType.CONDITION_NOTEQUAL 0 3 (some 4) (some 0)) := rfl
            rw [step_cjmp hp]
            rfl
          rw [hs] at hq
          exact ih 0 (Or.inr (Or.inl rfl)) q hq
        · have hs : step loopSwitchHeap effect 0 (storeX 1 1 0) =
              some (some 1, storeX 1 1 0) := by
            have hp : loopSwitchHeap[0]? = some (cjmpNode
                ConditionalOperatorType.CONDITION_GREATER 0 4 (some 1) (some 3)) := rfl
            rw [step_cjmp hp]
            rfl
          rw [hs] at hq
          exact ih 1 (Or.inr (Or.inr (Or.inl rfl))) q hq
        · have hs : step loopSwitchHeap effect 1 (storeX 1 1 0) =
              some (some 2, storeX 1 1 0) := rfl
          rw [hs] at hq
          exact ih 2 (Or.inr (Or.inr (Or.inr rfl))) q hq
        · have hs : step loopSwitchHeap effect 2 (storeX 1 1 0) =
              some (some 0, storeX 1 1 0) := rfl
          rw [hs] at hq
          exact ih 0 (Or.inr (Or.inl rfl)) q hq
  rintro ⟨n, hn⟩
  have := hloop n 6 (Or.inl rfl) 4 hn
  omega

/-- C4, amended: under the step rule of the executor (with any effect `eff` of the
nodes that are not jumps), for a switch without default accepted by
`processSwitch`, with clauses `cl`, exit `X`, `k` clauses and the test of clause
`q` at node `X + 2 * (k - q)`, and for an executor state in which the cells of the
constants hold the constants: (1) if the value of the switch variable equals the
constant of clause `i` and of no earlier clause, the execution from the entry runs
the tests of the clauses `0 .. i` and continues at the entry of the body of
clause `i`; from there on every node executed belongs to that body or is the jump
appended to it, until the exit `X` is executed (which need not happen: the body
may loop or fail), and none of these nodes belongs to another clause; (2) if the
value equals no constant, the execution runs the `k` tests and continues at `X`;
(3) no test and not `X` is a node of a case body or a jump appended to one. -/
theorem switch_execution (fuel : Nat) (s s2 : ParserState) (E : Nat)
    (h : processSwitch fuel s = .ok (E, s2)) :
    ∃ f t1 s1 t sb sv s3 t4 s4 cl s5 d s6 t7 s7,
      fuel = f + 1 ∧
      verifyToken TokenType.SWITCH s = .ok (t1, s1) ∧
      verifyToken TokenType.ID s1 = .ok (t, sb) ∧
      findVarLocation t.lexeme sb = .ok (sv, s3) ∧
      verifyToken TokenType.LBRACE s3 = .ok (t4, s4) ∧
      CaseRun s4 cl s5 ∧
      parseDefault f s5 = .ok (d, s6) ∧
      verifyToken TokenType.RBRACE s6 = .ok (t7, s7) ∧
      (d = none →
        ∀ (eff : InstructionNode → ExecState → Option ExecState) (st : ExecState),
          (∀ (j : Nat) (c : CaseClause), cl[j]? = some c → st.mem c.loc = c.value) →
          (∀ (i : Nat) (c : CaseClause), cl[i]? = some c → st.mem sv = c.value →
            (∀ (j : Nat) (b : CaseClause), j < i → cl[j]? = some b →
              b.value ≠ st.mem sv) →
            (∀ n, trace s2.heap eff (i + 1 + n) E st =
              (List.range' 0 (i + 1)).map
                (fun q => s7.heap.length + 2 * (cl.length - q)) ++
              trace s2.heap eff n c.body st) ∧
            (∀ n, Confined
              (fun q => (c.lo ≤ q ∧ q < c.hi) ∨
                q = s7.heap.length + 2 * (cl.length - i) - 1)
              s7.heap.length (trace s2.heap eff n c.body st)) ∧
            (∀ (j : Nat) (b : CaseClause), j ≠ i → cl[j]? = some b → ∀ q,
              ((c.lo ≤ q ∧ q < c.hi) ∨
                q = s7.heap.length + 2 * (cl.length - i) - 1) →
              ¬ ((b.lo ≤ q ∧ q < b.hi) ∨
                q = s7.heap.length + 2 * (cl.length - j) - 1))) ∧
          ((∀ (j : Nat) (b : CaseClause), cl[j]? = some b → b.value ≠ st.mem sv) →
            ∀ n, trace s2.heap eff (cl.length + n) E st =
              (List.range' 0 cl.length).map
                (fun q => s7.heap.length + 2 * (cl.length - q)) ++
              trace s2.heap eff n s7.heap.length st) ∧
          (∀ (j q : Nat) (b : CaseClause), cl[j]? = some b → q ≤ cl.length →
            ¬ ((b.lo ≤ s7.heap.length + 2 * (cl.length - q) ∧
                s7.heap.length + 2 * (cl.length - q) < b.hi) ∨
              s7.heap.length + 2 * (cl.length - q) =
                s7.heap.length + 2 * (cl.length - j) - 1))) := by
  obtain ⟨f, t1, s1, t, sb, sv, s3, t4, s4, cl, s5, d, s6, t7, s7, hf, h1, h2, h3, h4,
    hrun, h6, h7, -, hcl, hord, -, he⟩ := processSwitch_anatomy fuel s s2 E h
  refine ⟨f, t1, s1, t, sb, sv, s3, t4, s4, cl, s5, d, s6, t7, s7, hf, h1, h2, h3, h4,
    hrun, h6, h7, ?_⟩
  intro hd eff st hconst
  subst hd
  simp only [Option.getD_none] at hcl he
  have hE : E = s7.heap.length + 2 * (cl.length - 0) := by
    rw [he]
    split <;> omega
  have hT : ∀ (j : Nat) (c : CaseClause), cl[j]? = some c →
      s2.heap[s7.heap.length + 2 * (cl.length - j)]? =
        some (cjmpNode ConditionalOperatorType.CONDITION_NOTEQUAL sv c.loc
          (some (if j + 1 < cl.length then s7.heap.length + 2 * (cl.length - j) - 2
            else s7.heap.length))
          (some c.body)) := fun j c hc => (hcl j c hc).1
  refine ⟨?_, ?_, ?_⟩
  · intro i c hc heq hmiss
    have hi : i < cl.length := (List.getElem?_eq_some.1 hc).1
    obtain ⟨-, -, tl, nt, q3, q4, q5, q6, q7, q8, ⟨r1, r2, r3⟩, ⟨r4, r5⟩, r6, r7⟩ :=
      hcl i c hc
    refine ⟨?_, ?_, ?_⟩
    · intro n
      have e1 : i + 1 + n = i + (n + 1) := by omega
      rw [e1, hE, tests_miss s2.heap eff sv s7.heap.length cl st hT hconst i 0
        (by omega) (fun j2 b _ hlt hb => hmiss j2 b (by omega) hb) (n + 1)]
      simp only [Nat.zero_add]
      rw [test_hit s2.heap eff sv s7.heap.length cl st i c (hT i c hc)
        (hconst i c hc) heq n, List.range'_concat, List.map_append]
      simp
    · intro n
      refine body_confined s2.heap eff c.lo c.hi _ _ ?_ q7 n c.body st (Or.inl ⟨r1, r2⟩)
      intro p nd hp1 hp2 hnd
      by_cases hpt : p = tl
      · subst hpt
        rw [q6] at hnd
        cases hnd
        have hc5 := r6 p nt hp1 hp2 q4
        refine ⟨?_, fun q hq => Or.inl (hc5.2 q hq)⟩
        intro q hq
        simp only [Option.some.injEq] at hq
        exact Or.inr hq.symm
      · rw [r7 p hp1 hp2 hpt] at hnd
        have hc5 := r6 p nd hp1 hp2 hnd
        exact ⟨fun q hq => Or.inl (hc5.1 q hq), fun q hq => Or.inl (hc5.2 q hq)⟩
    · intro j b hji hb q hq hqb
      have hj : j < cl.length := (List.getElem?_eq_some.1 hb).1
      obtain ⟨-, -, -, -, -, -, -, -, -, -, ⟨b1, b2, b3⟩, -⟩ := hcl j b hb
      rcases Nat.lt_or_gt_of_ne hji with hlt | hgt
      · have := hord j i b c hlt hb hc
        omega
      · have := hord i j c b hgt hc hb
        omega
  · intro hmiss n
    rw [hE, tests_miss s2.heap eff sv s7.heap.length cl st hT hconst cl.length 0
      (by omega) (fun j2 b _ _ hb => hmiss j2 b hb) n]
    simp
  · intro j q b hb hq
    have hj : j < cl.length := (List.getElem?_eq_some.1 hb).1
    obtain ⟨-, -, -, -, -, -, -, -, -, -, ⟨b1, b2, b3⟩, -⟩ := hcl j b hb
    omega

/-- Witness of the amended C4 on the two-case switch of the specification,
`switch x { case 1 : { output a; } case 2 : { output b; } }`: the parse succeeds
with entry 6 and heap `switchHeap`; with `x = 1` the execution runs the first test,
the first body, its jump and the exit; with `x = 2` the two tests, the second
body, its jump and the exit; with `x = 3` the two tests and the exit; and the
general statement about a value that matches no constant holds on this heap. -/
theorem switch_execution_witness :
    returned (processSwitch 10 (stateXAB switchTokens)) = some 6 ∧
    (finalState (stateXAB []) (processSwitch 10 (stateXAB switchTokens))).heap =
      switchHeap ∧
    trace switchHeap effect 10 6 (storeX 1 1 2) = [6, 0, 5, 2] ∧
    trace switchHeap effect 10 6 (storeX 2 1 2) = [6, 4, 1, 3, 2] ∧
    trace switchHeap effect 10 6 (storeX 3 1 2) = [6, 4, 2] ∧
    ∃ (sv : Nat) (cl : List CaseClause) (d : Option Nat) (X : Nat), d = none →
      ∀ (eff : InstructionNode → ExecState → Option ExecState) (st : ExecState),
        (∀ (j : Nat) (c : CaseClause), cl[j]? = some c → st.mem c.loc = c.value) →
        (∀ (j : Nat) (b : CaseClause), cl[j]? = some b → b.value ≠ st.mem sv) →
        ∀ n, trace switchHeap eff (cl.length + n) 6 st =
          (List.range' 0 cl.length).map (fun q => X + 2 * (cl.length - q)) ++
          trace switchHeap eff n X st := by
  have hret : returned (processSwitch 10 (stateXAB switchTokens)) = some 6 := by
    decide!
  have hheap : (finalState (stateXAB [])
      (processSwitch 10 (stateXAB switchTokens))).heap = switchHeap := by decide!
  refine ⟨hret, hheap, by decide!, by decide!, by decide!, ?_⟩
  obtain ⟨f, t1, s1, t, sb, sv, s3, t4, s4, cl, s5, d, s6, t7, s7, -, -, -, -, -, -, -,
    -, hex⟩ := switch_execution 10 (stateXAB switchTokens)
      (finalState (stateXAB []) (processSwitch 10 (stateXAB switchTokens))) 6
      (eq_ok_of_returned (stateXAB []) hret)
  rw [hheap] at hex
  refine ⟨sv, cl, d, s7.heap.length, ?_⟩
  intro hd eff st hconst hmiss
  exact (hex hd eff st hconst).2.1 hmiss

theorem mapFind_none_iff (m : List (String × Nat)) (name : String) :
    mapFind m name = none ↔ name ∉ m.map Prod.fst := by
  induction m with
  | nil => simp [mapFind]
  | cons kv rest ih =>
    obtain ⟨k, v⟩ := kv
    by_cases hk : k = name
    · simp [mapFind, hk]
    · have hk2 : ¬ name = k := fun h => hk h.symm
      simp [mapFind, hk, hk2, ih]

theorem mapFind_mem {m : List (String × Nat)} {name : String} {loc : Nat}
    (h : mapFind m name = some loc) : (name, loc) ∈ m := by
  induction m with
  | nil => simp [mapFind] at h
  | cons kv rest ih =>
    obtain ⟨k, v⟩ := kv
    by_cases hk : k = name
    · simp [mapFind, hk] at h
      subst h
      subst hk
      exact List.mem_cons_self _ _
    · simp [mapFind, hk] at h
      exact List.mem_cons_of_mem _ (ih h)

/-! ## C11: resolving a name -/

/-- C11: `findVarLocation name` ends in the fatal error exactly when `name` is not
a key of the symbol table, and it has no other way to fail; when it returns, the
value is the location the table records for `name` and the state after the call is
the state before it, so the symbol table, the arena and the cursor are unchanged. -/
theorem findVarLocation_contract (name : String) (s : ParserState) :
    (findVarLocation name s = .error .fatal ↔ name ∉ s.varLocations.map Prod.fst) ∧
    (∀ e, findVarLocation name s = .error e → e = .fatal) ∧
    (∀ loc s2, findVarLocation name s = .ok (loc, s2) →
      mapFind s.varLocations name = some loc ∧ (name, loc) ∈ s.varLocations ∧
      s2 = s) ∧
    (∀ loc, mapFind s.varLocations name = some loc →
      findVarLocation name s = .ok (loc, s)) := by
  refine ⟨?_, ?_, ?_, ?_⟩
  · rw [← mapFind_none_iff]
    unfold findVarLocation
    cases hm : mapFind s.varLocations name <;> simp
  · intro e he
    unfold findVarLocation at he
    split at he
    · cases he
      rfl
    · cases he
  · intro loc s2 h
    obtain ⟨h1, h2⟩ := findVarLocation_state h
    exact ⟨h2, mapFind_mem h2, h1⟩
  · intro loc h
    unfold findVarLocation
    rw [h]

/-- Witness of C11 on the table of `stateAB`: `c` is not a key and the call is
fatal; `b` is a key and the call returns its location 1 in the unchanged state. -/
theorem findVarLocation_contract_witness :
    findVarLocation "c" (stateAB []) = .error .fatal ∧
    findVarLocation "b" (stateAB []) = .ok (1, stateAB []) ∧
    mapFind (stateAB []).varLocations "b" = some 1 ∧
    ("b", 1) ∈ (stateAB []).varLocations :=
  ⟨(findVarLocation_contract "c" (stateAB [])).1.mpr (by decide),
   (findVarLocation_contract "b" (stateAB [])).2.2.2 1 rfl,
   ((findVarLocation_contract "b" (stateAB [])).2.2.1 1 (stateAB []) rfl).1,
   ((findVarLocation_contract "b" (stateAB [])).2.2.1 1 (stateAB []) rfl).2.1⟩

/-! ## C12: the declaration list -/

/-- The cells `processIdList` writes on a declaration list `x, names...;`: the
cells from the old cursor up to the new one hold 0, every other cell is as before;
the node heap and the input queue are not touched. -/
theorem processIdList_cells (names : List String) :
    ∀ (x : String) (rest : List Token) (s : ParserState) (fuel : Nat),
      names.length < fuel → s.tokens = declTokens x names ++ rest →
      ∃ s2, processIdList fuel s = .ok ((), s2) ∧
        (∀ i, s2.mem i =
          if s.next_available ≤ i ∧ i < s.next_available + (names.length + 1) then 0
          else s.mem i) ∧
        s2.heap = s.heap ∧ s2.inputs = s.inputs := by
  induction names with
  | nil =>
    intro x rest s fuel hf ht
    obtain ⟨f, rfl⟩ : ∃ f, fuel = f + 1 := ⟨fuel - 1, by simp at hf; omega⟩
    refine ⟨_, processIdList_semicolon ht, ?_, rfl, rfl⟩
    intro i
    simp only [declare, memWrite, List.length_nil]
    by_cases hi : i = s.next_available
    · simp [hi]
    · have : ¬ (s.next_available ≤ i ∧ i < s.next_available + (0 + 1)) := by omega
      simp [hi, this]
  | cons y ns ih =>
    intro x rest s fuel hf ht
    obtain ⟨f, rfl⟩ : ∃ f, fuel = f + 1 := ⟨fuel - 1, by simp at hf; omega⟩
    have ht2 : s.tokens = mkToken TokenType.ID x :: mkToken TokenType.COMMA "," ::
        (declTokens y ns ++ rest) := by
      rw [ht]
      rfl
    obtain ⟨s2, hp, hmem, hheap, hin⟩ := ih y rest
      { declare x s with tokens := declTokens y ns ++ rest } f
      (by simp only [List.length_cons] at hf; omega) rfl
    refine ⟨s2, (processIdList_comma ht2).trans hp, ?_, hheap, hin⟩
    intro i
    rw [hmem i]
    simp only [declare, memWrite, List.length_cons]
    by_cases hi : i = s.next_available
    · subst hi
      simp
    · by_cases h1 : s.next_available + 1 ≤ i ∧ i < s.next_available + 1 + (ns.length + 1)
      · have h2 : s.next_available ≤ i ∧ i < s.next_available + (ns.length + 1 + 1) := by
          omega
        simp [h1, h2]
      · have h2 : ¬ (s.next_available ≤ i ∧ i < s.next_available + (ns.length + 1 + 1)) := by
          omega
        simp [h1, h2, hi]

/-- C12: on a declaration list `id_1 , ... , id_n ;` of `n ≥ 1` pairwise distinct
identifiers (here `x :: names`, so `n = names.length + 1`), read from a state with
cursor `k` and followed by any tokens `rest`, `processIdList` returns (a budget of
`n` calls is enough); afterwards the tokens left are exactly `rest`, the cursor is
`k + n`, the identifier at position `j` of the list (counted from 0) is mapped to
location `k + j`, each of the cells `k`, ..., `k + n - 1` holds 0 and every other
cell, the node heap and the input queue are as before. -/
theorem processIdList_declares (x : String) (names : List String)
    (rest : List Token) (s : ParserState) (fuel : Nat)
    (hd : (x :: names).Nodup) (hf : names.length < fuel)
    (ht : s.tokens = declTokens x names ++ rest) :
    ∃ s2, processIdList fuel s = .ok ((), s2) ∧
      s2.tokens = rest ∧
      s2.next_available = s.next_available + (names.length + 1) ∧
      (∀ (j : Nat) (w : String), (x :: names)[j]? = some w →
        mapFind s2.varLocations w = some (s.next_available + j)) ∧
      (∀ j, j < names.length + 1 → s2.mem (s.next_available + j) = 0) ∧
      (∀ i, i < s.next_available ∨ s.next_available + (names.length + 1) ≤ i →
        s2.mem i = s.mem i) ∧
      s2.heap = s.heap ∧ s2.inputs = s.inputs := by
  obtain ⟨s2, hp, htok, hna, hmap, -⟩ := processIdList_spec names x rest s fuel hf ht
  obtain ⟨s3, hp3, hmem, hheap, hin⟩ := processIdList_cells names x rest s fuel hf ht
  rw [hp] at hp3
  simp only [Except.ok.injEq, Prod.mk.injEq, true_and] at hp3
  subst hp3
  refine ⟨s2, hp, htok, hna, ?_, ?_, ?_, hheap, hin⟩
  · intro j w hj
    refine hmap j w hj ?_
    intro j2 hlt hj2
    have hlen : j2 < (x :: names).length := by
      rcases Nat.lt_or_ge j2 (x :: names).length with h | h
      · exact h
      · rw [List.getElem?_eq_none h] at hj2
        cases hj2
    have hlen1 : j < (x :: names).length := by omega
    rw [List.getElem?_eq_getElem hlen1] at hj
    rw [List.getElem?_eq_getElem hlen] at hj2
    simp only [Option.some.injEq] at hj hj2
    have := (List.Nodup.getElem_inj_iff hd).1 (hj.trans hj2.symm)
    omega
  · intro j hj
    rw [hmem]
    have : s.next_available ≤ s.next_available + j ∧
        s.next_available + j < s.next_available + (names.length + 1) := by omega
    simp [this]
  · intro i hi
    rw [hmem]
    have : ¬ (s.next_available ≤ i ∧ i < s.next_available + (names.length + 1)) := by
      omega
    simp [this]

/-- Witness of C12 on `a, b, c; 7` read with cursor 0 in the initial state. -/
theorem processIdList_declares_witness :
    ∃ s2, processIdList 3
        (stateInit (declTokens "a" ["b", "c"] ++ [mkToken TokenType.NUM "7"])) =
        .ok ((), s2) ∧
      s2.tokens = [mkToken TokenType.NUM "7"] ∧ s2.next_available = 3 ∧
      mapFind s2.varLocations "a" = some 0 ∧ mapFind s2.varLocations "b" = some 1 ∧
      mapFind s2.varLocations "c" = some 2 ∧
      s2.mem 0 = 0 ∧ s2.mem 1 = 0 ∧ s2.mem 2 = 0 := by
  obtain ⟨s2, hp, htok, hna, hmap, hz, -, -, -⟩ :=
    processIdList_declares "a" ["b", "c"] [mkToken TokenType.NUM "7"]
      (stateInit (declTokens "a" ["b", "c"] ++ [mkToken TokenType.NUM "7"])) 3
      (by decide) (by decide) rfl
  refine ⟨s2, hp, htok, by simpa [stateInit] using hna, ?_, ?_, ?_, ?_, ?_, ?_⟩
  · simpa [stateInit] using hmap 0 "a" rfl
  · simpa [stateInit] using hmap 1 "b" rfl
  · simpa [stateInit] using hmap 2 "c" rfl
  · simpa [stateInit] using hz 0 (by decide)
  · simpa [stateInit] using hz 1 (by decide)
  · simpa [stateInit] using hz 2 (by decide)

theorem getPrimaryValue_one_id (s : ParserState) (p : Token) (l : Nat)
    (hp : p.token_type = TokenType.ID) (hl : mapFind s.varLocations p.lexeme = some l)
    (rest : List Token) :
    getPrimaryValue { s with tokens := p :: rest } = .ok (l, { s with tokens := rest }) := by
  simp [getPrimaryValue, GetToken, hp, findVarLocation, hl]

theorem getPrimaryValue_one_num (s : ParserState) (p : Token) (c : Int)
    (hp : p.token_type = TokenType.NUM) (hc : stoi p.lexeme = some c)
    (rest : List Token) :
    getPrimaryValue { s with tokens := p :: rest } =
      .ok (s.next_available,
        { s with tokens := rest, mem := memWrite s.mem s.next_available c,
                 next_available := s.next_available + 1 }) := by
  simp [getPrimaryValue, GetToken, hp, hc]

/-- The result of `getPrimaryValue` does not depend on the tokens after the first
one, which are handed on untouched. -/
theorem getPrimaryValue_tokens {s sa : ParserState} {p : Token} {l : Nat}
    (h : getPrimaryValue { s with tokens := [p] } = .ok (l, sa)) (rest : List Token) :
    getPrimaryValue { s with tokens := p :: rest } = .ok (l, { sa with tokens := rest }) := by
  unfold getPrimaryValue at h ⊢
  simp only [GetToken] at h ⊢
  split at h
  · rename_i hid
    rw [if_pos hid]
    unfold findVarLocation at h ⊢
    simp only at h ⊢
    split at h
    · cases h
    · rename_i loc hl
      simp only [Except.ok.injEq, Prod.mk.injEq] at h
      obtain ⟨rfl, rfl⟩ := h
      rfl
  · rename_i hid
    rw [if_neg hid]
    split at h
    · rename_i hnum
      rw [if_pos hnum]
      split at h
      · cases h
      · rename_i v hv
        simp only [Except.ok.injEq, Prod.mk.injEq] at h
        obtain ⟨rfl, rfl⟩ := h
        rfl
    · cases h

theorem getPrimaryValue_one_tokens {s sa : ParserState} {p : Token} {l : Nat}
    (h : getPrimaryValue { s with tokens := [p] } = .ok (l, sa)) :
    sa.tokens = [] ∧ sa.heap = s.heap ∧ sa.varLocations = s.varLocations ∧
      isPrimary p := by
  rcases getPrimaryValue_inv h with ⟨h1, rfl, -⟩ | ⟨h1, -, v, -, rfl⟩
  · exact ⟨rfl, rfl, rfl, Or.inl h1⟩
  · exact ⟨rfl, rfl, rfl, Or.inr h1⟩

theorem getOperator_one (s : ParserState) (o : Token) (op : ArithmeticOperatorType)
    (ho : operatorOf o.token_type = some op) (rest : List Token) :
    getOperator { s with tokens := o :: rest } = .ok (op, { s with tokens := rest }) := by
  unfold getOperator
  simp only [GetToken]
  unfold operatorOf at ho
  split at ho <;> simp_all

theorem getPrimaryValue_one_cases {s sa : ParserState} {p : Token} {l : Nat}
    (h : getPrimaryValue { s with tokens := [p] } = .ok (l, sa)) :
    (p.token_type = TokenType.ID ∧ mapFind s.varLocations p.lexeme = some l ∧
      sa = { s with tokens := [] }) ∨
    (p.token_type = TokenType.NUM ∧ l = s.next_available ∧
      ∃ v, stoi p.lexeme = some v ∧
        sa = { s with tokens := [], mem := memWrite s.mem s.next_available v,
                      next_available := s.next_available + 1 }) := by
  rcases getPrimaryValue_inv h with ⟨h1, h2, h3⟩ | ⟨h1, h2, v, h3, h4⟩
  · exact Or.inl ⟨h1, h3, h2⟩
  · exact Or.inr ⟨h1, h2, v, h3, h4⟩

/-- The bare form of an assignment: on `v = p ; rest` with `v` declared at `lx`
and `l` the location `getPrimaryValue` gives `p`, the new node is
`assignNode lx l OPERATOR_NONE none`. -/
theorem createAssignNode_bare {s sa : ParserState} {v eq p semi : Token}
    {rest : List Token} {lx l : Nat}
    (ht : s.tokens = v :: eq :: p :: semi :: rest)
    (hv : v.token_type = TokenType.ID) (heq : eq.token_type = TokenType.EQUAL)
    (hsemi : semi.token_type = TokenType.SEMICOLON)
    (hlx : mapFind s.varLocations v.lexeme = some lx)
    (hp : getPrimaryValue { s with tokens := [p] } = .ok (l, sa)) :
    createAssignNode s = .ok (s.heap.length,
      { sa with tokens := rest,
                heap := s.heap ++
                  [assignNode lx l ArithmeticOperatorType.OPERATOR_NONE none] }) := by
  rcases getPrimaryValue_one_cases hp with ⟨h1, h2, rfl⟩ | ⟨h1, rfl, c, h3, rfl⟩
  · simp [createAssignNode, newNode, verifyToken, GetToken, ht, hv, heq, hsemi,
      findVarLocation, hlx, setNode, peek, getPrimaryValue, h1, h2,
      modify_concat_length]
  · simp [createAssignNode, newNode, verifyToken, GetToken, ht, hv, heq, hsemi,
      findVarLocation, hlx, setNode, peek, getPrimaryValue, h1, h3,
      modify_concat_length]

theorem operatorOf_cases {ty : TokenType} {op : ArithmeticOperatorType}
    (h : operatorOf ty = some op) :
    (ty = TokenType.PLUS ∧ op = ArithmeticOperatorType.OPERATOR_PLUS) ∨
    (ty = TokenType.MINUS ∧ op = ArithmeticOperatorType.OPERATOR_MINUS) ∨
    (ty = TokenType.MULT ∧ op = ArithmeticOperatorType.OPERATOR_MULT) ∨
    (ty = TokenType.DIV ∧ op = ArithmeticOperatorType.OPERATOR_DIV) := by
  unfold operatorOf at h
  split at h <;> simp_all

/-- The binary form of an assignment: on `v = p1 o p2 ; rest` with `v` declared at
`lx`, `op` the operator of `o` and `l1`, `l2` the locations `getPrimaryValue` gives
`p1` and then `p2`, the new node is `assignNode lx l1 op (some l2)`. -/
theorem createAssignNode_binary {s sa sb : ParserState} {v eq p1 o p2 semi : Token}
    {rest : List Token} {lx l1 l2 : Nat} {op : ArithmeticOperatorType}
    (ht : s.tokens = v :: eq :: p1 :: o :: p2 :: semi :: rest)
    (hv : v.token_type = TokenType.ID) (heq : eq.token_type = TokenType.EQUAL)
    (hsemi : semi.token_type = TokenType.SEMICOLON)
    (hlx : mapFind s.varLocations v.lexeme = some lx)
    (hp1 : getPrimaryValue { s with tokens := [p1] } = .ok (l1, sa))
    (ho : operatorOf o.token_type = some op)
    (hp2 : getPrimaryValue { sa with tokens := [p2] } = .ok (l2, sb)) :
    createAssignNode s = .ok (s.heap.length,
      { sb with tokens := rest,
                heap := s.heap ++ [assignNode lx l1 op (some l2)] }) := by
  have hns : o.token_type ≠ TokenType.SEMICOLON := by
    intro hc
    rw [hc] at ho
    cases ho
  rcases getPrimaryValue_one_cases hp1 with ⟨h1, h2, rfl⟩ | ⟨h1, rfl, c, h3, rfl⟩ <;>
  rcases getPrimaryValue_one_cases hp2 with ⟨g1, g2, rfl⟩ | ⟨g1, rfl, d, g3, rfl⟩ <;>
  rcases operatorOf_cases ho with ⟨o1, rfl⟩ | ⟨o1, rfl⟩ | ⟨o1, rfl⟩ | ⟨o1, rfl⟩ <;>
  simp_all [createAssignNode, newNode, verifyToken, GetToken,
      findVarLocation, setNode, peek, getPrimaryValue, processExpression, getOperator,
      modify_concat_length]

theorem GetToken_cons {s : ParserState} {t : Token} {rest : List Token}
    (h : s.tokens = t :: rest) : GetToken s = (t, { s with tokens := rest }) := by
  unfold GetToken
  rw [h]

theorem GetToken_kind {s : ParserState}
    (h : (GetToken s).1.token_type ≠ TokenType.END_OF_FILE) :
    ∃ rest, s.tokens = (GetToken s).1 :: rest ∧
      (GetToken s).2 = { s with tokens := rest } := by
  cases ht : s.tokens with
  | nil =>
    exfalso
    apply h
    unfold GetToken
    rw [ht]
    rfl
  | cons t rest =>
    rw [GetToken_cons ht]
    exact ⟨rest, rfl, rfl⟩

theorem verifyToken_inv {ty : TokenType} {s s1 : ParserState} {t : Token}
    (hty : ty ≠ TokenType.END_OF_FILE) (h : verifyToken ty s = .ok (t, s1)) :
    t.token_type = ty ∧ ∃ rest, s.tokens = t :: rest ∧ s1 = { s with tokens := rest } := by
  unfold verifyToken at h
  simp only at h
  split at h
  · cases h
  · rename_i hk
    simp only [ne_eq, Decidable.not_not] at hk
    simp only [Except.ok.injEq, Prod.mk.injEq] at h
    obtain ⟨rfl, rfl⟩ := h
    obtain ⟨rest, h1, h2⟩ := GetToken_kind (s := s) (by rw [hk]; exact hty)
    exact ⟨hk, rest, h1, h2⟩

theorem verifyToken_error {ty : TokenType} {s : ParserState} {e : ParseError}
    (h : verifyToken ty s = .error e) : e = .fatal := by
  unfold verifyToken at h
  simp only at h
  split at h
  · cases h
    rfl
  · cases h

theorem findVarLocation_error {name : String} {s : ParserState} {e : ParseError}
    (h : findVarLocation name s = .error e) : e = .fatal := by
  unfold findVarLocation at h
  split at h
  · cases h
    rfl
  · cases h

theorem getOperator_error {s : ParserState} {e : ParseError}
    (h : getOperator s = .error e) : e = .fatal := by
  unfold getOperator at h
  simp only at h
  split at h <;> first | (cases h; done) | (cases h; rfl)

theorem getOperator_inv {s s1 : ParserState} {op : ArithmeticOperatorType}
    (h : getOperator s = .ok (op, s1)) :
    ∃ o rest, s.tokens = o :: rest ∧ operatorOf o.token_type = some op ∧
      s1 = { s with tokens := rest } := by
  have hk : (GetToken s).1.token_type ≠ TokenType.END_OF_FILE := by
    intro hc
    unfold getOperator at h
    simp only [hc] at h
    cases h
  obtain ⟨rest, h1, h2⟩ := GetToken_kind hk
  refine ⟨_, rest, h1, ?_, ?_⟩
  · unfold getOperator at h
    simp only at h
    unfold operatorOf
    split at h <;> simp_all
  · unfold getOperator at h
    simp only at h
    split at h <;> simp_all

/-- The ways `getPrimaryValue` fails: fatally, or by the throw of `stoi` on the
text of a `NUM` token at the front of the tokens. -/
theorem getPrimaryValue_error {s : ParserState} {e : ParseError}
    (h : getPrimaryValue s = .error e) :
    e = .fatal ∨ (e = .stoiThrow ∧ ∃ t rest, s.tokens = t :: rest ∧
      t.token_type = TokenType.NUM ∧ stoi t.lexeme = none) := by
  unfold getPrimaryValue at h
  simp only at h
  split at h
  · exact Or.inl (findVarLocation_error h)
  · split at h
    · rename_i hnum
      split at h
      · rename_i hs
        cases h
        obtain ⟨rest, h1, -⟩ := GetToken_kind (s := s) (by rw [hnum]; decide)
        exact Or.inr ⟨rfl, _, rest, h1, hnum, hs⟩
      · cases h
    · cases h
      exact Or.inl rfl

/-- A successful `getPrimaryValue` read a primary at the front of the tokens; the
same call on that token alone gives the same location and arena. -/
theorem getPrimaryValue_front {s s2 : ParserState} {l : Nat}
    (h : getPrimaryValue s = .ok (l, s2)) :
    ∃ p rest sa, s.tokens = p :: rest ∧ isPrimary p ∧
      getPrimaryValue { s with tokens := [p] } = .ok (l, sa) ∧
      s2 = { sa with tokens := rest } := by
  rcases getPrimaryValue_inv h with ⟨h1, h2, h3⟩ | ⟨h1, h2, v, h3, h4⟩
  · obtain ⟨rest, g1, g2⟩ := GetToken_kind (s := s) (by rw [h1]; decide)
    refine ⟨_, rest, { s with tokens := [] }, g1, Or.inl h1, ?_, ?_⟩
    · exact getPrimaryValue_one_id s _ l h1 h3 []
    · rw [h2, g2]
  · obtain ⟨rest, g1, g2⟩ := GetToken_kind (s := s) (by rw [h1]; decide)
    refine ⟨_, rest,
      { s with tokens := [], mem := memWrite s.mem s.next_available v,
               next_available := s.next_available + 1 },
      g1, Or.inr h1, ?_, ?_⟩
    · rw [h2]
      exact getPrimaryValue_one_num s _ v h1 h3 []
    · rw [h4, g2]

/-- The test `createAssignNode` makes on `peek(1)` and `peek(2)` holds exactly when
the tokens have the bare shape. -/
theorem lookahead_iff_bareShape (s : ParserState) :
    (((peek 1 s).token_type = TokenType.ID ∨ (peek 1 s).token_type = TokenType.NUM) ∧
      (peek 2 s).token_type = TokenType.SEMICOLON) ↔ bareShape s.tokens := by
  unfold peek
  cases hs : s.tokens with
  | nil => simp [bareShape, eofToken]
  | cons p r =>
    cases r with
    | nil => simp [bareShape, eofToken]
    | cons q r2 => simp [bareShape, isPrimary]

theorem bareShape_not_binaryShape {toks : List Token} (h : bareShape toks) :
    ¬ binaryShape toks := by
  intro hb
  match toks, h, hb with
  | p1 :: o :: p2 :: semi :: _, h, hb =>
    obtain ⟨-, hs⟩ := h
    obtain ⟨-, ho, -, -⟩ := hb
    apply ho
    rw [hs]
    rfl

theorem getPrimaryValue_heap_indep {s s2 : ParserState} {l : Nat}
    (h : getPrimaryValue s = .ok (l, s2)) (H : List InstructionNode) :
    getPrimaryValue { s with heap := H } = .ok (l, { s2 with heap := H }) := by
  obtain ⟨p, rest, sa, ht, hp, h1, rfl⟩ := getPrimaryValue_front h
  rcases getPrimaryValue_one_cases h1 with ⟨g1, g2, rfl⟩ | ⟨g1, rfl, c, g3, rfl⟩
  · simp [getPrimaryValue, GetToken, ht, g1, findVarLocation, g2]
  · simp [getPrimaryValue, GetToken, ht, g1, g3]

/-- The steps of a successful `createAssignNode`: the tokens start with an
identifier declared at `lx` and `EQUAL`; what follows has the bare shape or,
failing that, the binary shape, and the state after the call is the one the
matching form produces. -/
theorem createAssignNode_inv {s s2 : ParserState} {e : Nat}
    (h : createAssignNode s = .ok (e, s2)) :
    ∃ v eq more lx, s.tokens = v :: eq :: more ∧ v.token_type = TokenType.ID ∧
      eq.token_type = TokenType.EQUAL ∧
      mapFind s.varLocations v.lexeme = some lx ∧ e = s.heap.length ∧
      ((bareShape more ∧ ∃ p semi rest l sa, more = p :: semi :: rest ∧
          getPrimaryValue { s with tokens := [p] } = .ok (l, sa) ∧
          s2 = { sa with tokens := rest,
                         heap := s.heap ++
                           [assignNode lx l ArithmeticOperatorType.OPERATOR_NONE none] }) ∨
       (¬ bareShape more ∧ binaryShape more ∧
        ∃ p1 o p2 semi rest l1 l2 op sa sb, more = p1 :: o :: p2 :: semi :: rest ∧
          getPrimaryValue { s with tokens := [p1] } = .ok (l1, sa) ∧
          operatorOf o.token_type = some op ∧
          getPrimaryValue { sa with tokens := [p2] } = .ok (l2, sb) ∧
          s2 = { sb with tokens := rest,
                         heap := s.heap ++ [assignNode lx l1 op (some l2)] })) := by
  have h0 := h
  unfold createAssignNode at h
  simp only [newNode] at h
  split at h
  · cases h
  · rename_i var s1 h1
    obtain ⟨hv, r1, ht1, rfl⟩ := verifyToken_inv (by decide) h1
    simp only at ht1
    split at h
    · cases h
    · rename_i lhs s2a h2
      obtain ⟨e2, hlx⟩ := findVarLocation_state h2
      subst e2
      simp only at hlx
      split at h
      · cases h
      · rename_i x s4 h4
        obtain ⟨heq, more, ht4, rfl⟩ := verifyToken_inv (by decide) h4
        simp only [setNode] at ht4
        subst ht4
        refine ⟨var, x, more, lhs, ht1, hv, heq, hlx, ?_⟩
        simp only [setNode, lookahead_iff_bareShape] at h
        clear h1 h2 h4
        split at h
        · rename_i hbare
          split at h
          · cases h
          · rename_i p s5 h5
            split at h
            · cases h
            · rename_i y s8 h8
              obtain ⟨hsemi, rest, ht8, rfl⟩ := verifyToken_inv (by decide) h8
              obtain ⟨p0, rest0, sa, hm, hp0, hg, rfl⟩ := getPrimaryValue_front h5
              simp only at hm ht8
              subst hm
              subst ht8
              have hg2 := getPrimaryValue_heap_indep hg s.heap
              simp only at hg2
              have hfw := createAssignNode_bare ht1 hv heq hsemi hlx hg2
              rw [hfw] at h0
              simp only [Except.ok.injEq, Prod.mk.injEq] at h0
              obtain ⟨rfl, rfl⟩ := h0
              exact ⟨rfl, Or.inl ⟨hbare, p0, y, rest, p, _, rfl, hg2, rfl⟩⟩
        · rename_i hbare
          split at h
          · cases h
          · rename_i left op right s5 h5
            split at h
            · cases h
            · rename_i y s9 h9
              obtain ⟨hsemi, rest, ht9, rfl⟩ := verifyToken_inv (by decide) h9
              simp only at ht9
              unfold processExpression at h5
              split at h5
              · cases h5
              · rename_i first sA hA
                split at h5
                · cases h5
                · rename_i oper sB hB
                  split at h5
                  · cases h5
                  · rename_i second sC hC
                    simp only [Except.ok.injEq, Prod.mk.injEq] at h5
                    obtain ⟨⟨rfl, rfl, rfl⟩, rfl⟩ := h5
                    obtain ⟨p1, rest1, sa, hm1, hp1, hg1, rfl⟩ := getPrimaryValue_front hA
                    obtain ⟨o, rest2, hm2, ho, rfl⟩ := getOperator_inv hB
                    obtain ⟨p2, rest3, sb, hm3, hp2, hg2, rfl⟩ := getPrimaryValue_front hC
                    simp only at hm1 hm2 hm3 ht9
                    subst hm1
                    subst hm2
                    subst hm3
                    subst ht9
                    have hg1b := getPrimaryValue_heap_indep hg1 s.heap
                    simp only at hg1b
                    have hg2b := getPrimaryValue_heap_indep hg2 s.heap
                    simp only at hg2b
                    have hfw := createAssignNode_binary ht1 hv heq hsemi hlx hg1b ho hg2b
                    rw [hfw] at h0
                    simp only [Except.ok.injEq, Prod.mk.injEq] at h0
                    obtain ⟨rfl, rfl⟩ := h0
                    have hnb : ¬ bareShape (p1 :: o :: p2 :: y :: rest) :=
                      fun hb => hbare ((lookahead_iff_bareShape _).2 hb)
                    refine ⟨rfl, Or.inr ⟨hnb, ?_, p1, o, p2, y, rest, _, _,
                      _, _, _, rfl, hg1b, ho, hg2b, rfl⟩⟩
                    refine ⟨hp1, ?_, hp2, hsemi⟩
                    rw [ho]
                    simp

/-- The ways `processExpression` fails: fatally, or by the throw of `stoi` on the
text of one of the `NUM` tokens. -/
theorem processExpression_error {s : ParserState} {e : ParseError}
    (h : processExpression s = .error e) :
    e = .fatal ∨ (e = .stoiThrow ∧ ∃ t, t ∈ s.tokens ∧
      t.token_type = TokenType.NUM ∧ stoi t.lexeme = none) := by
  unfold processExpression at h
  split at h
  · rename_i e1 h1
    cases h
    rcases getPrimaryValue_error h1 with hf | ⟨hs, t, rest, ht, hn, hv⟩
    · exact Or.inl hf
    · exact Or.inr ⟨hs, t, by rw [ht]; exact List.mem_cons_self _ _, hn, hv⟩
  · rename_i first s1 h1
    obtain ⟨p, rest, sa, ht, -, -, rfl⟩ := getPrimaryValue_front h1
    split at h
    · rename_i e2 h2
      cases h
      exact Or.inl (getOperator_error h2)
    · rename_i oper s2 h2
      obtain ⟨o, rest2, ht2, -, rfl⟩ := getOperator_inv h2
      simp only at ht2
      subst ht2
      split at h
      · rename_i e3 h3
        cases h
        rcases getPrimaryValue_error h3 with hf | ⟨hs, t, rest3, ht3, hn, hv⟩
        · exact Or.inl hf
        · simp only at ht3
          subst ht3
          exact Or.inr ⟨hs, t, by rw [ht]; simp, hn, hv⟩
      · cases h

/-- The ways `createAssignNode` fails: fatally, or by the throw of `stoi` on the
text of one of the `NUM` tokens. -/
theorem createAssignNode_error {s : ParserState} {e : ParseError}
    (h : createAssignNode s = .error e) :
    e = .fatal ∨ (e = .stoiThrow ∧ ∃ t, t ∈ s.tokens ∧
      t.token_type = TokenType.NUM ∧ stoi t.lexeme = none) := by
  unfold createAssignNode at h
  simp only [newNode] at h
  split at h
  · rename_i e1 h1
    cases h
    exact Or.inl (verifyToken_error h1)
  · rename_i var s1 h1
    obtain ⟨hv, r1, ht1, rfl⟩ := verifyToken_inv (by decide) h1
    simp only at ht1
    split at h
    · rename_i e2 h2
      cases h
      exact Or.inl (findVarLocation_error h2)
    · rename_i lhs s2a h2
      obtain ⟨e2, hlx⟩ := findVarLocation_state h2
      subst e2
      split at h
      · rename_i e4 h4
        cases h
        exact Or.inl (verifyToken_error h4)
      · rename_i x s4 h4
        obtain ⟨heq, more, ht4, rfl⟩ := verifyToken_inv (by decide) h4
        simp only [setNode] at ht4
        subst ht4
        simp only [setNode] at h
        clear h1 h2 h4
        split at h
        · split at h
          · rename_i e5 h5
            cases h
            rcases getPrimaryValue_error h5 with hf | ⟨hs, t, rest, ht, hn, hv⟩
            · exact Or.inl hf
            · simp only at ht
              subst ht
              exact Or.inr ⟨hs, t, by rw [ht1]; simp, hn, hv⟩
          · rename_i p s5 h5
            split at h
            · rename_i e8 h8
              cases h
              exact Or.inl (verifyToken_error h8)
            · cases h
        · split at h
          · rename_i e5 h5
            cases h
            rcases processExpression_error h5 with hf | ⟨hs, t, ht, hn, hv⟩
            · exact Or.inl hf
            · simp only at ht
              exact Or.inr ⟨hs, t, by rw [ht1]; simp [ht], hn, hv⟩
          · rename_i left op right s5 h5
            split at h
            · rename_i e9 h9
              cases h
              exact Or.inl (verifyToken_error h9)
            · cases h

/-! ## C13: the two forms of an assignment -/

/-- C13: `createAssignNode` on tokens that start with an identifier `v` declared at
location `lx` and `EQUAL`, followed by the tokens `more`.
(1) The location of a primary is what `getPrimaryValue` returns for it: for an
identifier the location the symbol table records, for a number (whose text `stoi`
accepts) the cursor, where the value is stored.
(2) Bare form: on `more = p ; rest`, with `l` the location of the primary `p`, the
call returns a new node `ASSIGN` with destination `lx`, operand 1 `l`, operator
`OPERATOR_NONE`, no operand 2 and no successor, and the tokens left are `rest`.
(3) Binary form: on `more = p1 o p2 ; rest`, with `o` one of `+ - * /` and `l1`,
`l2` the locations of `p1` and then `p2`, the call returns a new node `ASSIGN` with
destination `lx`, operand 1 `l1`, the operator of `o` and operand 2 `l2`.
(4) Whenever the call returns, the node it returns has operator `OPERATOR_NONE`
(and no operand 2) exactly when, after `v =`, `peek(1)` is `ID` or `NUM` and
`peek(2)` is `SEMICOLON`.
(5) When `more` has neither the bare nor the binary shape the call does not
return: it ends in an error, which is the fatal one unless `stoi` threw on the text
of a `NUM` token before the mismatch was met. -/
theorem createAssignNode_forms (s : ParserState) (v eq : Token) (more : List Token)
    (lx : Nat) (ht : s.tokens = v :: eq :: more)
    (hv : v.token_type = TokenType.ID) (heq : eq.token_type = TokenType.EQUAL)
    (hlx : mapFind s.varLocations v.lexeme = some lx) :
    (∀ (st : ParserState) (p : Token) (l : Nat), p.token_type = TokenType.ID →
      mapFind st.varLocations p.lexeme = some l →
      getPrimaryValue { st with tokens := [p] } = .ok (l, { st with tokens := [] })) ∧
    (∀ (st : ParserState) (p : Token) (c : Int), p.token_type = TokenType.NUM →
      stoi p.lexeme = some c →
      getPrimaryValue { st with tokens := [p] } =
        .ok (st.next_available,
          { st with tokens := [], mem := memWrite st.mem st.next_available c,
                    next_available := st.next_available + 1 })) ∧
    (∀ (p semi : Token) (rest : List Token) (l : Nat) (sa : ParserState),
      more = p :: semi :: rest → semi.token_type = TokenType.SEMICOLON →
      getPrimaryValue { s with tokens := [p] } = .ok (l, sa) →
      createAssignNode s = .ok (s.heap.length,
        { sa with tokens := rest,
                  heap := s.heap ++
                    [assignNode lx l ArithmeticOperatorType.OPERATOR_NONE none] })) ∧
    (∀ (p1 o p2 semi : Token) (rest : List Token) (l1 l2 : Nat)
      (op : ArithmeticOperatorType) (sa sb : ParserState),
      more = p1 :: o :: p2 :: semi :: rest → semi.token_type = TokenType.SEMICOLON →
      getPrimaryValue { s with tokens := [p1] } = .ok (l1, sa) →
      operatorOf o.token_type = some op →
      getPrimaryValue { sa with tokens := [p2] } = .ok (l2, sb) →
      createAssignNode s = .ok (s.heap.length,
        { sb with tokens := rest,
                  heap := s.heap ++ [assignNode lx l1 op (some l2)] })) ∧
    (∀ (e : Nat) (s2 : ParserState), createAssignNode s = .ok (e, s2) →
      ∃ n, s2.heap[e]? = some n ∧ n.type = InstructionType.ASSIGN ∧
        n.lhs_loc = some lx ∧
        (n.op = some ArithmeticOperatorType.OPERATOR_NONE ↔
          (((peek 1 { s with tokens := more }).token_type = TokenType.ID ∨
            (peek 1 { s with tokens := more }).token_type = TokenType.NUM) ∧
           (peek 2 { s with tokens := more }).token_type = TokenType.SEMICOLON)) ∧
        (n.op2_loc = none ↔
          (((peek 1 { s with tokens := more }).token_type = TokenType.ID ∨
            (peek 1 { s with tokens := more }).token_type = TokenType.NUM) ∧
           (peek 2 { s with tokens := more }).token_type = TokenType.SEMICOLON))) ∧
    (¬ bareShape more → ¬ binaryShape more →
      ∃ e, createAssignNode s = .error e ∧
        (e = .fatal ∨ e = .stoiThrow) ∧ (NumsOk s.tokens → e = .fatal)) := by
  refine ⟨?_, ?_, ?_, ?_, ?_, ?_⟩
  · intro st p l hp hl
    exact getPrimaryValue_one_id st p l hp hl []
  · intro st p c hp hc
    exact getPrimaryValue_one_num st p c hp hc []
  · intro p semi rest l sa hm hsemi hp
    subst hm
    exact createAssignNode_bare ht hv heq hsemi hlx hp
  · intro p1 o p2 semi rest l1 l2 op sa sb hm hsemi hp1 ho hp2
    subst hm
    exact createAssignNode_binary ht hv heq hsemi hlx hp1 ho hp2
  · intro e s2 h
    obtain ⟨v2, eq2, more2, lx2, ht2, -, -, hlx2, rfl, hcase⟩ := createAssignNode_inv h
    rw [ht] at ht2
    simp only [List.cons.injEq] at ht2
    obtain ⟨rfl, rfl, rfl⟩ := ht2
    rw [hlx] at hlx2
    cases hlx2
    rw [lookahead_iff_bareShape]
    simp only
    rcases hcase with ⟨hb, p, semi, rest, l, sa, -, -, rfl⟩ |
      ⟨hnb, -, p1, o, p2, semi, rest, l1, l2, op, sa, sb, -, -, ho, -, rfl⟩
    · refine ⟨assignNode lx l ArithmeticOperatorType.OPERATOR_NONE none,
        getElem?_append_length _ _, rfl, rfl, ?_, ?_⟩
      · exact ⟨fun _ => hb, fun _ => rfl⟩
      · exact ⟨fun _ => hb, fun _ => rfl⟩
    · refine ⟨assignNode lx l1 op (some l2), getElem?_append_length _ _, rfl, rfl,
        ?_, ?_⟩
      · refine ⟨fun hop => ?_, fun hb => absurd hb hnb⟩
        have hop2 : op = ArithmeticOperatorType.OPERATOR_NONE := by
          simpa using hop
        subst hop2
        rcases operatorOf_cases ho with ⟨-, h1⟩ | ⟨-, h1⟩ | ⟨-, h1⟩ | ⟨-, h1⟩ <;> cases h1
      · exact ⟨fun hop => (by cases hop), fun hb => absurd hb hnb⟩
  · intro hnb hnbin
    cases hr : createAssignNode s with
    | ok r =>
      obtain ⟨e, s2⟩ := r
      exfalso
      obtain ⟨v2, eq2, more2, lx2, ht2, -, -, -, -, hcase⟩ := createAssignNode_inv hr
      rw [ht] at ht2
      simp only [List.cons.injEq] at ht2
      obtain ⟨rfl, rfl, rfl⟩ := ht2
      rcases hcase with ⟨hb, -⟩ | ⟨-, hb, -⟩
      · exact hnb hb
      · exact hnbin hb
    | error e =>
      refine ⟨e, rfl, ?_, ?_⟩
      · rcases createAssignNode_error hr with hf | ⟨hs, -⟩
        · exact Or.inl hf
        · exact Or.inr hs
      · intro hok
        rcases createAssignNode_error hr with hf | ⟨-, t, htm, hn, hst⟩
        · exact hf
        · exact absurd hst (hok t htm hn)


/-- Witness of C13 with `a` at location 0, `b` at location 1 and cursor 2:
`a = 5 ;` gives the node `ASSIGN 0 := cell 2` without operator, the constant 5
stored in cell 2; `b = a + 7 ;` gives the node `ASSIGN 1 := cell 0 + cell 2`, the
constant 7 stored in cell 2; `a = b a ;` is a fatal error. -/
theorem createAssignNode_forms_witness :
    createAssignNode (stateAB assignBareTokens) =
      .ok (0, { stateAB [] with
        mem := memWrite (fun _ => 0) 2 5, next_available := 3,
        heap := [assignNode 0 2 ArithmeticOperatorType.OPERATOR_NONE none] }) ∧
    createAssignNode (stateAB assignBinaryTokens) =
      .ok (0, { stateAB [] with
        mem := memWrite (fun _ => 0) 2 7, next_available := 3,
        heap := [assignNode 1 0 ArithmeticOperatorType.OPERATOR_PLUS (some 2)] }) ∧
    createAssignNode (stateAB assignBadTokens) = .error .fatal := by
  refine ⟨?_, ?_, ?_⟩
  · exact (createAssignNode_forms (stateAB assignBareTokens) (mkToken TokenType.ID "a")
      (mkToken TokenType.EQUAL "=")
      [mkToken TokenType.NUM "5", mkToken TokenType.SEMICOLON ";"] 0 rfl rfl rfl
      (by decide)).2.2.1 (mkToken TokenType.NUM "5") (mkToken TokenType.SEMICOLON ";")
      [] 2 _ rfl rfl
      ((createAssignNode_forms (stateAB assignBareTokens) (mkToken TokenType.ID "a")
        (mkToken TokenType.EQUAL "=")
        [mkToken TokenType.NUM "5", mkToken TokenType.SEMICOLON ";"] 0 rfl rfl rfl
        (by decide)).2.1 (stateAB assignBareTokens) (mkToken TokenType.NUM "5") 5 rfl
        (by decide))
  · exact (createAssignNode_forms (stateAB assignBinaryTokens)
      (mkToken TokenType.ID "b") (mkToken TokenType.EQUAL "=")
      [mkToken TokenType.ID "a", mkToken TokenType.PLUS "+", mkToken TokenType.NUM "7",
       mkToken TokenType.SEMICOLON ";"] 1 rfl rfl rfl
      (by decide)).2.2.2.1 (mkToken TokenType.ID "a") (mkToken TokenType.PLUS "+")
      (mkToken TokenType.NUM "7") (mkToken TokenType.SEMICOLON ";") [] 0 2
      ArithmeticOperatorType.OPERATOR_PLUS _ _ rfl rfl
      (getPrimaryValue_one_id (stateAB assignBinaryTokens) (mkToken TokenType.ID "a") 0
        rfl (by decide) [])
      rfl
      (getPrimaryValue_one_num { stateAB assignBinaryTokens with tokens := [] }
        (mkToken TokenType.NUM "7") 7 rfl (by decide) [])
  · obtain ⟨e, he, -, hf⟩ := (createAssignNode_forms (stateAB assignBadTokens)
      (mkToken TokenType.ID "a") (mkToken TokenType.EQUAL "=")
      [mkToken TokenType.ID "b", mkToken TokenType.ID "a",
       mkToken TokenType.SEMICOLON ";"] 0 rfl rfl rfl
      (by decide)).2.2.2.2.2 (by simp [bareShape, mkToken])
      (by simp [binaryShape, mkToken, operatorOf])
    rw [he, hf (by
      intro t ht hn
      simp [stateAB, assignBadTokens, mkToken] at ht
      rcases ht with rfl | rfl | rfl | rfl | rfl <;> simp at hn)]

/-! ## C14: the trailing inputs -/

/-- C14: when the tokens left are `nums ++ rest`, where `nums` are `NUM` tokens
whose texts `stoi` turns into the integers `vals` and `rest` does not start with a
`NUM` token (so `nums` is the maximal run of `NUM` tokens at the front),
`readInputValues` returns (a budget of one more than the number of tokens of the
run is enough); it has appended `vals`, in order, to the input queue, the tokens
left are exactly `rest`, whose first token is therefore not consumed, and nothing
else of the state has changed. -/
theorem readInputValues_drains (nums : List Token) :
    ∀ (rest : List Token) (vals : List Int) (s : ParserState) (fuel : Nat),
      (∀ t, t ∈ nums → t.token_type = TokenType.NUM) →
      nums.map (fun t => stoi t.lexeme) = vals.map some →
      (∀ t, rest.head? = some t → t.token_type ≠ TokenType.NUM) →
      s.tokens = nums ++ rest → nums.length < fuel →
      readInputValues fuel s =
        .ok ((), { s with tokens := rest, inputs := s.inputs ++ vals }) := by
  induction nums with
  | nil =>
    intro rest vals s fuel _ hv hr ht hf
    obtain ⟨f, rfl⟩ : ∃ f, fuel = f + 1 := ⟨fuel - 1, by simp at hf; omega⟩
    have hvals : vals = [] := by
      cases vals with
      | nil => rfl
      | cons a l => simp at hv
    subst hvals
    simp only [List.nil_append] at ht
    rw [readInputValues]
    have hp : (peek 1 s).token_type ≠ TokenType.NUM := by
      unfold peek
      rw [ht]
      cases rest with
      | nil => simp [eofToken]
      | cons t r => simpa using hr t rfl
    rw [if_neg hp]
    cases s
    simp only at ht
    subst ht
    simp
  | cons n ns ih =>
    intro rest vals s fuel hn hv hr ht hf
    obtain ⟨f, rfl⟩ : ∃ f, fuel = f + 1 := ⟨fuel - 1, by simp at hf; omega⟩
    cases vals with
    | nil => simp at hv
    | cons a l =>
      simp only [List.map_cons, List.cons.injEq] at hv
      obtain ⟨ha, hl⟩ := hv
      have hnum : n.token_type = TokenType.NUM := hn n (List.mem_cons_self _ _)
      rw [readInputValues]
      have hp : (peek 1 s).token_type = TokenType.NUM := by
        unfold peek
        rw [ht]
        simpa using hnum
      rw [if_pos hp]
      have hg : GetToken s = (n, { s with tokens := ns ++ rest }) :=
        GetToken_cons (by rw [ht]; rfl)
      simp only [hg, ha]
      rw [ih rest l _ f (fun t htm => hn t (List.mem_cons_of_mem _ htm)) hl hr rfl
        (by simp only [List.length_cons] at hf; omega)]
      simp

/-- Witness of C14, the example of the specification: on the trailing tokens
`5 7 9` followed by the end of the stream, read with an empty queue, the queue
becomes `[5, 7, 9]` and no token is left; when the end of the stream is itself a
token it is the one token left. -/
theorem readInputValues_drains_witness :
    readInputValues 4 (stateAB trailingTokens) =
      .ok ((), { stateAB [] with inputs := [5, 7, 9] }) ∧
    readInputValues 4 (stateAB (trailingTokens ++ [eofToken])) =
      .ok ((), { stateAB [eofToken] with inputs := [5, 7, 9] }) :=
  ⟨readInputValues_drains trailingTokens [] [5, 7, 9] (stateAB trailingTokens) 4
    (by decide) (by decide) (by simp) rfl (by decide),
   readInputValues_drains trailingTokens [eofToken] [5, 7, 9]
    (stateAB (trailingTokens ++ [eofToken])) 4
    (by decide) (by decide) (by simp [eofToken]) rfl (by decide)⟩

/-! ## C15: statements do not write the symbol table -/

/-- C15: whenever `getBodyCode` returns, the symbol table is the one it started
with, and the same holds for every procedure it calls to parse statements:
`buildStmtList`, `handleStmt`, `createAssignNode` (assign), `makeInputNode`
(input), `makeOutputNode` (output), `handleIfStmt` (if), `buildWhileLoop` (while),
`processSwitch` (switch) and `createForLoop` (for). -/
theorem statements_keep_symbol_table (fuel : Nat) (s s2 : ParserState) (e : Nat) :
    (getBodyCode fuel s = .ok (e, s2) → s2.varLocations = s.varLocations) ∧
    (buildStmtList fuel s = .ok (e, s2) → s2.varLocations = s.varLocations) ∧
    (handleStmt fuel s = .ok (e, s2) → s2.varLocations = s.varLocations) ∧
    (createAssignNode s = .ok (e, s2) → s2.varLocations = s.varLocations) ∧
    (makeInputNode s = .ok (e, s2) → s2.varLocations = s.varLocations) ∧
    (makeOutputNode s = .ok (e, s2) → s2.varLocations = s.varLocations) ∧
    (handleIfStmt fuel s = .ok (e, s2) → s2.varLocations = s.varLocations) ∧
    (buildWhileLoop fuel s = .ok (e, s2) → s2.varLocations = s.varLocations) ∧
    (processSwitch fuel s = .ok (e, s2) → s2.varLocations = s.varLocations) ∧
    (createForLoop fuel s = .ok (e, s2) → s2.varLocations = s.varLocations) := by
  obtain ⟨ib, il, ist, iw, ii, -, isw, -, ifo⟩ := frames_all fuel
  exact ⟨fun h => (ib s e s2 h).1, fun h => (il s e s2 h).1, fun h => (ist s e s2 h).1,
    fun h => (createAssignNode_frame h).1, fun h => (makeInputNode_arena h).1,
    fun h => (makeOutputNode_arena h).1, fun h => (ii s e s2 h).1,
    fun h => (iw s e s2 h).1, fun h => (isw s e s2 h).1, fun h => (ifo s e s2 h).1⟩

/-- Witness of C15 on the body `{ a = 5 ; }` parsed with `a` and `b` declared:
`getBodyCode` returns and the symbol table afterwards is the one before. -/
theorem statements_keep_symbol_table_witness :
    returned (getBodyCode 3 (stateAB bodyAssignTokens)) = some 0 ∧
    (finalState (stateAB []) (getBodyCode 3 (stateAB bodyAssignTokens))).varLocations =
      [("a", 0), ("b", 1)] :=
  ⟨by decide!,
   (statements_keep_symbol_table 3 (stateAB bodyAssignTokens)
      (finalState (stateAB []) (getBodyCode 3 (stateAB bodyAssignTokens))) 0).1
      (eq_ok_of_returned (stateAB []) (by decide!))⟩

/-! ## C16: the arena is never overwritten -/

theorem ArenaGrows.stay (s : ParserState) : ArenaGrows s s :=
  ⟨le_refl _, fun _ _ => rfl⟩

theorem ArenaGrows.next {s s1 s2 : ParserState} (a : ArenaGrows s s1)
    (b : ArenaGrows s1 s2) : ArenaGrows s s2 :=
  ⟨le_trans a.1 b.1, fun i hi => (b.2 i (lt_of_lt_of_le hi a.1)).trans (a.2 i hi)⟩

theorem Frame.grows {s s2 : ParserState} (f : Frame s s2) : ArenaGrows s s2 :=
  ⟨f.2.2.1, f.2.2.2⟩

theorem SameArena.arenaGrows {s s2 : ParserState} (f : SameArena s s2) : ArenaGrows s s2 :=
  f.frame.grows

theorem declare_grows (name : String) (s : ParserState) :
    ArenaGrows s (declare name s) := by
  refine ⟨by simp [declare], ?_⟩
  intro i hi
  simp only [declare, memWrite]
  rw [if_neg (by omega)]

theorem processIdList_grows :
    ∀ (fuel : Nat) (s s2 : ParserState),
      processIdList fuel s = .ok ((), s2) → ArenaGrows s s2 := by
  intro fuel
  induction fuel with
  | zero =>
    intro s s2 h
    rw [processIdList] at h
    cases h
  | succ fuel ih =>
    intro s s2 h
    obtain ⟨tok, s1, h1, hrest⟩ := processIdList_inv h
    have g1 : ArenaGrows s (GetToken (declare tok.lexeme s1)).2 :=
      ((verifyToken_arena h1).arenaGrows.next (declare_grows _ _)).next
        (GetToken_arena _).arenaGrows
    rcases hrest with ⟨-, h2⟩ | ⟨-, rfl⟩
    · exact g1.next (ih _ _ h2)
    · exact g1

theorem readInputValues_arena :
    ∀ (fuel : Nat) (s s2 : ParserState),
      readInputValues fuel s = .ok ((), s2) →
      s2.mem = s.mem ∧ s2.next_available = s.next_available ∧
      s2.varLocations = s.varLocations ∧ s2.heap = s.heap := by
  intro fuel
  induction fuel with
  | zero =>
    intro s s2 h
    rw [readInputValues] at h
    cases h
  | succ fuel ih =>
    intro s s2 h
    rw [readInputValues] at h
    split at h
    · simp only at h
      split at h
      · cases h
      · obtain ⟨a1, a2, a3, a4⟩ := ih _ _ h
        have ga := GetToken_arena s
        have gh := GetToken_heap s
        simp only at a1 a2 a3 a4
        exact ⟨a1.trans ga.2.1, a2.trans ga.2.2.1, a3.trans ga.1, a4.trans gh⟩
    · cases h
      exact ⟨rfl, rfl, rfl, rfl⟩

theorem parseProgram_grows {fuel : Nat} {s s2 : ParserState} {e : Nat}
    (h : parseProgram fuel s = .ok (e, s2)) : ArenaGrows s s2 := by
  unfold parseProgram handleVarSection at h
  split at h
  · cases h
  · rename_i u s1 h1
    split at h
    · cases h
    · rename_i mainCode sb hb
      split at h
      · cases h
      · rename_i u2 s3 h3
        cases h
        obtain ⟨a1, a2, -, -⟩ := readInputValues_arena _ _ _ h3
        have g := (processIdList_grows _ _ _ h1).next (getBodyCode_frame hb).grows
        exact ⟨by rw [a2]; exact g.1, fun i hi => by rw [a1]; exact g.2 i hi⟩

/-- C16: the parser never reuses or overwrites an arena location.  For a state `s`
with cursor `k = s.next_available`:
(1) the three allocating steps, `storeConstant`, the declaration of a name in
`processIdList` and `getPrimaryValue` on a number, write no cell other than cell
`k`;
(2) after any procedure of the parser returns, in state `s2`, the cursor is at
least `k` and every cell below `k` holds the value it held before the call.  This
is stated for every procedure of `parser.cc`: `verifyToken`, `findVarLocation`,
`storeConstant`, `makeNoop`, `linkNodes`, `getPrimaryValue`, `getOperator`,
`getRelationalOp`, `processExpression`, `checkCondition`, `createAssignNode`,
`makeOutputNode`, `makeInputNode`, `processIdList`, `handleVarSection`,
`getBodyCode`, `buildStmtList`, `handleStmt`, `buildWhileLoop`, `handleIfStmt`,
`processSwitch`, `createForLoop`, `readInputValues`, `parseProgram` and
`parse_Generate_Intermediate_Representation`. -/
theorem arena_is_append_only (fuel : Nat) (s s2 : ParserState) :
    ((∀ (v : Int) (i : Nat), i ≠ s.next_available →
        (storeConstant v s).2.mem i = s.mem i) ∧
      (∀ (name : String) (i : Nat), i ≠ s.next_available →
        (declare name s).mem i = s.mem i) ∧
      (∀ (l i : Nat), getPrimaryValue s = .ok (l, s2) → i ≠ s.next_available →
        s2.mem i = s.mem i)) ∧
    ((∀ ty t, verifyToken ty s = .ok (t, s2) → ArenaGrows s s2) ∧
      (∀ name l, findVarLocation name s = .ok (l, s2) → ArenaGrows s s2) ∧
      (∀ v, ArenaGrows s (storeConstant v s).2) ∧
      ArenaGrows s (makeNoop s).2 ∧
      (∀ start node, linkNodes start node s = .ok s2 → ArenaGrows s s2) ∧
      (∀ l, getPrimaryValue s = .ok (l, s2) → ArenaGrows s s2) ∧
      (∀ op, getOperator s = .ok (op, s2) → ArenaGrows s s2) ∧
      (∀ c, getRelationalOp s = .ok (c, s2) → ArenaGrows s s2) ∧
      (∀ r, processExpression s = .ok (r, s2) → ArenaGrows s s2) ∧
      (∀ r, checkCondition s = .ok (r, s2) → ArenaGrows s s2) ∧
      (∀ e, createAssignNode s = .ok (e, s2) → ArenaGrows s s2) ∧
      (∀ e, makeOutputNode s = .ok (e, s2) → ArenaGrows s s2) ∧
      (∀ e, makeInputNode s = .ok (e, s2) → ArenaGrows s s2)) ∧
    ((processIdList fuel s = .ok ((), s2) → ArenaGrows s s2) ∧
      (handleVarSection fuel s = .ok ((), s2) → ArenaGrows s s2) ∧
      (∀ e, getBodyCode fuel s = .ok (e, s2) → ArenaGrows s s2) ∧
      (∀ e, buildStmtList fuel s = .ok (e, s2) → ArenaGrows s s2) ∧
      (∀ e, handleStmt fuel s = .ok (e, s2) → ArenaGrows s s2) ∧
      (∀ e, buildWhileLoop fuel s = .ok (e, s2) → ArenaGrows s s2) ∧
      (∀ e, handleIfStmt fuel s = .ok (e, s2) → ArenaGrows s s2) ∧
      (∀ e, processSwitch fuel s = .ok (e, s2) → ArenaGrows s s2) ∧
      (∀ e, createForLoop fuel s = .ok (e, s2) → ArenaGrows s s2) ∧
      (readInputValues fuel s = .ok ((), s2) → ArenaGrows s s2) ∧
      (∀ e, parseProgram fuel s = .ok (e, s2) → ArenaGrows s s2) ∧
      (∀ e, parse_Generate_Intermediate_Representation fuel s = .ok (e, s2) →
        ArenaGrows s s2)) := by
  obtain ⟨ib, il, ist, iw, ii, -, isw, -, ifo⟩ := frames_all fuel
  refine ⟨⟨?_, ?_, ?_⟩, ⟨?_, ?_, ?_, ?_, ?_, ?_, ?_, ?_, ?_, ?_, ?_, ?_, ?_⟩,
    ⟨?_, ?_, ?_, ?_, ?_, ?_, ?_, ?_, ?_, ?_, ?_, ?_⟩⟩
  · intro v i hi
    simp [storeConstant, memWrite, hi]
  · intro name i hi
    simp [declare, memWrite, hi]
  · intro l i h hi
    have ga := GetToken_arena s
    rcases getPrimaryValue_inv h with ⟨-, rfl, -⟩ | ⟨-, -, v, -, rfl⟩
    · rw [ga.2.1]
    · simp [memWrite, hi]
  · exact fun ty t h => (verifyToken_arena h).arenaGrows
  · intro name l h
    rw [(findVarLocation_state h).1]
    exact ArenaGrows.stay s
  · exact fun v => (storeConstant_frame v s).grows
  · exact (makeNoop_arena s).arenaGrows
  · exact fun start node h => (linkNodes_arena h).arenaGrows
  · exact fun l h => (getPrimaryValue_frame h).grows
  · exact fun op h => (getOperator_arena h).arenaGrows
  · exact fun c h => (getRelationalOp_arena h).arenaGrows
  · exact fun r h => (processExpression_frame h).grows
  · exact fun r h => (checkCondition_frame h).grows
  · exact fun e h => (createAssignNode_frame h).grows
  · exact fun e h => (makeOutputNode_arena h).arenaGrows
  · exact fun e h => (makeInputNode_arena h).arenaGrows
  · exact processIdList_grows fuel s s2
  · exact processIdList_grows fuel s s2
  · exact fun e h => (ib s e s2 h).grows
  · exact fun e h => (il s e s2 h).grows
  · exact fun e h => (ist s e s2 h).grows
  · exact fun e h => (iw s e s2 h).grows
  · exact fun e h => (ii s e s2 h).grows
  · exact fun e h => (isw s e s2 h).grows
  · exact fun e h => (ifo s e s2 h).grows
  · intro h
    obtain ⟨a1, a2, -, -⟩ := readInputValues_arena _ _ _ h
    exact ⟨by rw [a2], fun i _ => by rw [a1]⟩
  · exact fun e h => parseProgram_grows h
  · exact fun e h => parseProgram_grows h

/-- Witness of C16 on the program `a, b; { a = 5 ; } 5 7 9`, parsed from a state
with cursor 2 whose cells 0 and 1 hold 0: `parseProgram` returns with cursor 5, and
the cells 0 and 1 still hold 0. -/
theorem arena_is_append_only_witness :
    returned (parseProgram 4 (stateAB programTokens)) = some 0 ∧
    (finalState (stateAB []) (parseProgram 4 (stateAB programTokens))).next_available
      = 5 ∧
    ArenaGrows (stateAB programTokens)
      (finalState (stateAB []) (parseProgram 4 (stateAB programTokens))) :=
  ⟨by decide!, by decide!,
   (arena_is_append_only 4 (stateAB programTokens)
      (finalState (stateAB []) (parseProgram 4 (stateAB programTokens)))).2.2.2.2.2.2.2.2.2.2.2.2.1
      0 (eq_ok_of_returned (stateAB []) (by decide!))⟩

/-! ## Subgraphs: reachability, tails and linking -/

theorem Reach.concat {h : List InstructionNode} {a b c : Nat}
    (h1 : Reach h a b) (h2 : Reach h b c) : Reach h a c := by
  induction h1 with
  | refl => exact h2
  | next hn hx _ ih => exact Reach.next hn hx (ih h2)
  | target hn hx _ ih => exact Reach.target hn hx (ih h2)

theorem NextReach.toReach {h : List InstructionNode} {a b : Nat}
    (hr : NextReach h a b) : Reach h a b := by
  induction hr with
  | refl => exact Reach.refl _
  | step hn hx _ ih => exact Reach.next hn hx ih

theorem Reach.stays_in {h : List InstructionNode} {lo hi a b : Nat}
    (hc : RegionClosed lo hi h) (hr : Reach h a b) (ha : lo ≤ a ∧ a < hi) :
    lo ≤ b ∧ b < hi := by
  induction hr with
  | refl => exact ha
  | next hn hx _ ih => exact ih ((hc _ _ ha.1 ha.2 hn).1 _ hx)
  | target hn hx _ ih => exact ih ((hc _ _ ha.1 ha.2 hn).2 _ hx)

/-- A `next` chain of a closed region survives a change of the heap that touches,
inside the region, only a node without successor. -/
theorem NextReach.avoid {h h2 : List InstructionNode} {lo hi a b t : Nat}
    {nt : InstructionNode} (hc : RegionClosed lo hi h) (hr : NextReach h a b)
    (ha : lo ≤ a ∧ a < hi) (ht : h[t]? = some nt) (htn : nt.next = none)
    (hag : ∀ i, lo ≤ i → i < hi → i ≠ t → h2[i]? = h[i]?) : NextReach h2 a b := by
  induction hr with
  | refl => exact NextReach.refl _
  | @step a b c n hn hx _ ih =>
    have hb := (hc _ _ ha.1 ha.2 hn).1 _ hx
    have hne : a ≠ t := by
      intro hEq
      subst hEq
      rw [hn] at ht
      cases ht
      rw [hx] at htn
      cases htn
    exact NextReach.step ((hag _ ha.1 ha.2 hne).trans hn) hx (ih hb)

/-- Reachability inside a closed region survives a change of the heap that, inside
the region, only gives a successor to a node without one. -/
theorem Reach.avoid_tail {h h2 : List InstructionNode} {lo hi a b t : Nat}
    {nt : InstructionNode} {v : Option Nat}
    (hc : RegionClosed lo hi h) (hr : Reach h a b)
    (ha : lo ≤ a ∧ a < hi) (ht : h[t]? = some nt) (htn : nt.next = none)
    (ht2 : h2[t]? = some { nt with next := v })
    (hag : ∀ i, lo ≤ i → i < hi → i ≠ t → h2[i]? = h[i]?) : Reach h2 a b := by
  induction hr with
  | refl => exact Reach.refl _
  | @next a b c n hn hx _ ih =>
    have hb := (hc _ _ ha.1 ha.2 hn).1 _ hx
    have hne : a ≠ t := by
      intro hEq
      subst hEq
      rw [hn] at ht
      cases ht
      rw [hx] at htn
      cases htn
    exact Reach.next ((hag _ ha.1 ha.2 hne).trans hn) hx (ih hb)
  | @target a b c n hn hx _ ih =>
    have hb := (hc _ _ ha.1 ha.2 hn).2 _ hx
    by_cases hne : a = t
    · subst hne
      rw [hn] at ht
      cases ht
      exact Reach.target ht2 hx (ih hb)
    · exact Reach.target ((hag _ ha.1 ha.2 hne).trans hn) hx (ih hb)

theorem Reach.congr_on {h h2 : List InstructionNode} {lo hi a b : Nat}
    (hc : RegionClosed lo hi h) (hag : ∀ i, lo ≤ i → i < hi → h2[i]? = h[i]?)
    (hr : Reach h a b) (ha : lo ≤ a ∧ a < hi) : Reach h2 a b := by
  induction hr with
  | refl => exact Reach.refl _
  | next hn hx _ ih =>
    exact Reach.next ((hag _ ha.1 ha.2).trans hn) hx (ih ((hc _ _ ha.1 ha.2 hn).1 _ hx))
  | target hn hx _ ih =>
    exact Reach.target ((hag _ ha.1 ha.2).trans hn) hx
      (ih ((hc _ _ ha.1 ha.2 hn).2 _ hx))

/-- The `next` chain of a node ends at one node only. -/
theorem NextReach.tail_unique {h : List InstructionNode} {a t t2 : Nat}
    {nt nt2 : InstructionNode} (hr : NextReach h a t) (hr2 : NextReach h a t2)
    (ht : h[t]? = some nt) (htn : nt.next = none)
    (ht2 : h[t2]? = some nt2) (htn2 : nt2.next = none) : t = t2 := by
  induction hr with
  | refl =>
    cases hr2 with
    | refl => rfl
    | step hn hx _ =>
      rw [hn] at ht
      cases ht
      rw [hx] at htn
      cases htn
  | @step a b c n hn hx _ ih =>
    cases hr2 with
    | refl =>
      rw [hn] at ht2
      cases ht2
      rw [hx] at htn2
      cases htn2
    | @step _ b2 _ n2 hn2 hx2 hr3 =>
      rw [hn] at hn2
      cases hn2
      rw [hx] at hx2
      cases hx2
      exact ih hr3 ht

theorem CaseJumpIn.mono {h : List InstructionNode} {lo hi lo2 hi2 i : Nat}
    (hj : CaseJumpIn h lo hi i) (hlo : lo2 ≤ lo) (hhi : hi ≤ hi2) :
    CaseJumpIn h lo2 hi2 i := by
  obtain ⟨c, b, cn, jn, h1, h2, h3, h4, h5, h6, h7, h8, h9⟩ := hj
  exact ⟨c, b, cn, jn, by omega, by omega, h3, h4, h5, h6, h7, h8, h9⟩

/-- A finished subgraph of a closed region is the same subgraph in every heap that
agrees with the heap on the region. -/
theorem Sub.agree {h h2 : List InstructionNode} {lo hi e t : Nat}
    (a : Sub h lo hi e t) (hc : RegionClosed lo hi h)
    (hag : ∀ i, lo ≤ i → i < hi → h2[i]? = h[i]?) : Sub h2 lo hi e t := by
  obtain ⟨nt, hnt, hntx⟩ := a.tail
  refine ⟨a.entry_in, a.tail_in, a.chain.congr_region hc hag a.entry_in,
    ⟨nt, (hag _ a.tail_in.1 a.tail_in.2).trans hnt, hntx⟩, ?_, ?_, ?_⟩
  · intro i b1 b2
    exact (a.conn i b1 b2).congr_on hc hag a.entry_in
  · intro i n b1 b2 hn
    rw [hag i b1 b2] at hn
    exact a.tgt i n b1 b2 hn
  · intro i n b1 b2 hn hx
    rw [hag i b1 b2] at hn
    rcases a.empt i n b1 b2 hn hx with h0 | ⟨c, b, cn, jn, c1, c2, c3, c4, c5, c6, c7, c8, c9⟩
    · exact Or.inl h0
    · have hb := (hc _ _ c1 c2 c3).2 _ c6
      exact Or.inr ⟨c, b, cn, jn, c1, c2, (hag c c1 c2).trans c3, c4, c5, c6,
        c7.congr_region hc hag hb, (hag i b1 b2).trans c8, c9⟩

/-- Linking the tail of a finished subgraph: in a heap that agrees with the heap of
the subgraph on the region, except that the tail has received the successor `X`,
the region is a linked subgraph. -/
theorem Sub.linked {h h2 : List InstructionNode} {lo hi e t X : Nat}
    {nt : InstructionNode}
    (a : Sub h lo hi e t) (hc : RegionClosed lo hi h)
    (hnt : h[t]? = some nt)
    (ht2 : h2[t]? = some { nt with next := some X })
    (hag : ∀ i, lo ≤ i → i < hi → i ≠ t → h2[i]? = h[i]?) :
    Linked h2 lo hi e t X := by
  obtain ⟨nt0, hnt0, hntx⟩ := a.tail
  rw [hnt] at hnt0
  cases hnt0
  refine ⟨a.entry_in, a.tail_in, a.chain.avoid hc a.entry_in hnt hntx hag,
    ⟨_, ht2, rfl⟩, ?_, ?_, ?_⟩
  · intro i b1 b2
    exact (a.conn i b1 b2).avoid_tail hc a.entry_in hnt hntx ht2 hag
  · intro i n b1 b2 hn
    by_cases hit : i = t
    · subst hit
      rw [ht2] at hn
      cases hn
      exact a.tgt i nt b1 b2 hnt
    · rw [hag i b1 b2 hit] at hn
      exact a.tgt i n b1 b2 hn
  · intro i n b1 b2 hn hx
    have hit : i ≠ t := by
      intro hEq
      subst hEq
      rw [ht2] at hn
      cases hn
      cases hx
    rw [hag i b1 b2 hit] at hn
    rcases a.empt i n b1 b2 hn hx with h0 | ⟨c, b, cn, jn, c1, c2, c3, c4, c5, c6, c7, c8, c9⟩
    · exact absurd h0 hit
    · have hb := (hc _ _ c1 c2 c3).2 _ c6
      have hc2 : ∃ cn2, h2[c]? = some cn2 ∧ cn2.type = InstructionType.CJMP ∧
          cn2.condition_op = some ConditionalOperatorType.CONDITION_NOTEQUAL ∧
          cn2.target = some b := by
        by_cases hct : c = t
        · subst hct
          rw [hnt] at c3
          cases c3
          exact ⟨_, ht2, c4, c5, c6⟩
        · exact ⟨cn, (hag c c1 c2 hct).trans c3, c4, c5, c6⟩
      obtain ⟨cn2, d3, d4, d5, d6⟩ := hc2
      exact ⟨c, b, cn2, jn, c1, c2, d3, d4, d5, d6,
        c7.avoid hc hb hnt hntx hag, (hag i b1 b2 hit).trans c8, c9⟩

/-- One new node without edges that is not a jump is a finished subgraph. -/
theorem Sub.one {h : List InstructionNode} {n : InstructionNode}
    (hx : n.next = none)
    (hty : ¬ (n.type = InstructionType.CJMP ∨ n.type = InstructionType.JMP)) :
    Sub (h ++ [n]) h.length (h ++ [n]).length h.length h.length := by
  have hl : (h ++ [n]).length = h.length + 1 := by simp
  have hg : (h ++ [n])[h.length]? = some n := getElem?_append_length _ _
  rw [hl]
  refine ⟨⟨le_refl _, by omega⟩, ⟨le_refl _, by omega⟩, NextReach.refl _,
    ⟨n, hg, hx⟩, ?_, ?_, ?_⟩
  · intro i h1 h2
    have : i = h.length := by omega
    subst this
    exact Reach.refl _
  · intro i m h1 h2 hm hj
    have : i = h.length := by omega
    subst this
    rw [hg] at hm
    cases hm
    exact absurd hj hty
  · intro i m h1 h2 hm _
    exact Or.inl (by omega)

/-- The steps of a successful `getBodyCode`. -/
theorem getBodyCode_inv {fuel : Nat} {s s2 : ParserState} {e : Nat}
    (h : getBodyCode (fuel + 1) s = .ok (e, s2)) :
    ∃ t1 s1 sb t3, verifyToken TokenType.LBRACE s = .ok (t1, s1) ∧
      buildStmtList fuel s1 = .ok (e, sb) ∧
      verifyToken TokenType.RBRACE sb = .ok (t3, s2) := by
  rw [getBodyCode] at h
  split at h
  · cases h
  · rename_i x s1 h1
    split at h
    · cases h
    · rename_i st s2a h2
      split at h
      · cases h
      · rename_i y s3 h3
        simp only [Except.ok.injEq, Prod.mk.injEq] at h
        obtain ⟨rfl, rfl⟩ := h
        exact ⟨x, s1, s2a, y, h1, h2, h3⟩

/-- The steps of a successful `buildStmtList`. -/
theorem buildStmtList_inv {fuel : Nat} {s s2 : ParserState} {e : Nat}
    (h : buildStmtList (fuel + 1) s = .ok (e, s2)) :
    ∃ s1, handleStmt fuel s = .ok (e, s1) ∧
      ((startsStmt (peek 1 s1) ∧ ∃ rest sr cur, buildStmtList fuel s1 = .ok (rest, sr) ∧
          walkToTail sr.heap.length sr.heap e = .ok cur ∧
          s2 = setNext cur (some rest) sr) ∨
        (¬ startsStmt (peek 1 s1) ∧ s2 = s1)) := by
  rw [buildStmtList] at h
  split at h
  · cases h
  · rename_i firstNode s1 h1
    simp only at h
    split at h
    · rename_i hst
      split at h
      · cases h
      · rename_i restNodes s2a h2
        split at h
        · cases h
        · rename_i current hw
          simp only [Except.ok.injEq, Prod.mk.injEq] at h
          obtain ⟨rfl, rfl⟩ := h
          exact ⟨s1, h1, Or.inl ⟨hst, restNodes, s2a, current, h2, hw, rfl⟩⟩
    · rename_i hst
      simp only [Except.ok.injEq, Prod.mk.injEq] at h
      obtain ⟨rfl, rfl⟩ := h
      exact ⟨s1, h1, Or.inr ⟨hst, rfl⟩⟩

/-- A linked subgraph followed by the finished subgraph it is linked to is a
finished subgraph. -/
theorem Linked.seq {h : List InstructionNode} {lo mid hi e1 t1 e2 t2 : Nat}
    (a : Linked h lo mid e1 t1 e2) (b : Sub h mid hi e2 t2) : Sub h lo hi e1 t2 := by
  have h1 := a.entry_in
  have h2 := b.entry_in
  have h3 := b.tail_in
  obtain ⟨nt, hnt, hntx⟩ := a.link
  have hch : NextReach h e1 e2 := a.chain.snoc hnt hntx
  refine ⟨⟨h1.1, by omega⟩, ⟨by omega, h3.2⟩, hch.append b.chain, b.tail, ?_, ?_, ?_⟩
  · intro i b1 b2
    by_cases hi : i < mid
    · exact a.conn i b1 hi
    · exact hch.toReach.concat (b.conn i (by omega) b2)
  · intro i n b1 b2 hn
    by_cases hi : i < mid
    · exact a.tgt i n b1 hi hn
    · exact b.tgt i n (by omega) b2 hn
  · intro i n b1 b2 hn hx
    by_cases hi : i < mid
    · exact Or.inr ((a.empt i n b1 hi hn hx).mono (le_refl _) (by omega))
    · rcases b.empt i n (by omega) b2 hn hx with h0 | h0
      · exact Or.inl h0
      · exact Or.inr (h0.mono (by omega) (le_refl _))

theorem createAssignNode_sub : BuildsSub createAssignNode := by
  intro s e s2 h
  obtain ⟨rfl, n, hh, hty, hx, -⟩ := createAssignNode_heap h
  rw [hh]
  exact ⟨_, Sub.one hx (by rw [hty]; simp)⟩

theorem makeOutputNode_sub : BuildsSub makeOutputNode := by
  intro s e s2 h
  obtain ⟨rfl, n, hh, hty, hx, -⟩ := makeOutputNode_heap h
  rw [hh]
  exact ⟨_, Sub.one hx (by rw [hty]; simp)⟩

theorem makeInputNode_sub : BuildsSub makeInputNode := by
  intro s e s2 h
  obtain ⟨rfl, n, hh, hty, hx, -⟩ := makeInputNode_heap h
  rw [hh]
  exact ⟨_, Sub.one hx (by rw [hty]; simp)⟩

theorem getBodyCode_sub_step (fuel : Nat) (ih : BuildsSub (buildStmtList fuel)) :
    BuildsSub (getBodyCode (fuel + 1)) := by
  intro s e s2 h
  obtain ⟨t1, s1, sb, t3, h1, h2, h3⟩ := getBodyCode_inv h
  have b := ih _ _ _ h2
  rw [verifyToken_heap h1] at b
  rw [verifyToken_heap h3]
  exact b

theorem buildStmtList_sub_step (fuel : Nat) (ihs : BuildsSub (handleStmt fuel))
    (ihl : BuildsSub (buildStmtList fuel)) :
    BuildsSub (buildStmtList (fuel + 1)) := by
  intro s e s2 h
  obtain ⟨s1, h1, hrest⟩ := buildStmtList_inv h
  obtain ⟨t1, a1⟩ := ihs _ _ _ h1
  have b1 : Built s.heap s1.heap e := (builds_all fuel).2.2.1 _ _ _ h1
  rcases hrest with ⟨-, rest, sr, cur, h2, hw, rfl⟩ | ⟨-, rfl⟩
  · obtain ⟨t2, a2⟩ := ihl _ _ _ h2
    have b2 : Built s1.heap sr.heap rest := (builds_all fuel).2.1 _ _ _ h2
    have hag : ∀ i, s.heap.length ≤ i → i < s1.heap.length → sr.heap[i]? = s1.heap[i]? :=
      fun i _ hi => b2.1.2.1 i hi
    obtain ⟨htr, hr1, nt, hnt, hntx, hmod, -, -⟩ :=
      attach_tail rest b1.1.2.2 hag ⟨b1.2.1, b1.2.2⟩ hw
    obtain ⟨nt1, hnt1, hntx1⟩ := a1.tail
    have hcur : cur = t1 := hr1.tail_unique a1.chain hnt hntx hnt1 hntx1
    subst hcur
    have hl : Linked (setNext cur (some rest) sr).heap s.heap.length s1.heap.length
        e cur rest := by
      refine a1.linked b1.1.2.2 hnt hmod ?_
      intro i i1 i2 hne
      rw [get_setNext_ne _ _ (Ne.symm hne)]
      exact hag i i1 i2
    have hs : Sub (setNext cur (some rest) sr).heap s1.heap.length sr.heap.length
        rest t2 := by
      refine a2.agree b2.1.2.2 ?_
      intro i i1 i2
      exact get_setNext_ne _ _ (by omega)
    rw [length_setNext]
    exact ⟨t2, hl.seq hs⟩
  · exact ⟨t1, a1⟩

theorem Sub.of_parts {h : List InstructionNode} {lo hi e t : Nat}
    (he : lo ≤ e ∧ e < hi) (ht : lo ≤ t ∧ t < hi) (hch : NextReach h e t)
    (htl : ∃ nt, h[t]? = some nt ∧ nt.next = none)
    (hp : ∀ i, lo ≤ i → i < hi → Part h lo hi e t i) : Sub h lo hi e t :=
  ⟨he, ht, hch, htl, fun i b1 b2 => (hp i b1 b2).1,
    fun i n b1 b2 hn => ((hp i b1 b2).2 n hn).1,
    fun i n b1 b2 hn => ((hp i b1 b2).2 n hn).2⟩

theorem Part.node {h : List InstructionNode} {lo hi e t i : Nat} {n : InstructionNode}
    (hn : h[i]? = some n) (hr : Reach h e i)
    (htg : (n.type = InstructionType.CJMP ∨ n.type = InstructionType.JMP) →
      n.target ≠ none)
    (hx : n.next = none → i = t ∨ CaseJumpIn h lo hi i) : Part h lo hi e t i := by
  refine ⟨hr, ?_⟩
  intro m hm
  rw [hn] at hm
  cases hm
  exact ⟨htg, hx⟩

/-- The nodes of a linked subgraph that lies inside the region and whose entry is
reached from `e` play their part. -/
theorem Linked.part {h : List InstructionNode} {lo hi e t lo2 hi2 e2 t2 X i : Nat}
    (a : Linked h lo2 hi2 e2 t2 X) (hlo : lo ≤ lo2) (hhi : hi2 ≤ hi)
    (hr : Reach h e e2) (b1 : lo2 ≤ i) (b2 : i < hi2) : Part h lo hi e t i := by
  refine ⟨hr.concat (a.conn i b1 b2), ?_⟩
  intro n hn
  exact ⟨a.tgt i n b1 b2 hn,
    fun hx => Or.inr ((a.empt i n b1 b2 hn hx).mono hlo hhi)⟩

theorem handleIfStmt_sub_step (fuel : Nat) (ih : BuildsSub (getBodyCode fuel)) :
    BuildsSub (handleIfStmt (fuel + 1)) := by
  intro s e s2 h
  obtain ⟨tok, s1, cond, l, r, sc, body, s4, t, h1, h2, h4, hw, rfl, rfl⟩ :=
    handleIfStmt_inv h
  have b4 := getBodyCode_built h4
  obtain ⟨tb, a4⟩ := ih _ _ _ h4
  have e3 := cond_prefix_heap h1 h2
  rw [e3] at b4 a4
  obtain ⟨⟨bl, bo, bc⟩, blo, bhi⟩ := b4
  simp only [List.length_append, List.length_singleton] at bl bo bc blo a4
  have hc4 : s4.heap[s.heap.length]? = some (cjmpNode cond l r none none) := by
    rw [bo _ (by omega)]
    exact List.getElem?_concat_length _ _
  have hag : ∀ i, s.heap.length + 1 ≤ i → i < s4.heap.length →
      (setTarget s.heap.length (some s4.heap.length)
        (makeNoop (setNext s.heap.length (some body) s4)).2).heap[i]? =
      s4.heap[i]? := by
    intro i hlo hhi
    rw [get_setTarget_ne _ _ (by omega),
      get_makeNoop_lt _ (by rw [length_setNext]; exact hhi),
      get_setNext_ne _ _ (by omega)]
  obtain ⟨htr, hr4, nt, hnt, hntx, hmt, -, -⟩ :=
    attach_tail s4.heap.length bc hag ⟨blo, bhi⟩ hw
  obtain ⟨ntb, hntb, hntbx⟩ := a4.tail
  have htt : t = tb := hr4.tail_unique a4.chain hnt hntx hntb hntbx
  subst htt
  have hE : (setNext t (some s4.heap.length)
      (setTarget s.heap.length (some s4.heap.length)
        (makeNoop (setNext s.heap.length (some body) s4)).2)).heap[s.heap.length]? =
      some (cjmpNode cond l r (some body) (some s4.heap.length)) := by
    rw [get_setNext_ne _ _ (by omega),
      get_setTarget_eq (n := cjmpNode cond l r (some body) none) _ ?_]
    rw [get_makeNoop_lt _ (by rw [length_setNext]; omega), get_setNext_eq _ hc4]
  have hN : (setNext t (some s4.heap.length)
      (setTarget s.heap.length (some s4.heap.length)
        (makeNoop (setNext s.heap.length (some body) s4)).2)).heap[s4.heap.length]? =
      some noopNode := by
    rw [get_setNext_ne _ _ (by omega), get_setTarget_ne _ _ (by omega)]
    have := get_makeNoop_eq (setNext s.heap.length (some body) s4)
    rw [length_setNext] at this
    exact this
  have hL : Linked (setNext t (some s4.heap.length)
      (setTarget s.heap.length (some s4.heap.length)
        (makeNoop (setNext s.heap.length (some body) s4)).2)).heap
      (s.heap.length + 1) s4.heap.length body t s4.heap.length := by
    refine a4.linked bc hnt hmt ?_
    intro i i1 i2 hne
    rw [get_setNext_ne _ _ (Ne.symm hne)]
    exact hag i i1 i2
  have hlen : (setNext t (some s4.heap.length)
      (setTarget s.heap.length (some s4.heap.length)
        (makeNoop (setNext s.heap.length (some body) s4)).2)).heap.length =
      s4.heap.length + 1 := by
    rw [length_setNext, length_setTarget, length_makeNoop, length_setNext]
  rw [hlen]
  obtain ⟨ntl, hntl, hntlx⟩ := hL.link
  have hbN := hL.chain.snoc hntl hntlx
  have hEb : Reach _ s.heap.length body := Reach.next hE rfl (Reach.refl _)
  refine ⟨s4.heap.length, Sub.of_parts ⟨le_refl _, by omega⟩ ⟨by omega, by omega⟩
    (NextReach.step hE rfl hbN) ⟨_, hN, rfl⟩ ?_⟩
  intro i i1 i2
  by_cases hi1 : i = s.heap.length
  · subst hi1
    exact Part.node hE (Reach.refl _) (fun _ => by simp) (fun hx => by simp at hx)
  · by_cases hi2 : i = s4.heap.length
    · subst hi2
      exact Part.node hN (hEb.concat hbN.toReach) (fun hj => by simp at hj)
        (fun _ => Or.inl rfl)
    · exact hL.part (by omega) (by omega) hEb (by omega) (by omega)

/-- The nodes `buildWhileLoop` leaves behind, relative to the heap `s4.heap` the
body parse left: the test `C = s.heap.length`, the back jump `J = s4.heap.length`,
the exit `N = J + 1`, the tail `t` of the body linked to `J`, and every other node
of the body untouched. -/
theorem buildWhileLoop_nodes {fuel : Nat} {s s2 : ParserState} {e : Nat}
    (h : buildWhileLoop (fuel + 1) s = .ok (e, s2)) :
    ∃ tok s1 cond l r sc body s4 t nt,
      verifyToken TokenType.WHILE
        (newNode { type := InstructionType.CJMP, next := none } s).2 = .ok (tok, s1) ∧
      checkCondition s1 = .ok ((cond, l, r), sc) ∧
      getBodyCode fuel (setCond s.heap.length cond l r sc) = .ok (body, s4) ∧
      (setCond s.heap.length cond l r sc).heap.length = s.heap.length + 1 ∧
      e = s.heap.length ∧
      s2.heap.length = s4.heap.length + 2 ∧
      s2.heap[s.heap.length]? =
        some (cjmpNode cond l r (some body) (some (s4.heap.length + 1))) ∧
      s2.heap[s4.heap.length]? =
        some (jmpNode (some (s4.heap.length + 1)) (some s.heap.length)) ∧
      s2.heap[s4.heap.length + 1]? = some noopNode ∧
      NextReach s4.heap body t ∧ s4.heap[t]? = some nt ∧ nt.next = none ∧
      s2.heap[t]? = some { nt with next := some s4.heap.length } ∧
      (∀ i, s.heap.length + 1 ≤ i → i < s4.heap.length → i ≠ t →
        s2.heap[i]? = s4.heap[i]?) := by
  obtain ⟨tok, s1, cond, l, r, sc, body, s4, t, h1, h2, h4, hw, rfl, rfl⟩ :=
    buildWhileLoop_inv h
  have b4 := getBodyCode_built h4
  have e3 := cond_prefix_heap h1 h2
  have e3l : (setCond s.heap.length cond l r sc).heap.length = s.heap.length + 1 := by
    rw [e3]
    simp
  rw [e3] at b4
  obtain ⟨⟨bl, bo, bc⟩, blo, bhi⟩ := b4
  simp only [List.length_append, List.length_singleton] at bl bo bc blo
  have hc4 : s4.heap[s.heap.length]? = some (cjmpNode cond l r none none) := by
    rw [bo _ (by omega)]
    exact List.getElem?_concat_length _ _
  have hag : ∀ i, s.heap.length + 1 ≤ i → i < s4.heap.length →
      (newNode (jmpNode none (some s.heap.length))
        (setNext s.heap.length (some body) s4)).2.heap[i]? = s4.heap[i]? := by
    intro i hlo hhi
    rw [get_newNode_lt _ _ (by rw [length_setNext]; exact hhi),
      get_setNext_ne _ _ (by omega)]
  obtain ⟨htr, hr4, nt, hnt, hntx, -, -, -⟩ :=
    attach_tail s4.heap.length bc hag ⟨blo, bhi⟩ hw
  have hJ6 : (newNode (jmpNode none (some s.heap.length))
      (setNext s.heap.length (some body) s4)).2.heap[s4.heap.length]? =
      some (jmpNode none (some s.heap.length)) := by
    have := get_newNode_eq (jmpNode none (some s.heap.length))
      (setNext s.heap.length (some body) s4)
    rw [length_setNext] at this
    exact this
  have l6 : (setNext t (some s4.heap.length)
      (newNode (jmpNode none (some s.heap.length))
        (setNext s.heap.length (some body) s4)).2).heap.length =
      s4.heap.length + 1 := by
    rw [length_setNext, length_newNode, length_setNext]
  refine ⟨tok, s1, cond, l, r, sc, body, s4, t, nt, h1, h2, h4, e3l, rfl, ?_, ?_, ?_,
    ?_, hr4, hnt, hntx, ?_, ?_⟩
  · rw [length_setNext, length_setTarget, length_makeNoop, l6]
  · rw [get_setNext_ne _ _ (by omega),
      get_setTarget_eq (n := cjmpNode cond l r (some body) none) _ ?_]
    rw [get_makeNoop_lt _ (by rw [l6]; omega), get_setNext_ne _ _ (by omega),
      get_newNode_lt _ _ (by rw [length_setNext]; omega), get_setNext_eq _ hc4]
  · rw [get_setNext_eq (n := jmpNode none (some s.heap.length)) _ ?_]
    rw [get_setTarget_ne _ _ (by omega), get_makeNoop_lt _ (by rw [l6]; omega),
      get_setNext_ne _ _ (by omega)]
    exact hJ6
  · rw [get_setNext_ne _ _ (by omega), get_setTarget_ne _ _ (by omega)]
    have := get_makeNoop_eq (setNext t (some s4.heap.length)
      (newNode (jmpNode none (some s.heap.length))
        (setNext s.heap.length (some body) s4)).2)
    rw [l6] at this
    exact this
  · rw [get_setNext_ne _ _ (by omega), get_setTarget_ne _ _ (by omega),
      get_makeNoop_lt _ (by rw [l6]; omega),
      get_setNext_eq (n := nt) _ ?_]
    rw [hag t htr.1 htr.2]
    exact hnt
  · intro i hlo hhi hne
    rw [get_setNext_ne _ _ (by omega), get_setTarget_ne _ _ (by omega),
      get_makeNoop_lt _ (by rw [l6]; omega), get_setNext_ne _ _ (Ne.symm hne)]
    exact hag i hlo hhi

theorem buildWhileLoop_sub_step (fuel : Nat) (ih : BuildsSub (getBodyCode fuel)) :
    BuildsSub (buildWhileLoop (fuel + 1)) := by
  intro s e s2 h
  obtain ⟨tok, s1, cond, l, r, sc, body, s4, t, nt, h1, h2, h4, e3l, rfl, hlen, hC, hJ,
    hN, hr4, hnt, hntx, ht, hother⟩ := buildWhileLoop_nodes h
  have b4 := getBodyCode_built h4
  obtain ⟨tb, a4⟩ := ih _ _ _ h4
  rw [e3l] at a4
  obtain ⟨⟨bl, bo, bc⟩, blo, bhi⟩ := b4
  rw [e3l] at bl bo bc blo
  obtain ⟨ntb, hntb, hntbx⟩ := a4.tail
  have htt : t = tb := hr4.tail_unique a4.chain hnt hntx hntb hntbx
  subst htt
  have hL : Linked s2.heap (s.heap.length + 1) s4.heap.length body t s4.heap.length :=
    a4.linked bc hnt ht hother
  obtain ⟨ntl, hntl, hntlx⟩ := hL.link
  have hbJ := hL.chain.snoc hntl hntlx
  have hbN := hbJ.snoc hJ rfl
  have hEb : Reach s2.heap s.heap.length body := Reach.next hC rfl (Reach.refl _)
  rw [hlen]
  refine ⟨s4.heap.length + 1, Sub.of_parts ⟨le_refl _, by omega⟩ ⟨by omega, by omega⟩
    (NextReach.step hC rfl hbN) ⟨_, hN, rfl⟩ ?_⟩
  intro i i1 i2
  by_cases hi1 : i = s.heap.length
  · subst hi1
    exact Part.node hC (Reach.refl _) (fun _ => by simp) (fun hx => by simp at hx)
  · by_cases hi2 : i = s4.heap.length
    · subst hi2
      exact Part.node hJ (hEb.concat hbJ.toReach) (fun _ => by simp)
        (fun hx => by simp at hx)
    · by_cases hi3 : i = s4.heap.length + 1
      · subst hi3
        exact Part.node hN (hEb.concat hbN.toReach) (fun hj => by simp at hj)
          (fun _ => Or.inl rfl)
      · exact hL.part (by omega) (by omega) hEb (by omega) (by omega)

/-- The nodes `createForLoop` leaves behind, relative to the heap `s9.heap` the
body parse left: the initialisation `E = s.heap.length`, the update `E + 1`, the
test `C = E + 2`, the exit `N = s9.heap.length`, the back jump `J = N + 1`, the tail
`t` of the body linked to the update, and every other node of the body untouched. -/
theorem createForLoop_nodes {fuel : Nat} {s s2 : ParserState} {e : Nat}
    (h : createForLoop (fuel + 1) s = .ok (e, s2)) :
    ∃ (cond : ConditionalOperatorType) (l r : Nat) (s7 : ParserState) (body : Nat)
      (s9 : ParserState) (ni nu : InstructionNode) (t : Nat) (nt : InstructionNode),
      getBodyCode fuel (newNode (cjmpNode cond l r none none) s7).2 = .ok (body, s9) ∧
      s7.heap.length = s.heap.length + 2 ∧
      e = s.heap.length ∧
      s2.heap.length = s9.heap.length + 2 ∧
      ni.type = InstructionType.ASSIGN ∧ nu.type = InstructionType.ASSIGN ∧
      s2.heap[s.heap.length]? = some { ni with next := some (s.heap.length + 2) } ∧
      s2.heap[s.heap.length + 1]? =
        some { nu with next := some (s9.heap.length + 1) } ∧
      s2.heap[s.heap.length + 2]? =
        some (cjmpNode cond l r (some body) (some s9.heap.length)) ∧
      s2.heap[s9.heap.length]? = some noopNode ∧
      s2.heap[s9.heap.length + 1]? =
        some (jmpNode (some s9.heap.length) (some (s.heap.length + 2))) ∧
      NextReach s9.heap body t ∧ s9.heap[t]? = some nt ∧ nt.next = none ∧
      s2.heap[t]? = some { nt with next := some (s.heap.length + 1) } ∧
      (∀ i, s.heap.length + 3 ≤ i → i < s9.heap.length → i ≠ t →
        s2.heap[i]? = s9.heap[i]?) := by
  obtain ⟨t1, s1, t2, sa, init, s3, cond, l, r, s4, t5, s5, U, s6, t7, s7, body, s9,
    t, h1, h2, h3, h4, h5, h6, h7, h9, hw, he, rfl⟩ := createForLoop_inv h
  subst he
  have ea : sa.heap = s.heap := by rw [verifyToken_heap h2, verifyToken_heap h1]
  obtain ⟨hi, ni, e3, nity, -, -⟩ := createAssignNode_heap h3
  have e5 : s5.heap = s3.heap := by rw [verifyToken_heap h5, checkCondition_heap h4]
  obtain ⟨hu, nu, e6, nuty, nux, -⟩ := createAssignNode_heap h6
  have e7 : s7.heap = s6.heap := verifyToken_heap h7
  have b9 := getBodyCode_built h9
  rw [ea] at hi e3
  rw [e5, e3] at hu e6
  rw [e6] at e7
  have l7 : s7.heap.length = s.heap.length + 2 := by simp [e7]
  have hul : U = s.heap.length + 1 := by simp [hu]
  obtain ⟨⟨bl, bo, bc⟩, blo, bhi⟩ := b9
  rw [length_newNode] at bl bo bc blo
  have gI9 : s9.heap[e]? = some ni := by
    rw [bo _ (by omega), get_newNode_lt _ _ (by omega), e7, hi,
      List.getElem?_append_left (by simp)]
    exact List.getElem?_concat_length _ _
  have gU9 : s9.heap[U]? = some nu := by
    rw [bo _ (by omega), get_newNode_lt _ _ (by omega), e7, hu]
    exact List.getElem?_concat_length _ _
  have gC9 : s9.heap[s7.heap.length]? = some (cjmpNode cond l r none none) := by
    rw [bo _ (by omega)]
    exact get_newNode_eq _ _
  have hag : ∀ i, s7.heap.length + 1 ≤ i → i < s9.heap.length →
      (setNext s7.heap.length (some body)
        (setNext e (some s7.heap.length) (makeNoop s9).2)).heap[i]? =
      s9.heap[i]? := by
    intro i hlo hhi
    rw [get_setNext_ne _ _ (by omega), get_setNext_ne _ _ (by omega),
      get_makeNoop_lt _ hhi]
  obtain ⟨htr, hr9, nt, hnt, hntx, -, -, -⟩ :=
    attach_tail s9.heap.length bc hag ⟨blo, bhi⟩ hw
  have l12 : (setNext s7.heap.length (some body)
      (setNext e (some s7.heap.length) (makeNoop s9).2)).heap.length =
      s9.heap.length + 1 := by
    rw [length_setNext, length_setNext, length_makeNoop]
  have l13 : (setNext t (some U) (setNext s7.heap.length (some body)
      (setNext e (some s7.heap.length) (makeNoop s9).2))).heap.length =
      s9.heap.length + 1 := by
    rw [length_setNext, l12]
  refine ⟨cond, l, r, s7, body, s9, ni, nu, t, nt, h9, l7, hi, ?_, nity, nuty, ?_, ?_,
    ?_, ?_, ?_, hr9, hnt, hntx, ?_, ?_⟩
  · rw [length_setTarget, length_setNext, length_newNode, l13]
  · rw [← l7, ← hi]
    rw [get_setTarget_ne _ _ (by omega), get_setNext_ne _ _ (by omega),
      get_newNode_lt _ _ (by rw [l13]; omega), get_setNext_ne _ _ (by omega),
      get_setNext_ne _ _ (by omega), get_setNext_eq (n := ni) _ ?_]
    rw [get_makeNoop_lt _ (by omega)]
    exact gI9
  · rw [← hul]
    rw [get_setTarget_ne _ _ (by omega), get_setNext_eq (n := nu) _ ?_]
    rw [get_newNode_lt _ _ (by rw [l13]; omega), get_setNext_ne _ _ (by omega),
      get_setNext_ne _ _ (by omega), get_setNext_ne _ _ (by omega),
      get_makeNoop_lt _ (by omega)]
    exact gU9
  · rw [← l7]
    rw [get_setTarget_eq (n := cjmpNode cond l r (some body) none) _ ?_]
    rw [get_setNext_ne _ _ (by omega),
      get_newNode_lt _ _ (by rw [l13]; omega), get_setNext_ne _ _ (by omega),
      get_setNext_eq (n := cjmpNode cond l r none none) _ ?_]
    rw [get_setNext_ne _ _ (by omega), get_makeNoop_lt _ (by omega)]
    exact gC9
  · rw [get_setTarget_ne _ _ (by omega), get_setNext_ne _ _ (by omega),
      get_newNode_lt _ _ (by rw [l13]; omega), get_setNext_ne _ _ (by omega),
      get_setNext_ne _ _ (by omega), get_setNext_ne _ _ (by omega)]
    exact get_makeNoop_eq s9
  · rw [← l7]
    rw [get_setTarget_ne _ _ (by omega), get_setNext_ne _ _ (by omega)]
    have := get_newNode_eq (jmpNode (some s9.heap.length) (some s7.heap.length))
      (setNext t (some U) (setNext s7.heap.length (some body)
        (setNext e (some s7.heap.length) (makeNoop s9).2)))
    rw [l13] at this
    exact this
  · rw [← hul]
    rw [get_setTarget_ne _ _ (by omega), get_setNext_ne _ _ (by omega),
      get_newNode_lt _ _ (by rw [l13]; omega), get_setNext_eq (n := nt) _ ?_]
    rw [hag t htr.1 htr.2]
    exact hnt
  · intro i hlo hhi hne
    rw [get_setTarget_ne _ _ (by omega), get_setNext_ne _ _ (by omega),
      get_newNode_lt _ _ (by rw [l13]; omega), get_setNext_ne _ _ (Ne.symm hne)]
    exact hag i (by omega) hhi

theorem createForLoop_sub_step (fuel : Nat) (ih : BuildsSub (getBodyCode fuel)) :
    BuildsSub (createForLoop (fuel + 1)) := by
  intro s e s2 h
  obtain ⟨cond, l, r, s7, body, s9, ni, nu, t, nt, h9, l7, rfl, hlen, nity, nuty, fE, fU,
    fC, fN, fJ, hr9, hnt, hntx, ft, hother⟩ := createForLoop_nodes h
  have b9 := getBodyCode_built h9
  obtain ⟨tb, a9⟩ := ih _ _ _ h9
  rw [length_newNode, l7] at a9
  obtain ⟨⟨bl, bo, bc⟩, blo, bhi⟩ := b9
  rw [length_newNode, l7] at bl bo bc blo
  obtain ⟨ntb, hntb, hntbx⟩ := a9.tail
  have htt : t = tb := hr9.tail_unique a9.chain hnt hntx hntb hntbx
  subst htt
  have hL : Linked s2.heap (s.heap.length + 2 + 1) s9.heap.length body t
      (s.heap.length + 1) := a9.linked bc hnt ft (fun i i1 i2 hne => hother i i1 i2 hne)
  obtain ⟨ntl, hntl, hntlx⟩ := hL.link
  have hbU := hL.chain.snoc hntl hntlx
  have hbJ := hbU.snoc fU rfl
  have hbN := hbJ.snoc fJ rfl
  have hCb : NextReach s2.heap (s.heap.length + 2) body :=
    NextReach.step fC rfl (NextReach.refl _)
  have hEC : NextReach s2.heap s.heap.length (s.heap.length + 2) :=
    NextReach.step fE rfl (NextReach.refl _)
  have hEb := hEC.append hCb
  rw [hlen]
  refine ⟨s9.heap.length, Sub.of_parts ⟨le_refl _, by omega⟩ ⟨by omega, by omega⟩
    (hEb.append hbN) ⟨_, fN, rfl⟩ ?_⟩
  intro i i1 i2
  by_cases hi1 : i = s.heap.length
  · subst hi1
    exact Part.node fE (Reach.refl _) (fun hj => by simp [nity] at hj)
      (fun hx => by simp at hx)
  · by_cases hi2 : i = s.heap.length + 1
    · subst hi2
      exact Part.node fU (hEb.append hbU).toReach (fun hj => by simp [nuty] at hj)
        (fun hx => by simp at hx)
    · by_cases hi3 : i = s.heap.length + 2
      · subst hi3
        exact Part.node fC hEC.toReach (fun _ => by simp) (fun hx => by simp at hx)
      · by_cases hi4 : i = s9.heap.length
        · subst hi4
          exact Part.node fN (hEb.append hbN).toReach (fun hj => by simp at hj)
            (fun _ => Or.inl rfl)
        · by_cases hi5 : i = s9.heap.length + 1
          · subst hi5
            exact Part.node fJ (hEb.append hbJ).toReach (fun _ => by simp)
              (fun hx => by simp at hx)
          · exact hL.part (by omega) (by omega) hEb.toReach (by omega) (by omega)

theorem parseCases_sub_step (fuel : Nat) (ihb : BuildsSub (getBodyCode fuel))
    (ihc : CasesSub fuel) : CasesSub (fuel + 1) := by
  intro cv cb s cv2 cb2 s2 h
  rw [parseCases] at h
  split at h
  · rename_i hpk
    split at h
    · cases h
    · rename_i t1 s1 h1
      split at h
      · cases h
      · rename_i num sn h2
        split at h
        · cases h
        · rename_i val hv
          simp only at h
          split at h
          · cases h
          · rename_i t4 s4 h4
            split at h
            · cases h
            · rename_i body s5 h5
              obtain ⟨cl, hrun, hcv, hcb, hsub, htile⟩ := ihc _ _ _ _ _ _ h
              have e4 : s4.heap = s.heap := by
                rw [verifyToken_heap h4, storeConstant_heap, verifyToken_heap h2,
                  verifyToken_heap h1]
              have b5 := getBodyCode_built h5
              obtain ⟨t5, a5⟩ := ihb _ _ _ h5
              have x56 : Ext s5.heap s2.heap := hrun.facts.1
              refine ⟨_ :: cl, CaseRun.clause hpk h1 h2 hv h4 h5 hrun, ?_, ?_, ?_, ?_⟩
              · rw [hcv]
                simp
              · rw [hcb]
                simp
              · intro i c hc
                cases i with
                | zero =>
                  simp only [List.getElem?_cons_zero, Option.some.injEq] at hc
                  subst hc
                  exact ⟨t5, a5.agree b5.1.2.2 (fun p _ hp => x56.2.1 p hp)⟩
                | succ i =>
                  simp only [List.getElem?_cons_succ] at hc
                  exact hsub i c hc
              · intro p hp1 hp2
                by_cases hp : p < s5.heap.length
                · refine ⟨0, _, List.getElem?_cons_zero, ?_, hp⟩
                  simp only [e4]
                  exact hp1
                · obtain ⟨i, c, hc, c1, c2⟩ := htile p (by omega) hp2
                  exact ⟨i + 1, c, by simpa using hc, c1, c2⟩
  · rename_i hpk
    simp only [Except.ok.injEq, Prod.mk.injEq] at h
    obtain ⟨⟨rfl, rfl⟩, rfl⟩ := h
    refine ⟨[], CaseRun.done hpk, by simp, by simp, ?_, ?_⟩
    · intro i c hc
      simp at hc
    · intro p hp1 hp2
      omega

theorem parseDefault_sub_step (fuel : Nat) (ihb : BuildsSub (getBodyCode fuel)) :
    DefaultSub (fuel + 1) := by
  intro s d s2 h
  rw [parseDefault] at h
  split at h
  · split at h
    · cases h
    · rename_i t1 s1 h1
      split at h
      · cases h
      · rename_i t2 sb h2
        split at h
        · cases h
        · rename_i body s3 h3
          obtain ⟨t, a3⟩ := ihb _ _ _ h3
          have e2 : sb.heap = s.heap := by
            rw [verifyToken_heap h2, verifyToken_heap h1]
          rw [e2] at a3
          simp only [Except.ok.injEq, Prod.mk.injEq] at h
          obtain ⟨rfl, rfl⟩ := h
          exact Or.inr ⟨body, t, rfl, a3⟩
  · simp only [Except.ok.injEq, Prod.mk.injEq] at h
    obtain ⟨rfl, rfl⟩ := h
    exact Or.inl ⟨rfl, rfl⟩

/-- The nodes of a lowered switch.  After the clauses `cl` (run from `s4` to `s5`),
the optional default body `d` (parsed from `s5` to `s6`) and the closing brace,
with `X = s7.heap.length` the exit node and `k` the number of clauses, the tail
link of the default body and the loop over the clauses leave a heap of `X + 1 + 2k`
nodes in which: `X` is a no-op; clause `i` has its test at `X + 2 (k - i)` and the
jump appended to its body at `X + 2 (k - i) - 1`, its body untouched except for the
tail, which is linked to that jump; the default body is untouched except for its
tail, which is linked to `X`. -/
theorem switch_nodes {f : Nat} {s4 s5 s6 s7 s9 s2 : ParserState}
    {cl : List CaseClause} {d : Option Nat} {t7 : Token} {sv e : Nat}
    (hrun : CaseRun s4 cl s5) (h6 : parseDefault f s5 = .ok (d, s6))
    (h7 : verifyToken TokenType.RBRACE s6 = .ok (t7, s7))
    (h9 : linkNodes d s7.heap.length (makeNoop s7).2 = .ok s9)
    (hch : switchChain sv s7.heap.length (cl.map CaseClause.loc)
      (cl.map CaseClause.body) cl.length (d.getD s7.heap.length) s9 = .ok (e, s2)) :
    s2.heap.length = s7.heap.length + 1 + 2 * cl.length ∧
    s5.heap.length ≤ s6.heap.length ∧ s7.heap.length = s6.heap.length ∧
    s2.heap[s7.heap.length]? = some noopNode ∧
    (∀ (i : Nat) (c : CaseClause), cl[i]? = some c →
      s2.heap[s7.heap.length + 2 * (cl.length - i)]? =
        some (cjmpNode ConditionalOperatorType.CONDITION_NOTEQUAL sv c.loc
          (some (if i + 1 < cl.length then s7.heap.length + 2 * (cl.length - i) - 2
            else d.getD s7.heap.length))
          (some c.body)) ∧
      s2.heap[s7.heap.length + 2 * (cl.length - i) - 1]? =
        some (jmpNode none (some s7.heap.length)) ∧
      (c.lo ≤ c.body ∧ c.body < c.hi ∧ c.hi ≤ s5.heap.length) ∧
      RegionClosed c.lo c.hi s5.heap ∧
      ∃ tl nt, (c.lo ≤ tl ∧ tl < c.hi) ∧ NextReach s5.heap c.body tl ∧
        s5.heap[tl]? = some nt ∧ nt.next = none ∧
        s2.heap[tl]? =
          some { nt with next := some (s7.heap.length + 2 * (cl.length - i) - 1) } ∧
        (∀ p, c.lo ≤ p → p < c.hi → p ≠ tl → s2.heap[p]? = s5.heap[p]?)) ∧
    (∀ b, d = some b →
      (s5.heap.length ≤ b ∧ b < s6.heap.length) ∧
      RegionClosed s5.heap.length s6.heap.length s6.heap ∧
      ∃ tl nt, (s5.heap.length ≤ tl ∧ tl < s6.heap.length) ∧
        NextReach s6.heap b tl ∧ s6.heap[tl]? = some nt ∧ nt.next = none ∧
        s2.heap[tl]? = some { nt with next := some s7.heap.length } ∧
        (∀ p, s5.heap.length ≤ p → p < s6.heap.length → p ≠ tl →
          s2.heap[p]? = s6.heap[p]?)) ∧
    e = (if cl.length = 0 then d.getD s7.heap.length
      else s7.heap.length + 2 * cl.length) := by
  obtain ⟨x5, f5, hcl, hord⟩ := hrun.facts
  obtain ⟨a6, hd⟩ := (builds_all f).2.2.2.2.2.2.2.1 _ _ _ h6
  have e7 : s7.heap = s6.heap := verifyToken_heap h7
  have l56 : s5.heap.length ≤ s7.heap.length := by
    rw [e7]
    exact a6.1
  have l9 : s9.heap.length = s7.heap.length + 1 := by
    rw [length_linkNodes h9, length_makeNoop]
  have hdef : ∀ b, d = some b →
      ∃ tl nt, (s5.heap.length ≤ tl ∧ tl < s6.heap.length) ∧
        NextReach s6.heap b tl ∧ s6.heap[tl]? = some nt ∧ nt.next = none ∧
        s9 = setNext tl (some s7.heap.length) (makeNoop s7).2 := by
    intro b hb
    subst hb
    obtain ⟨tl, hw, hs9⟩ := linkNodes_some h9
    have hagd : ∀ p, s5.heap.length ≤ p → p < s6.heap.length →
        (makeNoop s7).2.heap[p]? = s6.heap[p]? := by
      intro p _ hp
      rw [get_makeNoop_lt _ (by rw [e7]; exact hp), e7]
    obtain ⟨htr, hr6, nt, hnt, hntx, -, -, -⟩ :=
      attach_tail s7.heap.length a6.2.2 hagd (hd b rfl) hw
    exact ⟨tl, nt, htr, hr6, hnt, hntx, hs9⟩
  have g9 : ∀ p, p < s5.heap.length → s9.heap[p]? = s5.heap[p]? := by
    intro p hp
    cases hdd : d with
    | none =>
      rw [hdd] at h9
      simp only [linkNodes, Except.ok.injEq] at h9
      rw [← h9, get_makeNoop_lt _ (by omega), e7]
      exact a6.2.1 p hp
    | some b =>
      obtain ⟨tl, nt, htr, -, -, -, hs9⟩ := hdef b hdd
      rw [hs9, get_setNext_ne _ _ (by omega), get_makeNoop_lt _ (by omega), e7]
      exact a6.2.1 p hp
  have g9X : s9.heap[s7.heap.length]? = some noopNode := by
    cases hdd : d with
    | none =>
      rw [hdd] at h9
      simp only [linkNodes, Except.ok.injEq] at h9
      rw [← h9]
      exact get_makeNoop_eq s7
    | some b =>
      obtain ⟨tl, nt, htr, -, -, -, hs9⟩ := hdef b hdd
      rw [hs9, get_setNext_ne _ _ (by rw [e7]; omega)]
      exact get_makeNoop_eq s7
  have hreg9 : ∀ (j : Nat) (c : CaseClause), j < cl.length → cl[j]? = some c →
      c.lo ≤ c.body ∧ c.body < c.hi ∧ c.hi ≤ s9.heap.length ∧
      RegionClosed c.lo c.hi s9.heap := by
    intro j c _ hc
    obtain ⟨-, c2, c3, c4, c5, -, -⟩ := hcl j c hc
    refine ⟨c2, c3, by omega, c5.of_agree ?_⟩
    intro p _ hp
    exact g9 p (by omega)
  obtain ⟨r1, r2, r3, r4⟩ := switchChain_shape sv s7.heap.length cl hord cl.length
    _ s9 e s2 (le_refl _) hreg9 hch
  rw [l9] at r1 r2 r3 r4
  have hout : ∀ p, s5.heap.length ≤ p →
      ∀ (j : Nat) (c : CaseClause), j < cl.length → cl[j]? = some c →
        ¬ (c.lo ≤ p ∧ p < c.hi) := by
    intro p hp j c _ hc hin
    have := (hcl j c hc).2.2.2.1
    omega
  refine ⟨r1, a6.1, by rw [e7], ?_, ?_, ?_, ?_⟩
  · rw [r3 _ (by omega) (hout _ l56)]
    exact g9X
  · intro i c hc
    have hi : i < cl.length := (List.getElem?_eq_some.1 hc).1
    obtain ⟨q1, q2, tl, nt, q3, q4, q5, q6, q7, q8, q9, q10⟩ := r4 i c hi hc
    obtain ⟨c1, c2, c3, c4, c5, c6, c7⟩ := hcl i c hc
    have e1 : s7.heap.length + 1 + 2 * (cl.length - i) - 1 =
        s7.heap.length + 2 * (cl.length - i) := by omega
    have e2 : s7.heap.length + 1 + 2 * (cl.length - i) - 2 =
        s7.heap.length + 2 * (cl.length - i) - 1 := by omega
    have e3 : s7.heap.length + 1 + 2 * (cl.length - i) - 3 =
        s7.heap.length + 2 * (cl.length - i) - 2 := by omega
    rw [e1, e3] at q1
    rw [e2] at q2 q8 q10
    have hag5 : ∀ p, c.lo ≤ p → p < c.hi → s5.heap[p]? = s9.heap[p]? :=
      fun p _ hp => (g9 p (by omega)).symm
    refine ⟨q1, q2, ⟨c2, c3, c4⟩, c5, tl, nt, ⟨q3, q4⟩,
      q5.congr_region (hreg9 i c hi hc).2.2.2 hag5 ⟨c2, c3⟩, ?_, q7, q8, ?_⟩
    · rw [hag5 tl q3 q4]
      exact q6
    · intro p hp1 hp2 hne
      rw [q9 p hp1 hp2 hne]
      exact (hag5 p hp1 hp2).symm
  · intro b hb
    obtain ⟨tl, nt, htr, hr6, hnt, hntx, hs9⟩ := hdef b hb
    have hft : s2.heap[tl]? = some { nt with next := some s7.heap.length } := by
      rw [r3 tl (by rw [e7]; omega) (hout tl htr.1), hs9,
        get_setNext_eq (n := nt) _ ?_]
      rw [get_makeNoop_lt _ (by rw [e7]; omega), e7]
      exact hnt
    have hfr : ∀ p, s5.heap.length ≤ p → p < s6.heap.length → p ≠ tl →
        s2.heap[p]? = s6.heap[p]? := by
      intro p hp1 hp2 hne
      rw [r3 p (by rw [e7]; omega) (hout p hp1), hs9,
        get_setNext_ne _ _ (Ne.symm hne),
        get_makeNoop_lt _ (by rw [e7]; omega), e7]
    exact ⟨hd b hb, a6.2.2, tl, nt, htr, hr6, hnt, hntx, hft, hfr⟩
  · rw [r2]
    by_cases hk : cl.length = 0
    · simp [hk]
    · simp only [hk, if_false]
      omega

theorem processSwitch_sub_step (fuel : Nat) (ihc : CasesSub fuel)
    (ihd : DefaultSub fuel) : BuildsSub (processSwitch (fuel + 1)) := by
  intro s e s2 h
  obtain ⟨t1, s1, t, sb, sv, s3, t4, s4, cv, cb, s5, d, s6, t7, s7, h1, h2, h3, h4, h5,
    h6, h7, hrest⟩ := processSwitch_inv h
  have e4 : s4.heap = s.heap := by
    rw [verifyToken_heap h4, (findVarLocation_state h3).1, verifyToken_heap h2,
      verifyToken_heap h1]
  obtain ⟨cl, hrun, hcv, hcb, hsub, htile⟩ := ihc _ _ _ _ _ _ h5
  simp only [List.nil_append] at hcv hcb
  subst hcv hcb
  rw [e4] at htile
  have hdsub := ihd _ _ _ h6
  have hlo5 : s.heap.length ≤ s5.heap.length := by
    rw [← e4]
    exact hrun.facts.1.1
  -- the tail link of the default body and the loop over the clauses
  have hrun2 : ∃ s9, linkNodes d s7.heap.length (makeNoop s7).2 = .ok s9 ∧
      switchChain sv s7.heap.length (cl.map CaseClause.loc) (cl.map CaseClause.body)
        cl.length (d.getD s7.heap.length) s9 = .ok (e, s2) := by
    rcases hrest with ⟨hcb0, hd0, rfl, rfl⟩ | ⟨-, s9, h9, hch⟩
    · have hcl0 : cl = [] := by simpa using hcb0
      subst hcl0 hd0
      exact ⟨_, rfl, rfl⟩
    · simp only [List.length_map] at hch
      exact ⟨s9, h9, hch⟩
  obtain ⟨s9, h9, hch⟩ := hrun2
  obtain ⟨hlen, l56, l76, hX, hcases, hdefault, he⟩ := switch_nodes hrun h6 h7 h9 hch
  -- every case body is linked to the jump appended to it
  have hLc : ∀ (i : Nat) (c : CaseClause), cl[i]? = some c →
      ∃ tl, Linked s2.heap c.lo c.hi c.body tl
        (s7.heap.length + 2 * (cl.length - i) - 1) := by
    intro i c hc
    obtain ⟨-, -, -, hreg, tl, nt, -, hr5, hnt, hntx, hft, hoth⟩ := hcases i c hc
    obtain ⟨tb, ab⟩ := hsub i c hc
    obtain ⟨ntb, hntb, hntbx⟩ := ab.tail
    have htt : tl = tb := hr5.tail_unique ab.chain hnt hntx hntb hntbx
    subst htt
    exact ⟨tl, ab.linked hreg hnt hft hoth⟩
  -- the default body is linked to the exit
  have hLd : ∀ b, d = some b →
      ∃ tl, Linked s2.heap s5.heap.length s6.heap.length b tl s7.heap.length := by
    intro b hb
    obtain ⟨-, hreg, tl, nt, -, hr6, hnt, hntx, hft, hoth⟩ := hdefault b hb
    rcases hdsub with ⟨hd0, -⟩ | ⟨b2, tb, hb2, ab⟩
    · rw [hd0] at hb
      cases hb
    · rw [hb] at hb2
      cases hb2
      obtain ⟨ntb, hntb, hntbx⟩ := ab.tail
      have htt : tl = tb := hr6.tail_unique ab.chain hnt hntx hntb hntbx
      subst htt
      exact ⟨tl, ab.linked hreg hnt hft hoth⟩
  have hd56 : d = none → s6.heap.length = s5.heap.length := by
    intro hd0
    rcases hdsub with ⟨-, hs⟩ | ⟨b2, tb, hb2, -⟩
    · rw [hs]
    · rw [hd0] at hb2
      cases hb2
  -- from the chain node after the last test to the exit
  have hDX : NextReach s2.heap (d.getD s7.heap.length) s7.heap.length := by
    cases hdd : d with
    | none => exact NextReach.refl _
    | some b =>
      obtain ⟨tl, L⟩ := hLd b hdd
      obtain ⟨ntl, hntl, hntlx⟩ := L.link
      exact L.chain.snoc hntl hntlx
  -- from the first test to every test
  have hTT : ∀ i, i < cl.length →
      NextReach s2.heap (s7.heap.length + 2 * cl.length)
        (s7.heap.length + 2 * (cl.length - i)) := by
    intro i
    induction i with
    | zero =>
      intro _
      exact NextReach.refl _
    | succ i ih =>
      intro hi
      have hi2 : i < cl.length := by omega
      obtain ⟨hT, -⟩ := hcases i cl[i] (List.getElem?_eq_getElem hi2)
      refine (ih hi2).snoc hT ?_
      simp only [hi, if_true]
      congr 1
      omega
  -- from the entry to the chain node after the last test
  have heD : NextReach s2.heap e (d.getD s7.heap.length) := by
    rw [he]
    by_cases hk : cl.length = 0
    · simp only [hk, if_true]
      exact NextReach.refl _
    · simp only [hk, if_false]
      have hlast : cl.length - 1 < cl.length := by omega
      obtain ⟨hT, -⟩ := hcases (cl.length - 1) cl[cl.length - 1]
        (List.getElem?_eq_getElem hlast)
      refine (hTT (cl.length - 1) hlast).snoc hT ?_
      have : ¬ (cl.length - 1 + 1 < cl.length) := by omega
      simp only [this, if_false]
  have heT : ∀ i, i < cl.length →
      NextReach s2.heap e (s7.heap.length + 2 * (cl.length - i)) := by
    intro i hi
    rw [he]
    have hk : cl.length ≠ 0 := by omega
    simp only [hk, if_false]
    exact hTT i hi
  have hein : s.heap.length ≤ e ∧ e < s7.heap.length + 1 + 2 * cl.length := by
    rw [he]
    by_cases hk : cl.length = 0
    · simp only [hk, if_true]
      cases hdd : d with
      | none =>
        simp only [Option.getD_none]
        omega
      | some b =>
        obtain ⟨hb, -⟩ := hdefault b hdd
        simp only [Option.getD_some]
        omega
    · simp only [hk, if_false]
      omega
  rw [hlen]
  refine ⟨s7.heap.length, Sub.of_parts hein ⟨by omega, by omega⟩ (heD.append hDX)
    ⟨_, hX, rfl⟩ ?_⟩
  intro p p1 p2
  by_cases hp5 : p < s5.heap.length
  · -- a node of a case body
    obtain ⟨i, c, hc, c1, c2⟩ := htile p p1 hp5
    have hi : i < cl.length := (List.getElem?_eq_some.1 hc).1
    obtain ⟨hT, -, ⟨b1, b2, b3⟩, -⟩ := hcases i c hc
    obtain ⟨tl, L⟩ := hLc i c hc
    have hcl1 : s.heap.length ≤ c.lo := by
      have := (hrun.facts.2.2.1 i c hc).1
      rw [e4] at this
      exact this
    exact L.part hcl1 (by omega)
      ((heT i hi).toReach.concat (Reach.target hT rfl (Reach.refl _))) c1 c2
  · by_cases hp6 : p < s7.heap.length
    · -- a node of the default body
      cases hdd : d with
      | none =>
        have := hd56 hdd
        omega
      | some b =>
        obtain ⟨tl, L⟩ := hLd b hdd
        have hr : Reach s2.heap e b := by
          have := heD.toReach
          rw [hdd] at this
          exact this
        exact L.part hlo5 (by omega) hr (by omega) (by omega)
    · by_cases hpX : p = s7.heap.length
      · subst hpX
        exact Part.node hX (heD.append hDX).toReach (fun hj => by simp at hj)
          (fun _ => Or.inl rfl)
      · by_cases hev : (p - s7.heap.length) % 2 = 0
        · -- the test of a clause
          have hi : cl.length - (p - s7.heap.length) / 2 < cl.length := by omega
          obtain ⟨hT, -⟩ := hcases _ _ (List.getElem?_eq_getElem hi)
          have hidx : s7.heap.length +
              2 * (cl.length - (cl.length - (p - s7.heap.length) / 2)) = p := by omega
          rw [hidx] at hT
          have hr := (heT _ hi).toReach
          rw [hidx] at hr
          exact Part.node hT hr (fun _ => by simp) (fun hx => by simp at hx)
        · -- the jump appended to the body of a clause
          have hi : cl.length - (p - s7.heap.length + 1) / 2 < cl.length := by omega
          have hc := List.getElem?_eq_getElem hi
          obtain ⟨hT, hJ, ⟨b1, b2, b3⟩, -⟩ := hcases _ _ hc
          obtain ⟨tl, L⟩ := hLc _ _ hc
          obtain ⟨ntl, hntl, hntlx⟩ := L.link
          have hbJ := L.chain.snoc hntl hntlx
          have hidx : s7.heap.length +
              2 * (cl.length - (cl.length - (p - s7.heap.length + 1) / 2)) - 1 = p := by
            omega
          rw [hidx] at hJ hbJ
          have hr := ((heT _ hi).toReach.concat
            (Reach.target hT rfl (Reach.refl _))).concat hbJ.toReach
          refine Part.node hJ hr (fun _ => by simp) (fun _ => Or.inr ?_)
          exact ⟨_, _, _, _, by omega, by omega, hT, rfl, rfl, rfl, hbJ, hJ, rfl⟩

theorem handleStmt_sub_step (fuel : Nat) (ihw : BuildsSub (buildWhileLoop fuel))
    (ihi : BuildsSub (handleIfStmt fuel)) (ihs : BuildsSub (processSwitch fuel))
    (ihf : BuildsSub (createForLoop fuel)) :
    BuildsSub (handleStmt (fuel + 1)) := by
  intro s e s2 h
  rw [handleStmt] at h
  split at h
  · exact createAssignNode_sub _ _ _ h
  · exact ihw _ _ _ h
  · exact ihi _ _ _ h
  · exact ihs _ _ _ h
  · exact ihf _ _ _ h
  · exact makeOutputNode_sub _ _ _ h
  · exact makeInputNode_sub _ _ _ h
  · cases h

/-- Every procedure of the mutual recursion that succeeds adds a finished subgraph:
the `next` chain of the returned entry ends at a node without successor, every node
added is reached from the entry, every jump added has its target, and a node added
whose `next` is empty is that last node or the jump appended to a case body. -/
theorem subs_all (fuel : Nat) :
    BuildsSub (getBodyCode fuel) ∧ BuildsSub (buildStmtList fuel) ∧
    BuildsSub (handleStmt fuel) ∧ BuildsSub (buildWhileLoop fuel) ∧
    BuildsSub (handleIfStmt fuel) ∧ CasesSub fuel ∧
    BuildsSub (processSwitch fuel) ∧ DefaultSub fuel ∧
    BuildsSub (createForLoop fuel) := by
  induction fuel with
  | zero =>
    refine ⟨?_, ?_, ?_, ?_, ?_, ?_, ?_, ?_, ?_⟩
    · intro s e s2 h; rw [getBodyCode] at h; cases h
    · intro s e s2 h; rw [buildStmtList] at h; cases h
    · intro s e s2 h; rw [handleStmt] at h; cases h
    · intro s e s2 h; rw [buildWhileLoop] at h; cases h
    · intro s e s2 h; rw [handleIfStmt] at h; cases h
    · intro cv cb s cv2 cb2 s2 h; rw [parseCases] at h; cases h
    · intro s e s2 h; rw [processSwitch] at h; cases h
    · intro s d s2 h; rw [parseDefault] at h; cases h
    · intro s e s2 h; rw [createForLoop] at h; cases h
  | succ fuel ih =>
    obtain ⟨ib, il, ist, iw, ii, ic, isw, idf, ifo⟩ := ih
    exact ⟨getBodyCode_sub_step fuel il, buildStmtList_sub_step fuel ist il,
      handleStmt_sub_step fuel iw ii isw ifo, buildWhileLoop_sub_step fuel ib,
      handleIfStmt_sub_step fuel ib, parseCases_sub_step fuel ib ic,
      processSwitch_sub_step fuel ic idf, parseDefault_sub_step fuel ib,
      createForLoop_sub_step fuel ib⟩

/-! ## C17: every node is reached from the entry -/

theorem processIdList_heap :
    ∀ (fuel : Nat) (s s2 : ParserState),
      processIdList fuel s = .ok ((), s2) → s2.heap = s.heap := by
  intro fuel
  induction fuel with
  | zero =>
    intro s s2 h
    rw [processIdList] at h
    cases h
  | succ fuel ih =>
    intro s s2 h
    obtain ⟨tok, s1, h1, hrest⟩ := processIdList_inv h
    have g1 : (GetToken (declare tok.lexeme s1)).2.heap = s.heap := by
      rw [GetToken_heap]
      simp only [declare]
      exact verifyToken_heap h1
    rcases hrest with ⟨-, h2⟩ | ⟨-, rfl⟩
    · rw [ih _ _ h2, g1]
    · exact g1

/-- The steps of a successful `parseProgram`; the declarations and the trailing
inputs do not touch the heap of nodes. -/
theorem parseProgram_inv {fuel : Nat} {s s2 : ParserState} {e : Nat}
    (h : parseProgram fuel s = .ok (e, s2)) :
    ∃ s1 sb, processIdList fuel s = .ok ((), s1) ∧
      getBodyCode fuel s1 = .ok (e, sb) ∧ readInputValues fuel sb = .ok ((), s2) ∧
      s1.heap = s.heap ∧ s2.heap = sb.heap := by
  unfold parseProgram handleVarSection at h
  split at h
  · cases h
  · rename_i u s1 h1
    split at h
    · cases h
    · rename_i mainCode sb hb
      split at h
      · cases h
      · rename_i u2 s3 h3
        simp only [Except.ok.injEq, Prod.mk.injEq] at h
        obtain ⟨rfl, rfl⟩ := h
        exact ⟨s1, sb, h1, hb, h3, processIdList_heap _ _ _ h1,
          (readInputValues_arena _ _ _ h3).2.2.2⟩

/-- The nodes a successful parse of a program adds form a finished subgraph on a
closed region, and the nodes that existed before are untouched. -/
theorem parseProgram_sub {fuel : Nat} {s s2 : ParserState} {e : Nat}
    (h : parseProgram fuel s = .ok (e, s2)) :
    Built s.heap s2.heap e ∧ ∃ t, Sub s2.heap s.heap.length s2.heap.length e t := by
  obtain ⟨s1, sb, -, hb, -, e1, e2⟩ := parseProgram_inv h
  have b := getBodyCode_built hb
  have a := (subs_all fuel).1 _ _ _ hb
  rw [e1] at b a
  rw [e2]
  exact ⟨b, a⟩

/-- C17: when `parseProgram` accepts a program, it returns one entry node `e`, which
is one of the nodes created during the parse (the nodes with addresses from
`s.heap.length` up to `s2.heap.length`, the nodes that existed before being
untouched), and every node created during the parse is reached from `e` by
following `next` and `target` edges. -/
theorem parseProgram_all_reachable (fuel : Nat) (s s2 : ParserState) (e : Nat)
    (h : parseProgram fuel s = .ok (e, s2)) :
    (s.heap.length ≤ e ∧ e < s2.heap.length) ∧
    (∀ i, i < s.heap.length → s2.heap[i]? = s.heap[i]?) ∧
    ∀ i, s.heap.length ≤ i → i < s2.heap.length → Reach s2.heap e i := by
  obtain ⟨b, t, a⟩ := parseProgram_sub h
  exact ⟨⟨b.2.1, b.2.2⟩, b.1.2.1, a.conn⟩

/-- Witness of C17 on the program
`i; { for (i = 0; i < 3; i = i + 1;) { output i; } }` parsed from the initial state:
the parse returns node 0 and builds the six nodes of `forHeap`, each of which is
reached from node 0. -/
theorem parseProgram_all_reachable_witness :
    returned (parseProgram 12 (stateInit forProgramTokens)) = some 0 ∧
    (finalState (stateInit []) (parseProgram 12 (stateInit forProgramTokens))).heap =
      forHeap ∧
    ∀ i, i < 6 → Reach forHeap 0 i := by
  have hr : returned (parseProgram 12 (stateInit forProgramTokens)) = some 0 := by
    decide!
  have hh : (finalState (stateInit [])
      (parseProgram 12 (stateInit forProgramTokens))).heap = forHeap := by decide!
  refine ⟨hr, hh, ?_⟩
  intro i hi
  have := (parseProgram_all_reachable 12 (stateInit forProgramTokens) _ 0
    (eq_ok_of_returned (stateInit []) hr)).2.2 i (Nat.zero_le _) (by rw [hh]; exact hi)
  rw [hh] at this
  exact this

/-! ## C20: the edges of the returned graph -/

/-- C20: in the graph a successful `parseProgram` returns, with the created nodes
being those with addresses from `s.heap.length` up to `s2.heap.length`: there is a
created node `t`, the last node of the `next` chain of the entry `e`, whose `next`
is empty; and for every created node `n` at address `i`:
(1) if `n` is a `CJMP` or a `JMP` node its target is set and is a created node;
(2) its `next` edge, when not empty, is a created node, and so is its target edge
whenever it is set;
(3) if its `next` edge is empty, then `i` is `t`, or `n` is a `JMP` node that ends
the `next` chain of the body to which a created not-equal test jumps, which is the
jump `processSwitch` appends to the body of a case. -/
theorem parseProgram_edges (fuel : Nat) (s s2 : ParserState) (e : Nat)
    (h : parseProgram fuel s = .ok (e, s2)) :
    ∃ t, (s.heap.length ≤ t ∧ t < s2.heap.length) ∧ NextReach s2.heap e t ∧
      (∃ nt, s2.heap[t]? = some nt ∧ nt.next = none) ∧
      ∀ i n, s.heap.length ≤ i → s2.heap[i]? = some n →
        ((n.type = InstructionType.CJMP ∨ n.type = InstructionType.JMP) →
          ∃ q, n.target = some q ∧ s.heap.length ≤ q ∧ q < s2.heap.length) ∧
        (∀ q, n.next = some q → s.heap.length ≤ q ∧ q < s2.heap.length) ∧
        (∀ q, n.target = some q → s.heap.length ≤ q ∧ q < s2.heap.length) ∧
        (n.next = none → i = t ∨
          (n.type = InstructionType.JMP ∧
            CaseJumpIn s2.heap s.heap.length s2.heap.length i)) := by
  obtain ⟨b, t, a⟩ := parseProgram_sub h
  refine ⟨t, a.tail_in, a.chain, a.tail, ?_⟩
  intro i n hi hn
  have hi2 : i < s2.heap.length := (List.getElem?_eq_some.1 hn).1
  obtain ⟨c1, c2⟩ := b.1.2.2 i n hi hi2 hn
  refine ⟨?_, c1, c2, ?_⟩
  · intro hj
    have := a.tgt i n hi hi2 hn hj
    cases hq : n.target with
    | none => exact absurd hq this
    | some q => exact ⟨q, rfl, c2 q hq⟩
  · intro hx
    rcases a.empt i n hi hi2 hn hx with h0 | h0
    · exact Or.inl h0
    · refine Or.inr ⟨?_, h0⟩
      obtain ⟨c, bb, cn, jn, -, -, -, -, -, -, -, h8, h9⟩ := h0
      rw [hn] at h8
      cases h8
      exact h9

/-- Witness of C20 on the program
`x, a, b; { switch x { case 1 : { output a; } case 2 : { output b; } } }` parsed
from the initial state: the parse returns node 6 and builds the seven nodes of
`switchHeap`.  The `next` chain of the entry ends at node 2; the nodes with empty
`next` are node 2 and the jumps 3 and 5 appended to the two case bodies. -/
theorem parseProgram_edges_witness :
    returned (parseProgram 12 (stateInit switchProgramTokens)) = some 6 ∧
    (finalState (stateInit []) (parseProgram 12 (stateInit switchProgramTokens))).heap =
      switchHeap ∧
    ∃ t, NextReach switchHeap 6 t ∧
      ∀ i n, switchHeap[i]? = some n → n.next = none →
        i = t ∨ (n.type = InstructionType.JMP ∧ CaseJumpIn switchHeap 0 7 i) := by
  have hr : returned (parseProgram 12 (stateInit switchProgramTokens)) = some 6 := by
    decide!
  have hh : (finalState (stateInit [])
      (parseProgram 12 (stateInit switchProgramTokens))).heap = switchHeap := by decide!
  refine ⟨hr, hh, ?_⟩
  obtain ⟨t, -, hch, -, hall⟩ := parseProgram_edges 12 (stateInit switchProgramTokens) _ 6
    (eq_ok_of_returned (stateInit []) hr)
  rw [hh] at hch hall
  refine ⟨t, hch, ?_⟩
  intro i n hn hx
  exact (hall i n (Nat.zero_le _) hn).2.2.2 hx

/-! ## C19: the `next` chain of a subgraph ends -/

theorem NextReach.counted {h : List InstructionNode} {a t : Nat}
    (hr : NextReach h a t) : ∃ k, NextN h k a t := by
  induction hr with
  | refl => exact ⟨0, NextN.zero _⟩
  | step hn hx _ ih =>
    obtain ⟨k, hk⟩ := ih
    exact ⟨k + 1, NextN.succ hn hx hk⟩

/-- The number of `next` edges from a node to the end of its chain is determined. -/
theorem NextN.unique_len {h : List InstructionNode} {j k a t : Nat}
    {nt : InstructionNode} (h1 : NextN h j a t) (h2 : NextN h k a t)
    (ht : h[t]? = some nt) (htn : nt.next = none) : j = k := by
  induction h1 generalizing k with
  | zero =>
    cases h2 with
    | zero => rfl
    | succ hn hx _ =>
      rw [hn] at ht
      cases ht
      rw [hx] at htn
      cases htn
  | @succ j a b c n hn hx _ ih =>
    cases h2 with
    | zero =>
      rw [hn] at ht
      cases ht
      rw [hx] at htn
      cases htn
    | @succ k _ b2 _ n2 hn2 hx2 h3 =>
      rw [hn] at hn2
      cases hn2
      rw [hx] at hx2
      cases hx2
      rw [ih h3 ht]

/-- The nodes of a `next` chain that ends, as a list without repetition. -/
theorem NextN.path {h : List InstructionNode} {k a t : Nat} {nt : InstructionNode}
    (h1 : NextN h k a t) (ht : h[t]? = some nt) (htn : nt.next = none) :
    ∃ path : List Nat, path.length = k + 1 ∧ path.head? = some a ∧
      path.getLast? = some t ∧ NextChain h path ∧ path.Nodup ∧
      ∀ x, x ∈ path → x < h.length ∧ NextReach h a x ∧ ∃ j, j ≤ k ∧ NextN h j x t := by
  induction h1 with
  | zero a =>
    refine ⟨[a], rfl, rfl, rfl, trivial, List.nodup_singleton _, ?_⟩
    intro x hx
    simp only [List.mem_singleton] at hx
    subst hx
    exact ⟨(List.getElem?_eq_some.1 ht).1, NextReach.refl _, 0, le_refl _, NextN.zero _⟩
  | @succ k a b c n hn hx hbc ih =>
    obtain ⟨path, hlen, hhead, hlast, hchain, hnd, hall⟩ := ih ht
    cases path with
    | nil => simp at hlen
    | cons p ps =>
      simp only [List.head?_cons, Option.some.injEq] at hhead
      subst hhead
      refine ⟨a :: p :: ps, by simp only [List.length_cons] at hlen ⊢; omega, rfl, ?_,
        ⟨⟨n, hn, hx⟩, hchain⟩, ?_, ?_⟩
      · rw [List.getLast?_cons_cons]
        exact hlast
      · refine List.nodup_cons.2 ⟨?_, hnd⟩
        intro hmem
        obtain ⟨-, -, j, hj, hjn⟩ := hall a hmem
        have := (NextN.succ hn hx hbc).unique_len hjn ht htn
        omega
      · intro x hxm
        rcases List.mem_cons.1 hxm with rfl | hxm
        · exact ⟨(List.getElem?_eq_some.1 hn).1, NextReach.refl _, k + 1, le_refl _,
            NextN.succ hn hx hbc⟩
        · obtain ⟨q1, q2, j, hj, hjn⟩ := hall x hxm
          exact ⟨q1, NextReach.step hn hx q2, j, by omega, hjn⟩

theorem nodup_length_le {l : List Nat} {n : Nat} (hnd : l.Nodup)
    (hlt : ∀ x, x ∈ l → x < n) : l.length ≤ n := by
  have h1 : l.toFinset.card = l.length := List.toFinset_card_of_nodup hnd
  have h2 : l.toFinset ⊆ Finset.range n := by
    intro x hx
    exact Finset.mem_range.2 (hlt x (List.mem_toFinset.1 hx))
  have h3 := Finset.card_le_card h2
  rw [Finset.card_range] at h3
  omega

/-- A walk along a chain of `k` edges that ends returns the end of the chain when
its budget is at least `k`. -/
theorem NextN.walk_ok {h : List InstructionNode} {k a t : Nat} {nt : InstructionNode}
    (h1 : NextN h k a t) (ht : h[t]? = some nt) (htn : nt.next = none) :
    ∀ fuel, k ≤ fuel → walkToTail fuel h a = .ok t := by
  induction h1 with
  | zero a =>
    intro fuel _
    unfold walkToTail
    simp only [ht, htn]
  | @succ k a b c n hn hx _ ih =>
    intro fuel hf
    obtain ⟨f, rfl⟩ : ∃ f, fuel = f + 1 := ⟨fuel - 1, by omega⟩
    unfold walkToTail
    simp only [hn, hx]
    exact ih ht f (by omega)

/-- The walk of `linkNodes` and of `buildStmtList` along a `next` chain that ends
returns the end of the chain: its budget of `heap.length` steps is enough because
the nodes of the chain are distinct. -/
theorem walkToTail_of_chain {h : List InstructionNode} {a t : Nat}
    {nt : InstructionNode} (hr : NextReach h a t) (ht : h[t]? = some nt)
    (htn : nt.next = none) : walkToTail h.length h a = .ok t := by
  obtain ⟨k, hk⟩ := hr.counted
  obtain ⟨path, hlen, -, -, -, hnd, hall⟩ := hk.path ht htn
  have := nodup_length_le hnd (fun x hx => (hall x hx).1)
  exact hk.walk_ok ht htn _ (by omega)

theorem verifyToken_plain (ty : TokenType) (s : ParserState) :
    PlainErrors (verifyToken ty s) :=
  fun _ h => Or.inl (verifyToken_error h)

theorem getPrimaryValue_plain (s : ParserState) : PlainErrors (getPrimaryValue s) := by
  intro e h
  rcases getPrimaryValue_error h with h1 | ⟨h1, -⟩
  · exact Or.inl h1
  · exact Or.inr (Or.inl h1)

theorem getRelationalOp_error {s : ParserState} {e : ParseError}
    (h : getRelationalOp s = .error e) : e = .fatal := by
  unfold getRelationalOp at h
  simp only at h
  split at h
  · cases h
  · split at h
    · cases h
    · split at h
      · cases h
      · cases h
        rfl

theorem checkCondition_plain (s : ParserState) : PlainErrors (checkCondition s) := by
  intro e h
  unfold checkCondition at h
  split at h
  · rename_i e1 h1
    cases h
    exact getPrimaryValue_plain _ _ h1
  · split at h
    · rename_i e2 h2
      cases h
      exact Or.inl (getRelationalOp_error h2)
    · split at h
      · rename_i e3 h3
        cases h
        exact getPrimaryValue_plain _ _ h3
      · cases h

theorem createAssignNode_plain (s : ParserState) : PlainErrors (createAssignNode s) := by
  intro e h
  rcases createAssignNode_error h with h1 | ⟨h1, -⟩
  · exact Or.inl h1
  · exact Or.inr (Or.inl h1)

theorem makeOutputNode_plain (s : ParserState) : PlainErrors (makeOutputNode s) := by
  intro e h
  unfold makeOutputNode at h
  simp only at h
  split at h
  · rename_i e1 h1
    cases h
    exact Or.inl (verifyToken_error h1)
  · split at h
    · rename_i e1 h1
      cases h
      exact Or.inl (verifyToken_error h1)
    · split at h
      · rename_i e1 h1
        cases h
        exact Or.inl (findVarLocation_error h1)
      · split at h
        · rename_i e1 h1
          cases h
          exact Or.inl (verifyToken_error h1)
        · cases h

theorem makeInputNode_plain (s : ParserState) : PlainErrors (makeInputNode s) := by
  intro e h
  unfold makeInputNode at h
  simp only at h
  split at h
  · rename_i e1 h1
    cases h
    exact Or.inl (verifyToken_error h1)
  · split at h
    · rename_i e1 h1
      cases h
      exact Or.inl (verifyToken_error h1)
    · split at h
      · rename_i e1 h1
        cases h
        exact Or.inl (findVarLocation_error h1)
      · split at h
        · rename_i e1 h1
          cases h
          exact Or.inl (verifyToken_error h1)
        · cases h

/-- `linkNodes` on the entry of a finished subgraph returns, in every state whose
heap agrees with the heap of the subgraph on its region. -/
theorem Sub.link_ok {h : List InstructionNode} {lo hi e t : Nat} (a : Sub h lo hi e t)
    (hc : RegionClosed lo hi h) (sx : ParserState) (x : Nat)
    (hag : ∀ i, lo ≤ i → i < hi → sx.heap[i]? = h[i]?) :
    linkNodes (some e) x sx = .ok (setNext t (some x) sx) := by
  obtain ⟨nt, hnt, hntx⟩ := a.tail
  have hw := walkToTail_of_chain (a.chain.congr_region hc hag a.entry_in)
    ((hag t a.tail_in.1 a.tail_in.2).trans hnt) hntx
  unfold linkNodes
  simp only [hw]

theorem getBodyCode_plain_step (fuel : Nat)
    (ih : ∀ s, PlainErrors (buildStmtList fuel s)) :
    ∀ s, PlainErrors (getBodyCode (fuel + 1) s) := by
  intro s e h
  rw [getBodyCode] at h
  split at h
  · rename_i e1 h1
    cases h
    exact verifyToken_plain _ _ _ h1
  · split at h
    · rename_i e1 h1
      cases h
      exact ih _ _ h1
    · split at h
      · rename_i e1 h1
        cases h
        exact verifyToken_plain _ _ _ h1
      · cases h

theorem buildStmtList_plain_step (fuel : Nat)
    (ihs : ∀ s, PlainErrors (handleStmt fuel s))
    (ihl : ∀ s, PlainErrors (buildStmtList fuel s)) :
    ∀ s, PlainErrors (buildStmtList (fuel + 1) s) := by
  intro s e h
  rw [buildStmtList] at h
  split at h
  · rename_i e1 h1
    cases h
    exact ihs _ _ h1
  · rename_i firstNode s1 h1
    simp only at h
    split at h
    · split at h
      · rename_i e1 h2
        cases h
        exact ihl _ _ h2
      · rename_i restNodes sr h2
        split at h
        · rename_i e1 hw
          exfalso
          obtain ⟨t, a⟩ := (subs_all fuel).2.2.1 _ _ _ h1
          have b := (builds_all fuel).2.2.1 _ _ _ h1
          have b2 := (builds_all fuel).2.1 _ _ _ h2
          obtain ⟨nt, hnt, hntx⟩ := a.tail
          have hag : ∀ i, s.heap.length ≤ i → i < s1.heap.length →
              sr.heap[i]? = s1.heap[i]? := fun i _ hi => b2.1.2.1 i hi
          have := walkToTail_of_chain (a.chain.congr_region b.1.2.2 hag a.entry_in)
            ((hag t a.tail_in.1 a.tail_in.2).trans hnt) hntx
          rw [this] at hw
          cases hw
        · cases h
    · cases h

theorem handleStmt_plain_step (fuel : Nat)
    (ihw : ∀ s, PlainErrors (buildWhileLoop fuel s))
    (ihi : ∀ s, PlainErrors (handleIfStmt fuel s))
    (ihs : ∀ s, PlainErrors (processSwitch fuel s))
    (ihf : ∀ s, PlainErrors (createForLoop fuel s)) :
    ∀ s, PlainErrors (handleStmt (fuel + 1) s) := by
  intro s e h
  rw [handleStmt] at h
  split at h
  · exact createAssignNode_plain _ _ h
  · exact ihw _ _ h
  · exact ihi _ _ h
  · exact ihs _ _ h
  · exact ihf _ _ h
  · exact makeOutputNode_plain _ _ h
  · exact makeInputNode_plain _ _ h
  · cases h
    exact Or.inl rfl

theorem buildWhileLoop_plain_step (fuel : Nat)
    (ih : ∀ s, PlainErrors (getBodyCode fuel s)) :
    ∀ s, PlainErrors (buildWhileLoop (fuel + 1) s) := by
  intro s e h
  rw [buildWhileLoop] at h
  simp only [newNode, makeNoop] at h
  split at h
  · rename_i e1 h1
    cases h
    exact verifyToken_plain _ _ _ h1
  · rename_i tok s1 h1
    split at h
    · rename_i e1 h2
      cases h
      exact checkCondition_plain _ _ h2
    · rename_i condOp left right sc h2
      split at h
      · rename_i e1 h4
        cases h
        exact ih _ _ h4
      · rename_i bodyCode s4 h4
        split at h
        · rename_i e1 h7
          exfalso
          obtain ⟨t, a⟩ := (subs_all fuel).1 _ _ _ h4
          have b := getBodyCode_built h4
          have e3 := cond_prefix_heap h1 h2
          have e3l : (setCond s.heap.length condOp left right sc).heap.length =
              s.heap.length + 1 := by
            rw [e3]
            simp
          rw [a.link_ok b.1.2.2 _ _ ?_] at h7
          · cases h7
          · intro i i1 i2
            rw [e3l] at i1
            simp only
            rw [List.getElem?_append_left (by rw [length_setNext]; exact i2)]
            exact get_setNext_ne _ _ (by omega)
        · cases h

theorem handleIfStmt_plain_step (fuel : Nat)
    (ih : ∀ s, PlainErrors (getBodyCode fuel s)) :
    ∀ s, PlainErrors (handleIfStmt (fuel + 1) s) := by
  intro s e h
  rw [handleIfStmt] at h
  simp only [newNode, makeNoop] at h
  split at h
  · rename_i e1 h1
    cases h
    exact verifyToken_plain _ _ _ h1
  · rename_i tok s1 h1
    split at h
    · rename_i e1 h2
      cases h
      exact checkCondition_plain _ _ h2
    · rename_i condOp left right sc h2
      split at h
      · rename_i e1 h4
        cases h
        exact ih _ _ h4
      · rename_i bodyCode s4 h4
        split at h
        · rename_i e1 h7
          exfalso
          obtain ⟨t, a⟩ := (subs_all fuel).1 _ _ _ h4
          have b := getBodyCode_built h4
          have e3 := cond_prefix_heap h1 h2
          have e3l : (setCond s.heap.length condOp left right sc).heap.length =
              s.heap.length + 1 := by
            rw [e3]
            simp
          rw [a.link_ok b.1.2.2 _ _ ?_] at h7
          · cases h7
          · intro i i1 i2
            rw [e3l] at i1
            rw [get_setTarget_ne _ _ (by omega)]
            simp only
            rw [List.getElem?_append_left (by rw [length_setNext]; exact i2)]
            exact get_setNext_ne _ _ (by omega)
        · cases h

theorem parseDefault_plain_step (fuel : Nat)
    (ih : ∀ s, PlainErrors (getBodyCode fuel s)) :
    ∀ s, PlainErrors (parseDefault (fuel + 1) s) := by
  intro s e h
  rw [parseDefault] at h
  split at h
  · split at h
    · rename_i e1 h1
      cases h
      exact verifyToken_plain _ _ _ h1
    · split at h
      · rename_i e1 h1
        cases h
        exact verifyToken_plain _ _ _ h1
      · split at h
        · rename_i e1 h1
          cases h
          exact ih _ _ h1
        · cases h
  · cases h

theorem parseCases_plain_step (fuel : Nat)
    (ih : ∀ s, PlainErrors (getBodyCode fuel s))
    (ihc : ∀ cv cb s, PlainErrors (parseCases fuel cv cb s)) :
    ∀ cv cb s, PlainErrors (parseCases (fuel + 1) cv cb s) := by
  intro cv cb s e h
  rw [parseCases] at h
  split at h
  · split at h
    · rename_i e1 h1
      cases h
      exact verifyToken_plain _ _ _ h1
    · split at h
      · rename_i e1 h1
        cases h
        exact verifyToken_plain _ _ _ h1
      · split at h
        · cases h
          exact Or.inr (Or.inl rfl)
        · simp only at h
          split at h
          · rename_i e1 h1
            cases h
            exact verifyToken_plain _ _ _ h1
          · split at h
            · rename_i e1 h1
              cases h
              exact ih _ _ h1
            · exact ihc _ _ _ _ h
  · cases h

theorem createForLoop_plain_step (fuel : Nat)
    (ih : ∀ s, PlainErrors (getBodyCode fuel s)) :
    ∀ s, PlainErrors (createForLoop (fuel + 1) s) := by
  intro s e h
  rw [createForLoop] at h
  split at h
  · rename_i e1 h1
    cases h
    exact verifyToken_plain _ _ _ h1
  · rename_i t1 s1 h1
    split at h
    · rename_i e1 h2
      cases h
      exact verifyToken_plain _ _ _ h2
    · rename_i t2 sa h2
      split at h
      · rename_i e1 h3
        cases h
        exact createAssignNode_plain _ _ h3
      · rename_i init s3 h3
        split at h
        · rename_i e1 h4
          cases h
          exact checkCondition_plain _ _ h4
        · rename_i cond left right s4 h4
          split at h
          · rename_i e1 h5
            cases h
            exact verifyToken_plain _ _ _ h5
          · rename_i t5 s5 h5
            split at h
            · rename_i e1 h6
              cases h
              exact createAssignNode_plain _ _ h6
            · rename_i update s6 h6
              split at h
              · rename_i e1 h7
                cases h
                exact verifyToken_plain _ _ _ h7
              · rename_i t7 s7 h7
                simp only [newNode, makeNoop] at h
                split at h
                · rename_i e1 h9
                  cases h
                  exact ih _ _ h9
                · rename_i body s9 h9
                  split at h
                  · rename_i e1 h13
                    exfalso
                    obtain ⟨t, a⟩ := (subs_all fuel).1 _ _ _ h9
                    have b := getBodyCode_built h9
                    obtain ⟨hi, ni, e3, -, -, -⟩ := createAssignNode_heap h3
                    have l3 : s3.heap.length = sa.heap.length + 1 := by
                      rw [e3]
                      simp
                    obtain ⟨-, nu, e6, -, -, -⟩ := createAssignNode_heap h6
                    have l7 : s7.heap.length = s3.heap.length + 1 := by
                      rw [verifyToken_heap h7, e6, verifyToken_heap h5,
                        checkCondition_heap h4]
                      simp
                    rw [a.link_ok b.1.2.2 _ _ ?_] at h13
                    · cases h13
                    · intro i i1 i2
                      simp only [List.length_append, List.length_singleton] at i1
                      rw [get_setNext_ne _ _ (by omega), get_setNext_ne _ _ (by omega)]
                      simp only
                      exact List.getElem?_append_left i2
                  · cases h

theorem switchChain_plain (sv X : Nat) (cl : List CaseClause)
    (hord : ∀ (j j2 : Nat) (c d : CaseClause), j < j2 → cl[j]? = some c →
      cl[j2]? = some d → c.hi ≤ d.lo) :
    ∀ (i nextNode : Nat) (s : ParserState),
      i ≤ cl.length →
      (∀ (j : Nat) (c : CaseClause), j < i → cl[j]? = some c →
        c.hi ≤ s.heap.length ∧ RegionClosed c.lo c.hi s.heap ∧
        ∃ t, Sub s.heap c.lo c.hi c.body t) →
      PlainErrors (switchChain sv X (cl.map CaseClause.loc) (cl.map CaseClause.body)
        i nextNode s) := by
  intro i
  induction i with
  | zero =>
    intro nextNode s _ _ e h
    rw [switchChain] at h
    cases h
  | succ i ih =>
    intro nextNode s hi hreg e h
    obtain ⟨c, hc⟩ : ∃ c, cl[i]? = some c := by
      have hlt : i < cl.length := by omega
      exact ⟨cl[i], List.getElem?_eq_getElem hlt⟩
    obtain ⟨chi, ccl, t, a⟩ := hreg i c (by omega) hc
    have hag1 : ∀ p, c.lo ≤ p → p < c.hi →
        (newNode (jmpNode none (some X)) s).2.heap[p]? = s.heap[p]? :=
      fun p _ hp => get_newNode_lt _ _ (by omega)
    have hok := a.link_ok ccl (newNode (jmpNode none (some X)) s).2 s.heap.length hag1
    rw [switchChain] at h
    simp only [List.getElem?_map, hc, Option.map_some', newNode_fst] at h
    rw [hok] at h
    simp only at h
    refine ih _ _ (by omega) ?_ e h
    intro j d hj hd
    obtain ⟨dhi, dcl, td, ad⟩ := hreg j d (by omega) hd
    have hdc := hord j i d c hj hd hc
    have hagj : ∀ p, d.lo ≤ p → p < d.hi →
        (newNode (cjmpNode ConditionalOperatorType.CONDITION_NOTEQUAL sv c.loc
          (some nextNode) (some c.body))
          (setNext t (some s.heap.length)
            (newNode (jmpNode none (some X)) s).2)).2.heap[p]? = s.heap[p]? := by
      intro p p1 p2
      have ht := a.tail_in
      rw [get_newNode_lt _ _ (by rw [length_setNext, length_newNode]; omega),
        get_setNext_ne _ _ (by omega), get_newNode_lt _ _ (by omega)]
    refine ⟨?_, dcl.of_agree hagj, td, ad.agree dcl hagj⟩
    rw [length_newNode, length_setNext, length_newNode]
    omega

theorem processSwitch_plain_step (fuel : Nat)
    (ihc : ∀ cv cb s, PlainErrors (parseCases fuel cv cb s))
    (ihd : ∀ s, PlainErrors (parseDefault fuel s)) :
    ∀ s, PlainErrors (processSwitch (fuel + 1) s) := by
  intro s e h
  rw [processSwitch] at h
  split at h
  · rename_i e1 h1
    cases h
    exact verifyToken_plain _ _ _ h1
  · rename_i t1 s1 h1
    split at h
    · rename_i e1 h2
      cases h
      exact verifyToken_plain _ _ _ h2
    · rename_i t sb h2
      split at h
      · rename_i e1 h3
        cases h
        exact Or.inl (findVarLocation_error h3)
      · rename_i switchVar s3 h3
        split at h
        · rename_i e1 h4
          cases h
          exact verifyToken_plain _ _ _ h4
        · rename_i t4 s4 h4
          split at h
          · rename_i e1 h5
            cases h
            exact ihc _ _ _ _ h5
          · rename_i caseValues caseBodies s5 h5
            split at h
            · rename_i e1 h6
              cases h
              exact ihd _ _ h6
            · rename_i defaultCase s6 h6
              split at h
              · rename_i e1 h7
                cases h
                exact verifyToken_plain _ _ _ h7
              · rename_i t7 s7 h7
                simp only [makeNoop, newNode_fst] at h
                split at h
                · cases h
                · -- the clauses and the default body, as finished subgraphs
                  obtain ⟨cl, hrun, hcv, hcb, hsub, -⟩ :=
                    (subs_all fuel).2.2.2.2.2.1 _ _ _ _ _ _ h5
                  simp only [List.nil_append] at hcv hcb
                  subst hcv hcb
                  obtain ⟨x5, -, hcl, hord⟩ := hrun.facts
                  obtain ⟨a6, hd⟩ := (builds_all fuel).2.2.2.2.2.2.2.1 _ _ _ h6
                  have hdsub := (subs_all fuel).2.2.2.2.2.2.2.1 _ _ _ h6
                  have e7 : s7.heap = s6.heap := verifyToken_heap h7
                  -- the tail link of the default body returns
                  have hlink : ∃ s9, linkNodes defaultCase s7.heap.length
                      (newNode { type := InstructionType.NOOP, next := none } s7).2 =
                        .ok s9 ∧
                      (∀ p, p < s5.heap.length → s9.heap[p]? = s5.heap[p]?) ∧
                      s5.heap.length ≤ s9.heap.length := by
                    rcases hdsub with ⟨hd0, hs⟩ | ⟨b, tb, hb, ab⟩
                    · subst hd0
                      refine ⟨_, rfl, ?_, ?_⟩
                      · intro p hp
                        rw [get_newNode_lt _ _ (by rw [e7, hs]; exact hp), e7, hs]
                      · rw [length_newNode, e7, hs]
                        omega
                    · subst hb
                      have hagd : ∀ p, s5.heap.length ≤ p → p < s6.heap.length →
                          (newNode { type := InstructionType.NOOP, next := none }
                            s7).2.heap[p]? = s6.heap[p]? := by
                        intro p _ hp
                        rw [get_newNode_lt _ _ (by rw [e7]; exact hp), e7]
                      refine ⟨_, ab.link_ok a6.2.2 _ _ hagd, ?_, ?_⟩
                      · intro p hp
                        have := ab.tail_in
                        rw [get_setNext_ne _ _ (by omega),
                          get_newNode_lt _ _ (by rw [e7]; omega), e7]
                        exact a6.2.1 p hp
                      · rw [length_setNext, length_newNode, e7]
                        have := a6.1
                        omega
                  obtain ⟨s9, h9, g9, l9⟩ := hlink
                  rw [h9] at h
                  simp only [List.length_map] at h
                  refine switchChain_plain switchVar s7.heap.length cl hord cl.length _ s9
                    (le_refl _) ?_ e h
                  intro j c _ hc
                  obtain ⟨-, -, -, c4, c5, -, -⟩ := hcl j c hc
                  obtain ⟨t, a⟩ := hsub j c hc
                  have hag : ∀ p, c.lo ≤ p → p < c.hi → s9.heap[p]? = s5.heap[p]? :=
                    fun p _ hp => g9 p (by omega)
                  exact ⟨by omega, c5.of_agree hag, t, a.agree c5 hag⟩

/-- No procedure of the mutual recursion ends in a tail walk that does not
terminate or in the use of a pointer to no node: when a procedure does not return,
it has stopped by the fatal exit, by the throw of `stoi`, or because the recursion
budget of the model was used up. -/
theorem plain_all (fuel : Nat) :
    (∀ s, PlainErrors (getBodyCode fuel s)) ∧ (∀ s, PlainErrors (buildStmtList fuel s)) ∧
    (∀ s, PlainErrors (handleStmt fuel s)) ∧ (∀ s, PlainErrors (buildWhileLoop fuel s)) ∧
    (∀ s, PlainErrors (handleIfStmt fuel s)) ∧
    (∀ cv cb s, PlainErrors (parseCases fuel cv cb s)) ∧
    (∀ s, PlainErrors (processSwitch fuel s)) ∧
    (∀ s, PlainErrors (parseDefault fuel s)) ∧
    (∀ s, PlainErrors (createForLoop fuel s)) := by
  induction fuel with
  | zero =>
    refine ⟨?_, ?_, ?_, ?_, ?_, ?_, ?_, ?_, ?_⟩
    · intro s e h; rw [getBodyCode] at h; cases h; exact Or.inr (Or.inr rfl)
    · intro s e h; rw [buildStmtList] at h; cases h; exact Or.inr (Or.inr rfl)
    · intro s e h; rw [handleStmt] at h; cases h; exact Or.inr (Or.inr rfl)
    · intro s e h; rw [buildWhileLoop] at h; cases h; exact Or.inr (Or.inr rfl)
    · intro s e h; rw [handleIfStmt] at h; cases h; exact Or.inr (Or.inr rfl)
    · intro cv cb s e h; rw [parseCases] at h; cases h; exact Or.inr (Or.inr rfl)
    · intro s e h; rw [processSwitch] at h; cases h; exact Or.inr (Or.inr rfl)
    · intro s e h; rw [parseDefault] at h; cases h; exact Or.inr (Or.inr rfl)
    · intro s e h; rw [createForLoop] at h; cases h; exact Or.inr (Or.inr rfl)
  | succ fuel ih =>
    obtain ⟨ib, il, ist, iw, ii, ic, isw, idf, ifo⟩ := ih
    exact ⟨getBodyCode_plain_step fuel il, buildStmtList_plain_step fuel ist il,
      handleStmt_plain_step fuel iw ii isw ifo, buildWhileLoop_plain_step fuel ib,
      handleIfStmt_plain_step fuel ib, parseCases_plain_step fuel ib ic,
      processSwitch_plain_step fuel ic idf, parseDefault_plain_step fuel ib,
      createForLoop_plain_step fuel ib⟩

theorem PlainErrors.neverLoops {α : Type} {r : Res α} (h : PlainErrors r) :
    NeverLoops r := by
  refine ⟨?_, ?_⟩
  · intro hr
    rcases h _ hr with h1 | h1 | h1 <;> cases h1
  · intro hr
    rcases h _ hr with h1 | h1 | h1 <;> cases h1

theorem processIdList_plain :
    ∀ (fuel : Nat) (s : ParserState), PlainErrors (processIdList fuel s) := by
  intro fuel
  induction fuel with
  | zero =>
    intro s e h
    rw [processIdList] at h
    cases h
    exact Or.inr (Or.inr rfl)
  | succ fuel ih =>
    intro s e h
    rw [processIdList] at h
    split at h
    · rename_i e1 h1
      cases h
      exact verifyToken_plain _ _ _ h1
    · simp only at h
      split at h
      · exact ih _ _ h
      · split at h
        · cases h
          exact Or.inl rfl
        · cases h

theorem readInputValues_plain :
    ∀ (fuel : Nat) (s : ParserState), PlainErrors (readInputValues fuel s) := by
  intro fuel
  induction fuel with
  | zero =>
    intro s e h
    rw [readInputValues] at h
    cases h
    exact Or.inr (Or.inr rfl)
  | succ fuel ih =>
    intro s e h
    rw [readInputValues] at h
    split at h
    · simp only at h
      split at h
      · cases h
        exact Or.inr (Or.inl rfl)
      · exact ih _ _ h
    · cases h

theorem parseProgram_plain (fuel : Nat) (s : ParserState) :
    PlainErrors (parseProgram fuel s) := by
  intro e h
  unfold parseProgram handleVarSection at h
  split at h
  · rename_i e1 h1
    cases h
    exact processIdList_plain _ _ _ h1
  · split at h
    · rename_i e1 h1
      cases h
      exact (plain_all fuel).1 _ _ h1
    · split at h
      · rename_i e1 h1
        cases h
        exact readInputValues_plain _ _ _ h1
      · cases h

/-- C19. (1) When one of the statement procedures `handleStmt`, `buildStmtList`,
`getBodyCode` returns the entry `e` of a subgraph, the chain of `next` edges that
starts at `e` is a finite list `path` of nodes created by the call, without
repetition (so the chain is acyclic: a cycle of the graph has to use a `target`
edge), and its last node `t` has an empty `next`.  Consequently the tail walk from
`e` terminates and returns `t`, in the heap the call left and in any heap `h2` that
agrees with it on the nodes created by the call; the budget `heap.length` of the
model's walk is never used up; and `linkNodes` called on `e` returns, having set
`t`'s `next`.
(2) No call of a procedure that performs a tail walk, directly or in a procedure it
calls, ends in a walk that does not terminate (nor in the use of a pointer to no
node), whatever the state and the tokens: this holds for `buildStmtList`,
`handleIfStmt`, `buildWhileLoop`, `createForLoop`, `processSwitch`, `handleStmt`,
`getBodyCode` and `parseProgram`. -/
theorem next_chains_end :
    (∀ (fuel : Nat) (s s2 : ParserState) (e : Nat),
      (handleStmt fuel s = .ok (e, s2) ∨ buildStmtList fuel s = .ok (e, s2) ∨
        getBodyCode fuel s = .ok (e, s2)) →
      ∃ (t : Nat) (path : List Nat),
        path.head? = some e ∧ path.getLast? = some t ∧ NextChain s2.heap path ∧
        path.Nodup ∧
        (∀ x, x ∈ path → s.heap.length ≤ x ∧ x < s2.heap.length) ∧
        (∃ nt, s2.heap[t]? = some nt ∧ nt.next = none) ∧
        walkToTail s2.heap.length s2.heap e = .ok t ∧
        (∀ h2 : List InstructionNode,
          (∀ i, s.heap.length ≤ i → i < s2.heap.length → h2[i]? = s2.heap[i]?) →
          walkToTail h2.length h2 e = .ok t) ∧
        (∀ (sx : ParserState) (x : Nat),
          (∀ i, s.heap.length ≤ i → i < s2.heap.length → sx.heap[i]? = s2.heap[i]?) →
          linkNodes (some e) x sx = .ok (setNext t (some x) sx))) ∧
    (∀ (fuel : Nat) (s : ParserState),
      NeverLoops (buildStmtList fuel s) ∧ NeverLoops (handleIfStmt fuel s) ∧
      NeverLoops (buildWhileLoop fuel s) ∧ NeverLoops (createForLoop fuel s) ∧
      NeverLoops (processSwitch fuel s) ∧ NeverLoops (handleStmt fuel s) ∧
      NeverLoops (getBodyCode fuel s) ∧ NeverLoops (parseProgram fuel s)) := by
  refine ⟨?_, ?_⟩
  · intro fuel s s2 e h
    have hb : Built s.heap s2.heap e ∧
        ∃ t, Sub s2.heap s.heap.length s2.heap.length e t := by
      rcases h with h | h | h
      · exact ⟨(builds_all fuel).2.2.1 _ _ _ h, (subs_all fuel).2.2.1 _ _ _ h⟩
      · exact ⟨(builds_all fuel).2.1 _ _ _ h, (subs_all fuel).2.1 _ _ _ h⟩
      · exact ⟨(builds_all fuel).1 _ _ _ h, (subs_all fuel).1 _ _ _ h⟩
    obtain ⟨b, t, a⟩ := hb
    obtain ⟨nt, hnt, hntx⟩ := a.tail
    obtain ⟨k, hk⟩ := a.chain.counted
    obtain ⟨path, -, hhead, hlast, hchain, hnd, hall⟩ := hk.path hnt hntx
    have hwalk : ∀ h2 : List InstructionNode,
        (∀ i, s.heap.length ≤ i → i < s2.heap.length → h2[i]? = s2.heap[i]?) →
        walkToTail h2.length h2 e = .ok t := by
      intro h2 hag
      exact walkToTail_of_chain (a.chain.congr_region b.1.2.2 hag a.entry_in)
        ((hag t a.tail_in.1 a.tail_in.2).trans hnt) hntx
    refine ⟨t, path, hhead, hlast, hchain, hnd, ?_, ⟨nt, hnt, hntx⟩,
      hwalk _ (fun _ _ _ => rfl), hwalk, ?_⟩
    · intro x hx
      exact (hall x hx).2.1.in_region b.1.2.2 a.entry_in
    · intro sx x hag
      exact a.link_ok b.1.2.2 sx x hag
  · intro fuel s
    obtain ⟨ib, il, ist, iw, ii, -, isw, -, ifo⟩ := plain_all fuel
    exact ⟨(il s).neverLoops, (ii s).neverLoops, (iw s).neverLoops, (ifo s).neverLoops,
      (isw s).neverLoops, (ist s).neverLoops, (ib s).neverLoops,
      (parseProgram_plain fuel s).neverLoops⟩

/-- Witness of C19 on `for (i = 0; i < 3; i = i + 1;) { output i; }`: `handleStmt`
returns node 0 and builds the nodes of `forHeap`; the `next` chain from node 0 is
`0, 2, 3, 1, 5, 4`, it ends at the exit node 4, and the tail walk returns. -/
theorem next_chains_end_witness :
    returned (handleStmt 11 (stateI forTokens)) = some 0 ∧
    (finalState (stateI []) (handleStmt 11 (stateI forTokens))).heap = forHeap ∧
    NextChain forHeap [0, 2, 3, 1, 5, 4] ∧
    ∃ t, walkToTail forHeap.length forHeap 0 = .ok t ∧
      ∃ nt, forHeap[t]? = some nt ∧ nt.next = none := by
  have hr : returned (handleStmt 11 (stateI forTokens)) = some 0 := by decide!
  have hh : (finalState (stateI []) (handleStmt 11 (stateI forTokens))).heap =
      forHeap := by decide!
  refine ⟨hr, hh, ⟨⟨_, rfl, rfl⟩, ⟨_, rfl, rfl⟩, ⟨_, rfl, rfl⟩, ⟨_, rfl, rfl⟩,
    ⟨_, rfl, rfl⟩, trivial⟩, ?_⟩
  obtain ⟨t, path, -, -, -, -, -, htl, hw, -, -⟩ :=
    next_chains_end.1 11 (stateI forTokens) _ 0
      (Or.inl (eq_ok_of_returned (stateI []) hr))
  rw [hh] at htl hw
  exact ⟨t, hw, htl⟩

/-! ## C18: splicing of a statement list -/

/-- A list of one statement is returned as `handleStmt` left it. -/
theorem Spliced.single_stmt {fuel : Nat} {s s1 : ParserState} {e t : Nat}
    {nt : InstructionNode} (h1 : handleStmt fuel s = .ok (e, s1))
    (hc : NextReach s1.heap e t) (hnt : s1.heap[t]? = some nt) (hntx : nt.next = none) :
    Spliced s e s1
      [{ entry := e, tail := t, lo := s.heap.length, hi := s1.heap.length }] s1 := by
  have b1 : Built s.heap s1.heap e := (builds_all fuel).2.2.1 _ _ _ h1
  have htr := hc.in_region b1.1.2.2 ⟨b1.2.1, b1.2.2⟩
  refine ⟨⟨_, rfl, rfl⟩, rfl, rfl, ?_, ?_, ?_, ?_, ?_⟩
  · intro j a ha
    cases j with
    | zero =>
      simp only [List.getElem?_cons_zero, Option.some.injEq] at ha
      subst ha
      exact ⟨le_refl _, b1.2.1, b1.2.2, htr.1, htr.2, le_refl _⟩
    | succ j => simp at ha
  · intro j a b ha hb
    simp at hb
  · intro a ha
    simp only [List.getLast?_singleton, Option.some.injEq] at ha
    subst ha
    exact ⟨nt, hnt, hntx⟩
  · intro j a ha
    cases j with
    | zero =>
      simp only [List.getElem?_cons_zero, Option.some.injEq] at ha
      subst ha
      exact hc
    | succ j => simp at ha
  · intro p _
    rfl

/-- One more statement in front of a spliced list: the walk from its entry stops at
its tail, which gets the entry of the rest as `next`. -/
theorem Spliced.cons {fuel : Nat} {s s1 sr sEnd : ParserState} {e t rest : Nat}
    {nt : InstructionNode} {items : List StmtItem}
    (h1 : handleStmt fuel s = .ok (e, s1))
    (hc : NextReach s1.heap e t) (hnt : s1.heap[t]? = some nt) (hntx : nt.next = none)
    (h2 : buildStmtList fuel s1 = .ok (rest, sr))
    (hsp : Spliced s1 rest sr items sEnd) :
    walkToTail sr.heap.length sr.heap e = .ok t ∧
    Spliced s e (setNext t (some rest) sr)
      ({ entry := e, tail := t, lo := s.heap.length, hi := s1.heap.length } :: items)
      sEnd := by
  obtain ⟨⟨first, hfirst, hre⟩, hs2, hlen, hbd, hpairs, hlast, hch, hoth⟩ := hsp
  have b1 : Built s.heap s1.heap e := (builds_all fuel).2.2.1 _ _ _ h1
  have b2 : Built s1.heap sr.heap rest := (builds_all fuel).2.1 _ _ _ h2
  have htr := hc.in_region b1.1.2.2 ⟨b1.2.1, b1.2.2⟩
  have hag : ∀ i, s.heap.length ≤ i → i < s1.heap.length →
      sr.heap[i]? = s1.heap[i]? := fun i _ hi => b2.1.2.1 i hi
  have hsr1 : sr.heap[t]? = some nt := (hag t htr.1 htr.2).trans hnt
  have hcr : NextReach sr.heap e t := hc.congr_region b1.1.2.2 hag ⟨b1.2.1, b1.2.2⟩
  have hw : walkToTail sr.heap.length sr.heap e = .ok t :=
    walkToTail_of_chain hcr hsr1 hntx
  have hne : items ≠ [] := by
    intro h0
    rw [h0] at hfirst
    simp at hfirst
  -- the tails of the later statements lie after the first statement
  have hlater : ∀ (j : Nat) (a : StmtItem), items[j]? = some a → t ≠ a.tail := by
    intro j a ha
    have := hbd j a ha
    omega
  have hsrE : sr.heap[t]? = sEnd.heap[t]? := by
    refine hoth t ?_
    intro j a ha _
    exact hlater j a ha
  refine ⟨hw, ⟨_, rfl, rfl⟩, ?_, ?_, ?_, ?_, ?_, ?_, ?_⟩
  · rw [hs2]
    rfl
  · rw [length_setNext]
    exact hlen
  · intro j a ha
    cases j with
    | zero =>
      simp only [List.getElem?_cons_zero, Option.some.injEq] at ha
      subst ha
      have := b2.1.1
      refine ⟨le_refl _, b1.2.1, b1.2.2, htr.1, htr.2, ?_⟩
      show s1.heap.length ≤ sEnd.heap.length
      omega
    | succ j =>
      simp only [List.getElem?_cons_succ] at ha
      obtain ⟨c1, c2, c3, c4, c5, c6⟩ := hbd j a ha
      have := b1.1.1
      exact ⟨by omega, c2, c3, c4, c5, c6⟩
  · intro j a b ha hb
    cases j with
    | zero =>
      simp only [List.getElem?_cons_zero, Option.some.injEq] at ha
      subst ha
      simp only [List.getElem?_cons_succ] at hb
      have hbf : b = first := by
        cases items with
        | nil => simp at hb
        | cons x xs =>
          simp only [List.getElem?_cons_zero, Option.some.injEq] at hb
          simp only [List.head?_cons, Option.some.injEq] at hfirst
          rw [← hb, hfirst]
      subst hbf
      refine ⟨nt, hsrE.symm.trans hsr1, hntx, ?_⟩
      rw [get_setNext_eq _ hsr1, hre]
    | succ j =>
      simp only [List.getElem?_cons_succ] at ha hb
      obtain ⟨nt, q1, q2, q3⟩ := hpairs j a b ha hb
      refine ⟨nt, q1, q2, ?_⟩
      rw [get_setNext_ne _ _ (hlater j a ha)]
      exact q3
  · intro a ha
    have ha2 : items.getLast? = some a := by
      cases items with
      | nil => exact absurd rfl hne
      | cons x xs =>
        rw [List.getLast?_cons_cons] at ha
        exact ha
    obtain ⟨nt, q1, q2⟩ := hlast a ha2
    obtain ⟨j, hj⟩ : ∃ j, items[j]? = some a :=
      List.mem_iff_getElem?.1 (List.mem_of_mem_getLast? ha2)
    refine ⟨nt, ?_, q2⟩
    rw [get_setNext_ne _ _ (hlater j a hj)]
    exact q1
  · intro j a ha
    cases j with
    | zero =>
      simp only [List.getElem?_cons_zero, Option.some.injEq] at ha
      subst ha
      exact hcr.modify_tail _ hsr1 hntx
    | succ j =>
      simp only [List.getElem?_cons_succ] at ha
      obtain ⟨c1, c2, c3, c4, c5, c6⟩ := hbd j a ha
      refine (hch j a ha).congr_region b2.1.2.2 ?_ ⟨by omega, by omega⟩
      intro i hlo _
      exact get_setNext_ne _ _ (by omega)
  · intro p hp
    have hp0 : p ≠ t := by
      have := hp 0 _ (List.getElem?_cons_zero) (by
        simp only [List.length_cons]
        have := List.length_pos.2 hne
        omega)
      exact this
    rw [get_setNext_ne _ _ (Ne.symm hp0)]
    refine hoth p ?_
    intro j a ha hj
    exact hp (j + 1) a (by simpa using ha) (by simp only [List.length_cons]; omega)

/-- Every list `buildStmtList` returns is a run of statements spliced in order. -/
theorem buildStmtList_spliced :
    ∀ (fuel : Nat) (s : ParserState) (e : Nat) (s2 : ParserState),
      buildStmtList fuel s = .ok (e, s2) →
      ∃ items sEnd, StmtRun fuel s items sEnd ∧ Spliced s e s2 items sEnd := by
  intro fuel
  induction fuel with
  | zero =>
    intro s e s2 h
    rw [buildStmtList] at h
    cases h
  | succ fuel ih =>
    intro s e s2 h
    obtain ⟨s1, h1, hrest⟩ := buildStmtList_inv h
    obtain ⟨t1, a1⟩ := (subs_all fuel).2.2.1 _ _ _ h1
    obtain ⟨nt1, hnt1, hntx1⟩ := a1.tail
    rcases hrest with ⟨hst, rest, sr, cur, h2, hw, rfl⟩ | ⟨hst, rfl⟩
    · obtain ⟨items, sEnd, hrun, hsp⟩ := ih _ _ _ h2
      obtain ⟨hw2, hsp2⟩ := Spliced.cons h1 a1.chain hnt1 hntx1 h2 hsp
      rw [hw2] at hw
      cases hw
      exact ⟨_, sEnd, StmtRun.more h1 hst a1.chain hnt1 hntx1 hrun, hsp2⟩
    · exact ⟨_, s2, StmtRun.last h1 hst a1.chain hnt1 hntx1,
        Spliced.single_stmt h1 a1.chain hnt1 hntx1⟩

/-- Every run of statements is returned by `buildStmtList`, spliced in order: the
walk to the tail of each statement ends. -/
theorem StmtRun.returns {fuel : Nat} {s sEnd : ParserState} {items : List StmtItem}
    (hrun : StmtRun fuel s items sEnd) :
    ∃ e s2, buildStmtList fuel s = .ok (e, s2) ∧ Spliced s e s2 items sEnd := by
  induction hrun with
  | @last s s1 fuel e t nt h1 hst hc hnt hntx =>
    refine ⟨e, s1, ?_, Spliced.single_stmt h1 hc hnt hntx⟩
    rw [buildStmtList, h1]
    exact if_neg hst
  | @more s s1 s2 fuel e t nt rest h1 hst hc hnt hntx _ ih =>
    obtain ⟨e2, sr, h2, hsp⟩ := ih
    obtain ⟨hw, hsp2⟩ := Spliced.cons h1 hc hnt hntx h2 hsp
    refine ⟨e, _, ?_, hsp2⟩
    rw [buildStmtList, h1]
    simp only
    have hst2 : (peek 1 s1).token_type = TokenType.ID ∨
        (peek 1 s1).token_type = TokenType.WHILE ∨
        (peek 1 s1).token_type = TokenType.IF ∨
        (peek 1 s1).token_type = TokenType.SWITCH ∨
        (peek 1 s1).token_type = TokenType.FOR ∨
        (peek 1 s1).token_type = TokenType.OUTPUT ∨
        (peek 1 s1).token_type = TokenType.INPUT := hst
    rw [if_pos hst2, h2]
    simp only
    rw [hw]

/-- C18: `buildStmtList` returns exactly on the runs of statements, and splices a run
in source order.  Every list it returns is a run `items` of `n ≥ 1` statements, each
parsed by `handleStmt` from the state the one before left, with `peek(1)` one of ID,
WHILE, IF, SWITCH, FOR, OUTPUT, INPUT after every statement but the last and none of
them after the last.  On every such run it returns the entry of the first statement
and a state `s2` that is the state `sEnd` after the last statement with a heap of the
same length in which: the last node of the `next` chain of every statement but the
last has the entry of the following statement as `next` and is otherwise unchanged;
the last node of the chain of the last statement has no `next`; the chain of every
statement still leads from its entry to that last node; every node has the `target`
it had, and differs from the node before the splicing in its `next` at most; and
every node that is not the last node of the chain of a statement other than the last
is unchanged. -/
theorem buildStmtList_splices_in_order (fuel : Nat) (s : ParserState) :
    (∀ e s2, buildStmtList fuel s = .ok (e, s2) →
      ∃ items sEnd, StmtRun fuel s items sEnd) ∧
    ∀ items sEnd, StmtRun fuel s items sEnd →
      ∃ first s2, items.head? = some first ∧
        buildStmtList fuel s = .ok (first.entry, s2) ∧
        s2 = { sEnd with heap := s2.heap } ∧ s2.heap.length = sEnd.heap.length ∧
        (∀ (j : Nat) (a b : StmtItem), items[j]? = some a → items[j + 1]? = some b →
          ∃ nt, sEnd.heap[a.tail]? = some nt ∧ nt.next = none ∧
            s2.heap[a.tail]? = some { nt with next := some b.entry }) ∧
        (∀ a, items.getLast? = some a →
          ∃ nt, s2.heap[a.tail]? = some nt ∧ nt.next = none) ∧
        (∀ (j : Nat) (a : StmtItem), items[j]? = some a →
          NextReach s2.heap a.entry a.tail) ∧
        (∀ (p : Nat) (n : InstructionNode), sEnd.heap[p]? = some n →
          ∃ n2, s2.heap[p]? = some n2 ∧ n2.target = n.target ∧
            { n2 with next := n.next } = n) ∧
        (∀ (p : Nat), (∀ (j : Nat) (a : StmtItem), items[j]? = some a →
          j + 1 < items.length → p ≠ a.tail) → s2.heap[p]? = sEnd.heap[p]?) := by
  refine ⟨fun e s2 h => ?_, fun items sEnd hrun => ?_⟩
  · obtain ⟨items, sEnd, hrun, -⟩ := buildStmtList_spliced fuel s e s2 h
    exact ⟨items, sEnd, hrun⟩
  · obtain ⟨e, s2, h, ⟨first, hfirst, hre⟩, hs2, hlen, -, hpairs, hlast, hch, hoth⟩ :=
      hrun.returns
    subst hre
    refine ⟨first, s2, hfirst, h, hs2, hlen, hpairs, hlast, hch, ?_, hoth⟩
    intro p n hn
    by_cases hp : ∃ (j : Nat) (a : StmtItem), items[j]? = some a ∧
        j + 1 < items.length ∧ p = a.tail
    · obtain ⟨j, a, ha, hj, rfl⟩ := hp
      obtain ⟨b, hb⟩ : ∃ b, items[j + 1]? = some b :=
        ⟨items[j + 1], List.getElem?_eq_getElem hj⟩
      obtain ⟨nt, q1, -, q3⟩ := hpairs j a b ha hb
      rw [q1] at hn
      cases hn
      exact ⟨_, q3, rfl, rfl⟩
    · have := hoth p (fun j a ha hj hpa => hp ⟨j, a, ha, hj, hpa⟩)
      rw [hn] at this
      exact ⟨n, this, rfl, rfl⟩

/-- Witness of C18 on `a = 5 ; output a ;` with `a` and `b` declared: the run has
the two statements with entries (and chain ends) 0 and 1, and `buildStmtList`
returns node 0, whose `next` it set to node 1. -/
theorem buildStmtList_splices_in_order_witness :
    StmtRun 3 (stateAB twoStmtTokens)
      [{ entry := 0, tail := 0, lo := 0, hi := 1 },
       { entry := 1, tail := 1, lo := 1, hi := 2 }] twoStmtEnd ∧
    ∃ first s2,
      [({ entry := 0, tail := 0, lo := 0, hi := 1 } : StmtItem),
       { entry := 1, tail := 1, lo := 1, hi := 2 }].head? = some first ∧
      buildStmtList 3 (stateAB twoStmtTokens) = .ok (first.entry, s2) ∧
      s2 = { twoStmtEnd with heap := s2.heap } ∧
      s2.heap.length = twoStmtEnd.heap.length ∧
      (∀ (j : Nat) (a b : StmtItem),
        [({ entry := 0, tail := 0, lo := 0, hi := 1 } : StmtItem),
         { entry := 1, tail := 1, lo := 1, hi := 2 }][j]? = some a →
        [({ entry := 0, tail := 0, lo := 0, hi := 1 } : StmtItem),
         { entry := 1, tail := 1, lo := 1, hi := 2 }][j + 1]? = some b →
        ∃ nt, twoStmtEnd.heap[a.tail]? = some nt ∧ nt.next = none ∧
          s2.heap[a.tail]? = some { nt with next := some b.entry }) ∧
      (∀ a, [({ entry := 0, tail := 0, lo := 0, hi := 1 } : StmtItem),
          { entry := 1, tail := 1, lo := 1, hi := 2 }].getLast? = some a →
        ∃ nt, s2.heap[a.tail]? = some nt ∧ nt.next = none) ∧
      (∀ (j : Nat) (a : StmtItem),
        [({ entry := 0, tail := 0, lo := 0, hi := 1 } : StmtItem),
         { entry := 1, tail := 1, lo := 1, hi := 2 }][j]? = some a →
        NextReach s2.heap a.entry a.tail) ∧
      (∀ (p : Nat) (n : InstructionNode), twoStmtEnd.heap[p]? = some n →
        ∃ n2, s2.heap[p]? = some n2 ∧ n2.target = n.target ∧
          { n2 with next := n.next } = n) ∧
      (∀ (p : Nat), (∀ (j : Nat) (a : StmtItem),
        [({ entry := 0, tail := 0, lo := 0, hi := 1 } : StmtItem),
         { entry := 1, tail := 1, lo := 1, hi := 2 }][j]? = some a →
        j + 1 < [({ entry := 0, tail := 0, lo := 0, hi := 1 } : StmtItem),
         { entry := 1, tail := 1, lo := 1, hi := 2 }].length → p ≠ a.tail) →
        s2.heap[p]? = twoStmtEnd.heap[p]?) := by
  have h1 : handleStmt 2 (stateAB twoStmtTokens) = .ok (0, twoStmtMid) :=
    eq_ok_of_returned (stateAB []) (by decide!)
  have h2 : handleStmt 1 twoStmtMid = .ok (1, twoStmtEnd) :=
    eq_ok_of_returned (stateAB []) (by decide!)
  have hs1 : startsStmt (peek 1 twoStmtMid) := by
    unfold startsStmt
    decide!
  have hs2 : ¬ startsStmt (peek 1 twoStmtEnd) := by
    unfold startsStmt
    decide!
  have ht1 : twoStmtMid.heap[0]? =
      some (assignNode 0 2 ArithmeticOperatorType.OPERATOR_NONE none) := by decide!
  have ht2 : twoStmtEnd.heap[1]? =
      some { type := InstructionType.OUT, var_loc := some 0, next := none } := by decide!
  have hrun : StmtRun 3 (stateAB twoStmtTokens)
      [{ entry := 0, tail := 0, lo := 0, hi := 1 },
       { entry := 1, tail := 1, lo := 1, hi := 2 }] twoStmtEnd :=
    StmtRun.more h1 hs1 (NextReach.refl 0) ht1 rfl
      (StmtRun.last h2 hs2 (NextReach.refl 1) ht2 rfl)
  exact ⟨hrun, (buildStmtList_splices_in_order 3 (stateAB twoStmtTokens)).2 _ _ hrun⟩

end IRParser
